import Mathlib

/-!
Verification of the glommio timer subsystem (hierarchical timing wheel,
staged wheel, reactor adapter), the SPSC ring buffer and the task arena.

Times (`std::time::Instant`) are modelled as absolute milliseconds
(`Nat`); both the wheel and `advance_to` only ever inspect instants at
millisecond granularity (`as_millis`), so this is exact.  Wakers carry no
information relevant to the verified properties and are omitted from
`TimerEntry`.  `AHashMap` and `BTreeMap` are modelled as association
lists with the corresponding key-based operations; machine integers are
`Nat` with an explicit `% 2 ^ 64` (resp. `% 2 ^ 32`) where the source
relies on wrapping.
-/

namespace Glommio

/-- One timer entry (`TimerEntry` in `timing_wheel.rs`): its id and the
absolute expiry instant in milliseconds. -/
structure TimerEntry where
  id : Nat
  expires : Nat
deriving DecidableEq, Repr

instance : Inhabited TimerEntry := ⟨⟨0, 0⟩⟩

/-- Location of a timer in the wheel (`TimerLocation`), used for O(1)
removal.  Level 255 marks the overflow map. -/
structure TimerLocation where
  level : Nat
  slot : Nat
  indexInSlot : Nat
deriving DecidableEq, Repr

instance : Inhabited TimerLocation := ⟨⟨0, 0, 0⟩⟩

/-- Hash-map lookup on the association-list model. -/
def assocGet (k : Nat) (l : List (Nat × β)) : Option β :=
  (l.find? (fun p => p.fst == k)).map (fun p => p.snd)

/-- Hash-map key removal on the association-list model. -/
def assocRemove (k : Nat) (l : List (Nat × β)) : List (Nat × β) :=
  l.filter (fun p => p.fst != k)

/-- Hash-map insert (replacing any previous binding of the key). -/
def assocSet (k : Nat) (v : β) (l : List (Nat × β)) : List (Nat × β) :=
  (k, v) :: assocRemove k l

/-- Hash-map `get_mut`-style in-place update of the value at a key. -/
def assocAdjust (k : Nat) (f : β → β) (l : List (Nat × β)) : List (Nat × β) :=
  l.map (fun p => if p.fst == k then (p.fst, f p.snd) else p)

/-- `Vec::swap_remove`: remove index `i`, filling the hole with the last
element.  (All call sites in the source guard `i < len`.) -/
def swapRemove (l : List α) (i : Nat) : List α :=
  match l.getLast? with
  | none => l
  | some last => (l.set i last).dropLast

/-! ### Timing wheel constants (`timing_wheel.rs`) -/

def LEVEL_0_SLOTS : Nat := 256
def LEVEL_1_SLOTS : Nat := 64
def LEVEL_1_RESOLUTION_MS : Nat := 256
def LEVEL_2_SLOTS : Nat := 64
def LEVEL_2_RESOLUTION_MS : Nat := 16384
def LEVEL_3_SLOTS : Nat := 64
def LEVEL_3_RESOLUTION_MS : Nat := 1048576
def OVERFLOW_THRESHOLD_MS : Nat := 67108864

/-- The 4-level hierarchical timing wheel (`TimingWheel`). -/
structure TimingWheel where
  currentTick : Nat
  startTime : Nat
  nextId : Nat
  index : List (Nat × TimerLocation)
  expired : List TimerEntry
  slots1ms : List (List TimerEntry)
  slots256ms : List (List TimerEntry)
  slots16s : List (List TimerEntry)
  slots17min : List (List TimerEntry)
  overflow : List (Nat × List TimerEntry)
deriving DecidableEq, Repr

/-- `TimingWheel::new_at`. -/
def wheelNewAt (start : Nat) : TimingWheel where
  currentTick := 0
  startTime := start
  nextId := 0
  index := []
  expired := []
  slots1ms := List.replicate LEVEL_0_SLOTS []
  slots256ms := List.replicate LEVEL_1_SLOTS []
  slots16s := List.replicate LEVEL_2_SLOTS []
  slots17min := List.replicate LEVEL_3_SLOTS []
  overflow := []

/-- The slot array of a given level (the source matches on the level at
each use site; factored here into one accessor). -/
def levelSlots (w : TimingWheel) : Nat → List (List TimerEntry)
  | 0 => w.slots1ms
  | 1 => w.slots256ms
  | 2 => w.slots16s
  | 3 => w.slots17min
  | _ => []

/-- Replace the slot array of a given level. -/
def setLevelSlots (w : TimingWheel) (level : Nat) (s : List (List TimerEntry)) :
    TimingWheel :=
  match level with
  | 0 => { w with slots1ms := s }
  | 1 => { w with slots256ms := s }
  | 2 => { w with slots16s := s }
  | 3 => { w with slots17min := s }
  | _ => w

/-- `TimingWheel::insert_at_level`: push the entry at the end of the
slot vector and record its location in the index. -/
def insertAtLevel (w : TimingWheel) (e : TimerEntry) (level slot : Nat) :
    TimingWheel :=
  if level ≤ 3 then
    let slots := levelSlots w level
    let old := slots.getD slot []
    let w' := setLevelSlots w level (slots.set slot (old ++ [e]))
    { w' with index := assocSet e.id ⟨level, slot, old.length⟩ w'.index }
  else w

/-- `TimingWheel::insert_entry`: route the entry to the level chosen by
its distance from `current_tick`, or to `expired` / the overflow map.
(`checked_duration_since` yields `None` for instants before the base,
which the truncated subtraction `e.expires - startTime ≤ currentTick`
also sends to `expired`.) -/
def insertEntry (w : TimingWheel) (e : TimerEntry) : TimingWheel :=
  let deadlineMs := e.expires - w.startTime
  if deadlineMs ≤ w.currentTick then
    { w with expired := w.expired ++ [e] }
  else
    let ticksUntil := deadlineMs - w.currentTick
    if ticksUntil < LEVEL_1_RESOLUTION_MS then
      insertAtLevel w e 0 (deadlineMs % LEVEL_0_SLOTS)
    else if ticksUntil < LEVEL_2_RESOLUTION_MS then
      insertAtLevel w e 1 ((deadlineMs / LEVEL_1_RESOLUTION_MS) % LEVEL_1_SLOTS)
    else if ticksUntil < LEVEL_3_RESOLUTION_MS then
      insertAtLevel w e 2 ((deadlineMs / LEVEL_2_RESOLUTION_MS) % LEVEL_2_SLOTS)
    else if ticksUntil < OVERFLOW_THRESHOLD_MS then
      insertAtLevel w e 3 ((deadlineMs / LEVEL_3_RESOLUTION_MS) % LEVEL_3_SLOTS)
    else
      let entries := (assocGet e.expires w.overflow).getD []
      { w with
        overflow := assocSet e.expires (entries ++ [e]) w.overflow
        index := assocSet e.id ⟨255, 0, entries.length⟩ w.index }

/-- `TimingWheel::insert`: allocate a fresh id (wrapping u64) and insert. -/
def wheelInsert (w : TimingWheel) (expires : Nat) : Nat × TimingWheel :=
  let id := w.nextId
  let w' := { w with nextId := (w.nextId + 1) % 2 ^ 64 }
  (id, insertEntry w' ⟨id, expires⟩)

/-- `TimingWheel::insert_with_id` (used during promotion): insert with a
caller-chosen id, bumping `next_id` past it if needed. -/
def insertWithId (w : TimingWheel) (id expires : Nat) : TimingWheel :=
  let w' := insertEntry w ⟨id, expires⟩
  if w'.nextId ≤ id then { w' with nextId := id + 1 } else w'

/-- `TimingWheel::remove_at_location`: swap-remove from the slot vector,
repoint the swapped-in entry's index record, evict the removed id. -/
def removeAtLocation (w : TimingWheel) (loc : TimerLocation) : TimingWheel :=
  if loc.level ≤ 3 then
    let slots := levelSlots w loc.level
    let sl := slots.getD loc.slot []
    if loc.indexInSlot < sl.length then
      let removed := sl.getD loc.indexInSlot default
      let newSl := swapRemove sl loc.indexInSlot
      let w' := setLevelSlots w loc.level (slots.set loc.slot newSl)
      let w'' :=
        if loc.indexInSlot < newSl.length then
          let swappedId := (newSl.getD loc.indexInSlot default).id
          { w' with
            index := assocAdjust swappedId
              (fun l0 => ⟨l0.level, l0.slot, loc.indexInSlot⟩) w'.index }
        else w'
      { w'' with index := assocRemove removed.id w''.index }
    else w
  else w

/-- `TimingWheel::remove_from_overflow`: linear scan of the overflow
buckets for the id, swap-removing the first hit. -/
def overflowRemoveFirst (id : Nat) :
    List (Nat × List TimerEntry) → List (Nat × List TimerEntry)
  | [] => []
  | (k, es) :: rest =>
    match es.findIdx? (fun e => e.id == id) with
    | some pos => (k, swapRemove es pos) :: rest
    | none => (k, es) :: overflowRemoveFirst id rest

/-- `TimingWheel::remove`: index lookup, then location- or
overflow-based removal; falls back to searching the expired queue. -/
def wheelRemove (w : TimingWheel) (id : Nat) : Bool × TimingWheel :=
  match assocGet id w.index with
  | some loc =>
    let w' := { w with index := assocRemove id w.index }
    (true,
     if loc.level == 255 then { w' with overflow := overflowRemoveFirst id w'.overflow }
     else removeAtLocation w' loc)
  | none =>
    match w.expired.findIdx? (fun e => e.id == id) with
    | some pos => (true, { w with expired := swapRemove w.expired pos })
    | none => (false, w)

/-- `TimingWheel::expire_slot` (level 0 only): drain the slot into the
expired queue, evicting each id from the index. -/
def expireSlot (w : TimingWheel) (slot : Nat) : TimingWheel :=
  let es := w.slots1ms.getD slot []
  { w with
    slots1ms := w.slots1ms.set slot []
    index := es.foldl (fun ix e => assocRemove e.id ix) w.index
    expired := w.expired ++ es }

/-- Re-insert a batch of entries, evicting each id from the index first
(the shared body of `cascade_slot` and `check_overflow`). -/
def cascadeEntries (w : TimingWheel) (es : List TimerEntry) : TimingWheel :=
  es.foldl (fun w e => insertEntry { w with index := assocRemove e.id w.index } e) w

/-- `TimingWheel::cascade_slot`: take all timers out of a higher-level
slot and re-insert each one at its new (lower) position. -/
def cascadeSlot (w : TimingWheel) (level slot : Nat) : TimingWheel :=
  if 1 ≤ level ∧ level ≤ 3 then
    let slots := levelSlots w level
    let es := slots.getD slot []
    cascadeEntries (setLevelSlots w level (slots.set slot [])) es
  else w

/-- `TimingWheel::current_time`. -/
def wheelCurrentTime (w : TimingWheel) : Nat := w.startTime + w.currentTick

/-- Process one collected overflow key inside `check_overflow`. -/
def overflowMove (w : TimingWheel) (k : Nat) : TimingWheel :=
  match assocGet k w.overflow with
  | some entries => cascadeEntries { w with overflow := assocRemove k w.overflow } entries
  | none => w

/-- `TimingWheel::check_overflow`: collect the keys at or below
`now + OVERFLOW_THRESHOLD_MS`, then move each bucket back through
`insert_entry`. -/
def checkOverflow (w : TimingWheel) : TimingWheel :=
  let threshold := wheelCurrentTime w + OVERFLOW_THRESHOLD_MS
  let keys := (w.overflow.filter (fun p => decide (p.fst ≤ threshold))).map (fun p => p.fst)
  keys.foldl overflowMove w

/-- `TimingWheel::tick`: advance one millisecond, expire the level-0
slot, cascade levels 1-3 on their boundaries, sweep the overflow. -/
def tick (w : TimingWheel) : TimingWheel :=
  let w1 := { w with currentTick := w.currentTick + 1 }
  let c := w1.currentTick
  let w2 := expireSlot w1 (c % LEVEL_0_SLOTS)
  let w3 := if c % LEVEL_1_RESOLUTION_MS == 0 then
      cascadeSlot w2 1 ((c / LEVEL_1_RESOLUTION_MS) % LEVEL_1_SLOTS) else w2
  let w4 := if c % LEVEL_2_RESOLUTION_MS == 0 then
      cascadeSlot w3 2 ((c / LEVEL_2_RESOLUTION_MS) % LEVEL_2_SLOTS) else w3
  let w5 := if c % LEVEL_3_RESOLUTION_MS == 0 then
      cascadeSlot w4 3 ((c / LEVEL_3_RESOLUTION_MS) % LEVEL_3_SLOTS) else w4
  checkOverflow w5

/-- The intermediate states of `tick`, named for the proofs: after the
increment, after the level-0 expiry, and after each conditional cascade
(the final state before the overflow sweep). -/
def tickW1 (w : TimingWheel) : TimingWheel := { w with currentTick := w.currentTick + 1 }

def tickW2 (w : TimingWheel) : TimingWheel :=
  expireSlot (tickW1 w) ((w.currentTick + 1) % LEVEL_0_SLOTS)

def tickW3 (w : TimingWheel) : TimingWheel :=
  if (w.currentTick + 1) % LEVEL_1_RESOLUTION_MS == 0 then
    cascadeSlot (tickW2 w) 1 (((w.currentTick + 1) / LEVEL_1_RESOLUTION_MS) % LEVEL_1_SLOTS)
  else tickW2 w

def tickW4 (w : TimingWheel) : TimingWheel :=
  if (w.currentTick + 1) % LEVEL_2_RESOLUTION_MS == 0 then
    cascadeSlot (tickW3 w) 2 (((w.currentTick + 1) / LEVEL_2_RESOLUTION_MS) % LEVEL_2_SLOTS)
  else tickW3 w

def tickW5 (w : TimingWheel) : TimingWheel :=
  if (w.currentTick + 1) % LEVEL_3_RESOLUTION_MS == 0 then
    cascadeSlot (tickW4 w) 3 (((w.currentTick + 1) / LEVEL_3_RESOLUTION_MS) % LEVEL_3_SLOTS)
  else tickW4 w

/-- Iterated `tick`; `advance_to`'s `while current_tick < target` loop,
which runs exactly `target - current_tick` times since each `tick`
increments `current_tick` by one. -/
def advanceLoop (w : TimingWheel) : Nat → TimingWheel
  | 0 => w
  | n + 1 => advanceLoop (tick w) n

/-- `TimingWheel::advance_to`. -/
def advanceTo (w : TimingWheel) (now : Nat) : TimingWheel :=
  if now ≤ w.startTime then w
  else
    let target := now - w.startTime
    checkOverflow (advanceLoop w (target - w.currentTick))

/-- `TimingWheel::drain_expired` (ids only; wakers are not modelled). -/
def drainExpired (w : TimingWheel) : List Nat × TimingWheel :=
  (w.expired.map (fun e => e.id), { w with expired := [] })

/-- `TimingWheel::len`: index size plus expired-but-undrained count. -/
def wheelLen (w : TimingWheel) : Nat := w.index.length + w.expired.length

/-! ### Staged wheel (`staged_wheel.rs`) -/

def INLINE_THRESHOLD : Nat := 256

/-- `staged_wheel::Storage`. -/
inductive Storage where
  | inlineStore (timers : List TimerEntry) (expired : List TimerEntry)
  | wheelStore (w : TimingWheel)
deriving DecidableEq, Repr

/-- `StagedWheel`. -/
structure StagedWheel where
  storage : Storage
  nextId : Nat
  startTime : Nat
deriving DecidableEq, Repr

/-- `StagedWheel::new_at`. -/
def stagedNewAt (start : Nat) : StagedWheel := ⟨.inlineStore [] [], 0, start⟩

/-- `StagedWheel::promote_to_wheel`: replay every live and expired
inline timer into a fresh wheel, preserving ids. -/
def promoteToWheel (s : StagedWheel) : StagedWheel :=
  match s.storage with
  | .inlineStore timers expired =>
    let w0 := wheelNewAt s.startTime
    let w1 := timers.foldl (fun w t => insertWithId w t.id t.expires) w0
    let w2 := expired.foldl (fun w t => insertWithId w t.id t.expires) w1
    { s with storage := .wheelStore w2 }
  | .wheelStore _ => s

/-- `StagedWheel::insert`. -/
def stagedInsert (s : StagedWheel) (expires : Nat) : Nat × StagedWheel :=
  let id := s.nextId
  let s' := { s with nextId := (s.nextId + 1) % 2 ^ 64 }
  match s'.storage with
  | .inlineStore timers expired =>
    if INLINE_THRESHOLD ≤ timers.length then
      let s'' := promoteToWheel s'
      match s''.storage with
      | .wheelStore w => (id, { s'' with storage := .wheelStore (insertWithId w id expires) })
      | .inlineStore _ _ => (id, s'')
    else
      (id, { s' with storage := .inlineStore (timers ++ [⟨id, expires⟩]) expired })
  | .wheelStore w => (id, { s' with storage := .wheelStore (insertWithId w id expires) })

/-- `StagedWheel::remove`. -/
def stagedRemove (s : StagedWheel) (id : Nat) : Bool × StagedWheel :=
  match s.storage with
  | .inlineStore timers expired =>
    match timers.findIdx? (fun t => t.id == id) with
    | some pos => (true, { s with storage := .inlineStore (swapRemove timers pos) expired })
    | none => (false, s)
  | .wheelStore w =>
    let r := wheelRemove w id
    (r.fst, { s with storage := .wheelStore r.snd })

/-- The inline `advance_to` loop: `while i < timers.len()`, swap-remove
and stash entries whose deadline has passed, else step `i`.  Each
iteration decreases `timers.len() - i`, so fuel `timers.length` is
enough. -/
def inlineAdvanceLoop (now : Nat) :
    Nat → Nat → List TimerEntry → List TimerEntry →
    List TimerEntry × List TimerEntry
  | 0, _, timers, expired => (timers, expired)
  | fuel + 1, i, timers, expired =>
    if i < timers.length then
      let t := timers.getD i default
      if t.expires ≤ now then
        inlineAdvanceLoop now fuel i (swapRemove timers i) (expired ++ [t])
      else
        inlineAdvanceLoop now fuel (i + 1) timers expired
    else (timers, expired)

/-- `StagedWheel::advance_to`. -/
def stagedAdvanceTo (s : StagedWheel) (now : Nat) : StagedWheel :=
  match s.storage with
  | .inlineStore timers expired =>
    let r := inlineAdvanceLoop now timers.length 0 timers expired
    { s with storage := .inlineStore r.fst r.snd }
  | .wheelStore w => { s with storage := .wheelStore (advanceTo w now) }

/-- `StagedWheel::drain_expired` (ids only). -/
def stagedDrainExpired (s : StagedWheel) : List Nat × StagedWheel :=
  match s.storage with
  | .inlineStore timers expired =>
    (expired.map (fun e => e.id), { s with storage := .inlineStore timers [] })
  | .wheelStore w =>
    let r := drainExpired w
    (r.fst, { s with storage := .wheelStore r.snd })

/-- `StagedWheel::len`. -/
def stagedLen (s : StagedWheel) : Nat :=
  match s.storage with
  | .inlineStore timers _ => timers.length
  | .wheelStore w => wheelLen w

/-- `StagedWheel::storage_mode`. -/
def storageMode (s : StagedWheel) : String :=
  match s.storage with
  | .inlineStore _ _ => "inline"
  | .wheelStore _ => "wheel"

/-! ### Timer id and reactor adapter (`timer_id.rs`, `reactor_adapter.rs`) -/

/-- `TimerId`: a 32-bit index plus a 32-bit generation. -/
structure TimerId where
  index : Nat
  generation : Nat
deriving DecidableEq, Repr

/-- `TimerId::new`. -/
def TimerId.new (index generation : Nat) : TimerId := ⟨index, generation⟩

/-- `ReactorTimers`: the staged wheel plus the id → expiry map. -/
structure ReactorTimers where
  wheel : StagedWheel
  idToExpiry : List (Nat × Nat)

/-- `ReactorTimers::new` (with an explicit base instant). -/
def rtNewAt (start : Nat) : ReactorTimers := ⟨stagedNewAt start, []⟩

/-- `ReactorTimers::insert`: insert into the wheel, record the expiry,
and wrap the internal u64 id as `TimerId::new(internal as u32, 0)`. -/
def rtInsert (rt : ReactorTimers) (expires : Nat) : TimerId × ReactorTimers :=
  let r := stagedInsert rt.wheel expires
  (TimerId.new (r.fst % 2 ^ 32) 0,
   { wheel := r.snd, idToExpiry := assocSet r.fst expires rt.idToExpiry })

/-- `ReactorTimers::remove`: widen `id.index` back to u64 and remove. -/
def rtRemove (rt : ReactorTimers) (id : TimerId) : Bool × ReactorTimers :=
  let internal := id.index
  let rt' := { rt with idToExpiry := assocRemove internal rt.idToExpiry }
  let r := stagedRemove rt'.wheel internal
  (r.fst, { rt' with wheel := r.snd })

/-- `ReactorTimers::exists`. -/
def rtExists (rt : ReactorTimers) (id : TimerId) : Bool :=
  (assocGet id.index rt.idToExpiry).isSome

/-! ### SPSC queue (`channels/spsc_queue.rs`)

Atomics reduce to plain state under the single-threaded interleavings
considered here; a `Slot` (an `UnsafeCell<MaybeUninit<T>>` plus its
`has_value` flag) is an `Option`, readable exactly when the flag is set.
`usize` indices wrap at `2 ^ 64`. -/

def USIZE_MOD : Nat := 2 ^ 64

/-- The disconnect sentinel `usize::MAX`. -/
def USIZE_MAX : Nat := 2 ^ 64 - 1

/-- `Buffer<T>` together with both cache lines (producer state `tail`,
`limit`, `consumer_id`; consumer state `head`, `producer_id`). -/
structure SpscBuffer (α : Type) where
  slots : List (Option α)
  capacity : Nat
  mask : Nat
  lookahead : Nat
  tail : Nat
  limit : Nat
  consumerId : Nat
  head : Nat
  producerId : Nat

/-- `Buffer::consumer_disconnected`. -/
def consumerDisconnected (b : SpscBuffer α) : Bool := b.consumerId == USIZE_MAX

/-- `Buffer::producer_disconnected`. -/
def producerDisconnected (b : SpscBuffer α) : Bool := b.producerId == USIZE_MAX

/-- `i & mask` for this ring: `mask` is always `capacity - 1` with
`capacity` a power of two, so the bitwise and is exactly the remainder
modulo `mask + 1 = capacity` (for every `i`). -/
def maskIdx (b : SpscBuffer α) (i : Nat) : Nat := i % (b.mask + 1)

/-- `Buffer::try_pop`: read the slot at `head & mask`; on a set flag,
take the value, clear the flag and advance `head`. -/
def tryPop (b : SpscBuffer α) : Option α × SpscBuffer α :=
  let idx := maskIdx b b.head
  match b.slots.getD idx none with
  | none => (none, b)
  | some v =>
    (some v, { b with slots := b.slots.set idx none, head := (b.head + 1) % USIZE_MOD })

/-- `Buffer::try_push`: fail fast on a disconnected consumer; when
`tail == limit`, probe the look-ahead slot (else the tail slot) to move
`limit`; then write the value, set the flag and advance `tail`.
Returns `(some v, _)` exactly on the source's `return Some(v)` paths. -/
def tryPush (b : SpscBuffer α) (v : α) : Option α × SpscBuffer α :=
  if consumerDisconnected b then (some v, b)
  else
    let tail := b.tail
    let limit := b.limit
    let step : Option (SpscBuffer α) :=
      if tail == limit then
        let idx := (tail + b.lookahead) % USIZE_MOD
        if (b.slots.getD (maskIdx b idx) none).isSome = false then
          some { b with limit := idx }
        else if (b.slots.getD (maskIdx b tail) none).isSome then
          none
        else
          some { b with limit := (tail + 1) % USIZE_MOD }
      else some b
    match step with
    | none => (some v, b)
    | some b' =>
      (none,
       { b' with
         slots := b'.slots.set (maskIdx b' tail) (some v)
         tail := (tail + 1) % USIZE_MOD })

/-- Repeated doubling: `fuel` bounds the iteration count (doubling `1`
at most `n` times always reaches `n`). -/
def np2Aux (n : Nat) : Nat → Nat → Nat
  | 0, power => power
  | fuel + 1, power => if power < n then np2Aux n fuel (power * 2) else power

/-- `usize::next_power_of_two`: the least power of two `≥ self` (1 for
0); see `c5_make_capacity` for the proof of this characterisation. -/
def nextPowerOfTwo (n : Nat) : Nat := np2Aux n n 1

def MAX_LOOKAHEAD : Nat := 4096

/-- `inner_make`: round the capacity up to a power of two, pick the
look-ahead stride `(capacity / 4).clamp(1, MAX_LOOKAHEAD)`, and start
both cursors at `initial_value` with both peers unconnected. -/
def innerMake (α : Type) (capacity initialValue : Nat) : SpscBuffer α :=
  let cap := nextPowerOfTwo capacity
  { slots := List.replicate cap none
    capacity := cap
    mask := cap - 1
    lookahead := min (max (cap / 4) 1) MAX_LOOKAHEAD
    tail := initialValue
    limit := initialValue
    consumerId := 0
    head := initialValue
    producerId := 0 }

/-- `make`: `inner_make(capacity, 0)`. -/
def spscMake (α : Type) (capacity : Nat) : SpscBuffer α := innerMake α capacity 0

/-- `Buffer::disconnect_consumer` (state part of the swap). -/
def disconnectConsumer (b : SpscBuffer α) : SpscBuffer α :=
  { b with consumerId := USIZE_MAX }

/-! ### Task arena (`task/arena.rs`) -/

def SLOT_SIZE : Nat := 1024
def SLOT_CAPACITY : Nat := 100000
def FREE_LIST_END : Nat := 4294967295

/-- `TaskArena`: base address of the reservation, its byte capacity, the
free-list head, the slot memory (address → u32 word written there) and
the statistics counters relevant to deallocation. -/
structure TaskArena where
  memStart : Nat
  capacity : Nat
  freeHead : Nat
  mem : List (Nat × Nat)
  arenaDeallocs : Nat
  activeSlots : Nat

/-- The free-list writes performed by `initialize_free_list`:
slot `i` holds `i + 1`, the last slot holds `FREE_LIST_END`. -/
def initFreeListMem (base : Nat) : List (Nat × Nat) :=
  ((List.range (SLOT_CAPACITY - 1)).map (fun i => (base + i * SLOT_SIZE, i + 1)))
    ++ [(base + (SLOT_CAPACITY - 1) * SLOT_SIZE, FREE_LIST_END)]

/-- `TaskArena::new` at a given (runtime-chosen) base address. -/
def arenaNew (base : Nat) : TaskArena where
  memStart := base
  capacity := SLOT_CAPACITY * SLOT_SIZE
  freeHead := 0
  mem := initFreeListMem base
  arenaDeallocs := 0
  activeSlots := 0

/-- `TaskArena::try_deallocate` (release semantics: the `debug_assert`
statements compile to nothing): reject pointers outside
`[memStart, memStart + capacity)`; otherwise write the old head into the
word at `ptr`, point the head at the containing slot, and bump the
counters. -/
def tryDeallocate (a : TaskArena) (ptr : Nat) : Bool × TaskArena :=
  let start := a.memStart
  let stop := start + a.capacity
  if ptr < start ∨ stop ≤ ptr then (false, a)
  else
    let offset := ptr - start
    let slotIndex := offset / SLOT_SIZE
    (true,
     { a with
       mem := assocSet ptr a.freeHead a.mem
       freeHead := slotIndex % 2 ^ 32
       arenaDeallocs := a.arenaDeallocs + 1
       activeSlots := (a.activeSlots + USIZE_MOD - 1) % USIZE_MOD })

/-! ### Operation sequences for the sequence-quantified claims -/

/-- A timing-wheel operation: insert with a deadline, or remove by id. -/
inductive WOp where
  | ins (expires : Nat)
  | rem (id : Nat)
deriving DecidableEq, Repr

/-- Apply one wheel operation. -/
def stepW (w : TimingWheel) : WOp → TimingWheel
  | .ins expires => (wheelInsert w expires).snd
  | .rem id => (wheelRemove w id).snd

/-- Run a list of wheel operations left to right. -/
def runWOps (w : TimingWheel) : List WOp → TimingWheel
  | [] => w
  | op :: rest => runWOps (stepW w op) rest

/-- Number of inserts in an operation list (the k-th insert is handed
id `k` by the fresh wheel's sequential allocator). -/
def insCount : List WOp → Nat
  | [] => 0
  | .ins _ :: rest => insCount rest + 1
  | .rem _ :: rest => insCount rest

/-- The deadlines of the inserts, in order. -/
def insExpires : List WOp → List Nat
  | [] => []
  | .ins e :: rest => e :: insExpires rest
  | .rem _ :: rest => insExpires rest

/-- Whether a `rem k` occurs after the k-th insert (`seen` counts the
inserts already consumed). -/
def remAfter (k : Nat) : List WOp → Nat → Bool
  | [], _ => false
  | .ins _ :: rest, seen => remAfter k rest (seen + 1)
  | .rem id :: rest, seen => (decide (k < seen) && (id == k)) || remAfter k rest seen

/-- The id-tagged entries surviving a wheel-op sequence (`n` is the next
fresh id, `cur` the entries already present). -/
def specRun : List WOp → Nat → List TimerEntry → List TimerEntry
  | [], _, cur => cur
  | .ins e :: rest, n, cur => specRun rest (n + 1) (cur ++ [⟨n, e⟩])
  | .rem id :: rest, n, cur => specRun rest n (cur.filter (fun x => decide (x.id ≠ id)))

/-- The entries created by a run of inline inserts with deadlines `es`,
ids allocated sequentially from `nid`. -/
def insEntries (nid : Nat) : List Nat → List TimerEntry
  | [] => []
  | e :: rest => ⟨nid, e⟩ :: insEntries (nid + 1) rest

/-- A staged-wheel operation. -/
inductive SOp where
  | ins (expires : Nat)
  | rem (id : Nat)
  | adv (now : Nat)
  | drain
deriving DecidableEq, Repr

/-- Apply one staged-wheel operation. -/
def stepS (s : StagedWheel) : SOp → StagedWheel
  | .ins e => (stagedInsert s e).snd
  | .rem id => (stagedRemove s id).snd
  | .adv now => stagedAdvanceTo s now
  | .drain => (stagedDrainExpired s).snd

/-- Run a list of staged-wheel operations left to right. -/
def runSOps (s : StagedWheel) : List SOp → StagedWheel
  | [] => s
  | op :: rest => runSOps (stepS s op) rest

/-- An SPSC queue operation (pushes/pops plus a consumer disconnect). -/
inductive QOp (α : Type) where
  | push (v : α)
  | pop
  | discC

/-- Run SPSC operations, collecting the successfully pushed and the
successfully popped values in order. -/
def runQOps (b : SpscBuffer α) (pushed popped : List α) :
    List (QOp α) → SpscBuffer α × List α × List α
  | [] => (b, pushed, popped)
  | .push v :: rest =>
    let r := tryPush b v
    match r.fst with
    | none => runQOps r.snd (pushed ++ [v]) popped rest
    | some _ => runQOps r.snd pushed popped rest
  | .pop :: rest =>
    let r := tryPop b
    match r.fst with
    | some u => runQOps r.snd pushed (popped ++ [u]) rest
    | none => runQOps r.snd pushed popped rest
  | .discC :: rest => runQOps (disconnectConsumer b) pushed popped rest

/-! ## Library lemmas about the container models -/

theorem assocGet_set_self (k : Nat) (v : β) (l : List (Nat × β)) :
    assocGet k (assocSet k v l) = some v := by
  simp [assocGet, assocSet, List.find?]

theorem assocRemove_cons (k : Nat) (p : Nat × β) (l : List (Nat × β)) :
    assocRemove k (p :: l) =
      if p.fst = k then assocRemove k l else p :: assocRemove k l := by
  by_cases hk : p.fst = k
  · simp [assocRemove, List.filter_cons, hk]
  · simp [assocRemove, List.filter_cons, hk]

theorem assocGet_cons (k : Nat) (p : Nat × β) (l : List (Nat × β)) :
    assocGet k (p :: l) = if p.fst = k then some p.snd else assocGet k l := by
  by_cases hk : p.fst = k
  · simp [assocGet, List.find?_cons_of_pos, hk]
  · simp [assocGet, List.find?_cons_of_neg, hk]

theorem assocGet_remove_self (k : Nat) (l : List (Nat × β)) :
    assocGet k (assocRemove k l) = none := by
  induction l with
  | nil => rfl
  | cons p rest ih =>
    rw [assocRemove_cons]
    by_cases hk : p.fst = k
    · simpa [hk] using ih
    · simpa [hk, assocGet_cons] using ih

theorem assocGet_remove_ne (k k' : Nat) (h : k' ≠ k) (l : List (Nat × β)) :
    assocGet k' (assocRemove k l) = assocGet k' l := by
  induction l with
  | nil => rfl
  | cons p rest ih =>
    rw [assocRemove_cons, assocGet_cons]
    by_cases hk : p.fst = k
    · rw [if_pos hk]
      have hk' : ¬p.fst = k' := by rw [hk]; exact Ne.symm h
      rw [if_neg hk']
      exact ih
    · rw [if_neg hk, assocGet_cons]
      by_cases hk' : p.fst = k'
      · rw [if_pos hk', if_pos hk']
      · rw [if_neg hk', if_neg hk', ih]

theorem assocGet_set_ne (k k' : Nat) (h : k' ≠ k) (v : β) (l : List (Nat × β)) :
    assocGet k' (assocSet k v l) = assocGet k' l := by
  rw [assocSet, assocGet_cons]
  have : ¬(k, v).fst = k' := Ne.symm h
  rw [if_neg this]
  exact assocGet_remove_ne k k' h l

theorem assocAdjust_cons (k : Nat) (f : β → β) (p : Nat × β) (l : List (Nat × β)) :
    assocAdjust k f (p :: l) =
      (if p.fst = k then (p.fst, f p.snd) else p) :: assocAdjust k f l := by
  by_cases hk : p.fst = k
  · simp [assocAdjust, hk]
  · simp [assocAdjust, hk]

theorem assocGet_adjust_ne (k k' : Nat) (h : k' ≠ k) (f : β → β) (l : List (Nat × β)) :
    assocGet k' (assocAdjust k f l) = assocGet k' l := by
  induction l with
  | nil => rfl
  | cons p rest ih =>
    rw [assocAdjust_cons]
    by_cases hk : p.fst = k
    · rw [if_pos hk, assocGet_cons, assocGet_cons]
      by_cases hk' : p.fst = k'
      · exfalso; apply h; rw [← hk', hk]
      · rw [if_neg hk', if_neg hk', ih]
    · rw [if_neg hk, assocGet_cons, assocGet_cons]
      by_cases hk' : p.fst = k'
      · rw [if_pos hk', if_pos hk']
      · rw [if_neg hk', if_neg hk', ih]

theorem findIdx?_isSome_of_mem {l : List α} (p : α → Bool) {x : α}
    (hx : x ∈ l) (hp : p x = true) : (l.findIdx? p).isSome = true := by
  rcases h : l.findIdx? p with _ | i
  · rw [List.findIdx?_eq_none_iff] at h
    exact absurd (h x hx) (by simp [hp])
  · rfl

theorem length_swapRemove {l : List α} {i : Nat} (h : i < l.length) :
    (swapRemove l i).length = l.length - 1 := by
  have hne : l ≠ [] := List.ne_nil_of_length_pos (Nat.lt_of_le_of_lt (Nat.zero_le i) h)
  simp [swapRemove, List.getLast?_eq_getLast l hne]

theorem swapRemove_eq (l : List α) (i : Nat) (hne : l ≠ []) :
    swapRemove l i = (l.set i (l.getLast hne)).dropLast := by
  simp [swapRemove, List.getLast?_eq_getLast l hne]

theorem set_coe_ms (l : List α) (i : Nat) (v d : α) (h : i < l.length) :
    (↑(l.set i v) : Multiset α) + {l.getD i d} = ↑l + {v} := by
  induction l generalizing i with
  | nil => simp at h
  | cons x rest ih =>
    cases i with
    | zero =>
      simp only [List.set_cons_zero, List.getD_cons_zero]
      rw [← Multiset.cons_coe, ← Multiset.cons_coe, ← Multiset.singleton_add,
        ← Multiset.singleton_add]
      abel
    | succ j =>
      simp only [List.set_cons_succ, List.getD_cons_succ]
      have hj : j < rest.length := by simpa using h
      rw [← Multiset.cons_coe, ← Multiset.cons_coe, ← Multiset.singleton_add,
        ← Multiset.singleton_add, add_assoc, add_assoc, ih j hj]

theorem getLast?_set {l : List α} {i : Nat} (v : α) (h : i < l.length) :
    (l.set i v).getLast? = if i = l.length - 1 then some v else l.getLast? := by
  rw [List.getLast?_eq_getElem?, List.getLast?_eq_getElem?, List.length_set]
  by_cases hi : i = l.length - 1
  · rw [if_pos hi]
    rw [hi] at h ⊢
    exact List.getElem?_set_self h
  · rw [if_neg hi]
    exact List.getElem?_set_ne hi

theorem getLast_set (l : List α) (i : Nat) (h : i < l.length) (hne : l ≠ [])
    (hne' : l.set i (l.getLast hne) ≠ []) :
    (l.set i (l.getLast hne)).getLast hne' = l.getLast hne := by
  have h1 := List.getLast?_eq_getLast _ hne'
  rw [getLast?_set _ h] at h1
  by_cases hi : i = l.length - 1
  · rw [if_pos hi] at h1
    exact Option.some.inj h1.symm
  · rw [if_neg hi, List.getLast?_eq_getLast l hne] at h1
    exact Option.some.inj h1.symm

theorem dropLast_coe_ms (l : List α) (hne : l ≠ []) :
    (↑l.dropLast : Multiset α) + {l.getLast hne} = ↑l := by
  conv_rhs => rw [← List.dropLast_append_getLast hne]
  rfl

theorem swapRemove_coe_ms {l : List α} {i : Nat} (d : α) (h : i < l.length) :
    (↑(swapRemove l i) : Multiset α) + {l.getD i d} = ↑l := by
  have hne : l ≠ [] := List.ne_nil_of_length_pos (Nat.lt_of_le_of_lt (Nat.zero_le i) h)
  rw [swapRemove_eq l i hne]
  have hne' : l.set i (l.getLast hne) ≠ [] := by
    intro hc
    have hc' := congrArg List.length hc
    simp only [List.length_set, List.length_nil] at hc'
    exact hne (List.eq_nil_of_length_eq_zero hc')
  have h1 := dropLast_coe_ms (l.set i (l.getLast hne)) hne'
  rw [getLast_set l i h hne hne'] at h1
  have h2 := set_coe_ms l i (l.getLast hne) d h
  have h3 := congrArg (· + ({l.getD i d} : Multiset α)) h1
  simp only at h3
  rw [add_right_comm, h2] at h3
  exact add_right_cancel h3

theorem getD_set_self (l : List α) (i : Nat) (v d : α) (h : i < l.length) :
    (l.set i v).getD i d = v := by
  rw [List.getD_eq_getElem?_getD, List.getElem?_set_self h]
  rfl

theorem getD_set_ne (l : List α) (i j : Nat) (v d : α) (h : i ≠ j) :
    (l.set i v).getD j d = l.getD j d := by
  rw [List.getD_eq_getElem?_getD, List.getElem?_set_ne h, ← List.getD_eq_getElem?_getD]

theorem take_set_of_le (l : List α) (i : Nat) (v : α) (j : Nat) (h : j ≤ i) :
    (l.set i v).take j = l.take j := by
  induction l generalizing i j with
  | nil => simp
  | cons x rest ih =>
    cases i with
    | zero =>
      cases j with
      | zero => simp
      | succ m => omega
    | succ n =>
      cases j with
      | zero => simp
      | succ m =>
        simp only [List.set_cons_succ, List.take_succ_cons]
        rw [ih n m (by omega)]

theorem swapRemove_take {l : List α} {i : Nat} (h : i < l.length) :
    (swapRemove l i).take i = l.take i := by
  have hne : l ≠ [] := List.ne_nil_of_length_pos (Nat.lt_of_le_of_lt (Nat.zero_le i) h)
  rw [swapRemove_eq l i hne, List.dropLast_eq_take, List.take_take]
  have hmin : min i ((l.set i (l.getLast hne)).length - 1) = i := by
    simp only [List.length_set]
    omega
  rw [hmin]
  exact take_set_of_le l i (l.getLast hne) i (Nat.le_refl i)

theorem setLevelSlots_index (w : TimingWheel) (l : Nat) (s : List (List TimerEntry)) :
    (setLevelSlots w l s).index = w.index := by
  unfold setLevelSlots
  split <;> rfl

theorem setLevelSlots_expired (w : TimingWheel) (l : Nat) (s : List (List TimerEntry)) :
    (setLevelSlots w l s).expired = w.expired := by
  unfold setLevelSlots
  split <;> rfl

/-! ## C2: insert placement -/

/-- C2.  For an insert whose relative deadline `deadline_ms` is strictly
beyond `current_tick`, `insert_entry` places the timer at level 0 slot
`deadline_ms mod 256` when `ticks_until < 256`; at level 1 slot
`(deadline_ms / 256) mod 64` when `ticks_until < 16384`; at level 2 slot
`(deadline_ms / 16384) mod 64` when `ticks_until < 1048576`; at level 3
slot `(deadline_ms / 1048576) mod 64` when `ticks_until < 67108864`; and
otherwise in the overflow map under its deadline. -/
theorem c2_insert_placement (w : TimingWheel) (e : TimerEntry)
    (h0 : w.slots1ms.length = 256) (h1 : w.slots256ms.length = 64)
    (h2 : w.slots16s.length = 64) (h3 : w.slots17min.length = 64)
    (hd : w.currentTick < e.expires - w.startTime) :
    ((e.expires - w.startTime) - w.currentTick < 256 →
      e ∈ (insertEntry w e).slots1ms.getD ((e.expires - w.startTime) % 256) []) ∧
    (256 ≤ (e.expires - w.startTime) - w.currentTick →
      (e.expires - w.startTime) - w.currentTick < 16384 →
      e ∈ (insertEntry w e).slots256ms.getD (((e.expires - w.startTime) / 256) % 64) []) ∧
    (16384 ≤ (e.expires - w.startTime) - w.currentTick →
      (e.expires - w.startTime) - w.currentTick < 1048576 →
      e ∈ (insertEntry w e).slots16s.getD (((e.expires - w.startTime) / 16384) % 64) []) ∧
    (1048576 ≤ (e.expires - w.startTime) - w.currentTick →
      (e.expires - w.startTime) - w.currentTick < 67108864 →
      e ∈ (insertEntry w e).slots17min.getD (((e.expires - w.startTime) / 1048576) % 64) []) ∧
    (67108864 ≤ (e.expires - w.startTime) - w.currentTick →
      ∃ es, assocGet e.expires (insertEntry w e).overflow = some es ∧ e ∈ es) := by
  have hnle : ¬ (e.expires - w.startTime ≤ w.currentTick) := Nat.not_le_of_lt hd
  have c0 : LEVEL_0_SLOTS = 256 := rfl
  have c1 : LEVEL_1_RESOLUTION_MS = 256 := rfl
  have c2 : LEVEL_2_RESOLUTION_MS = 16384 := rfl
  have c3 : LEVEL_3_RESOLUTION_MS = 1048576 := rfl
  have c4 : OVERFLOW_THRESHOLD_MS = 67108864 := rfl
  have s1 : LEVEL_1_SLOTS = 64 := rfl
  have s2 : LEVEL_2_SLOTS = 64 := rfl
  have s3 : LEVEL_3_SLOTS = 64 := rfl
  refine ⟨?_, ?_, ?_, ?_, ?_⟩
  · intro ht
    rw [insertEntry, c0, c1, c2, c3, c4, s1, s2, s3, if_neg hnle, if_pos ht]
    rw [insertAtLevel, if_pos (by omega)]
    show e ∈ ((levelSlots w 0).set _ _).getD _ []
    rw [getD_set_self]
    · exact List.mem_append_right _ (by simp)
    · rw [show levelSlots w 0 = w.slots1ms from rfl, h0]
      exact Nat.mod_lt _ (by omega)
  · intro ht1 ht2
    rw [insertEntry, c0, c1, c2, c3, c4, s1, s2, s3, if_neg hnle, if_neg (by omega),
      if_pos ht2]
    rw [insertAtLevel, if_pos (by omega)]
    show e ∈ ((levelSlots w 1).set _ _).getD _ []
    rw [getD_set_self]
    · exact List.mem_append_right _ (by simp)
    · rw [show levelSlots w 1 = w.slots256ms from rfl, h1]
      exact Nat.mod_lt _ (by omega)
  · intro ht1 ht2
    rw [insertEntry, c0, c1, c2, c3, c4, s1, s2, s3, if_neg hnle, if_neg (by omega),
      if_neg (by omega), if_pos ht2]
    rw [insertAtLevel, if_pos (by omega)]
    show e ∈ ((levelSlots w 2).set _ _).getD _ []
    rw [getD_set_self]
    · exact List.mem_append_right _ (by simp)
    · rw [show levelSlots w 2 = w.slots16s from rfl, h2]
      exact Nat.mod_lt _ (by omega)
  · intro ht1 ht2
    rw [insertEntry, c0, c1, c2, c3, c4, s1, s2, s3, if_neg hnle, if_neg (by omega),
      if_neg (by omega), if_neg (by omega), if_pos ht2]
    rw [insertAtLevel, if_pos (by omega)]
    show e ∈ ((levelSlots w 3).set _ _).getD _ []
    rw [getD_set_self]
    · exact List.mem_append_right _ (by simp)
    · rw [show levelSlots w 3 = w.slots17min from rfl, h3]
      exact Nat.mod_lt _ (by omega)
  · intro ht
    rw [insertEntry, c0, c1, c2, c3, c4, s1, s2, s3, if_neg hnle, if_neg (by omega),
      if_neg (by omega), if_neg (by omega), if_neg (by omega)]
    exact ⟨_, assocGet_set_self _ _ _, List.mem_append_right _ (by simp)⟩

/-- Witness for C2 at concrete inputs: a fresh wheel at base 0 and a
timer 100 ms out lands in level-0 slot 100. -/
theorem c2_witness :
    (⟨0, 100⟩ : TimerEntry) ∈
      (insertEntry (wheelNewAt 0) ⟨0, 100⟩).slots1ms.getD 100 [] :=
  (c2_insert_placement (wheelNewAt 0) ⟨0, 100⟩
    (by show (List.replicate LEVEL_0_SLOTS ([] : List TimerEntry)).length = 256
        rw [List.length_replicate]
        rfl)
    (by show (List.replicate LEVEL_1_SLOTS ([] : List TimerEntry)).length = 64
        rw [List.length_replicate]
        rfl)
    (by show (List.replicate LEVEL_2_SLOTS ([] : List TimerEntry)).length = 64
        rw [List.length_replicate]
        rfl)
    (by show (List.replicate LEVEL_3_SLOTS ([] : List TimerEntry)).length = 64
        rw [List.length_replicate]
        rfl)
    (by decide)).1 (by decide)

/-! ## C6: arena deallocation -/

/-- Counterexample to C6 as stated: the pointer `memStart + 1` lies
inside the arena range but is not slot-aligned, yet `try_deallocate`
returns `true` (the alignment check is only a `debug_assert`). -/
theorem c6_counterexample :
    (tryDeallocate (arenaNew 0) 1).fst = true ∧
    ¬ (1 - (arenaNew 0).memStart) % SLOT_SIZE = 0 := by
  constructor
  · decide
  · decide

/-- C6 as amended: `try_deallocate` returns `true` exactly when the
pointer lies inside `[memStart, memStart + capacity)` — slot alignment
is not checked in release builds — and on `false` it leaves the arena
unchanged. -/
theorem c6_amended (a : TaskArena) (ptr : Nat) :
    ((tryDeallocate a ptr).fst = true ↔
      a.memStart ≤ ptr ∧ ptr < a.memStart + a.capacity) ∧
    ((tryDeallocate a ptr).fst = false → (tryDeallocate a ptr).snd = a) := by
  rw [tryDeallocate]
  by_cases h : ptr < a.memStart ∨ a.memStart + a.capacity ≤ ptr
  · rw [if_pos h]
    constructor
    · constructor
      · intro hc
        simp at hc
      · intro hc
        omega
    · intro _
      rfl
  · rw [if_neg h]
    push_neg at h
    constructor
    · constructor
      · intro _
        exact ⟨h.1, h.2⟩
      · intro _
        rfl
    · intro hc
      simp at hc

/-- Witness for the hypothesis-bearing part of the amended C6: an
out-of-range pointer is rejected and the arena is untouched. -/
theorem c6_amended_witness :
    (tryDeallocate (arenaNew 0) 5000000000).snd = arenaNew 0 :=
  (c6_amended (arenaNew 0) 5000000000).2 (by decide)

/-! ## C9: reactor adapter timer ids -/

theorem wheelRemove_fst_true (w : TimingWheel) (id : Nat)
    (h : (assocGet id w.index).isSome = true ∨ ∃ e ∈ w.expired, e.id = id) :
    (wheelRemove w id).fst = true := by
  rw [wheelRemove]
  rcases hg : assocGet id w.index with _ | loc
  · rcases h with h | ⟨e, he, hid⟩
    · rw [hg] at h
      simp at h
    · have hpe : (fun x : TimerEntry => x.id == id) e = true := by
        show (e.id == id) = true
        rw [hid]
        exact beq_self_eq_true id
      have hsome := findIdx?_isSome_of_mem (fun x : TimerEntry => x.id == id) he hpe
      obtain ⟨pos, hx⟩ := Option.isSome_iff_exists.mp hsome
      rw [hx]
  · rfl

theorem insertEntry_found (w : TimingWheel) (e : TimerEntry) :
    (assocGet e.id (insertEntry w e).index).isSome = true ∨
      ∃ x ∈ (insertEntry w e).expired, x.id = e.id := by
  rw [insertEntry]
  by_cases hp : e.expires - w.startTime ≤ w.currentTick
  · rw [if_pos hp]
    exact Or.inr ⟨e, List.mem_append_right _ (by simp), rfl⟩
  · rw [if_neg hp]
    by_cases h1 : e.expires - w.startTime - w.currentTick < LEVEL_1_RESOLUTION_MS
    · rw [if_pos h1, insertAtLevel, if_pos (by omega)]
      exact Or.inl (by rw [show (assocGet e.id (assocSet e.id ⟨0, _, _⟩
        (setLevelSlots w 0 _).index)) = some _ from assocGet_set_self _ _ _]; rfl)
    · rw [if_neg h1]
      by_cases h2 : e.expires - w.startTime - w.currentTick < LEVEL_2_RESOLUTION_MS
      · rw [if_pos h2, insertAtLevel, if_pos (by omega)]
        exact Or.inl (by rw [show (assocGet e.id (assocSet e.id ⟨1, _, _⟩
          (setLevelSlots w 1 _).index)) = some _ from assocGet_set_self _ _ _]; rfl)
      · rw [if_neg h2]
        by_cases h3 : e.expires - w.startTime - w.currentTick < LEVEL_3_RESOLUTION_MS
        · rw [if_pos h3, insertAtLevel, if_pos (by omega)]
          exact Or.inl (by rw [show (assocGet e.id (assocSet e.id ⟨2, _, _⟩
            (setLevelSlots w 2 _).index)) = some _ from assocGet_set_self _ _ _]; rfl)
        · rw [if_neg h3]
          by_cases h4 : e.expires - w.startTime - w.currentTick < OVERFLOW_THRESHOLD_MS
          · rw [if_pos h4, insertAtLevel, if_pos (by omega)]
            exact Or.inl (by rw [show (assocGet e.id (assocSet e.id ⟨3, _, _⟩
              (setLevelSlots w 3 _).index)) = some _ from assocGet_set_self _ _ _]; rfl)
          · rw [if_neg h4]
            exact Or.inl (by rw [show (assocGet e.id (assocSet e.id
              ⟨255, 0, _⟩ w.index)) = some _ from assocGet_set_self _ _ _]; rfl)

theorem wheelRemove_insertEntry_fst (w : TimingWheel) (e : TimerEntry) :
    (wheelRemove (insertEntry w e) e.id).fst = true :=
  wheelRemove_fst_true _ _ (insertEntry_found w e)

theorem wheelRemove_insertWithId_fst (w : TimingWheel) (id expires : Nat) :
    (wheelRemove (insertWithId w id expires) id).fst = true := by
  have hf := insertEntry_found w ⟨id, expires⟩
  rw [insertWithId]
  by_cases h : (insertEntry w ⟨id, expires⟩).nextId ≤ id
  · rw [if_pos h]
    exact wheelRemove_fst_true _ _ hf
  · rw [if_neg h]
    exact wheelRemove_fst_true _ _ hf

/-! Reduction lemmas for the staged wheel's operations, per storage
constructor (the `simp only` discharges the structure projections). -/

theorem stagedInsert_inline_small (timers expired : List TimerEntry)
    (nid start expires : Nat) (h : timers.length < INLINE_THRESHOLD) :
    stagedInsert ⟨.inlineStore timers expired, nid, start⟩ expires
      = (nid, ⟨.inlineStore (timers ++ [⟨nid, expires⟩]) expired,
          (nid + 1) % 2 ^ 64, start⟩) := by
  simp only [stagedInsert]
  rw [if_neg (Nat.not_le_of_lt h)]

theorem stagedInsert_inline_big (timers expired : List TimerEntry)
    (nid start expires : Nat) (h : INLINE_THRESHOLD ≤ timers.length) :
    stagedInsert ⟨.inlineStore timers expired, nid, start⟩ expires
      = (nid, ⟨.wheelStore (insertWithId
          (expired.foldl (fun w t => insertWithId w t.id t.expires)
            (timers.foldl (fun w t => insertWithId w t.id t.expires) (wheelNewAt start)))
          nid expires), (nid + 1) % 2 ^ 64, start⟩) := by
  simp only [stagedInsert, promoteToWheel]
  rw [if_pos h]

theorem stagedInsert_wheel (w : TimingWheel) (nid start expires : Nat) :
    stagedInsert ⟨.wheelStore w, nid, start⟩ expires
      = (nid, ⟨.wheelStore (insertWithId w nid expires), (nid + 1) % 2 ^ 64, start⟩) := by
  simp only [stagedInsert]

theorem stagedRemove_wheel (w : TimingWheel) (nid start id : Nat) :
    stagedRemove ⟨.wheelStore w, nid, start⟩ id
      = ((wheelRemove w id).fst, ⟨.wheelStore (wheelRemove w id).snd, nid, start⟩) := by
  simp only [stagedRemove]

theorem stagedRemove_stagedInsert_fst (s : StagedWheel) (expires : Nat) :
    (stagedRemove (stagedInsert s expires).snd s.nextId).fst = true := by
  obtain ⟨storage, nid, start⟩ := s
  cases storage with
  | inlineStore timers expired =>
    by_cases hlen : INLINE_THRESHOLD ≤ timers.length
    · rw [stagedInsert_inline_big timers expired nid start expires hlen]
      rw [stagedRemove_wheel]
      exact wheelRemove_insertWithId_fst _ _ _
    · rw [stagedInsert_inline_small timers expired nid start expires
        (Nat.lt_of_not_le hlen)]
      simp only [stagedRemove]
      have hmem : (⟨nid, expires⟩ : TimerEntry) ∈ timers ++ [⟨nid, expires⟩] :=
        List.mem_append_right _ (by simp)
      have hsome := findIdx?_isSome_of_mem (fun t : TimerEntry => t.id == nid) hmem
        (beq_self_eq_true nid)
      obtain ⟨pos, hx⟩ := Option.isSome_iff_exists.mp hsome
      rw [hx]
  | wheelStore w =>
    rw [stagedInsert_wheel, stagedRemove_wheel]
    exact wheelRemove_insertWithId_fst _ _ _

theorem stagedInsert_fst (s : StagedWheel) (expires : Nat) :
    (stagedInsert s expires).fst = s.nextId := by
  obtain ⟨storage, nid, start⟩ := s
  cases storage with
  | inlineStore timers expired =>
    by_cases hlen : INLINE_THRESHOLD ≤ timers.length
    · rw [stagedInsert_inline_big _ _ _ _ _ hlen]
    · rw [stagedInsert_inline_small _ _ _ _ _ (Nat.lt_of_not_le hlen)]
  | wheelStore w => rw [stagedInsert_wheel]

theorem rtInsert_fst (rt : ReactorTimers) (expires : Nat) :
    (rtInsert rt expires).fst = TimerId.new (rt.wheel.nextId % 2 ^ 32) 0 := by
  show TimerId.new ((stagedInsert rt.wheel expires).fst % 2 ^ 32) 0 = _
  rw [stagedInsert_fst]

/-- C9.  `ReactorTimers::insert` returns `TimerId::new(internal as u32, 0)`
— the internal u64 id truncated to 32 bits with generation 0;
`remove`/`exists` key on `id.index` alone (the generation is ignored);
as long as fewer than `2^32` timers were ever inserted the truncation is
lossless, so removing a just-inserted id succeeds and `exists` is false
afterwards; and ids whose internal values agree modulo `2^32` are
indistinguishable. -/
theorem c9_timer_id :
    (∀ (rt : ReactorTimers) (expires : Nat),
      (rtInsert rt expires).fst = TimerId.new (rt.wheel.nextId % 2 ^ 32) 0) ∧
    (∀ (rt : ReactorTimers) (expires : Nat), rt.wheel.nextId < 2 ^ 32 →
      (rtRemove (rtInsert rt expires).snd (rtInsert rt expires).fst).fst = true ∧
      rtExists (rtRemove (rtInsert rt expires).snd (rtInsert rt expires).fst).snd
        (rtInsert rt expires).fst = false) ∧
    (∀ (rt : ReactorTimers) (i g g' : Nat),
      rtRemove rt (TimerId.new i g) = rtRemove rt (TimerId.new i g')) ∧
    (∀ a b : Nat, a % 2 ^ 32 = b % 2 ^ 32 →
      TimerId.new (a % 2 ^ 32) 0 = TimerId.new (b % 2 ^ 32) 0) := by
  refine ⟨rtInsert_fst, fun rt expires hlt => ?_, fun rt i g g' => rfl,
    fun a b h => by rw [h]⟩
  have hmod : rt.wheel.nextId % 2 ^ 32 = rt.wheel.nextId := Nat.mod_eq_of_lt hlt
  constructor
  · rw [rtInsert_fst, hmod]
    show (stagedRemove (stagedInsert rt.wheel expires).snd
      (TimerId.new rt.wheel.nextId 0).index).fst = true
    exact stagedRemove_stagedInsert_fst rt.wheel expires
  · rw [rtInsert_fst, hmod]
    show (assocGet rt.wheel.nextId
      (assocRemove rt.wheel.nextId (rtInsert rt expires).snd.idToExpiry)).isSome = false
    rw [assocGet_remove_self]
    rfl

/-- Witness for C9 at a concrete state: a fresh adapter at base 0 and a
timer 100 ms out. -/
theorem c9_witness :
    (rtRemove (rtInsert (rtNewAt 0) 100).snd (rtInsert (rtNewAt 0) 100).fst).fst = true :=
  (c9_timer_id.2.1 (rtNewAt 0) 100 (by decide)).1

/-! ## The timing-wheel invariant

`GoodAt r N c s d` says a timer with relative deadline `d` sitting in
slot `s` of a level with resolution `r` and `N` slots is consistent with
current tick `c`: the slot follows the placement formula, the slot's
next firing tick `r * (d / r)` is still in the future, and the wheel has
not lapped the slot.  These three facts are what make the wheel fire the
timer at exactly tick `d`. -/

def GoodAt (r N c s d : Nat) : Prop :=
  s = (d / r) % N ∧ c < r * (d / r) ∧ d / r ≤ c / r + N

/-- Resolution of each level (level 0 is 1 ms). -/
def resOf : Nat → Nat
  | 0 => 1
  | 1 => LEVEL_1_RESOLUTION_MS
  | 2 => LEVEL_2_RESOLUTION_MS
  | _ => LEVEL_3_RESOLUTION_MS

/-- Slot count of each level. -/
def slotsOf : Nat → Nat
  | 0 => LEVEL_0_SLOTS
  | _ => LEVEL_1_SLOTS

/-- All timers stored in the four levels and the overflow map, as a
multiset. -/
def levelMS (l : List (List TimerEntry)) : Multiset TimerEntry :=
  (l.map (fun s => (↑s : Multiset TimerEntry))).sum

def overflowFlat (ov : List (Nat × List TimerEntry)) : Multiset TimerEntry :=
  (ov.map (fun p => (↑p.snd : Multiset TimerEntry))).sum

def storedMS (w : TimingWheel) : Multiset TimerEntry :=
  levelMS w.slots1ms + levelMS w.slots256ms + levelMS w.slots16s + levelMS w.slots17min
    + overflowFlat w.overflow

def storedIds (w : TimingWheel) : Multiset Nat := (storedMS w).map (fun e => e.id)

def expiredIds (w : TimingWheel) : List Nat := w.expired.map (fun e => e.id)

/-- A location record is sound: it points at an entry carrying its id
(level 255 records only promise the id is somewhere in the overflow). -/
def LocSound (w : TimingWheel) (id : Nat) (loc : TimerLocation) : Prop :=
  (loc.level ≤ 3 ∧ loc.indexInSlot < ((levelSlots w loc.level).getD loc.slot []).length ∧
    (((levelSlots w loc.level).getD loc.slot []).getD loc.indexInSlot default).id = id)
  ∨ (loc.level = 255 ∧ ∃ p ∈ w.overflow, ∃ e ∈ p.snd, e.id = id)

/-- The wheel invariant, generalised: `G` is the per-slot consistency
predicate (strict `GoodAt` for quiescent states; a weakened variant
mid-`tick`), `pend` the ids of entries taken out of a slot but not yet
re-inserted by a cascade, `θ` the lower bound on overflow deadlines. -/
structure InvG (w : TimingWheel) (G : Nat → Nat → TimerEntry → Prop)
    (pend : List Nat) (θ : Nat) : Prop where
  lens : ∀ l, l ≤ 3 → (levelSlots w l).length = if l = 0 then 256 else 64
  good : ∀ l, l ≤ 3 → ∀ s, ∀ e ∈ (levelSlots w l).getD s [], G l s e
  goodOv : ∀ p ∈ w.overflow, ∀ e ∈ p.snd, e.expires = p.fst ∧ θ ≤ e.expires
  idxLoc : ∀ id loc, assocGet id w.index = some loc → id ∈ pend ∨ LocSound w id loc
  idxSlots : ∀ l, l ≤ 3 → ∀ s i, i < ((levelSlots w l).getD s []).length →
    assocGet (((levelSlots w l).getD s []).getD i default).id w.index = some ⟨l, s, i⟩
  idxOv : ∀ p ∈ w.overflow, ∀ e ∈ p.snd, ∃ i, assocGet e.id w.index = some ⟨255, 0, i⟩
  expNoIdx : ∀ e ∈ w.expired, assocGet e.id w.index = none
  nodup : (storedIds w + ↑pend + ↑(expiredIds w)).Nodup
  idxKeys : (w.index.map (fun p => p.fst)).Nodup
  ovKeys : (w.overflow.map (fun p => p.fst)).Nodup

/-- Strict slot consistency at the wheel's own tick. -/
def GoodW (w : TimingWheel) : Nat → Nat → TimerEntry → Prop :=
  fun l s e => GoodAt (resOf l) (slotsOf l) w.currentTick s (e.expires - w.startTime)

/-- The quiescent invariant. -/
def Inv (w : TimingWheel) : Prop :=
  InvG w (GoodW w) [] (w.startTime + w.currentTick + OVERFLOW_THRESHOLD_MS)

/-- Slot `s` of level `l` is the one drained/cascaded at tick `t`. -/
def Due (t l s : Nat) : Prop :=
  t % resOf l = 0 ∧ (t / resOf l) % slotsOf l = s

/-- Mid-`tick` slot consistency at the new tick `t`: every entry is
either already consistent at `t`, or it sits in the very slot due at `t`
and its deadline rounds to `t`'s boundary (so the cascade picks it up). -/
def Gmid (t start : Nat) : Nat → Nat → TimerEntry → Prop :=
  fun l s e => GoodAt (resOf l) (slotsOf l) t s (e.expires - start)
    ∨ (Due t l s ∧ (e.expires - start) / resOf l = t / resOf l)

/-! ### Arithmetic of `GoodAt` -/

theorem goodAt_of_range {r N c d : Nat} (hr : 0 < r) (h1 : r ≤ d - c) (h2 : d - c < r * N)
    (hc : c < d) : GoodAt r N c ((d / r) % N) d := by
  refine ⟨rfl, ?_, ?_⟩
  · have hd : c + r ≤ d := by omega
    have hdiv : (c + r) / r ≤ d / r := Nat.div_le_div_right hd
    rw [Nat.add_div_right c hr] at hdiv
    have h3 : r * (c / r + 1) ≤ r * (d / r) := Nat.mul_le_mul_left r hdiv
    have hcd := Nat.div_add_mod c r
    have hcr : c % r < r := Nat.mod_lt _ hr
    have hmul : r * (c / r + 1) = r * (c / r) + r := by ring
    omega
  · have hd : d < c + r * N := by omega
    have hcd := Nat.div_add_mod c r
    have hcr : c % r < r := Nat.mod_lt _ hr
    have hlt : d < r * (c / r + N + 1) := by
      have hmul : r * (c / r + N + 1) = r * (c / r) + r * N + r := by ring
      omega
    rw [Nat.mul_comm] at hlt
    have := (Nat.div_lt_iff_lt_mul hr).mpr hlt
    omega

theorem goodAt_le (r N c s d : Nat) (hg : GoodAt r N c s d) : c + 1 ≤ d := by
  obtain ⟨-, h2, -⟩ := hg
  have h4 : d / r * r ≤ d := Nat.div_mul_le_self d r
  rw [Nat.mul_comm] at h2
  omega

theorem goodAt_step {r N c s d : Nat} (hr : 0 < r) (hg : GoodAt r N c s d)
    (hnd : ¬((c + 1) % r = 0 ∧ ((c + 1) / r) % N = s)) : GoodAt r N (c + 1) s d := by
  obtain ⟨hs, h2, h3⟩ := hg
  refine ⟨hs, ?_, ?_⟩
  · rcases Nat.lt_or_ge (c + 1) (r * (d / r)) with h | h
    · exact h
    · exfalso
      have heq : c + 1 = r * (d / r) := by omega
      apply hnd
      refine ⟨?_, ?_⟩
      · rw [heq]
        exact Nat.mul_mod_right r _
      · rw [heq, Nat.mul_div_cancel_left _ hr, ← hs]
  · have hdd : c / r ≤ (c + 1) / r := Nat.div_le_div_right (Nat.le_succ c)
    omega

theorem goodAt_due {r N c s d : Nat} (hr : 0 < r) (hN : 0 < N) (hg : GoodAt r N c s d)
    (hdiv : (c + 1) % r = 0) (hslot : ((c + 1) / r) % N = s) : d / r = (c + 1) / r := by
  obtain ⟨hs, h2, h3⟩ := hg
  have hck : c + 1 = r * ((c + 1) / r) := by
    have := Nat.div_add_mod (c + 1) r
    omega
  set k := (c + 1) / r with hk
  have hk1 : 1 ≤ k := by
    rcases Nat.eq_zero_or_pos k with h0 | h
    · rw [h0] at hck
      omega
    · exact h
  have hle : k ≤ d / r := by
    have hmul : r * k ≤ r * (d / r) := by omega
    exact Nat.le_of_mul_le_mul_left hmul hr
  have hcr : c / r = k - 1 := by
    have hc1 : c = r * (k - 1) + (r - 1) := by
      have hrk : r * k = r * (k - 1) + r := by
        have hkk : k = (k - 1) + 1 := by omega
        calc r * k = r * ((k - 1) + 1) := by rw [← hkk]
          _ = r * (k - 1) + r := by ring
      omega
    rw [hc1, Nat.mul_add_div hr]
    have h0 : (r - 1) / r = 0 := Nat.div_eq_of_lt (by omega)
    omega
  have hub : d / r ≤ k - 1 + N := by omega
  have hmod : d / r % N = k % N := (hslot.trans hs).symm
  have hm : d / r = k + (d / r - k) := by omega
  set m := d / r - k with hmdef
  have hmN : m < N := by omega
  have haux : (k + m) % N = k % N := by
    rw [← hm]
    exact hmod
  have h1 : (k + m) % N = (k % N + m) % N := by
    conv_lhs => rw [Nat.add_mod]
    rw [Nat.mod_eq_of_lt hmN]
  have hkN : k % N < N := Nat.mod_lt _ hN
  rcases Nat.lt_or_ge (k % N + m) N with hlt | hge
  · rw [h1, Nat.mod_eq_of_lt hlt] at haux
    omega
  · have h2' : k % N + m - N < N := by omega
    have h3' : (k % N + m) % N = k % N + m - N := by
      rw [Nat.mod_eq_sub_mod hge, Nat.mod_eq_of_lt h2']
    rw [h1, h3'] at haux
    omega

/-! ### Accessor lemmas for `setLevelSlots` and the stored multiset -/

theorem setLevelSlots_overflow (w : TimingWheel) (l : Nat) (s : List (List TimerEntry)) :
    (setLevelSlots w l s).overflow = w.overflow := by
  unfold setLevelSlots
  split <;> rfl

theorem setLevelSlots_currentTick (w : TimingWheel) (l : Nat) (s : List (List TimerEntry)) :
    (setLevelSlots w l s).currentTick = w.currentTick := by
  unfold setLevelSlots
  split <;> rfl

theorem setLevelSlots_startTime (w : TimingWheel) (l : Nat) (s : List (List TimerEntry)) :
    (setLevelSlots w l s).startTime = w.startTime := by
  unfold setLevelSlots
  split <;> rfl

theorem setLevelSlots_nextId (w : TimingWheel) (l : Nat) (s : List (List TimerEntry)) :
    (setLevelSlots w l s).nextId = w.nextId := by
  unfold setLevelSlots
  split <;> rfl

theorem levelSlots_set_self (w : TimingWheel) (X : List (List TimerEntry)) {l : Nat}
    (hl : l ≤ 3) : levelSlots (setLevelSlots w l X) l = X := by
  interval_cases l <;> rfl

theorem levelSlots_set_ne (w : TimingWheel) (X : List (List TimerEntry)) {l l' : Nat}
    (h : l ≠ l') : levelSlots (setLevelSlots w l X) l' = levelSlots w l' := by
  rcases l with _ | _ | _ | _ | l <;> rcases l' with _ | _ | _ | _ | l' <;>
    first
    | rfl
    | exact absurd rfl h

theorem levelSlots_length (w : TimingWheel) {l : Nat} (hl : l ≤ 3)
    (h0 : w.slots1ms.length = 256) (h1 : w.slots256ms.length = 64)
    (h2 : w.slots16s.length = 64) (h3 : w.slots17min.length = 64) :
    (levelSlots w l).length = if l = 0 then 256 else 64 := by
  interval_cases l <;> simp [levelSlots, h0, h1, h2, h3]

theorem levelMS_cons (x : List TimerEntry) (xs : List (List TimerEntry)) :
    levelMS (x :: xs) = ↑x + levelMS xs := by
  simp [levelMS]

theorem mem_levelMS {e : TimerEntry} {l : List (List TimerEntry)} :
    e ∈ levelMS l ↔ ∃ sl ∈ l, e ∈ sl := by
  induction l with
  | nil => simp [levelMS]
  | cons x xs ih =>
    rw [levelMS_cons]
    simp only [Multiset.mem_add, Multiset.mem_coe, List.mem_cons]
    constructor
    · rintro (h | h)
      · exact ⟨x, Or.inl rfl, h⟩
      · obtain ⟨sl, hsl, he⟩ := ih.mp h
        exact ⟨sl, Or.inr hsl, he⟩
    · rintro ⟨sl, hsl | hsl, he⟩
      · exact Or.inl (hsl ▸ he)
      · exact Or.inr (ih.mpr ⟨sl, hsl, he⟩)

theorem ovFlat_cons (p : Nat × List TimerEntry) (xs : List (Nat × List TimerEntry)) :
    overflowFlat (p :: xs) = ↑p.snd + overflowFlat xs := by
  simp [overflowFlat]

theorem mem_overflowFlat {e : TimerEntry} {ov : List (Nat × List TimerEntry)} :
    e ∈ overflowFlat ov ↔ ∃ p ∈ ov, e ∈ p.snd := by
  induction ov with
  | nil => simp [overflowFlat]
  | cons p xs ih =>
    rw [ovFlat_cons]
    simp only [Multiset.mem_add, Multiset.mem_coe, List.mem_cons]
    constructor
    · rintro (h | h)
      · exact ⟨p, Or.inl rfl, h⟩
      · obtain ⟨q, hq, he⟩ := ih.mp h
        exact ⟨q, Or.inr hq, he⟩
    · rintro ⟨q, hq | hq, he⟩
      · exact Or.inl (hq ▸ he)
      · exact Or.inr (ih.mpr ⟨q, hq, he⟩)

theorem levelMS_set (l : List (List TimerEntry)) (i : Nat) (v : List TimerEntry)
    (h : i < l.length) :
    levelMS (l.set i v) + ↑(l.getD i []) = levelMS l + (↑v : Multiset TimerEntry) := by
  induction l generalizing i with
  | nil => simp at h
  | cons x xs ih =>
    cases i with
    | zero =>
      simp only [List.set_cons_zero, List.getD_cons_zero]
      rw [levelMS_cons, levelMS_cons]
      abel
    | succ j =>
      simp only [List.set_cons_succ, List.getD_cons_succ]
      have hj : j < xs.length := by simpa using h
      rw [levelMS_cons, levelMS_cons, add_assoc, add_assoc, ih j hj]

theorem storedMS_setLevelSlots {l : Nat} (hl : l ≤ 3) (w : TimingWheel)
    (X : List (List TimerEntry)) :
    storedMS (setLevelSlots w l X) + levelMS (levelSlots w l)
      = storedMS w + levelMS X := by
  interval_cases l <;> (simp only [storedMS, setLevelSlots, levelSlots]; abel)

theorem getD_mem {l : List α} {i : Nat} (d : α) (h : i < l.length) : l.getD i d ∈ l := by
  rw [List.getD_eq_getElem l d h]
  exact l.getElem_mem h

theorem mem_storedMS_of_slot {w : TimingWheel} {l s : Nat} (hl : l ≤ 3) {e : TimerEntry}
    (he : e ∈ (levelSlots w l).getD s []) : e ∈ storedMS w := by
  by_cases hs : s < (levelSlots w l).length
  · have hsl : (levelSlots w l).getD s [] ∈ levelSlots w l := getD_mem [] hs
    have : e ∈ levelMS (levelSlots w l) := mem_levelMS.mpr ⟨_, hsl, he⟩
    interval_cases l <;>
      (simp only [levelSlots] at this; simp only [storedMS, Multiset.mem_add]; tauto)
  · rw [List.getD_eq_default] at he
    · simp at he
    · omega

theorem mem_storedMS_of_overflow {w : TimingWheel} {p : Nat × List TimerEntry}
    (hp : p ∈ w.overflow) {e : TimerEntry} (he : e ∈ p.snd) : e ∈ storedMS w := by
  have : e ∈ overflowFlat w.overflow := mem_overflowFlat.mpr ⟨p, hp, he⟩
  simp only [storedMS, Multiset.mem_add]
  tauto

/-! ### Further association-list lemmas -/

theorem assocRemove_subset {p : Nat × β} {k : Nat} {l : List (Nat × β)}
    (h : p ∈ assocRemove k l) : p ∈ l := List.mem_of_mem_filter h

theorem mem_assocRemove_of_ne {p : Nat × β} {k : Nat} {l : List (Nat × β)}
    (hp : p ∈ l) (hne : p.fst ≠ k) : p ∈ assocRemove k l := by
  refine List.mem_filter.mpr ⟨hp, ?_⟩
  simpa using hne

theorem assocGet_mem {k : Nat} {v : β} {l : List (Nat × β)}
    (h : assocGet k l = some v) : (k, v) ∈ l := by
  induction l with
  | nil => simp [assocGet] at h
  | cons p rest ih =>
    rw [assocGet_cons] at h
    by_cases hk : p.fst = k
    · rw [if_pos hk] at h
      obtain ⟨a, b⟩ := p
      obtain rfl : a = k := hk
      obtain rfl : b = v := Option.some.inj h
      exact List.mem_cons_self _ _
    · rw [if_neg hk] at h
      exact List.mem_cons_of_mem _ (ih h)

theorem assocGet_of_mem_nodup {p : Nat × β} {l : List (Nat × β)}
    (hkeys : (l.map (fun q => q.fst)).Nodup) (hp : p ∈ l) :
    assocGet p.fst l = some p.snd := by
  induction l with
  | nil => simp at hp
  | cons q rest ih =>
    rw [List.map_cons, List.nodup_cons] at hkeys
    rw [assocGet_cons]
    rcases List.mem_cons.mp hp with rfl | hp'
    · rw [if_pos rfl]
    · have hne : q.fst ≠ p.fst := by
        intro hc
        exact hkeys.1 (hc ▸ List.mem_map_of_mem (fun r => r.fst) hp')
      rw [if_neg hne]
      exact ih hkeys.2 hp'

theorem assocGet_isSome_iff {k : Nat} {l : List (Nat × β)} :
    (assocGet k l).isSome = true ↔ k ∈ l.map (fun p => p.fst) := by
  induction l with
  | nil => simp [assocGet]
  | cons p rest ih =>
    rw [assocGet_cons, List.map_cons, List.mem_cons]
    by_cases hk : p.fst = k
    · rw [if_pos hk]
      simp [hk]
    · rw [if_neg hk]
      rw [ih]
      constructor
      · exact Or.inr
      · rintro (h | h)
        · exact absurd h.symm hk
        · exact h

theorem assocRemove_of_not_mem {k : Nat} {l : List (Nat × β)}
    (h : k ∉ l.map (fun p => p.fst)) : assocRemove k l = l := by
  induction l with
  | nil => rfl
  | cons p rest ih =>
    rw [List.map_cons, List.mem_cons] at h
    rw [assocRemove_cons, if_neg (fun hc => h (Or.inl hc.symm)),
      ih (fun hc => h (Or.inr hc))]

theorem keys_assocRemove_sublist (k : Nat) (l : List (Nat × β)) :
    ((assocRemove k l).map (fun p => p.fst)).Sublist (l.map (fun p => p.fst)) :=
  List.Sublist.map _ (List.filter_sublist l)

theorem keys_assocRemove_nodup {k : Nat} {l : List (Nat × β)}
    (h : (l.map (fun p => p.fst)).Nodup) :
    ((assocRemove k l).map (fun p => p.fst)).Nodup :=
  (keys_assocRemove_sublist k l).nodup h

theorem not_mem_keys_assocRemove (k : Nat) (l : List (Nat × β)) :
    k ∉ (assocRemove k l).map (fun p => p.fst) := by
  intro hc
  have := assocGet_isSome_iff.mpr hc
  rw [assocGet_remove_self] at this
  simp at this

theorem keys_assocSet_nodup {k : Nat} (v : β) {l : List (Nat × β)}
    (h : (l.map (fun p => p.fst)).Nodup) :
    ((assocSet k v l).map (fun p => p.fst)).Nodup := by
  rw [assocSet, List.map_cons, List.nodup_cons]
  exact ⟨not_mem_keys_assocRemove k l, keys_assocRemove_nodup h⟩

theorem keys_assocAdjust (k : Nat) (f : β → β) (l : List (Nat × β)) :
    (assocAdjust k f l).map (fun p => p.fst) = l.map (fun p => p.fst) := by
  induction l with
  | nil => rfl
  | cons p rest ih =>
    rw [assocAdjust_cons, List.map_cons, List.map_cons, ih]
    by_cases hk : p.fst = k
    · rw [if_pos hk]
    · rw [if_neg hk]

theorem assocGet_adjust_self (k : Nat) (f : β → β) (l : List (Nat × β)) :
    assocGet k (assocAdjust k f l) = (assocGet k l).map f := by
  induction l with
  | nil => rfl
  | cons p rest ih =>
    by_cases hk : p.fst = k
    · rw [assocAdjust_cons, if_pos hk, assocGet_cons, if_pos hk, assocGet_cons,
        if_pos hk]
      rfl
    · rw [assocAdjust_cons, if_neg hk, assocGet_cons, if_neg hk, assocGet_cons,
        if_neg hk, ih]

theorem assocGet_none_remove {k k' : Nat} {l : List (Nat × β)}
    (h : assocGet k' l = none) : assocGet k' (assocRemove k l) = none := by
  by_cases hk : k' = k
  · rw [hk]
    exact assocGet_remove_self k l
  · rw [assocGet_remove_ne k k' hk]
    exact h

/-- Evicting a batch of ids from the index (`expire_slot`'s and the
cascades' shared pattern): lookups of evicted ids turn `none`, all other
lookups are untouched. -/
theorem assocGet_foldRemove (es : List TimerEntry) (id : Nat)
    (ix : List (Nat × TimerLocation)) :
    assocGet id (es.foldl (fun ix e => assocRemove e.id ix) ix) =
      if id ∈ es.map (fun e => e.id) then none else assocGet id ix := by
  induction es generalizing ix with
  | nil => simp
  | cons e rest ih =>
    rw [List.foldl_cons, ih]
    by_cases h2 : id = e.id
    · have hmem : id ∈ (e :: rest).map (fun e => e.id) := by
        rw [List.map_cons, h2]
        exact List.mem_cons_self _ _
      rw [if_pos hmem]
      by_cases h1 : id ∈ rest.map (fun e => e.id)
      · rw [if_pos h1]
      · rw [if_neg h1, h2, assocGet_remove_self]
    · by_cases h1 : id ∈ rest.map (fun e => e.id)
      · have hmem : id ∈ (e :: rest).map (fun e => e.id) := by
          rw [List.map_cons]
          exact List.mem_cons_of_mem _ h1
        rw [if_pos h1, if_pos hmem]
      · have hn : id ∉ (e :: rest).map (fun e => e.id) := by
          rw [List.map_cons, List.mem_cons]
          push_neg
          exact ⟨h2, h1⟩
        rw [if_neg h1, if_neg hn]
        exact assocGet_remove_ne e.id id h2 ix

theorem keys_foldRemove_nodup (es : List TimerEntry)
    {ix : List (Nat × TimerLocation)} (h : (ix.map (fun p => p.fst)).Nodup) :
    (((es.foldl (fun ix e => assocRemove e.id ix) ix)).map (fun p => p.fst)).Nodup := by
  induction es generalizing ix with
  | nil => exact h
  | cons e rest ih => exact ih (keys_assocRemove_nodup h)

/-! ### `getD` on appended lists, and overflow-flattening algebra -/

theorem getD_append_left {xs : List α} (ys : List α) {i : Nat} (d : α)
    (h : i < xs.length) : (xs ++ ys).getD i d = xs.getD i d := by
  rw [List.getD_eq_getElem?_getD, List.getD_eq_getElem?_getD,
    List.getElem?_append_left h]

theorem getD_append_self (xs : List α) (x : α) (d : α) :
    (xs ++ [x]).getD xs.length d = x := by
  rw [List.getD_eq_getElem?_getD, List.getElem?_append_right (Nat.le_refl _)]
  simp

/-- Removing a bucket from the overflow map removes exactly its entries
from the flattened multiset (needs distinct keys). -/
theorem ovFlat_assocRemove_add {ov : List (Nat × List TimerEntry)} {k : Nat}
    (hkeys : (ov.map (fun p => p.fst)).Nodup) :
    overflowFlat (assocRemove k ov) + ↑((assocGet k ov).getD []) = overflowFlat ov := by
  induction ov with
  | nil => simp [assocRemove, assocGet, overflowFlat]
  | cons p rest ih =>
    rw [List.map_cons, List.nodup_cons] at hkeys
    rw [assocRemove_cons, assocGet_cons, ovFlat_cons p rest]
    by_cases hk : p.fst = k
    · rw [if_pos hk, if_pos hk]
      have hnk : k ∉ rest.map (fun p => p.fst) := hk ▸ hkeys.1
      rw [assocRemove_of_not_mem hnk]
      exact add_comm _ _
    · rw [if_neg hk, if_neg hk, ovFlat_cons p (assocRemove k rest), add_assoc,
        ih hkeys.2]

theorem ovFlat_assocSet (k : Nat) (v : List TimerEntry)
    (ov : List (Nat × List TimerEntry)) :
    overflowFlat (assocSet k v ov) = ↑v + overflowFlat (assocRemove k ov) := by
  rw [assocSet, ovFlat_cons]

/-! ### Multiset partition and `InvG` plumbing -/

/-- If a multiset splits into a part where `p` holds throughout and a
part where it fails throughout, the first part is exactly the filter. -/
theorem ms_filter_of_partition {S A E : Multiset α} (p : α → Prop) [DecidablePred p]
    (hS : S = A + E) (hA : ∀ a ∈ A, p a) (hE : ∀ e ∈ E, ¬p e) : A = S.filter p := by
  rw [hS, Multiset.filter_add, Multiset.filter_eq_self.mpr hA,
    Multiset.filter_eq_nil.mpr hE, add_zero]

/-- The slot-consistency predicate of `InvG` can be replaced by any
predicate that holds of the entries actually present. -/
theorem invG_mono {w : TimingWheel} {G G' : Nat → Nat → TimerEntry → Prop}
    {pend : List Nat} {θ : Nat} (hInv : InvG w G pend θ)
    (h : ∀ l, l ≤ 3 → ∀ s, ∀ e ∈ (levelSlots w l).getD s [], G l s e → G' l s e) :
    InvG w G' pend θ :=
  { hInv with good := fun l hl s e he => h l hl s e he (hInv.good l hl s e he) }

/-- Weakening the overflow deadline bound. -/
theorem invG_theta_le {w : TimingWheel} {G : Nat → Nat → TimerEntry → Prop}
    {pend : List Nat} {θ θ' : Nat} (hInv : InvG w G pend θ) (h : θ' ≤ θ) :
    InvG w G pend θ' :=
  { hInv with
    goodOv := fun p hp e he =>
      ⟨(hInv.goodOv p hp e he).1, Nat.le_trans h (hInv.goodOv p hp e he).2⟩ }

/-- Strengthening the overflow deadline bound from a direct bound on the
remaining keys. -/
theorem invG_theta_of_keys {w : TimingWheel} {G : Nat → Nat → TimerEntry → Prop}
    {pend : List Nat} {θ θ' : Nat} (hInv : InvG w G pend θ)
    (h : ∀ p ∈ w.overflow, θ' ≤ p.fst) : InvG w G pend θ' :=
  { hInv with
    goodOv := fun p hp e he =>
      ⟨(hInv.goodOv p hp e he).1, (hInv.goodOv p hp e he).1 ▸ h p hp⟩ }

theorem mem_storedIds_of_slot {w : TimingWheel} {l s : Nat} (hl : l ≤ 3)
    {e : TimerEntry} (he : e ∈ (levelSlots w l).getD s []) : e.id ∈ storedIds w :=
  Multiset.mem_map_of_mem _ (mem_storedMS_of_slot hl he)

theorem mem_storedIds_of_overflow {w : TimingWheel} {p : Nat × List TimerEntry}
    (hp : p ∈ w.overflow) {e : TimerEntry} (he : e ∈ p.snd) : e.id ∈ storedIds w :=
  Multiset.mem_map_of_mem _ (mem_storedMS_of_overflow hp he)

/-- An id pointed at by a sound location record is stored. -/
theorem mem_storedIds_of_locSound {w : TimingWheel} {id : Nat} {loc : TimerLocation}
    (h : LocSound w id loc) : id ∈ storedIds w := by
  rcases h with ⟨hl, hi, hid⟩ | ⟨-, p, hp, e, he, hid⟩
  · exact hid ▸ mem_storedIds_of_slot hl (getD_mem default hi)
  · exact hid ▸ mem_storedIds_of_overflow hp he

/-- Ids absent from the stored multiset and the pending list have no
index record. -/
theorem fresh_not_in_index {w : TimingWheel} {G : Nat → Nat → TimerEntry → Prop}
    {pend : List Nat} {θ : Nat} (hInv : InvG w G pend θ) {id : Nat}
    (h1 : id ∉ storedIds w) (h2 : id ∉ pend) : assocGet id w.index = none := by
  rcases h : assocGet id w.index with _ | loc
  · rfl
  · rcases hInv.idxLoc id loc h with hp | hs
    · exact absurd hp h2
    · exact absurd (mem_storedIds_of_locSound hs) h1

/-! ### Projections of `insertAtLevel` -/

theorem levelSlots_congr {w' w : TimingWheel} (h0 : w'.slots1ms = w.slots1ms)
    (h1 : w'.slots256ms = w.slots256ms) (h2 : w'.slots16s = w.slots16s)
    (h3 : w'.slots17min = w.slots17min) (l : Nat) :
    levelSlots w' l = levelSlots w l := by
  rcases l with _ | _ | _ | _ | l <;> simp [levelSlots, h0, h1, h2, h3]

theorem storedMS_congr {w' w : TimingWheel} (h0 : w'.slots1ms = w.slots1ms)
    (h1 : w'.slots256ms = w.slots256ms) (h2 : w'.slots16s = w.slots16s)
    (h3 : w'.slots17min = w.slots17min) (hov : w'.overflow = w.overflow) :
    storedMS w' = storedMS w := by
  simp only [storedMS, h0, h1, h2, h3, hov]

theorem insertAtLevel_index (w : TimingWheel) (e : TimerEntry) (l slot : Nat)
    (hl : l ≤ 3) :
    (insertAtLevel w e l slot).index
      = assocSet e.id ⟨l, slot, ((levelSlots w l).getD slot []).length⟩ w.index := by
  rw [insertAtLevel, if_pos hl]
  show assocSet e.id ⟨l, slot, ((levelSlots w l).getD slot []).length⟩
      (setLevelSlots w l ((levelSlots w l).set slot
        (((levelSlots w l).getD slot []) ++ [e]))).index = _
  rw [setLevelSlots_index]

theorem insertAtLevel_expired (w : TimingWheel) (e : TimerEntry) (l slot : Nat)
    (hl : l ≤ 3) : (insertAtLevel w e l slot).expired = w.expired := by
  rw [insertAtLevel, if_pos hl]
  show (setLevelSlots w l ((levelSlots w l).set slot
    (((levelSlots w l).getD slot []) ++ [e]))).expired = w.expired
  rw [setLevelSlots_expired]

theorem insertAtLevel_overflow (w : TimingWheel) (e : TimerEntry) (l slot : Nat)
    (hl : l ≤ 3) : (insertAtLevel w e l slot).overflow = w.overflow := by
  rw [insertAtLevel, if_pos hl]
  show (setLevelSlots w l ((levelSlots w l).set slot
    (((levelSlots w l).getD slot []) ++ [e]))).overflow = w.overflow
  rw [setLevelSlots_overflow]

theorem insertAtLevel_currentTick (w : TimingWheel) (e : TimerEntry) (l slot : Nat)
    (hl : l ≤ 3) : (insertAtLevel w e l slot).currentTick = w.currentTick := by
  rw [insertAtLevel, if_pos hl]
  show (setLevelSlots w l ((levelSlots w l).set slot
    (((levelSlots w l).getD slot []) ++ [e]))).currentTick = w.currentTick
  rw [setLevelSlots_currentTick]

theorem insertAtLevel_startTime (w : TimingWheel) (e : TimerEntry) (l slot : Nat)
    (hl : l ≤ 3) : (insertAtLevel w e l slot).startTime = w.startTime := by
  rw [insertAtLevel, if_pos hl]
  show (setLevelSlots w l ((levelSlots w l).set slot
    (((levelSlots w l).getD slot []) ++ [e]))).startTime = w.startTime
  rw [setLevelSlots_startTime]

theorem insertAtLevel_nextId (w : TimingWheel) (e : TimerEntry) (l slot : Nat)
    (hl : l ≤ 3) : (insertAtLevel w e l slot).nextId = w.nextId := by
  rw [insertAtLevel, if_pos hl]
  show (setLevelSlots w l ((levelSlots w l).set slot
    (((levelSlots w l).getD slot []) ++ [e]))).nextId = w.nextId
  rw [setLevelSlots_nextId]

theorem insertAtLevel_levelSlots (w : TimingWheel) (e : TimerEntry) (l slot : Nat)
    (hl : l ≤ 3) (l' : Nat) :
    levelSlots (insertAtLevel w e l slot) l'
      = levelSlots (setLevelSlots w l ((levelSlots w l).set slot
          (((levelSlots w l).getD slot []) ++ [e]))) l' := by
  rw [insertAtLevel, if_pos hl]
  exact levelSlots_congr rfl rfl rfl rfl l'

theorem insertAtLevel_levelSlots_self (w : TimingWheel) (e : TimerEntry) (l slot : Nat)
    (hl : l ≤ 3) :
    levelSlots (insertAtLevel w e l slot) l
      = (levelSlots w l).set slot (((levelSlots w l).getD slot []) ++ [e]) := by
  rw [insertAtLevel_levelSlots w e l slot hl l]
  exact levelSlots_set_self w _ hl

theorem insertAtLevel_levelSlots_ne (w : TimingWheel) (e : TimerEntry) (l slot : Nat)
    (hl : l ≤ 3) {l' : Nat} (h : l ≠ l') :
    levelSlots (insertAtLevel w e l slot) l' = levelSlots w l' := by
  rw [insertAtLevel_levelSlots w e l slot hl l']
  exact levelSlots_set_ne w _ h

theorem insertAtLevel_storedMS (w : TimingWheel) (e : TimerEntry) (l slot : Nat)
    (hl : l ≤ 3) :
    storedMS (insertAtLevel w e l slot)
      = storedMS (setLevelSlots w l ((levelSlots w l).set slot
          (((levelSlots w l).getD slot []) ++ [e]))) := by
  rw [insertAtLevel, if_pos hl]
  exact storedMS_congr rfl rfl rfl rfl rfl

/-! ### `insert_at_level` preserves the invariant -/

theorem insertAtLevel_invG {w : TimingWheel} {G : Nat → Nat → TimerEntry → Prop}
    {pend : List Nat} {θ : Nat} (e : TimerEntry) {l slot : Nat}
    (hInv : InvG w G pend θ) (hl : l ≤ 3)
    (hslot : slot < (levelSlots w l).length)
    (hGe : G l slot e)
    (hfr1 : e.id ∉ storedIds w) (hfr2 : e.id ∉ pend) (hfr3 : e.id ∉ expiredIds w) :
    InvG (insertAtLevel w e l slot) G pend θ
    ∧ storedMS (insertAtLevel w e l slot) = storedMS w + {e}
    ∧ (insertAtLevel w e l slot).expired = w.expired
    ∧ (insertAtLevel w e l slot).overflow = w.overflow
    ∧ (insertAtLevel w e l slot).currentTick = w.currentTick
    ∧ (insertAtLevel w e l slot).startTime = w.startTime
    ∧ (insertAtLevel w e l slot).nextId = w.nextId
    ∧ (insertAtLevel w e l slot).index.length = w.index.length + 1 := by
  have hFnone : assocGet e.id w.index = none := fresh_not_in_index hInv hfr1 hfr2
  have hknotmem : e.id ∉ w.index.map (fun p => p.fst) := by
    intro hc
    have h := assocGet_isSome_iff.mpr hc
    rw [hFnone] at h
    simp at h
  have hix := insertAtLevel_index w e l slot hl
  have hexp := insertAtLevel_expired w e l slot hl
  have hov := insertAtLevel_overflow w e l slot hl
  have hct := insertAtLevel_currentTick w e l slot hl
  have hst := insertAtLevel_startTime w e l slot hl
  have hni := insertAtLevel_nextId w e l slot hl
  have hLSl := insertAtLevel_levelSlots_self w e l slot hl
  have hslotSelf : (levelSlots (insertAtLevel w e l slot) l).getD slot []
      = ((levelSlots w l).getD slot []) ++ [e] := by
    rw [hLSl]
    exact getD_set_self _ _ _ _ hslot
  have hslotNe : ∀ s, s ≠ slot →
      (levelSlots (insertAtLevel w e l slot) l).getD s []
        = (levelSlots w l).getD s [] := by
    intro s hs
    rw [hLSl]
    exact getD_set_ne _ _ _ _ _ (fun hc => hs hc.symm)
  have hms : storedMS (insertAtLevel w e l slot) = storedMS w + {e} := by
    rw [insertAtLevel_storedMS w e l slot hl]
    have h2 := storedMS_setLevelSlots hl w
      ((levelSlots w l).set slot (((levelSlots w l).getD slot []) ++ [e]))
    have h3 := levelMS_set (levelSlots w l) slot
      (((levelSlots w l).getD slot []) ++ [e]) hslot
    have hcoe : (↑(((levelSlots w l).getD slot []) ++ [e]) : Multiset TimerEntry)
        = ↑((levelSlots w l).getD slot []) + {e} := rfl
    have key : storedMS (setLevelSlots w l ((levelSlots w l).set slot
          (((levelSlots w l).getD slot []) ++ [e])))
          + (levelMS (levelSlots w l) + ↑((levelSlots w l).getD slot []))
        = (storedMS w + {e})
          + (levelMS (levelSlots w l) + ↑((levelSlots w l).getD slot [])) := by
      rw [← add_assoc, h2, add_assoc, h3, hcoe]
      abel
    exact add_right_cancel key
  have hids : storedIds (insertAtLevel w e l slot) = storedIds w + {e.id} := by
    simp only [storedIds, hms, Multiset.map_add, Multiset.map_singleton]
  have hexpIds : expiredIds (insertAtLevel w e l slot) = expiredIds w := by
    simp only [expiredIds, hexp]
  have hlens : ∀ l'', l'' ≤ 3 → (levelSlots (insertAtLevel w e l slot) l'').length
      = if l'' = 0 then 256 else 64 := by
    intro l'' hl''
    by_cases hll : l'' = l
    · subst hll
      rw [hLSl, List.length_set]
      exact hInv.lens l'' hl''
    · rw [insertAtLevel_levelSlots_ne w e l slot hl (fun hc => hll hc.symm)]
      exact hInv.lens l'' hl''
  have hgood : ∀ l'', l'' ≤ 3 → ∀ s,
      ∀ x ∈ (levelSlots (insertAtLevel w e l slot) l'').getD s [], G l'' s x := by
    intro l'' hl'' s x hx
    by_cases hll : l'' = l
    · subst hll
      by_cases hss : s = slot
      · subst hss
        rw [hslotSelf] at hx
        rcases List.mem_append.mp hx with hx' | hx'
        · exact hInv.good l'' hl'' s x hx'
        · rw [List.mem_singleton.mp hx']
          exact hGe
      · rw [hslotNe s hss] at hx
        exact hInv.good l'' hl'' s x hx
    · rw [insertAtLevel_levelSlots_ne w e l slot hl (fun hc => hll hc.symm)] at hx
      exact hInv.good l'' hl'' s x hx
  have hgoodOv : ∀ p ∈ (insertAtLevel w e l slot).overflow, ∀ x ∈ p.snd,
      x.expires = p.fst ∧ θ ≤ x.expires := by
    rw [hov]
    exact hInv.goodOv
  have hidxLoc : ∀ id loc,
      assocGet id (insertAtLevel w e l slot).index = some loc →
      id ∈ pend ∨ LocSound (insertAtLevel w e l slot) id loc := by
    intro id loc h
    rw [hix] at h
    by_cases hid : id = e.id
    · subst hid
      rw [assocGet_set_self] at h
      obtain rfl := Option.some.inj h
      refine Or.inr (Or.inl ⟨hl, ?_, ?_⟩)
      · rw [hslotSelf, List.length_append, List.length_singleton]
        exact Nat.lt_succ_self _
      · rw [hslotSelf, getD_append_self]
    · rw [assocGet_set_ne e.id id hid] at h
      rcases hInv.idxLoc id loc h with hp | hs
      · exact Or.inl hp
      · refine Or.inr ?_
        rcases hs with ⟨hl', hi, hval⟩ | ⟨h255, hob⟩
        · refine Or.inl ⟨hl', ?_, ?_⟩
          · by_cases hll : loc.level = l
            · by_cases hss : loc.slot = slot
              · rw [hll, hss, hslotSelf, List.length_append, List.length_singleton]
                rw [hll, hss] at hi
                omega
              · rw [hll, hslotNe loc.slot hss, ← hll]
                exact hi
            · rw [insertAtLevel_levelSlots_ne w e l slot hl (fun hc => hll hc.symm)]
              exact hi
          · by_cases hll : loc.level = l
            · by_cases hss : loc.slot = slot
              · rw [hll, hss, hslotSelf]
                rw [hll, hss] at hi hval
                rw [getD_append_left [e] default hi]
                exact hval
              · rw [hll, hslotNe loc.slot hss, ← hll]
                exact hval
            · rw [insertAtLevel_levelSlots_ne w e l slot hl (fun hc => hll hc.symm)]
              exact hval
        · refine Or.inr ⟨h255, ?_⟩
          rw [hov]
          exact hob
  have hidxSlots : ∀ l'', l'' ≤ 3 → ∀ s i,
      i < ((levelSlots (insertAtLevel w e l slot) l'').getD s []).length →
      assocGet (((levelSlots (insertAtLevel w e l slot) l'').getD s []).getD i default).id
          (insertAtLevel w e l slot).index = some ⟨l'', s, i⟩ := by
    intro l'' hl'' s i hi
    rw [hix]
    by_cases hll : l'' = l
    · subst hll
      by_cases hss : s = slot
      · subst hss
        rw [hslotSelf] at hi ⊢
        rw [List.length_append, List.length_singleton] at hi
        by_cases hlast : i = ((levelSlots w l'').getD s []).length
        · rw [hlast, getD_append_self, assocGet_set_self]
        · have hi' : i < ((levelSlots w l'').getD s []).length := by omega
          rw [getD_append_left [e] default hi']
          have hmem : (((levelSlots w l'').getD s []).getD i default).id ≠ e.id := by
            intro hc
            exact hfr1 (hc ▸ mem_storedIds_of_slot hl'' (getD_mem default hi'))
          rw [assocGet_set_ne e.id _ hmem]
          exact hInv.idxSlots l'' hl'' s i hi'
      · rw [hslotNe s hss] at hi ⊢
        have hmem : (((levelSlots w l'').getD s []).getD i default).id ≠ e.id := by
          intro hc
          exact hfr1 (hc ▸ mem_storedIds_of_slot hl'' (getD_mem default hi))
        rw [assocGet_set_ne e.id _ hmem]
        exact hInv.idxSlots l'' hl'' s i hi
    · rw [insertAtLevel_levelSlots_ne w e l slot hl (fun hc => hll hc.symm)] at hi ⊢
      have hmem : (((levelSlots w l'').getD s []).getD i default).id ≠ e.id := by
        intro hc
        exact hfr1 (hc ▸ mem_storedIds_of_slot hl'' (getD_mem default hi))
      rw [assocGet_set_ne e.id _ hmem]
      exact hInv.idxSlots l'' hl'' s i hi
  have hidxOv : ∀ p ∈ (insertAtLevel w e l slot).overflow, ∀ x ∈ p.snd,
      ∃ i, assocGet x.id (insertAtLevel w e l slot).index = some ⟨255, 0, i⟩ := by
    intro p hp x hx
    rw [hov] at hp
    rw [hix]
    have hne : x.id ≠ e.id := by
      intro hc
      exact hfr1 (hc ▸ mem_storedIds_of_overflow hp hx)
    rw [assocGet_set_ne e.id _ hne]
    exact hInv.idxOv p hp x hx
  have hexpNoIdx : ∀ x ∈ (insertAtLevel w e l slot).expired,
      assocGet x.id (insertAtLevel w e l slot).index = none := by
    intro x hx
    rw [hexp] at hx
    rw [hix]
    have hne : x.id ≠ e.id := by
      intro hc
      exact hfr3 (hc ▸ List.mem_map_of_mem (fun q => q.id) hx)
    rw [assocGet_set_ne e.id _ hne]
    exact hInv.expNoIdx x hx
  have hnodup : (storedIds (insertAtLevel w e l slot) + ↑pend
      + ↑(expiredIds (insertAtLevel w e l slot))).Nodup := by
    have heq : storedIds (insertAtLevel w e l slot) + ↑pend
        + ↑(expiredIds (insertAtLevel w e l slot))
        = e.id ::ₘ (storedIds w + ↑pend + ↑(expiredIds w)) := by
      rw [hids, hexpIds, add_comm (storedIds w) ({e.id} : Multiset Nat),
        Multiset.singleton_add, Multiset.cons_add, Multiset.cons_add]
    rw [heq, Multiset.nodup_cons]
    refine ⟨?_, hInv.nodup⟩
    intro hc
    rcases Multiset.mem_add.mp hc with hc' | hc'
    · rcases Multiset.mem_add.mp hc' with hc'' | hc''
      · exact hfr1 hc''
      · exact hfr2 (Multiset.mem_coe.mp hc'')
    · exact hfr3 (Multiset.mem_coe.mp hc')
  have hidxKeys : ((insertAtLevel w e l slot).index.map (fun p => p.fst)).Nodup := by
    rw [hix]
    exact keys_assocSet_nodup _ hInv.idxKeys
  have hovKeys : ((insertAtLevel w e l slot).overflow.map (fun p => p.fst)).Nodup := by
    rw [hov]
    exact hInv.ovKeys
  have hixlen : (insertAtLevel w e l slot).index.length = w.index.length + 1 := by
    rw [hix, assocSet, List.length_cons, assocRemove_of_not_mem hknotmem]
  exact ⟨⟨hlens, hgood, hgoodOv, hidxLoc, hidxSlots, hidxOv, hexpNoIdx, hnodup,
    hidxKeys, hovKeys⟩, hms, hexp, hov, hct, hst, hni, hixlen⟩

/-- `LocSound` only inspects the slot arrays and the overflow map. -/
theorem locSound_congr {w' w : TimingWheel} (h0 : w'.slots1ms = w.slots1ms)
    (h1 : w'.slots256ms = w.slots256ms) (h2 : w'.slots16s = w.slots16s)
    (h3 : w'.slots17min = w.slots17min) (hov : w'.overflow = w.overflow)
    {id : Nat} {loc : TimerLocation} (h : LocSound w id loc) : LocSound w' id loc := by
  rcases h with ⟨ha, hb, hc⟩ | ⟨ha, hb⟩
  · refine Or.inl ⟨ha, ?_, ?_⟩
    · rw [levelSlots_congr h0 h1 h2 h3]
      exact hb
    · rw [levelSlots_congr h0 h1 h2 h3]
      exact hc
  · refine Or.inr ⟨ha, ?_⟩
    rw [hov]
    exact hb

/-! ### `insert_entry` preserves the invariant -/

/-- Master preservation lemma for `insert_entry`: under the generalised
invariant, inserting a fresh-id entry keeps every clause, adds the entry
to the stored multiset when its relative deadline is still ahead of
`current_tick` and to the expired queue otherwise, and grows
`index.len() + expired.len()` by exactly one. -/
theorem insertEntry_invG {w : TimingWheel} {G : Nat → Nat → TimerEntry → Prop}
    {pend : List Nat} {θ : Nat} (e : TimerEntry)
    (hInv : InvG w G pend θ)
    (hG : ∀ l s x, l ≤ 3 →
      GoodAt (resOf l) (slotsOf l) w.currentTick s (x.expires - w.startTime) → G l s x)
    (hθ : θ ≤ w.startTime + w.currentTick + OVERFLOW_THRESHOLD_MS)
    (hfr1 : e.id ∉ storedIds w) (hfr2 : e.id ∉ pend) (hfr3 : e.id ∉ expiredIds w) :
    InvG (insertEntry w e) G pend θ
    ∧ storedMS (insertEntry w e) = storedMS w
        + (if w.currentTick < e.expires - w.startTime then {e} else 0)
    ∧ (insertEntry w e).expired = w.expired
        ++ (if e.expires - w.startTime ≤ w.currentTick then [e] else [])
    ∧ (insertEntry w e).currentTick = w.currentTick
    ∧ (insertEntry w e).startTime = w.startTime
    ∧ (insertEntry w e).nextId = w.nextId
    ∧ (insertEntry w e).index.length + (insertEntry w e).expired.length
        = w.index.length + w.expired.length + 1 := by
  have hFnone : assocGet e.id w.index = none := fresh_not_in_index hInv hfr1 hfr2
  have hknotmem : e.id ∉ w.index.map (fun p => p.fst) := by
    intro hc
    have h := assocGet_isSome_iff.mpr hc
    rw [hFnone] at h
    simp at h
  have c0 : LEVEL_0_SLOTS = 256 := rfl
  have c1 : LEVEL_1_RESOLUTION_MS = 256 := rfl
  have c2 : LEVEL_2_RESOLUTION_MS = 16384 := rfl
  have c3 : LEVEL_3_RESOLUTION_MS = 1048576 := rfl
  have c4 : OVERFLOW_THRESHOLD_MS = 67108864 := rfl
  have s1 : LEVEL_1_SLOTS = 64 := rfl
  have s2 : LEVEL_2_SLOTS = 64 := rfl
  have s3 : LEVEL_3_SLOTS = 64 := rfl
  by_cases hd : e.expires - w.startTime ≤ w.currentTick
  · -- direct-to-expired branch
    rw [insertEntry, if_pos hd]
    have hLS : ∀ l', levelSlots { w with expired := w.expired ++ [e] } l'
        = levelSlots w l' := levelSlots_congr rfl rfl rfl rfl
    have hsame : storedMS { w with expired := w.expired ++ [e] } = storedMS w :=
      storedMS_congr rfl rfl rfl rfl rfl
    have hsameIds : storedIds { w with expired := w.expired ++ [e] } = storedIds w := by
      simp only [storedIds, hsame]
    have hexpIds : expiredIds { w with expired := w.expired ++ [e] }
        = expiredIds w ++ [e.id] := by
      simp only [expiredIds, List.map_append, List.map_cons, List.map_nil]
    refine ⟨⟨?_, ?_, ?_, ?_, ?_, ?_, ?_, ?_, ?_, ?_⟩, ?_, ?_, rfl, rfl, rfl, ?_⟩
    · intro l hl
      rw [hLS]
      exact hInv.lens l hl
    · intro l hl s x hx
      rw [hLS] at hx
      exact hInv.good l hl s x hx
    · exact hInv.goodOv
    · intro id loc h
      rcases hInv.idxLoc id loc h with hp | hs
      · exact Or.inl hp
      · exact Or.inr (locSound_congr rfl rfl rfl rfl rfl hs)
    · intro l hl s i hi
      rw [hLS] at hi ⊢
      exact hInv.idxSlots l hl s i hi
    · exact hInv.idxOv
    · intro x hx
      rcases List.mem_append.mp hx with hx' | hx'
      · exact hInv.expNoIdx x hx'
      · rw [List.mem_singleton.mp hx']
        exact hFnone
    · have heq : storedIds { w with expired := w.expired ++ [e] } + ↑pend
          + ↑(expiredIds { w with expired := w.expired ++ [e] })
          = e.id ::ₘ (storedIds w + ↑pend + ↑(expiredIds w)) := by
        rw [hsameIds, hexpIds,
          show (↑(expiredIds w ++ [e.id]) : Multiset Nat)
            = ↑(expiredIds w) + {e.id} from rfl,
          ← add_assoc, add_comm (storedIds w + ↑pend + ↑(expiredIds w)) ({e.id}),
          Multiset.singleton_add]
      rw [heq, Multiset.nodup_cons]
      refine ⟨?_, hInv.nodup⟩
      intro hc
      rcases Multiset.mem_add.mp hc with hc' | hc'
      · rcases Multiset.mem_add.mp hc' with hc'' | hc''
        · exact hfr1 hc''
        · exact hfr2 (Multiset.mem_coe.mp hc'')
      · exact hfr3 (Multiset.mem_coe.mp hc')
    · exact hInv.idxKeys
    · exact hInv.ovKeys
    · rw [if_neg (Nat.not_lt.mpr hd), add_zero]
      exact hsame
    · rw [if_pos hd]
    · show w.index.length + (w.expired ++ [e]).length = _
      rw [List.length_append, List.length_singleton]
      omega
  · -- live branches
    have hd' : w.currentTick < e.expires - w.startTime := Nat.lt_of_not_le hd
    rcases Nat.lt_or_ge ((e.expires - w.startTime) - w.currentTick) 256 with h1 | h1
    · -- level 0
      rw [insertEntry, c0, c1, c2, c3, c4, s1, s2, s3, if_neg hd, if_pos h1]
      have hslot : (e.expires - w.startTime) % 256 < (levelSlots w 0).length := by
        rw [hInv.lens 0 (by omega)]
        exact Nat.mod_lt _ (by omega)
      have hg : GoodAt 1 256 w.currentTick
          ((e.expires - w.startTime) / 1 % 256) (e.expires - w.startTime) :=
        goodAt_of_range (by omega) (by omega) (by omega) (by omega)
      rw [Nat.div_one] at hg
      have hGe : G 0 ((e.expires - w.startTime) % 256) e :=
        hG 0 _ e (by omega) hg
      obtain ⟨hI, hms, hexp, hov, hct, hst, hni, hlen⟩ :=
        insertAtLevel_invG e hInv (by omega) hslot hGe hfr1 hfr2 hfr3
      refine ⟨hI, ?_, ?_, hct, hst, hni, ?_⟩
      · rw [if_pos hd']
        exact hms
      · rw [if_neg hd, List.append_nil]
        exact hexp
      · rw [hlen, hexp]
        omega
    rcases Nat.lt_or_ge ((e.expires - w.startTime) - w.currentTick) 16384 with h2' | h2'
    · -- level 1
      rw [insertEntry, c0, c1, c2, c3, c4, s1, s2, s3, if_neg hd, if_neg (by omega),
        if_pos h2']
      have hslot : (e.expires - w.startTime) / 256 % 64 < (levelSlots w 1).length := by
        rw [hInv.lens 1 (by omega)]
        exact Nat.mod_lt _ (by omega)
      have hg : GoodAt 256 64 w.currentTick
          ((e.expires - w.startTime) / 256 % 64) (e.expires - w.startTime) :=
        goodAt_of_range (by omega) (by omega) (by omega) (by omega)
      have hGe : G 1 ((e.expires - w.startTime) / 256 % 64) e :=
        hG 1 _ e (by omega) hg
      obtain ⟨hI, hms, hexp, hov, hct, hst, hni, hlen⟩ :=
        insertAtLevel_invG e hInv (by omega) hslot hGe hfr1 hfr2 hfr3
      refine ⟨hI, ?_, ?_, hct, hst, hni, ?_⟩
      · rw [if_pos hd']
        exact hms
      · rw [if_neg hd, List.append_nil]
        exact hexp
      · rw [hlen, hexp]
        omega
    rcases Nat.lt_or_ge ((e.expires - w.startTime) - w.currentTick) 1048576 with h3' | h3'
    · -- level 2
      rw [insertEntry, c0, c1, c2, c3, c4, s1, s2, s3, if_neg hd, if_neg (by omega),
        if_neg (by omega), if_pos h3']
      have hslot : (e.expires - w.startTime) / 16384 % 64 < (levelSlots w 2).length := by
        rw [hInv.lens 2 (by omega)]
        exact Nat.mod_lt _ (by omega)
      have hg : GoodAt 16384 64 w.currentTick
          ((e.expires - w.startTime) / 16384 % 64) (e.expires - w.startTime) :=
        goodAt_of_range (by omega) (by omega) (by omega) (by omega)
      have hGe : G 2 ((e.expires - w.startTime) / 16384 % 64) e :=
        hG 2 _ e (by omega) hg
      obtain ⟨hI, hms, hexp, hov, hct, hst, hni, hlen⟩ :=
        insertAtLevel_invG e hInv (by omega) hslot hGe hfr1 hfr2 hfr3
      refine ⟨hI, ?_, ?_, hct, hst, hni, ?_⟩
      · rw [if_pos hd']
        exact hms
      · rw [if_neg hd, List.append_nil]
        exact hexp
      · rw [hlen, hexp]
        omega
    rcases Nat.lt_or_ge ((e.expires - w.startTime) - w.currentTick) 67108864 with h4' | h4'
    · -- level 3
      rw [insertEntry, c0, c1, c2, c3, c4, s1, s2, s3, if_neg hd, if_neg (by omega),
        if_neg (by omega), if_neg (by omega), if_pos h4']
      have hslot : (e.expires - w.startTime) / 1048576 % 64 < (levelSlots w 3).length := by
        rw [hInv.lens 3 (by omega)]
        exact Nat.mod_lt _ (by omega)
      have hg : GoodAt 1048576 64 w.currentTick
          ((e.expires - w.startTime) / 1048576 % 64) (e.expires - w.startTime) :=
        goodAt_of_range (by omega) (by omega) (by omega) (by omega)
      have hGe : G 3 ((e.expires - w.startTime) / 1048576 % 64) e :=
        hG 3 _ e (by omega) hg
      obtain ⟨hI, hms, hexp, hov, hct, hst, hni, hlen⟩ :=
        insertAtLevel_invG e hInv (by omega) hslot hGe hfr1 hfr2 hfr3
      refine ⟨hI, ?_, ?_, hct, hst, hni, ?_⟩
      · rw [if_pos hd']
        exact hms
      · rw [if_neg hd, List.append_nil]
        exact hexp
      · rw [hlen, hexp]
        omega
    · -- overflow branch
      rw [insertEntry, c0, c1, c2, c3, c4, s1, s2, s3, if_neg hd, if_neg (by omega),
        if_neg (by omega), if_neg (by omega), if_neg (by omega)]
      have hex : e.expires = w.startTime + (e.expires - w.startTime) := by omega
      have hθe : θ ≤ e.expires := by omega
      have hbucket : ∀ x ∈ (assocGet e.expires w.overflow).getD [],
          x.expires = e.expires ∧ θ ≤ x.expires ∧ x.id ∈ storedIds w ∧
          ∃ i, assocGet x.id w.index = some ⟨255, 0, i⟩ := by
        intro x hx
        rcases hget : assocGet e.expires w.overflow with _ | es
        · rw [hget] at hx
          simp at hx
        · rw [hget] at hx
          have hpmem : (e.expires, es) ∈ w.overflow := assocGet_mem hget
          have hgov := hInv.goodOv (e.expires, es) hpmem x hx
          exact ⟨hgov.1, hgov.2, mem_storedIds_of_overflow hpmem hx,
            hInv.idxOv (e.expires, es) hpmem x hx⟩
      have hrem : overflowFlat (assocRemove e.expires w.overflow)
          + ↑((assocGet e.expires w.overflow).getD []) = overflowFlat w.overflow :=
        ovFlat_assocRemove_add hInv.ovKeys
      have hLS : ∀ l', levelSlots { w with
            overflow := assocSet e.expires
              (((assocGet e.expires w.overflow).getD []) ++ [e]) w.overflow
            index := assocSet e.id
              ⟨255, 0, ((assocGet e.expires w.overflow).getD []).length⟩ w.index } l'
          = levelSlots w l' := levelSlots_congr rfl rfl rfl rfl
      have hovms : overflowFlat (assocSet e.expires
            (((assocGet e.expires w.overflow).getD []) ++ [e]) w.overflow)
          = overflowFlat w.overflow + {e} := by
        rw [ovFlat_assocSet,
          show (↑(((assocGet e.expires w.overflow).getD []) ++ [e]) : Multiset TimerEntry)
            = ↑((assocGet e.expires w.overflow).getD []) + {e} from rfl,
          ← hrem]
        abel
      have hms : storedMS { w with
            overflow := assocSet e.expires
              (((assocGet e.expires w.overflow).getD []) ++ [e]) w.overflow
            index := assocSet e.id
              ⟨255, 0, ((assocGet e.expires w.overflow).getD []).length⟩ w.index }
          = storedMS w + {e} := by
        simp only [storedMS]
        rw [hovms]
        exact (add_assoc _ _ _).symm
      have hids : storedIds { w with
            overflow := assocSet e.expires
              (((assocGet e.expires w.overflow).getD []) ++ [e]) w.overflow
            index := assocSet e.id
              ⟨255, 0, ((assocGet e.expires w.overflow).getD []).length⟩ w.index }
          = storedIds w + {e.id} := by
        simp only [storedIds, hms, Multiset.map_add, Multiset.map_singleton]
      refine ⟨⟨?_, ?_, ?_, ?_, ?_, ?_, ?_, ?_, ?_, ?_⟩, ?_, ?_, rfl, rfl, rfl, ?_⟩
      · intro l hl
        rw [hLS]
        exact hInv.lens l hl
      · intro l hl s x hx
        rw [hLS] at hx
        exact hInv.good l hl s x hx
      · intro p hp x hx
        rcases List.mem_cons.mp hp with rfl | hp'
        · rcases List.mem_append.mp hx with hx' | hx'
          · obtain ⟨he1, he2, -, -⟩ := hbucket x hx'
            exact ⟨he1, he2⟩
          · rw [List.mem_singleton.mp hx']
            exact ⟨rfl, hθe⟩
        · exact hInv.goodOv p (assocRemove_subset hp') x hx
      · intro id loc h
        by_cases hid : id = e.id
        · subst hid
          replace h : assocGet e.id (assocSet e.id
              ⟨255, 0, ((assocGet e.expires w.overflow).getD []).length⟩ w.index)
              = some loc := h
          rw [assocGet_set_self] at h
          obtain rfl := Option.some.inj h
          refine Or.inr (Or.inr ⟨rfl, ?_⟩)
          refine ⟨(e.expires, ((assocGet e.expires w.overflow).getD []) ++ [e]),
            List.mem_cons_self _ _, e, List.mem_append_right _ (List.mem_singleton_self e),
            rfl⟩
        · replace h : assocGet id (assocSet e.id
              ⟨255, 0, ((assocGet e.expires w.overflow).getD []).length⟩ w.index)
              = some loc := h
          rw [assocGet_set_ne e.id id hid] at h
          rcases hInv.idxLoc id loc h with hp | hs
          · exact Or.inl hp
          · refine Or.inr ?_
            rcases hs with ⟨ha, hb, hc⟩ | ⟨ha, p, hpmem, x, hxmem, hxid⟩
            · exact Or.inl ⟨ha, by rw [hLS]; exact hb, by rw [hLS]; exact hc⟩
            · refine Or.inr ⟨ha, ?_⟩
              by_cases hpk : p.fst = e.expires
              · have hget : assocGet e.expires w.overflow = some p.snd := by
                  rw [← hpk]
                  exact assocGet_of_mem_nodup hInv.ovKeys hpmem
                refine ⟨(e.expires, ((assocGet e.expires w.overflow).getD []) ++ [e]),
                  List.mem_cons_self _ _, x, ?_, hxid⟩
                rw [hget]
                exact List.mem_append_left _ hxmem
              · exact ⟨p, List.mem_cons_of_mem _ (mem_assocRemove_of_ne hpmem hpk),
                  x, hxmem, hxid⟩
      · intro l hl s i hi
        rw [hLS] at hi ⊢
        have hne : (((levelSlots w l).getD s []).getD i default).id ≠ e.id := by
          intro hc
          exact hfr1 (hc ▸ mem_storedIds_of_slot hl (getD_mem default hi))
        show assocGet _ (assocSet e.id _ w.index) = _
        rw [assocGet_set_ne e.id _ hne]
        exact hInv.idxSlots l hl s i hi
      · intro p hp x hx
        show ∃ i, assocGet x.id (assocSet e.id _ w.index) = some ⟨255, 0, i⟩
        rcases List.mem_cons.mp hp with rfl | hp'
        · rcases List.mem_append.mp hx with hx' | hx'
          · obtain ⟨-, -, hxs, hi⟩ := hbucket x hx'
            have hne : x.id ≠ e.id := fun hc => hfr1 (hc ▸ hxs)
            rw [assocGet_set_ne e.id _ hne]
            exact hi
          · rw [List.mem_singleton.mp hx']
            rw [assocGet_set_self]
            exact ⟨((assocGet e.expires w.overflow).getD []).length, rfl⟩
        · have hp'' := assocRemove_subset hp'
          have hne : x.id ≠ e.id :=
            fun hc => hfr1 (hc ▸ mem_storedIds_of_overflow hp'' hx)
          rw [assocGet_set_ne e.id _ hne]
          exact hInv.idxOv p hp'' x hx
      · intro x hx
        have hne : x.id ≠ e.id := by
          intro hc
          exact hfr3 (hc ▸ List.mem_map_of_mem (fun q => q.id) hx)
        show assocGet x.id (assocSet e.id _ w.index) = none
        rw [assocGet_set_ne e.id _ hne]
        exact hInv.expNoIdx x hx
      · have heq : storedIds { w with
              overflow := assocSet e.expires
                (((assocGet e.expires w.overflow).getD []) ++ [e]) w.overflow
              index := assocSet e.id
                ⟨255, 0, ((assocGet e.expires w.overflow).getD []).length⟩ w.index }
            + ↑pend
            + ↑(expiredIds { w with
              overflow := assocSet e.expires
                (((assocGet e.expires w.overflow).getD []) ++ [e]) w.overflow
              index := assocSet e.id
                ⟨255, 0, ((assocGet e.expires w.overflow).getD []).length⟩ w.index })
            = e.id ::ₘ (storedIds w + ↑pend + ↑(expiredIds w)) := by
          have hexpIds2 : expiredIds { w with
              overflow := assocSet e.expires
                (((assocGet e.expires w.overflow).getD []) ++ [e]) w.overflow
              index := assocSet e.id
                ⟨255, 0, ((assocGet e.expires w.overflow).getD []).length⟩ w.index }
              = expiredIds w := rfl
          rw [hids, hexpIds2, add_comm (storedIds w) ({e.id} : Multiset Nat),
            Multiset.singleton_add, Multiset.cons_add, Multiset.cons_add]
        rw [heq, Multiset.nodup_cons]
        refine ⟨?_, hInv.nodup⟩
        intro hc
        rcases Multiset.mem_add.mp hc with hc' | hc'
        · rcases Multiset.mem_add.mp hc' with hc'' | hc''
          · exact hfr1 hc''
          · exact hfr2 (Multiset.mem_coe.mp hc'')
        · exact hfr3 (Multiset.mem_coe.mp hc')
      · show ((assocSet e.id _ w.index).map (fun p => p.fst)).Nodup
        exact keys_assocSet_nodup _ hInv.idxKeys
      · show ((assocSet e.expires _ w.overflow).map (fun p => p.fst)).Nodup
        exact keys_assocSet_nodup _ hInv.ovKeys
      · rw [if_pos hd']
        exact hms
      · rw [if_neg hd, List.append_nil]
      · show (assocSet e.id _ w.index).length + w.expired.length = _
        rw [assocSet, List.length_cons, assocRemove_of_not_mem hknotmem]
        omega

/-! ### `expire_slot` preserves the invariant -/

/-- Draining a level-0 slot keeps every invariant clause: the drained
entries move (in order) to the expired queue, their index records are
evicted, everything else is untouched. -/
theorem expireSlot_invG {w : TimingWheel} {G : Nat → Nat → TimerEntry → Prop}
    {θ : Nat} (slot : Nat) (hInv : InvG w G [] θ)
    (hslot : slot < w.slots1ms.length) :
    InvG (expireSlot w slot) G [] θ
    ∧ storedMS (expireSlot w slot) + ↑(w.slots1ms.getD slot []) = storedMS w
    ∧ (expireSlot w slot).expired = w.expired ++ w.slots1ms.getD slot []
    ∧ (expireSlot w slot).currentTick = w.currentTick
    ∧ (expireSlot w slot).startTime = w.startTime
    ∧ (expireSlot w slot).nextId = w.nextId
    ∧ (expireSlot w slot).overflow = w.overflow
    ∧ (levelSlots (expireSlot w slot) 0).getD slot [] = []
    ∧ (∀ s, s ≠ slot →
        (levelSlots (expireSlot w slot) 0).getD s [] = (levelSlots w 0).getD s [])
    ∧ (∀ l, l ≠ 0 → levelSlots (expireSlot w slot) l = levelSlots w l) := by
  rw [expireSlot]
  have hLS0 : levelSlots { w with
      slots1ms := w.slots1ms.set slot []
      index := (w.slots1ms.getD slot []).foldl (fun ix e => assocRemove e.id ix) w.index
      expired := w.expired ++ w.slots1ms.getD slot [] } 0
      = w.slots1ms.set slot [] := rfl
  have hLSo : ∀ l, l ≠ 0 → levelSlots { w with
      slots1ms := w.slots1ms.set slot []
      index := (w.slots1ms.getD slot []).foldl (fun ix e => assocRemove e.id ix) w.index
      expired := w.expired ++ w.slots1ms.getD slot [] } l
      = levelSlots w l := by
    intro l hl
    rcases l with _ | _ | _ | _ | l
    · exact absurd rfl hl
    · rfl
    · rfl
    · rfl
    · rfl
  have hself : (levelSlots { w with
      slots1ms := w.slots1ms.set slot []
      index := (w.slots1ms.getD slot []).foldl (fun ix e => assocRemove e.id ix) w.index
      expired := w.expired ++ w.slots1ms.getD slot [] } 0).getD slot [] = [] := by
    rw [hLS0]
    exact getD_set_self _ _ _ _ hslot
  have hne : ∀ s, s ≠ slot → (levelSlots { w with
      slots1ms := w.slots1ms.set slot []
      index := (w.slots1ms.getD slot []).foldl (fun ix e => assocRemove e.id ix) w.index
      expired := w.expired ++ w.slots1ms.getD slot [] } 0).getD s []
      = (levelSlots w 0).getD s [] := by
    intro s hs
    rw [hLS0]
    exact getD_set_ne _ _ _ _ _ (fun hc => hs hc.symm)
  have hgetIx : ∀ id, assocGet id
      ((w.slots1ms.getD slot []).foldl (fun ix e => assocRemove e.id ix) w.index)
      = if id ∈ (w.slots1ms.getD slot []).map (fun e => e.id) then none
        else assocGet id w.index := fun id => assocGet_foldRemove _ id w.index
  -- the positional record of a drained id points exactly at `(0, slot)`
  have hDrainRec : ∀ id ∈ (w.slots1ms.getD slot []).map (fun e => e.id),
      ∃ j, assocGet id w.index = some ⟨0, slot, j⟩ := by
    intro id hid
    obtain ⟨e, he, heid⟩ := List.mem_map.mp hid
    obtain ⟨j, hj, hval⟩ := List.mem_iff_getElem.mp he
    have hj' : j < ((levelSlots w 0).getD slot []).length := hj
    have hgd : ((levelSlots w 0).getD slot []).getD j default = e := by
      rw [List.getD_eq_getElem _ _ hj']
      exact hval
    have h2 := hInv.idxSlots 0 (by omega) slot j hj'
    rw [hgd] at h2
    exact ⟨j, heid ▸ h2⟩
  have hmsKey : levelMS (w.slots1ms.set slot []) + ↑(w.slots1ms.getD slot [])
      = levelMS w.slots1ms := by
    have h3 := levelMS_set w.slots1ms slot [] hslot
    rw [show (↑([] : List TimerEntry) : Multiset TimerEntry) = 0 from rfl,
      add_zero] at h3
    exact h3
  have hms : storedMS { w with
      slots1ms := w.slots1ms.set slot []
      index := (w.slots1ms.getD slot []).foldl (fun ix e => assocRemove e.id ix) w.index
      expired := w.expired ++ w.slots1ms.getD slot [] }
      + ↑(w.slots1ms.getD slot []) = storedMS w := by
    simp only [storedMS]
    rw [← hmsKey]
    abel
  have hids : storedIds { w with
      slots1ms := w.slots1ms.set slot []
      index := (w.slots1ms.getD slot []).foldl (fun ix e => assocRemove e.id ix) w.index
      expired := w.expired ++ w.slots1ms.getD slot [] }
      + ↑((w.slots1ms.getD slot []).map (fun e => e.id)) = storedIds w := by
    have h := congrArg (Multiset.map (fun e => e.id)) hms
    rw [Multiset.map_add] at h
    have hcoe : (Multiset.map (fun e => e.id)
          (↑(w.slots1ms.getD slot []) : Multiset TimerEntry))
        = ↑((w.slots1ms.getD slot []).map (fun e => e.id)) := rfl
    rw [hcoe] at h
    exact h
  refine ⟨⟨?_, ?_, ?_, ?_, ?_, ?_, ?_, ?_, ?_, ?_⟩, hms, rfl, rfl, rfl, rfl, rfl,
    hself, hne, hLSo⟩
  · intro l hl
    by_cases hl0 : l = 0
    · subst hl0
      rw [hLS0, List.length_set]
      exact hInv.lens 0 hl
    · rw [hLSo l hl0]
      exact hInv.lens l hl
  · intro l hl s x hx
    by_cases hl0 : l = 0
    · subst hl0
      by_cases hs : s = slot
      · subst hs
        rw [hself] at hx
        simp at hx
      · rw [hne s hs] at hx
        exact hInv.good 0 hl s x hx
    · rw [hLSo l hl0] at hx
      exact hInv.good l hl s x hx
  · exact hInv.goodOv
  · intro id loc h
    rw [hgetIx id] at h
    by_cases hid : id ∈ (w.slots1ms.getD slot []).map (fun e => e.id)
    · rw [if_pos hid] at h
      exact absurd h (by simp)
    · rw [if_neg hid] at h
      rcases hInv.idxLoc id loc h with hp | hs
      · simp at hp
      · refine Or.inr ?_
        rcases hs with ⟨ha, hb, hc⟩ | ⟨ha, hb⟩
        · by_cases hl0 : loc.level = 0
          · by_cases hsl : loc.slot = slot
            · exfalso
              apply hid
              rw [← hc, hl0, hsl]
              refine List.mem_map_of_mem (fun e : TimerEntry => e.id) ?_
              rw [hl0, hsl] at hb
              exact getD_mem default hb
            · refine Or.inl ⟨ha, ?_, ?_⟩
              · rw [hl0, hne loc.slot hsl, ← hl0]
                exact hb
              · rw [hl0, hne loc.slot hsl, ← hl0]
                exact hc
          · refine Or.inl ⟨ha, ?_, ?_⟩
            · rw [hLSo loc.level hl0]
              exact hb
            · rw [hLSo loc.level hl0]
              exact hc
        · exact Or.inr ⟨ha, hb⟩
  · intro l hl s i hi
    by_cases hl0 : l = 0
    · subst hl0
      by_cases hs : s = slot
      · subst hs
        rw [hself] at hi
        simp at hi
      · rw [hne s hs] at hi ⊢
        rw [hgetIx]
        have hnotd : (((levelSlots w 0).getD s []).getD i default).id
            ∉ (w.slots1ms.getD slot []).map (fun e => e.id) := by
          intro hc
          obtain ⟨j, hj⟩ := hDrainRec _ hc
          have := hInv.idxSlots 0 hl s i hi
          rw [this] at hj
          have : s = slot := by
            have := Option.some.inj hj
            exact congrArg TimerLocation.slot this
          exact hs this
        rw [if_neg hnotd]
        exact hInv.idxSlots 0 hl s i hi
    · rw [hLSo l hl0] at hi ⊢
      rw [hgetIx]
      have hnotd : (((levelSlots w l).getD s []).getD i default).id
          ∉ (w.slots1ms.getD slot []).map (fun e => e.id) := by
        intro hc
        obtain ⟨j, hj⟩ := hDrainRec _ hc
        have := hInv.idxSlots l hl s i hi
        rw [this] at hj
        have : l = 0 := by
          have := Option.some.inj hj
          exact congrArg TimerLocation.level this
        exact hl0 this
      rw [if_neg hnotd]
      exact hInv.idxSlots l hl s i hi
  · intro p hp x hx
    obtain ⟨i, hi⟩ := hInv.idxOv p hp x hx
    refine ⟨i, ?_⟩
    rw [hgetIx]
    have hnotd : x.id ∉ (w.slots1ms.getD slot []).map (fun e => e.id) := by
      intro hc
      obtain ⟨j, hj⟩ := hDrainRec _ hc
      rw [hi] at hj
      have h255 : (255 : Nat) = 0 := congrArg TimerLocation.level (Option.some.inj hj)
      simp at h255
    rw [if_neg hnotd]
    exact hi
  · intro x hx
    rw [hgetIx]
    rcases List.mem_append.mp hx with hx' | hx'
    · by_cases hxd : x.id ∈ (w.slots1ms.getD slot []).map (fun e => e.id)
      · rw [if_pos hxd]
      · rw [if_neg hxd]
        exact hInv.expNoIdx x hx'
    · rw [if_pos (List.mem_map_of_mem (fun e => e.id) hx')]
  · have hexpIds : expiredIds { w with
        slots1ms := w.slots1ms.set slot []
        index := (w.slots1ms.getD slot []).foldl (fun ix e => assocRemove e.id ix) w.index
        expired := w.expired ++ w.slots1ms.getD slot [] }
        = expiredIds w ++ (w.slots1ms.getD slot []).map (fun e => e.id) := by
      simp only [expiredIds, List.map_append]
    have heq : storedIds { w with
        slots1ms := w.slots1ms.set slot []
        index := (w.slots1ms.getD slot []).foldl (fun ix e => assocRemove e.id ix) w.index
        expired := w.expired ++ w.slots1ms.getD slot [] }
        + ↑([] : List Nat)
        + ↑(expiredIds { w with
          slots1ms := w.slots1ms.set slot []
          index := (w.slots1ms.getD slot []).foldl (fun ix e => assocRemove e.id ix) w.index
          expired := w.expired ++ w.slots1ms.getD slot [] })
        = storedIds w + ↑([] : List Nat) + ↑(expiredIds w) := by
      rw [hexpIds,
        show (↑(expiredIds w ++ (w.slots1ms.getD slot []).map (fun e => e.id))
          : Multiset Nat) = ↑(expiredIds w)
            + ↑((w.slots1ms.getD slot []).map (fun e => e.id)) from rfl,
        ← hids]
      abel
    rw [heq]
    exact hInv.nodup
  · exact keys_foldRemove_nodup _ hInv.idxKeys
  · exact hInv.ovKeys

/-! ### Cascading -/

/-- Evicting the head pending id from the index discharges it from the
pending list. -/
theorem invG_evict {w : TimingWheel} {G : Nat → Nat → TimerEntry → Prop}
    {id : Nat} {pend : List Nat} {θ : Nat} (hInv : InvG w G (id :: pend) θ) :
    InvG { w with index := assocRemove id w.index } G pend θ := by
  have hLS : ∀ l', levelSlots { w with index := assocRemove id w.index } l'
      = levelSlots w l' := levelSlots_congr rfl rfl rfl rfl
  have hnodup' : (storedIds w + ↑(id :: pend) + ↑(expiredIds w)).Nodup := hInv.nodup
  have hsplit : storedIds w + ↑(id :: pend) + ↑(expiredIds w)
      = id ::ₘ (storedIds w + ↑pend + ↑(expiredIds w)) := by
    rw [show (↑(id :: pend) : Multiset Nat) = id ::ₘ ↑pend from rfl]
    rw [Multiset.add_cons, Multiset.cons_add]
  rw [hsplit, Multiset.nodup_cons] at hnodup'
  have hidNotStored : id ∉ storedIds w := by
    intro hc
    exact hnodup'.1 (Multiset.mem_add.mpr (Or.inl (Multiset.mem_add.mpr (Or.inl hc))))
  refine ⟨?_, ?_, ?_, ?_, ?_, ?_, ?_, ?_, ?_, ?_⟩
  · intro l hl
    rw [hLS]
    exact hInv.lens l hl
  · intro l hl s x hx
    rw [hLS] at hx
    exact hInv.good l hl s x hx
  · exact hInv.goodOv
  · intro id' loc h
    replace h : assocGet id' (assocRemove id w.index) = some loc := h
    by_cases hid : id' = id
    · subst hid
      rw [assocGet_remove_self] at h
      exact absurd h (by simp)
    · rw [assocGet_remove_ne id id' hid] at h
      rcases hInv.idxLoc id' loc h with hp | hs
      · rcases List.mem_cons.mp hp with hc | hc
        · exact absurd hc hid
        · exact Or.inl hc
      · exact Or.inr (locSound_congr rfl rfl rfl rfl rfl hs)
  · intro l hl s i hi
    rw [hLS] at hi ⊢
    have hneid : (((levelSlots w l).getD s []).getD i default).id ≠ id := by
      intro hc
      exact hidNotStored (hc ▸ mem_storedIds_of_slot hl (getD_mem default hi))
    show assocGet _ (assocRemove id w.index) = _
    rw [assocGet_remove_ne id _ (fun hc => hneid hc)]
    exact hInv.idxSlots l hl s i hi
  · intro p hp x hx
    have hneid : x.id ≠ id := by
      intro hc
      exact hidNotStored (hc ▸ mem_storedIds_of_overflow hp hx)
    show ∃ i, assocGet x.id (assocRemove id w.index) = some ⟨255, 0, i⟩
    rw [assocGet_remove_ne id _ (fun hc => hneid hc)]
    exact hInv.idxOv p hp x hx
  · intro x hx
    show assocGet x.id (assocRemove id w.index) = none
    exact assocGet_none_remove (hInv.expNoIdx x hx)
  · exact hnodup'.2
  · show ((assocRemove id w.index).map (fun p => p.fst)).Nodup
    exact keys_assocRemove_nodup hInv.idxKeys
  · exact hInv.ovKeys

theorem cascadeEntries_nil (w : TimingWheel) : cascadeEntries w [] = w := rfl

theorem cascadeEntries_cons (w : TimingWheel) (e : TimerEntry) (rest : List TimerEntry) :
    cascadeEntries w (e :: rest)
      = cascadeEntries (insertEntry { w with index := assocRemove e.id w.index } e)
          rest := by
  simp only [cascadeEntries, List.foldl_cons]

/-- Re-inserting a batch whose ids are exactly the pending ones restores
the pend-free invariant; each entry goes back to storage or to the
expired queue according to its relative deadline. -/
theorem cascadeEntries_invG {G : Nat → Nat → TimerEntry → Prop} {θ : Nat}
    (es : List TimerEntry) (w : TimingWheel)
    (hInv : InvG w G (es.map (fun e => e.id)) θ)
    (hG : ∀ l s x, l ≤ 3 →
      GoodAt (resOf l) (slotsOf l) w.currentTick s (x.expires - w.startTime) → G l s x)
    (hθ : θ ≤ w.startTime + w.currentTick + OVERFLOW_THRESHOLD_MS) :
    InvG (cascadeEntries w es) G [] θ
    ∧ storedMS (cascadeEntries w es) = storedMS w
        + ↑(es.filter (fun x => decide (w.currentTick < x.expires - w.startTime)))
    ∧ (cascadeEntries w es).expired = w.expired
        ++ es.filter (fun x => decide (x.expires - w.startTime ≤ w.currentTick))
    ∧ (cascadeEntries w es).currentTick = w.currentTick
    ∧ (cascadeEntries w es).startTime = w.startTime
    ∧ (cascadeEntries w es).nextId = w.nextId := by
  induction es generalizing w with
  | nil =>
    refine ⟨hInv, ?_, ?_, rfl, rfl, rfl⟩
    · simp [cascadeEntries_nil]
    · simp [cascadeEntries_nil]
  | cons e rest ih =>
    have hnodup' : (storedIds w + ↑(e.id :: rest.map (fun x => x.id))
        + ↑(expiredIds w)).Nodup := hInv.nodup
    have hsplit : storedIds w + ↑(e.id :: rest.map (fun x => x.id)) + ↑(expiredIds w)
        = e.id ::ₘ (storedIds w + ↑(rest.map (fun x => x.id)) + ↑(expiredIds w)) := by
      rw [show (↑(e.id :: rest.map (fun x => x.id)) : Multiset Nat)
          = e.id ::ₘ ↑(rest.map (fun x => x.id)) from rfl]
      rw [Multiset.add_cons, Multiset.cons_add]
    rw [hsplit, Multiset.nodup_cons] at hnodup'
    have hfr1 : e.id ∉ storedIds w := fun hc =>
      hnodup'.1 (Multiset.mem_add.mpr (Or.inl (Multiset.mem_add.mpr (Or.inl hc))))
    have hfr2 : e.id ∉ rest.map (fun x => x.id) := fun hc =>
      hnodup'.1 (Multiset.mem_add.mpr (Or.inl (Multiset.mem_add.mpr
        (Or.inr (Multiset.mem_coe.mpr hc)))))
    have hfr3 : e.id ∉ expiredIds w := fun hc =>
      hnodup'.1 (Multiset.mem_add.mpr (Or.inr (Multiset.mem_coe.mpr hc)))
    have hInv1 : InvG { w with index := assocRemove e.id w.index } G
        (rest.map (fun x => x.id)) θ := invG_evict hInv
    obtain ⟨hInv2, hms2, hexp2, hct2, hst2, hni2, -⟩ :=
      insertEntry_invG e hInv1 hG hθ hfr1 hfr2 hfr3
    have hct2' : (insertEntry { w with index := assocRemove e.id w.index } e).currentTick
        = w.currentTick := hct2
    have hst2' : (insertEntry { w with index := assocRemove e.id w.index } e).startTime
        = w.startTime := hst2
    have hG2 : ∀ l s x, l ≤ 3 →
        GoodAt (resOf l) (slotsOf l)
          (insertEntry { w with index := assocRemove e.id w.index } e).currentTick s
          (x.expires - (insertEntry { w with index := assocRemove e.id w.index } e).startTime)
        → G l s x := by
      intro l s x hl hg
      rw [hct2', hst2'] at hg
      exact hG l s x hl hg
    have hθ2 : θ ≤ (insertEntry { w with index := assocRemove e.id w.index } e).startTime
        + (insertEntry { w with index := assocRemove e.id w.index } e).currentTick
        + OVERFLOW_THRESHOLD_MS := by
      rw [hct2', hst2']
      exact hθ
    obtain ⟨ihInv, ihms, ihexp, ihct, ihst, ihni⟩ :=
      ih (insertEntry { w with index := assocRemove e.id w.index } e) hInv2 hG2 hθ2
    rw [cascadeEntries_cons]
    refine ⟨ihInv, ?_, ?_, ?_, ?_, ?_⟩
    · rw [ihms, hct2', hst2', hms2, List.filter_cons]
      by_cases hP : w.currentTick < e.expires - w.startTime
      · rw [if_pos hP, if_pos (by simpa using hP)]
        rw [show (↑(e :: rest.filter
            (fun x => decide (w.currentTick < x.expires - w.startTime)))
          : Multiset TimerEntry)
          = {e} + ↑(rest.filter
              (fun x => decide (w.currentTick < x.expires - w.startTime)))
          from by rw [Multiset.singleton_add]; rfl]
        show storedMS { w with index := assocRemove e.id w.index } + {e} + _ = _
        have hsm : storedMS { w with index := assocRemove e.id w.index }
            = storedMS w := storedMS_congr rfl rfl rfl rfl rfl
        rw [hsm]
        abel
      · rw [if_neg hP, if_neg (by simpa using hP), add_zero]
        have hsm : storedMS { w with index := assocRemove e.id w.index }
            = storedMS w := storedMS_congr rfl rfl rfl rfl rfl
        rw [hsm]
    · rw [ihexp, hct2', hst2', hexp2, List.filter_cons]
      by_cases hQ : e.expires - w.startTime ≤ w.currentTick
      · rw [if_pos hQ, if_pos (by simpa using hQ)]
        show w.expired ++ [e] ++ _ = _
        rw [List.append_assoc]
        rfl
      · rw [if_neg hQ, if_neg (by simpa using hQ), List.append_nil]
    · rw [ihct]
      exact hct2'
    · rw [ihst]
      exact hst2'
    · rw [ihni]
      exact hni2

/-! ### Scalar projections of `insert_entry` and the cascades -/

theorem coe_filter_add_filter_not (l : List α) (p : α → Bool) :
    (↑(l.filter p) : Multiset α) + ↑(l.filter (fun a => !(p a))) = ↑l := by
  induction l with
  | nil => rfl
  | cons a t ih =>
    rw [List.filter_cons, List.filter_cons]
    cases hpa : p a
    · rw [if_neg (by simp [hpa]), if_pos (by simp [hpa]),
        show (↑(a :: t.filter (fun a => !(p a))) : Multiset α)
          = a ::ₘ ↑(t.filter (fun a => !(p a))) from rfl,
        show (↑(a :: t) : Multiset α) = a ::ₘ ↑t from rfl,
        Multiset.add_cons, ih]
    · rw [if_pos (by simp [hpa]), if_neg (by simp [hpa]),
        show (↑(a :: t.filter p) : Multiset α) = a ::ₘ ↑(t.filter p) from rfl,
        show (↑(a :: t) : Multiset α) = a ::ₘ ↑t from rfl,
        Multiset.cons_add, ih]

/-- `insert_entry` never touches the clock, the base, or the id counter,
and any overflow key it creates is at least `current_time + threshold`. -/
theorem insertEntry_proj (w : TimingWheel) (e : TimerEntry) :
    (insertEntry w e).currentTick = w.currentTick
    ∧ (insertEntry w e).startTime = w.startTime
    ∧ (insertEntry w e).nextId = w.nextId
    ∧ (∀ k' ∈ ((insertEntry w e).overflow).map (fun p => p.fst),
        k' ∈ w.overflow.map (fun p => p.fst)
        ∨ w.startTime + w.currentTick + OVERFLOW_THRESHOLD_MS ≤ k') := by
  rw [insertEntry]
  by_cases hd : e.expires - w.startTime ≤ w.currentTick
  · rw [if_pos hd]
    exact ⟨rfl, rfl, rfl, fun k' hk => Or.inl hk⟩
  rw [if_neg hd]
  by_cases h1 : (e.expires - w.startTime) - w.currentTick < LEVEL_1_RESOLUTION_MS
  · rw [if_pos h1]
    refine ⟨insertAtLevel_currentTick w e 0 _ (by omega),
      insertAtLevel_startTime w e 0 _ (by omega),
      insertAtLevel_nextId w e 0 _ (by omega), ?_⟩
    intro k' hk
    rw [insertAtLevel_overflow w e 0 _ (by omega)] at hk
    exact Or.inl hk
  rw [if_neg h1]
  by_cases h2 : (e.expires - w.startTime) - w.currentTick < LEVEL_2_RESOLUTION_MS
  · rw [if_pos h2]
    refine ⟨insertAtLevel_currentTick w e 1 _ (by omega),
      insertAtLevel_startTime w e 1 _ (by omega),
      insertAtLevel_nextId w e 1 _ (by omega), ?_⟩
    intro k' hk
    rw [insertAtLevel_overflow w e 1 _ (by omega)] at hk
    exact Or.inl hk
  rw [if_neg h2]
  by_cases h3 : (e.expires - w.startTime) - w.currentTick < LEVEL_3_RESOLUTION_MS
  · rw [if_pos h3]
    refine ⟨insertAtLevel_currentTick w e 2 _ (by omega),
      insertAtLevel_startTime w e 2 _ (by omega),
      insertAtLevel_nextId w e 2 _ (by omega), ?_⟩
    intro k' hk
    rw [insertAtLevel_overflow w e 2 _ (by omega)] at hk
    exact Or.inl hk
  rw [if_neg h3]
  by_cases h4 : (e.expires - w.startTime) - w.currentTick < OVERFLOW_THRESHOLD_MS
  · rw [if_pos h4]
    refine ⟨insertAtLevel_currentTick w e 3 _ (by omega),
      insertAtLevel_startTime w e 3 _ (by omega),
      insertAtLevel_nextId w e 3 _ (by omega), ?_⟩
    intro k' hk
    rw [insertAtLevel_overflow w e 3 _ (by omega)] at hk
    exact Or.inl hk
  · rw [if_neg h4]
    refine ⟨rfl, rfl, rfl, ?_⟩
    intro k' hk
    replace hk : k' ∈ (assocSet e.expires
        (((assocGet e.expires w.overflow).getD []) ++ [e]) w.overflow).map
          (fun p => p.fst) := hk
    rw [assocSet, List.map_cons] at hk
    rcases List.mem_cons.mp hk with rfl | hk'
    · refine Or.inr ?_
      have hOV : OVERFLOW_THRESHOLD_MS ≤ (e.expires - w.startTime) - w.currentTick := by
        omega
      omega
    · exact Or.inl ((keys_assocRemove_sublist e.expires w.overflow).subset hk')

/-- The cascade fold likewise preserves the clock, the base, and the id
counter, and only ever creates far-out overflow keys. -/
theorem cascadeEntries_proj (es : List TimerEntry) (w : TimingWheel) :
    (cascadeEntries w es).currentTick = w.currentTick
    ∧ (cascadeEntries w es).startTime = w.startTime
    ∧ (cascadeEntries w es).nextId = w.nextId
    ∧ (∀ k' ∈ ((cascadeEntries w es).overflow).map (fun p => p.fst),
        k' ∈ w.overflow.map (fun p => p.fst)
        ∨ w.startTime + w.currentTick + OVERFLOW_THRESHOLD_MS ≤ k') := by
  induction es generalizing w with
  | nil => exact ⟨rfl, rfl, rfl, fun k' hk => Or.inl hk⟩
  | cons e rest ih =>
    rw [cascadeEntries_cons]
    obtain ⟨pct, pst, pni, pov⟩ :=
      insertEntry_proj { w with index := assocRemove e.id w.index } e
    obtain ⟨ict, ist, ini, iov⟩ :=
      ih (insertEntry { w with index := assocRemove e.id w.index } e)
    refine ⟨by rw [ict]; exact pct, by rw [ist]; exact pst, by rw [ini]; exact pni, ?_⟩
    intro k' hk
    rcases iov k' hk with hin | hge
    · rcases pov k' hin with hin' | hge'
      · exact Or.inl hin'
      · exact Or.inr (by
          replace hge' : ({ w with index := assocRemove e.id w.index } :
            TimingWheel).startTime + w.currentTick + OVERFLOW_THRESHOLD_MS ≤ k' := hge'
          exact hge')
    · refine Or.inr ?_
      rw [pst, pct] at hge
      exact hge

/-! ### Removing one overflow bucket into the pending list -/

theorem invG_ovRemove {w : TimingWheel} {G : Nat → Nat → TimerEntry → Prop}
    {θ : Nat} {k : Nat} {es : List TimerEntry}
    (hInv : InvG w G [] θ) (hget : assocGet k w.overflow = some es) :
    InvG { w with overflow := assocRemove k w.overflow } G (es.map (fun e => e.id)) θ
    ∧ storedMS { w with overflow := assocRemove k w.overflow } + ↑es = storedMS w := by
  have hLS : ∀ l', levelSlots { w with overflow := assocRemove k w.overflow } l'
      = levelSlots w l' := levelSlots_congr rfl rfl rfl rfl
  have hms : storedMS { w with overflow := assocRemove k w.overflow } + ↑es
      = storedMS w := by
    have h : overflowFlat (assocRemove k w.overflow)
        + ↑((assocGet k w.overflow).getD []) = overflowFlat w.overflow :=
      ovFlat_assocRemove_add hInv.ovKeys
    rw [hget] at h
    have h' : overflowFlat (assocRemove k w.overflow) + ↑es
        = overflowFlat w.overflow := h
    simp only [storedMS]
    rw [← h']
    abel
  have hids : storedIds { w with overflow := assocRemove k w.overflow }
      + ↑(es.map (fun e => e.id)) = storedIds w := by
    have h := congrArg (Multiset.map (fun e => e.id)) hms
    rw [Multiset.map_add] at h
    have hcoe : (Multiset.map (fun e => e.id) (↑es : Multiset TimerEntry))
        = ↑(es.map (fun e => e.id)) := rfl
    rw [hcoe] at h
    exact h
  refine ⟨⟨?_, ?_, ?_, ?_, ?_, ?_, ?_, ?_, ?_, ?_⟩, hms⟩
  · intro l hl
    rw [hLS]
    exact hInv.lens l hl
  · intro l hl s x hx
    rw [hLS] at hx
    exact hInv.good l hl s x hx
  · intro p hp x hx
    exact hInv.goodOv p (assocRemove_subset hp) x hx
  · intro id loc h
    replace h : assocGet id w.index = some loc := h
    rcases hInv.idxLoc id loc h with hp | hs
    · simp at hp
    · rcases hs with ⟨ha, hb, hc⟩ | ⟨ha, p, hpmem, x, hxmem, hxid⟩
      · refine Or.inr (Or.inl ⟨ha, ?_, ?_⟩)
        · rw [hLS]
          exact hb
        · rw [hLS]
          exact hc
      · by_cases hpk : p.fst = k
        · refine Or.inl ?_
          have hget' : assocGet p.fst w.overflow = some p.snd :=
            assocGet_of_mem_nodup hInv.ovKeys hpmem
          rw [hpk, hget] at hget'
          obtain rfl : es = p.snd := Option.some.inj hget'
          rw [← hxid]
          exact List.mem_map_of_mem (fun e => e.id) hxmem
        · exact Or.inr (Or.inr ⟨ha, p, mem_assocRemove_of_ne hpmem hpk, x, hxmem, hxid⟩)
  · intro l hl s i hi
    rw [hLS] at hi ⊢
    exact hInv.idxSlots l hl s i hi
  · intro p hp x hx
    exact hInv.idxOv p (assocRemove_subset hp) x hx
  · intro x hx
    exact hInv.expNoIdx x hx
  · have hexpe : expiredIds { w with overflow := assocRemove k w.overflow }
        = expiredIds w := rfl
    have hn := hInv.nodup
    rw [show (↑([] : List Nat) : Multiset Nat) = 0 from rfl, add_zero] at hn
    show (storedIds { w with overflow := assocRemove k w.overflow }
      + ↑(es.map (fun e => e.id))
      + ↑(expiredIds { w with overflow := assocRemove k w.overflow })).Nodup
    rw [hexpe, hids]
    exact hn
  · exact hInv.idxKeys
  · exact keys_assocRemove_nodup hInv.ovKeys

/-! ### `cascade_slot` -/

theorem cascadeSlot_invG {w : TimingWheel} {G : Nat → Nat → TimerEntry → Prop}
    {θ : Nat} {level slot : Nat}
    (hInv : InvG w G [] θ)
    (hG : ∀ l s x, l ≤ 3 →
      GoodAt (resOf l) (slotsOf l) w.currentTick s (x.expires - w.startTime) → G l s x)
    (hθ : θ ≤ w.startTime + w.currentTick + OVERFLOW_THRESHOLD_MS)
    (hlev : 1 ≤ level ∧ level ≤ 3)
    (hslot : slot < (levelSlots w level).length) :
    InvG (cascadeSlot w level slot) G [] θ
    ∧ storedMS (cascadeSlot w level slot)
        + ↑(((levelSlots w level).getD slot []).filter
            (fun x => decide (x.expires - w.startTime ≤ w.currentTick)))
      = storedMS w
    ∧ (cascadeSlot w level slot).expired = w.expired
        ++ ((levelSlots w level).getD slot []).filter
            (fun x => decide (x.expires - w.startTime ≤ w.currentTick))
    ∧ (cascadeSlot w level slot).currentTick = w.currentTick
    ∧ (cascadeSlot w level slot).startTime = w.startTime
    ∧ (cascadeSlot w level slot).nextId = w.nextId := by
  rw [cascadeSlot, if_pos hlev]
  have hl3 : level ≤ 3 := hlev.2
  have hms' : storedMS (setLevelSlots w level ((levelSlots w level).set slot []))
      + ↑((levelSlots w level).getD slot []) = storedMS w := by
    have h2 := storedMS_setLevelSlots hl3 w ((levelSlots w level).set slot [])
    have h3 := levelMS_set (levelSlots w level) slot [] hslot
    rw [show (↑([] : List TimerEntry) : Multiset TimerEntry) = 0 from rfl,
      add_zero] at h3
    have key : storedMS (setLevelSlots w level ((levelSlots w level).set slot []))
        + ↑((levelSlots w level).getD slot []) + levelMS (levelSlots w level)
        = storedMS w + levelMS (levelSlots w level) := by
      rw [add_right_comm, h2, add_assoc, h3]
    exact add_right_cancel key
  have hids' : storedIds (setLevelSlots w level ((levelSlots w level).set slot []))
      + ↑(((levelSlots w level).getD slot []).map (fun e => e.id))
      = storedIds w := by
    have h := congrArg (Multiset.map (fun e => e.id)) hms'
    rw [Multiset.map_add] at h
    have hcoe : (Multiset.map (fun e => e.id)
          (↑((levelSlots w level).getD slot []) : Multiset TimerEntry))
        = ↑(((levelSlots w level).getD slot []).map (fun e => e.id)) := rfl
    rw [hcoe] at h
    exact h
  have hLSs : levelSlots (setLevelSlots w level ((levelSlots w level).set slot []))
      level = (levelSlots w level).set slot [] := levelSlots_set_self w _ hl3
  have hLSn : ∀ l', level ≠ l' →
      levelSlots (setLevelSlots w level ((levelSlots w level).set slot [])) l'
        = levelSlots w l' := fun l' h => levelSlots_set_ne w _ h
  have hIx : (setLevelSlots w level ((levelSlots w level).set slot [])).index
      = w.index := setLevelSlots_index w level _
  have hOv : (setLevelSlots w level ((levelSlots w level).set slot [])).overflow
      = w.overflow := setLevelSlots_overflow w level _
  have hEx : (setLevelSlots w level ((levelSlots w level).set slot [])).expired
      = w.expired := setLevelSlots_expired w level _
  have hCt : (setLevelSlots w level ((levelSlots w level).set slot [])).currentTick
      = w.currentTick := setLevelSlots_currentTick w level _
  have hSt : (setLevelSlots w level ((levelSlots w level).set slot [])).startTime
      = w.startTime := setLevelSlots_startTime w level _
  have hNi : (setLevelSlots w level ((levelSlots w level).set slot [])).nextId
      = w.nextId := setLevelSlots_nextId w level _
  have hInv' : InvG (setLevelSlots w level ((levelSlots w level).set slot [])) G
      (((levelSlots w level).getD slot []).map (fun e => e.id)) θ := by
    refine ⟨?_, ?_, ?_, ?_, ?_, ?_, ?_, ?_, ?_, ?_⟩
    · intro l hl
      by_cases hll : l = level
      · subst hll
        rw [hLSs, List.length_set]
        exact hInv.lens l hl
      · rw [hLSn l (fun hc => hll hc.symm)]
        exact hInv.lens l hl
    · intro l hl s x hx
      by_cases hll : l = level
      · subst hll
        by_cases hss : s = slot
        · subst hss
          rw [hLSs, getD_set_self _ _ _ _ hslot] at hx
          simp at hx
        · rw [hLSs, getD_set_ne _ _ _ _ _ (fun hc => hss hc.symm)] at hx
          exact hInv.good l hl s x hx
      · rw [hLSn l (fun hc => hll hc.symm)] at hx
        exact hInv.good l hl s x hx
    · intro p hp x hx
      rw [hOv] at hp
      exact hInv.goodOv p hp x hx
    · intro id loc h
      rw [hIx] at h
      rcases hInv.idxLoc id loc h with hp | hs
      · simp at hp
      · rcases hs with ⟨ha, hb, hc⟩ | ⟨ha, p, hpmem, x, hxmem, hxid⟩
        · by_cases hll : loc.level = level
          · by_cases hss : loc.slot = slot
            · refine Or.inl ?_
              rw [← hc, hll, hss]
              refine List.mem_map_of_mem (fun e : TimerEntry => e.id) ?_
              rw [hll, hss] at hb
              exact getD_mem default hb
            · refine Or.inr (Or.inl ⟨ha, ?_, ?_⟩)
              · rw [hll, hLSs, getD_set_ne _ _ _ _ _ (fun hc' => hss hc'.symm), ← hll]
                exact hb
              · rw [hll, hLSs, getD_set_ne _ _ _ _ _ (fun hc' => hss hc'.symm), ← hll]
                exact hc
          · refine Or.inr (Or.inl ⟨ha, ?_, ?_⟩)
            · rw [hLSn loc.level (fun hc' => hll hc'.symm)]
              exact hb
            · rw [hLSn loc.level (fun hc' => hll hc'.symm)]
              exact hc
        · refine Or.inr (Or.inr ⟨ha, p, ?_, x, hxmem, hxid⟩)
          rw [hOv]
          exact hpmem
    · intro l hl s i hi
      rw [hIx]
      by_cases hll : l = level
      · subst hll
        by_cases hss : s = slot
        · subst hss
          rw [hLSs, getD_set_self _ _ _ _ hslot] at hi
          simp at hi
        · rw [hLSs, getD_set_ne _ _ _ _ _ (fun hc => hss hc.symm)] at hi ⊢
          exact hInv.idxSlots l hl s i hi
      · rw [hLSn l (fun hc => hll hc.symm)] at hi ⊢
        exact hInv.idxSlots l hl s i hi
    · intro p hp x hx
      rw [hOv] at hp
      rw [hIx]
      exact hInv.idxOv p hp x hx
    · intro x hx
      rw [hEx] at hx
      rw [hIx]
      exact hInv.expNoIdx x hx
    · have hexpe : expiredIds (setLevelSlots w level
          ((levelSlots w level).set slot [])) = expiredIds w := by
        simp only [expiredIds, hEx]
      have hn := hInv.nodup
      rw [show (↑([] : List Nat) : Multiset Nat) = 0 from rfl, add_zero] at hn
      rw [hexpe, hids']
      exact hn
    · rw [hIx]
      exact hInv.idxKeys
    · rw [hOv]
      exact hInv.ovKeys
  have hG' : ∀ l s x, l ≤ 3 →
      GoodAt (resOf l) (slotsOf l)
        (setLevelSlots w level ((levelSlots w level).set slot [])).currentTick s
        (x.expires - (setLevelSlots w level
          ((levelSlots w level).set slot [])).startTime) → G l s x := by
    intro l s x hl hg
    rw [hCt, hSt] at hg
    exact hG l s x hl hg
  have hθ' : θ ≤ (setLevelSlots w level ((levelSlots w level).set slot [])).startTime
      + (setLevelSlots w level ((levelSlots w level).set slot [])).currentTick
      + OVERFLOW_THRESHOLD_MS := by
    rw [hCt, hSt]
    exact hθ
  obtain ⟨cInv, cms, cexp, cct, cst, cni⟩ :=
    cascadeEntries_invG ((levelSlots w level).getD slot [])
      (setLevelSlots w level ((levelSlots w level).set slot [])) hInv' hG' hθ'
  have hfc : ∀ x : TimerEntry,
      (decide (x.expires - w.startTime ≤ w.currentTick))
        = !(decide (w.currentTick < x.expires - w.startTime)) := by
    intro x
    rcases Nat.lt_or_ge w.currentTick (x.expires - w.startTime) with h | h
    · rw [decide_eq_false (by omega), decide_eq_true h]
      rfl
    · rw [decide_eq_true (by omega), decide_eq_false (by omega)]
      rfl
  refine ⟨cInv, ?_, ?_, by rw [cct]; exact hCt, by rw [cst]; exact hSt,
    by rw [cni]; exact hNi⟩
  · rw [cms, hCt, hSt]
    rw [show ((levelSlots w level).getD slot []).filter
          (fun x => decide (x.expires - w.startTime ≤ w.currentTick))
        = ((levelSlots w level).getD slot []).filter
          (fun x => !(decide (w.currentTick < x.expires - w.startTime)))
      from List.filter_congr (fun x _ => hfc x)]
    rw [add_assoc, coe_filter_add_filter_not]
    exact hms'
  · rw [cexp, hCt, hSt, hEx]

/-! ### `check_overflow` -/

theorem overflowMove_none (w : TimingWheel) (k : Nat)
    (h : assocGet k w.overflow = none) : overflowMove w k = w := by
  rw [overflowMove, h]

theorem overflowMove_some (w : TimingWheel) (k : Nat) (es : List TimerEntry)
    (h : assocGet k w.overflow = some es) :
    overflowMove w k
      = cascadeEntries { w with overflow := assocRemove k w.overflow } es := by
  rw [overflowMove, h]

/-- The key-collection fold at the heart of `check_overflow`: moving the
collected buckets neither expires nor drops a timer (their deadlines are
all beyond the current time), and afterwards every remaining overflow
key is at least `current_time + threshold`. -/
theorem checkOverflowFold {G : Nat → Nat → TimerEntry → Prop} {θ : Nat}
    (keys : List Nat) (w : TimingWheel)
    (hInv : InvG w G [] θ)
    (hG : ∀ l s x, l ≤ 3 →
      GoodAt (resOf l) (slotsOf l) w.currentTick s (x.expires - w.startTime) → G l s x)
    (hθ : θ ≤ w.startTime + w.currentTick + OVERFLOW_THRESHOLD_MS)
    (hlive : w.startTime + w.currentTick < θ)
    (hkeys : ∀ p ∈ w.overflow,
      w.startTime + w.currentTick + OVERFLOW_THRESHOLD_MS ≤ p.fst ∨ p.fst ∈ keys) :
    InvG (keys.foldl overflowMove w) G [] θ
    ∧ storedMS (keys.foldl overflowMove w) = storedMS w
    ∧ (keys.foldl overflowMove w).expired = w.expired
    ∧ (keys.foldl overflowMove w).currentTick = w.currentTick
    ∧ (keys.foldl overflowMove w).startTime = w.startTime
    ∧ (keys.foldl overflowMove w).nextId = w.nextId
    ∧ ∀ p ∈ (keys.foldl overflowMove w).overflow,
        w.startTime + w.currentTick + OVERFLOW_THRESHOLD_MS ≤ p.fst := by
  induction keys generalizing w with
  | nil =>
    refine ⟨hInv, rfl, rfl, rfl, rfl, rfl, ?_⟩
    intro p hp
    rcases hkeys p hp with h | h
    · exact h
    · simp at h
  | cons k rest ih =>
    rw [List.foldl_cons]
    rcases hov : assocGet k w.overflow with _ | es
    · rw [overflowMove_none w k hov]
      refine ih w hInv hG hθ hlive ?_
      intro p hp
      rcases hkeys p hp with h | h
      · exact Or.inl h
      · rcases List.mem_cons.mp h with h' | h'
        · exfalso
          have hg : assocGet p.fst w.overflow = some p.snd :=
            assocGet_of_mem_nodup hInv.ovKeys hp
          rw [h', hov] at hg
          simp at hg
        · exact Or.inr h'
    · rw [overflowMove_some w k es hov]
      obtain ⟨rInv, rms⟩ := invG_ovRemove hInv hov
      have hbmem : (k, es) ∈ w.overflow := assocGet_mem hov
      have hdead : ∀ x ∈ es, ¬(x.expires
          - ({ w with overflow := assocRemove k w.overflow } :
              TimingWheel).startTime
          ≤ ({ w with overflow := assocRemove k w.overflow } :
              TimingWheel).currentTick) := by
        intro x hx
        have hgov := hInv.goodOv (k, es) hbmem x hx
        show ¬(x.expires - w.startTime ≤ w.currentTick)
        omega
      have hG1 : ∀ l s x, l ≤ 3 →
          GoodAt (resOf l) (slotsOf l)
            ({ w with overflow := assocRemove k w.overflow } :
              TimingWheel).currentTick s
            (x.expires - ({ w with overflow := assocRemove k w.overflow } :
              TimingWheel).startTime) → G l s x := hG
      have hθ1 : θ ≤ ({ w with overflow := assocRemove k w.overflow } :
          TimingWheel).startTime
          + ({ w with overflow := assocRemove k w.overflow } :
            TimingWheel).currentTick + OVERFLOW_THRESHOLD_MS := hθ
      obtain ⟨cInv, cms, cexp, cct, cst, cni⟩ :=
        cascadeEntries_invG es { w with overflow := assocRemove k w.overflow }
          rInv hG1 hθ1
      have hfl : es.filter (fun x => decide (x.expires
          - ({ w with overflow := assocRemove k w.overflow } :
            TimingWheel).startTime
          ≤ ({ w with overflow := assocRemove k w.overflow } :
            TimingWheel).currentTick)) = [] := by
        rw [List.filter_eq_nil]
        intro x hx
        simpa using hdead x hx
      have hfl2 : es.filter (fun x => decide
          (({ w with overflow := assocRemove k w.overflow } :
            TimingWheel).currentTick < x.expires
            - ({ w with overflow := assocRemove k w.overflow } :
              TimingWheel).startTime)) = es := by
        rw [List.filter_eq_self]
        intro x hx
        have h2 : ¬(x.expires - w.startTime ≤ w.currentTick) := hdead x hx
        simp only [decide_eq_true_eq]
        show w.currentTick < x.expires - w.startTime
        omega
      have hms2 : storedMS (cascadeEntries
          { w with overflow := assocRemove k w.overflow } es) = storedMS w := by
        rw [cms, hfl2]
        exact rms
      have hexp2 : (cascadeEntries
          { w with overflow := assocRemove k w.overflow } es).expired = w.expired := by
        rw [cexp, hfl, List.append_nil]
      have hct2 : (cascadeEntries
          { w with overflow := assocRemove k w.overflow } es).currentTick
          = w.currentTick := cct
      have hst2 : (cascadeEntries
          { w with overflow := assocRemove k w.overflow } es).startTime
          = w.startTime := cst
      have hG2 : ∀ l s x, l ≤ 3 →
          GoodAt (resOf l) (slotsOf l)
            (cascadeEntries { w with overflow := assocRemove k w.overflow } es).currentTick
            s (x.expires - (cascadeEntries
              { w with overflow := assocRemove k w.overflow } es).startTime)
          → G l s x := by
        intro l s x hl hg
        rw [hct2, hst2] at hg
        exact hG l s x hl hg
      have hθ2 : θ ≤ (cascadeEntries
          { w with overflow := assocRemove k w.overflow } es).startTime
          + (cascadeEntries
            { w with overflow := assocRemove k w.overflow } es).currentTick
          + OVERFLOW_THRESHOLD_MS := by
        rw [hct2, hst2]
        exact hθ
      have hlive2 : (cascadeEntries
          { w with overflow := assocRemove k w.overflow } es).startTime
          + (cascadeEntries
            { w with overflow := assocRemove k w.overflow } es).currentTick < θ := by
        rw [hct2, hst2]
        exact hlive
      have hkeys2 : ∀ p ∈ (cascadeEntries
          { w with overflow := assocRemove k w.overflow } es).overflow,
          (cascadeEntries { w with overflow := assocRemove k w.overflow } es).startTime
          + (cascadeEntries
            { w with overflow := assocRemove k w.overflow } es).currentTick
          + OVERFLOW_THRESHOLD_MS ≤ p.fst ∨ p.fst ∈ rest := by
        intro p hp
        rw [hct2, hst2]
        obtain ⟨-, -, -, hkf⟩ :=
          cascadeEntries_proj es { w with overflow := assocRemove k w.overflow }
        rcases hkf p.fst (List.mem_map_of_mem (fun q => q.fst) hp) with hin | hge
        · have hnin : p.fst ≠ k := by
            intro hc
            exact not_mem_keys_assocRemove k w.overflow (hc ▸ hin)
          obtain ⟨q, hq, hqf⟩ := List.mem_map.mp hin
          have hq' : q ∈ w.overflow := assocRemove_subset hq
          rcases hkeys q hq' with h' | h'
          · exact Or.inl (hqf ▸ h')
          · rcases List.mem_cons.mp h' with h'' | h''
            · exact absurd (hqf ▸ h'') hnin
            · exact Or.inr (hqf ▸ h'')
        · exact Or.inl hge
      obtain ⟨fInv, fms, fexp, fct, fst', fni, fbound⟩ :=
        ih (cascadeEntries { w with overflow := assocRemove k w.overflow } es)
          cInv hG2 hθ2 hlive2 hkeys2
      refine ⟨fInv, ?_, ?_, ?_, ?_, ?_, ?_⟩
      · rw [fms, hms2]
      · rw [fexp, hexp2]
      · rw [fct, hct2]
      · rw [fst', hst2]
      · rw [fni, cni]
      · intro p hp
        have := fbound p hp
        rw [hct2, hst2] at this
        exact this

/-- `check_overflow` preserves the invariant, moves no timer in or out of
the stored/expired split, and afterwards every overflow deadline is
beyond `current_time + threshold`. -/
theorem checkOverflow_invG {w : TimingWheel} {G : Nat → Nat → TimerEntry → Prop}
    {θ : Nat} (hInv : InvG w G [] θ)
    (hG : ∀ l s x, l ≤ 3 →
      GoodAt (resOf l) (slotsOf l) w.currentTick s (x.expires - w.startTime) → G l s x)
    (hθ : θ ≤ w.startTime + w.currentTick + OVERFLOW_THRESHOLD_MS)
    (hlive : w.startTime + w.currentTick < θ) :
    InvG (checkOverflow w) G []
      (w.startTime + w.currentTick + OVERFLOW_THRESHOLD_MS)
    ∧ storedMS (checkOverflow w) = storedMS w
    ∧ (checkOverflow w).expired = w.expired
    ∧ (checkOverflow w).currentTick = w.currentTick
    ∧ (checkOverflow w).startTime = w.startTime
    ∧ (checkOverflow w).nextId = w.nextId := by
  rw [checkOverflow]
  have hkeys0 : ∀ p ∈ w.overflow,
      w.startTime + w.currentTick + OVERFLOW_THRESHOLD_MS ≤ p.fst
      ∨ p.fst ∈ ((w.overflow.filter
          (fun p => decide (p.fst ≤ wheelCurrentTime w + OVERFLOW_THRESHOLD_MS))).map
            (fun p => p.fst)) := by
    intro p hp
    by_cases hb : p.fst ≤ wheelCurrentTime w + OVERFLOW_THRESHOLD_MS
    · refine Or.inr (List.mem_map_of_mem
        (fun q : Nat × List TimerEntry => q.fst) ?_)
      exact List.mem_filter.mpr ⟨hp, by simpa using hb⟩
    · refine Or.inl ?_
      have : wheelCurrentTime w = w.startTime + w.currentTick := rfl
      omega
  obtain ⟨fInv, fms, fexp, fct, fst', fni, fbound⟩ :=
    checkOverflowFold ((w.overflow.filter
      (fun p => decide (p.fst ≤ wheelCurrentTime w + OVERFLOW_THRESHOLD_MS))).map
        (fun p => p.fst)) w hInv hG hθ hlive hkeys0
  exact ⟨invG_theta_of_keys fInv fbound, fms, fexp, fct, fst', fni⟩

/-! ### The due slot of a boundary tick stays empty

When `current_tick % resolution = 0` for some level, no `insert_entry`
call at that tick can land a timer in that level's due slot: the slot
formula `(deadline / resolution) mod slots` differs from
`(current_tick / resolution) mod slots` throughout the branch's deadline
band.  This is what lets the wheel's cascades restore the strict slot
invariant after the boundary. -/

theorem insertEntry_dueSlot {v : TimingWheel} (e : TimerEntry) {l : Nat} (hl : l ≤ 3)
    (hdiv : v.currentTick % resOf l = 0)
    (hemp : (levelSlots v l).getD ((v.currentTick / resOf l) % slotsOf l) [] = []) :
    (levelSlots (insertEntry v e) l).getD
      ((v.currentTick / resOf l) % slotsOf l) [] = [] := by
  have c0 : LEVEL_0_SLOTS = 256 := rfl
  have c1 : LEVEL_1_RESOLUTION_MS = 256 := rfl
  have c2 : LEVEL_2_RESOLUTION_MS = 16384 := rfl
  have c3 : LEVEL_3_RESOLUTION_MS = 1048576 := rfl
  have s1 : LEVEL_1_SLOTS = 64 := rfl
  have s2 : LEVEL_2_SLOTS = 64 := rfl
  have s3 : LEVEL_3_SLOTS = 64 := rfl
  rw [insertEntry]
  by_cases hd : e.expires - v.startTime ≤ v.currentTick
  · rw [if_pos hd]
    have hLS : ∀ l', levelSlots { v with expired := v.expired ++ [e] } l'
        = levelSlots v l' := levelSlots_congr rfl rfl rfl rfl
    rw [hLS]
    exact hemp
  rw [if_neg hd]
  by_cases h1 : (e.expires - v.startTime) - v.currentTick < LEVEL_1_RESOLUTION_MS
  · rw [if_pos h1]
    by_cases hll : l = 0
    · subst hll
      rw [insertAtLevel_levelSlots_self v e 0 _ (by omega)]
      have hne : (e.expires - v.startTime) % LEVEL_0_SLOTS
          ≠ (v.currentTick / resOf 0) % slotsOf 0 := by
        rw [c0, show resOf 0 = 1 from rfl, show slotsOf 0 = 256 from rfl, Nat.div_one]
        rw [c1] at h1
        omega
      rw [getD_set_ne _ _ _ _ _ hne]
      exact hemp
    · rw [insertAtLevel_levelSlots_ne v e 0 _ (by omega) (fun hc => hll hc.symm)]
      exact hemp
  rw [if_neg h1]
  by_cases h2 : (e.expires - v.startTime) - v.currentTick < LEVEL_2_RESOLUTION_MS
  · rw [if_pos h2]
    by_cases hll : l = 1
    · subst hll
      rw [insertAtLevel_levelSlots_self v e 1 _ (by omega)]
      have hne : (e.expires - v.startTime) / LEVEL_1_RESOLUTION_MS % LEVEL_1_SLOTS
          ≠ (v.currentTick / resOf 1) % slotsOf 1 := by
        rw [c1, s1, show resOf 1 = 256 from rfl, show slotsOf 1 = 64 from rfl]
        rw [show resOf 1 = 256 from rfl] at hdiv
        rw [c1] at h1
        rw [c2] at h2
        omega
      rw [getD_set_ne _ _ _ _ _ hne]
      exact hemp
    · rw [insertAtLevel_levelSlots_ne v e 1 _ (by omega) (fun hc => hll hc.symm)]
      exact hemp
  rw [if_neg h2]
  by_cases h3 : (e.expires - v.startTime) - v.currentTick < LEVEL_3_RESOLUTION_MS
  · rw [if_pos h3]
    by_cases hll : l = 2
    · subst hll
      rw [insertAtLevel_levelSlots_self v e 2 _ (by omega)]
      have hne : (e.expires - v.startTime) / LEVEL_2_RESOLUTION_MS % LEVEL_2_SLOTS
          ≠ (v.currentTick / resOf 2) % slotsOf 2 := by
        rw [c2, s2, show resOf 2 = 16384 from rfl, show slotsOf 2 = 64 from rfl]
        rw [show resOf 2 = 16384 from rfl] at hdiv
        rw [c2] at h2
        rw [c3] at h3
        omega
      rw [getD_set_ne _ _ _ _ _ hne]
      exact hemp
    · rw [insertAtLevel_levelSlots_ne v e 2 _ (by omega) (fun hc => hll hc.symm)]
      exact hemp
  rw [if_neg h3]
  by_cases h4 : (e.expires - v.startTime) - v.currentTick < OVERFLOW_THRESHOLD_MS
  · rw [if_pos h4]
    by_cases hll : l = 3
    · subst hll
      rw [insertAtLevel_levelSlots_self v e 3 _ (by omega)]
      have hne : (e.expires - v.startTime) / LEVEL_3_RESOLUTION_MS % LEVEL_3_SLOTS
          ≠ (v.currentTick / resOf 3) % slotsOf 3 := by
        rw [c3, s3, show resOf 3 = 1048576 from rfl, show slotsOf 3 = 64 from rfl]
        rw [show resOf 3 = 1048576 from rfl] at hdiv
        rw [c3] at h3
        have c4 : OVERFLOW_THRESHOLD_MS = 67108864 := rfl
        rw [c4] at h4
        omega
      rw [getD_set_ne _ _ _ _ _ hne]
      exact hemp
    · rw [insertAtLevel_levelSlots_ne v e 3 _ (by omega) (fun hc => hll hc.symm)]
      exact hemp
  · rw [if_neg h4]
    have hLS : ∀ l', levelSlots { v with
        overflow := assocSet e.expires
          (((assocGet e.expires v.overflow).getD []) ++ [e]) v.overflow
        index := assocSet e.id
          ⟨255, 0, ((assocGet e.expires v.overflow).getD []).length⟩ v.index } l'
        = levelSlots v l' := levelSlots_congr rfl rfl rfl rfl
    rw [hLS]
    exact hemp

theorem cascadeEntries_dueSlot (es : List TimerEntry) {v : TimingWheel} {l : Nat}
    (hl : l ≤ 3) (hdiv : v.currentTick % resOf l = 0)
    (hemp : (levelSlots v l).getD ((v.currentTick / resOf l) % slotsOf l) [] = []) :
    (levelSlots (cascadeEntries v es) l).getD
      ((v.currentTick / resOf l) % slotsOf l) [] = [] := by
  induction es generalizing v with
  | nil => exact hemp
  | cons e rest ih =>
    rw [cascadeEntries_cons]
    have hLS : ∀ l', levelSlots { v with index := assocRemove e.id v.index } l'
        = levelSlots v l' := levelSlots_congr rfl rfl rfl rfl
    have hemp1 : (levelSlots { v with index := assocRemove e.id v.index } l).getD
        ((({ v with index := assocRemove e.id v.index } : TimingWheel).currentTick
          / resOf l) % slotsOf l) [] = [] := by
      show (levelSlots { v with index := assocRemove e.id v.index } l).getD
        ((v.currentTick / resOf l) % slotsOf l) [] = []
      rw [hLS]
      exact hemp
    have hdiv1 : ({ v with index := assocRemove e.id v.index } :
        TimingWheel).currentTick % resOf l = 0 := hdiv
    have hemp2 := insertEntry_dueSlot e hl hdiv1 hemp1
    obtain ⟨pct, -, -, -⟩ :=
      insertEntry_proj { v with index := assocRemove e.id v.index } e
    have hdiv2 : (insertEntry { v with index := assocRemove e.id v.index } e).currentTick
        % resOf l = 0 := by
      rw [pct]
      exact hdiv
    have hemp2' : (levelSlots (insertEntry
        { v with index := assocRemove e.id v.index } e) l).getD
        (((insertEntry { v with index := assocRemove e.id v.index } e).currentTick
          / resOf l) % slotsOf l) [] = [] := by
      rw [pct]
      exact hemp2
    have := ih hdiv2 hemp2'
    rw [pct] at this
    exact this

theorem overflowMove_currentTick (v : TimingWheel) (k : Nat) :
    (overflowMove v k).currentTick = v.currentTick := by
  rcases h : assocGet k v.overflow with _ | es
  · rw [overflowMove_none v k h]
  · rw [overflowMove_some v k es h]
    exact (cascadeEntries_proj es { v with overflow := assocRemove k v.overflow }).1

theorem overflowMove_dueSlot (k : Nat) {v : TimingWheel} {l : Nat}
    (hl : l ≤ 3) (hdiv : v.currentTick % resOf l = 0)
    (hemp : (levelSlots v l).getD ((v.currentTick / resOf l) % slotsOf l) [] = []) :
    (levelSlots (overflowMove v k) l).getD
      ((v.currentTick / resOf l) % slotsOf l) [] = [] := by
  rcases h : assocGet k v.overflow with _ | es
  · rw [overflowMove_none v k h]
    exact hemp
  · rw [overflowMove_some v k es h]
    have hLS : ∀ l', levelSlots { v with overflow := assocRemove k v.overflow } l'
        = levelSlots v l' := levelSlots_congr rfl rfl rfl rfl
    have hemp1 : (levelSlots { v with overflow := assocRemove k v.overflow } l).getD
        ((({ v with overflow := assocRemove k v.overflow } :
          TimingWheel).currentTick / resOf l) % slotsOf l) [] = [] := by
      show (levelSlots { v with overflow := assocRemove k v.overflow } l).getD
        ((v.currentTick / resOf l) % slotsOf l) [] = []
      rw [hLS]
      exact hemp
    exact cascadeEntries_dueSlot es hl hdiv hemp1

theorem foldOvMove_dueSlot (keys : List Nat) {v : TimingWheel} {l : Nat}
    (hl : l ≤ 3) (hdiv : v.currentTick % resOf l = 0)
    (hemp : (levelSlots v l).getD ((v.currentTick / resOf l) % slotsOf l) [] = []) :
    (levelSlots (keys.foldl overflowMove v) l).getD
      ((v.currentTick / resOf l) % slotsOf l) [] = [] := by
  induction keys generalizing v with
  | nil => exact hemp
  | cons k rest ih =>
    rw [List.foldl_cons]
    have hct := overflowMove_currentTick v k
    have hdiv1 : (overflowMove v k).currentTick % resOf l = 0 := by
      rw [hct]
      exact hdiv
    have hemp1 : (levelSlots (overflowMove v k) l).getD
        (((overflowMove v k).currentTick / resOf l) % slotsOf l) [] = [] := by
      rw [hct]
      exact overflowMove_dueSlot k hl hdiv hemp
    have := ih hdiv1 hemp1
    rw [hct] at this
    exact this

theorem checkOverflow_dueSlot {v : TimingWheel} {l : Nat}
    (hl : l ≤ 3) (hdiv : v.currentTick % resOf l = 0)
    (hemp : (levelSlots v l).getD ((v.currentTick / resOf l) % slotsOf l) [] = []) :
    (levelSlots (checkOverflow v) l).getD
      ((v.currentTick / resOf l) % slotsOf l) [] = [] := by
  rw [checkOverflow]
  exact foldOvMove_dueSlot _ hl hdiv hemp

theorem cascadeSlot_dueSlot {v : TimingWheel} {level slot : Nat}
    (hlev : 1 ≤ level ∧ level ≤ 3) {l : Nat}
    (hl : l ≤ 3) (hdiv : v.currentTick % resOf l = 0)
    (hemp : (levelSlots v l).getD ((v.currentTick / resOf l) % slotsOf l) [] = []) :
    (levelSlots (cascadeSlot v level slot) l).getD
      ((v.currentTick / resOf l) % slotsOf l) [] = [] := by
  rw [cascadeSlot, if_pos hlev]
  have hCt : (setLevelSlots v level ((levelSlots v level).set slot [])).currentTick
      = v.currentTick := setLevelSlots_currentTick v level _
  have hemp1 : (levelSlots (setLevelSlots v level
      ((levelSlots v level).set slot [])) l).getD
      (((setLevelSlots v level ((levelSlots v level).set slot [])).currentTick
        / resOf l) % slotsOf l) [] = [] := by
    rw [hCt]
    by_cases hll : l = level
    · subst hll
      rw [levelSlots_set_self v _ hl]
      by_cases hsl : slot = (v.currentTick / resOf l) % slotsOf l
      · by_cases hin : slot < (levelSlots v l).length
        · rw [← hsl, getD_set_self _ _ _ _ hin]
        · rw [List.set_eq_of_length_le (by omega)]
          exact hemp
      · rw [getD_set_ne _ _ _ _ _ hsl]
        exact hemp
    · rw [levelSlots_set_ne v _ (fun hc => hll hc.symm)]
      exact hemp
  have hdiv1 : (setLevelSlots v level
      ((levelSlots v level).set slot [])).currentTick % resOf l = 0 := by
    rw [hCt]
    exact hdiv
  have := cascadeEntries_dueSlot ((levelSlots v level).getD slot []) hl hdiv1 hemp1
  rw [hCt] at this
  exact this

/-- The slot a due-level cascade just emptied is empty right after the
cascade (re-inserts cannot land in it). -/
theorem cascadeSlot_self_empty {v : TimingWheel} {level : Nat}
    (hlev : 1 ≤ level ∧ level ≤ 3)
    (hdiv : v.currentTick % resOf level = 0)
    (hin : (v.currentTick / resOf level) % slotsOf level < (levelSlots v level).length) :
    (levelSlots (cascadeSlot v level
      ((v.currentTick / resOf level) % slotsOf level)) level).getD
      ((v.currentTick / resOf level) % slotsOf level) [] = [] := by
  rw [cascadeSlot, if_pos hlev]
  have hCt : (setLevelSlots v level ((levelSlots v level).set
      ((v.currentTick / resOf level) % slotsOf level) [])).currentTick
      = v.currentTick := setLevelSlots_currentTick v level _
  have hemp1 : (levelSlots (setLevelSlots v level ((levelSlots v level).set
      ((v.currentTick / resOf level) % slotsOf level) [])) level).getD
      (((setLevelSlots v level ((levelSlots v level).set
        ((v.currentTick / resOf level) % slotsOf level) [])).currentTick
        / resOf level) % slotsOf level) [] = [] := by
    rw [hCt, levelSlots_set_self v _ hlev.2, getD_set_self _ _ _ _ hin]
  have hdiv1 : (setLevelSlots v level ((levelSlots v level).set
      ((v.currentTick / resOf level) % slotsOf level) [])).currentTick
      % resOf level = 0 := by
    rw [hCt]
    exact hdiv
  have := cascadeEntries_dueSlot ((levelSlots v level).getD
    ((v.currentTick / resOf level) % slotsOf level) []) hlev.2 hdiv1 hemp1
  rw [hCt] at this
  exact this

/-! ### Assembling `tick` -/

theorem resOf_pos (l : Nat) : 0 < resOf l := by
  rcases l with _ | _ | _ | l
  · decide
  · decide
  · decide
  · rcases l with _ | l
    · decide
    · show (0 : Nat) < LEVEL_3_RESOLUTION_MS
      decide

theorem slotsOf_pos (l : Nat) : 0 < slotsOf l := by
  rcases l with _ | l
  · decide
  · show (0 : Nat) < LEVEL_1_SLOTS
    decide

theorem tick_eq (w : TimingWheel) : tick w = checkOverflow (tickW5 w) := rfl

/-- Only `current_tick` changes when the clock is bumped; every invariant
clause ignores it (the slot predicate is a parameter). -/
theorem invG_tick_bump {w : TimingWheel} {G : Nat → Nat → TimerEntry → Prop}
    {pend : List Nat} {θ : Nat} (hInv : InvG w G pend θ) (t : Nat) :
    InvG { w with currentTick := t } G pend θ := by
  have hLS : ∀ l', levelSlots { w with currentTick := t } l' = levelSlots w l' :=
    levelSlots_congr rfl rfl rfl rfl
  have hsm : storedMS { w with currentTick := t } = storedMS w :=
    storedMS_congr rfl rfl rfl rfl rfl
  have hsi : storedIds { w with currentTick := t } = storedIds w := by
    simp only [storedIds, hsm]
  refine ⟨?_, ?_, ?_, ?_, ?_, ?_, ?_, ?_, ?_, ?_⟩
  · intro l hl
    rw [hLS]
    exact hInv.lens l hl
  · intro l hl s x hx
    rw [hLS] at hx
    exact hInv.good l hl s x hx
  · exact hInv.goodOv
  · intro id loc h
    rcases hInv.idxLoc id loc h with hp | hs
    · exact Or.inl hp
    · exact Or.inr (locSound_congr rfl rfl rfl rfl rfl hs)
  · intro l hl s i hi
    rw [hLS] at hi ⊢
    exact hInv.idxSlots l hl s i hi
  · exact hInv.idxOv
  · exact hInv.expNoIdx
  · show (storedIds { w with currentTick := t } + ↑pend
      + ↑(expiredIds { w with currentTick := t })).Nodup
    rw [hsi, show expiredIds { w with currentTick := t } = expiredIds w from rfl]
    exact hInv.nodup
  · exact hInv.idxKeys
  · exact hInv.ovKeys

theorem mem_storedMS_cases {w : TimingWheel} {e : TimerEntry} (he : e ∈ storedMS w) :
    (∃ l, l ≤ 3 ∧ ∃ s, e ∈ (levelSlots w l).getD s [])
    ∨ ∃ p ∈ w.overflow, e ∈ p.snd := by
  simp only [storedMS, Multiset.mem_add] at he
  rcases he with (((h0 | h1) | h2) | h3) | hov
  · obtain ⟨sl, hsl, hesl⟩ := mem_levelMS.mp h0
    obtain ⟨i, hi, hval⟩ := List.mem_iff_getElem.mp hsl
    refine Or.inl ⟨0, by omega, i, ?_⟩
    show e ∈ w.slots1ms.getD i []
    rw [List.getD_eq_getElem _ _ hi, hval]
    exact hesl
  · obtain ⟨sl, hsl, hesl⟩ := mem_levelMS.mp h1
    obtain ⟨i, hi, hval⟩ := List.mem_iff_getElem.mp hsl
    refine Or.inl ⟨1, by omega, i, ?_⟩
    show e ∈ w.slots256ms.getD i []
    rw [List.getD_eq_getElem _ _ hi, hval]
    exact hesl
  · obtain ⟨sl, hsl, hesl⟩ := mem_levelMS.mp h2
    obtain ⟨i, hi, hval⟩ := List.mem_iff_getElem.mp hsl
    refine Or.inl ⟨2, by omega, i, ?_⟩
    show e ∈ w.slots16s.getD i []
    rw [List.getD_eq_getElem _ _ hi, hval]
    exact hesl
  · obtain ⟨sl, hsl, hesl⟩ := mem_levelMS.mp h3
    obtain ⟨i, hi, hval⟩ := List.mem_iff_getElem.mp hsl
    refine Or.inl ⟨3, by omega, i, ?_⟩
    show e ∈ w.slots17min.getD i []
    rw [List.getD_eq_getElem _ _ hi, hval]
    exact hesl
  · obtain ⟨p, hp, hep⟩ := mem_overflowFlat.mp hov
    exact Or.inr ⟨p, hp, hep⟩

/-- Under the strict invariant every stored timer is still ahead of the
clock. -/
theorem storedMS_live {v : TimingWheel} {θ : Nat}
    (hInv : InvG v (fun l s e =>
      GoodAt (resOf l) (slotsOf l) v.currentTick s (e.expires - v.startTime)) [] θ)
    (hθ : v.startTime + v.currentTick < θ) :
    ∀ e ∈ storedMS v, v.currentTick < e.expires - v.startTime := by
  intro e he
  rcases mem_storedMS_cases he with ⟨l, hl, s, hmem⟩ | ⟨p, hp, hmem⟩
  · have hg := hInv.good l hl s e hmem
    have := goodAt_le (resOf l) (slotsOf l) v.currentTick s (e.expires - v.startTime) hg
    omega
  · have hgov := hInv.goodOv p hp e hmem
    omega

theorem cascadeSlot_currentTick (v : TimingWheel) (level slot : Nat) :
    (cascadeSlot v level slot).currentTick = v.currentTick := by
  rw [cascadeSlot]
  by_cases h : 1 ≤ level ∧ level ≤ 3
  · rw [if_pos h]
    have h1 := (cascadeEntries_proj ((levelSlots v level).getD slot [])
      (setLevelSlots v level ((levelSlots v level).set slot []))).1
    rw [h1, setLevelSlots_currentTick]
  · rw [if_neg h]

theorem cascadeSlot_startTime (v : TimingWheel) (level slot : Nat) :
    (cascadeSlot v level slot).startTime = v.startTime := by
  rw [cascadeSlot]
  by_cases h : 1 ≤ level ∧ level ≤ 3
  · rw [if_pos h]
    have h1 := (cascadeEntries_proj ((levelSlots v level).getD slot [])
      (setLevelSlots v level ((levelSlots v level).set slot []))).2.1
    rw [h1, setLevelSlots_startTime]
  · rw [if_neg h]

/-- One conditional cascade stage of `tick`, with the drained entries
existentially packaged (empty when the boundary does not fire). -/
theorem condCascade_invG {v : TimingWheel} {G : Nat → Nat → TimerEntry → Prop}
    {θ : Nat} (b : Bool) (level slot : Nat)
    (hInv : InvG v G [] θ)
    (hG : ∀ l s x, l ≤ 3 →
      GoodAt (resOf l) (slotsOf l) v.currentTick s (x.expires - v.startTime) → G l s x)
    (hθ : θ ≤ v.startTime + v.currentTick + OVERFLOW_THRESHOLD_MS)
    (hlev : 1 ≤ level ∧ level ≤ 3)
    (hslot : slot < (levelSlots v level).length) :
    ∃ dead : List TimerEntry,
      InvG (if b then cascadeSlot v level slot else v) G [] θ
      ∧ storedMS (if b then cascadeSlot v level slot else v) + ↑dead = storedMS v
      ∧ (if b then cascadeSlot v level slot else v).expired = v.expired ++ dead
      ∧ (∀ x ∈ dead, x.expires - v.startTime ≤ v.currentTick)
      ∧ (if b then cascadeSlot v level slot else v).currentTick = v.currentTick
      ∧ (if b then cascadeSlot v level slot else v).startTime = v.startTime
      ∧ (if b then cascadeSlot v level slot else v).nextId = v.nextId := by
  cases b
  · refine ⟨[], hInv, ?_, ?_, ?_, rfl, rfl, rfl⟩
    · show storedMS v + ↑([] : List TimerEntry) = storedMS v
      rw [show (↑([] : List TimerEntry) : Multiset TimerEntry) = 0 from rfl, add_zero]
    · show v.expired = v.expired ++ []
      rw [List.append_nil]
    · intro x hx
      exact absurd hx (List.not_mem_nil x)
  · obtain ⟨cInv, cms, cexp, cct, cst, cni⟩ := cascadeSlot_invG hInv hG hθ hlev hslot
    refine ⟨((levelSlots v level).getD slot []).filter
      (fun x => decide (x.expires - v.startTime ≤ v.currentTick)), cInv, cms, cexp,
      ?_, cct, cst, cni⟩
    intro x hx
    have := List.of_mem_filter hx
    simpa using this

/-- One `tick` keeps the quiescent invariant, moves exactly the stored
timers whose relative deadline has been reached to the expired queue,
and leaves the base time and the id counter intact. -/
theorem tick_inv {w : TimingWheel} (hInv : Inv w) :
    Inv (tick w)
    ∧ storedMS (tick w) = (storedMS w).filter
        (fun e => w.currentTick + 1 < e.expires - w.startTime)
    ∧ (↑(tick w).expired : Multiset TimerEntry) = ↑w.expired
        + (storedMS w).filter (fun e => e.expires - w.startTime ≤ w.currentTick + 1)
    ∧ (tick w).currentTick = w.currentTick + 1
    ∧ (tick w).startTime = w.startTime
    ∧ (tick w).nextId = w.nextId := by
  have hInvG : InvG w (GoodW w) []
      (w.startTime + w.currentTick + OVERFLOW_THRESHOLD_MS) := hInv
  have cOV : OVERFLOW_THRESHOLD_MS = 67108864 := rfl
  -- stage 1: bump the clock, weaken the slot predicate
  have hI1 : InvG (tickW1 w) (GoodW w) []
      (w.startTime + w.currentTick + OVERFLOW_THRESHOLD_MS) :=
    invG_tick_bump hInvG (w.currentTick + 1)
  have hI1m : InvG (tickW1 w) (Gmid (w.currentTick + 1) w.startTime) []
      (w.startTime + w.currentTick + OVERFLOW_THRESHOLD_MS) := by
    refine invG_mono hI1 ?_
    intro l hl s e hmem hg
    by_cases hdue : Due (w.currentTick + 1) l s
    · exact Or.inr ⟨hdue, goodAt_due (resOf_pos l) (slotsOf_pos l) hg hdue.1 hdue.2⟩
    · exact Or.inl (goodAt_step (resOf_pos l) hg hdue)
  -- stage 2: expire the level-0 slot
  have hLen0 : (w.currentTick + 1) % LEVEL_0_SLOTS < (tickW1 w).slots1ms.length := by
    have h := hI1m.lens 0 (by omega)
    rw [if_pos rfl] at h
    show (w.currentTick + 1) % LEVEL_0_SLOTS < (levelSlots (tickW1 w) 0).length
    rw [h, show LEVEL_0_SLOTS = 256 from rfl]
    exact Nat.mod_lt _ (by omega)
  obtain ⟨hI2', hms2', hexp2', hct2', hst2', hni2', hov2', hemp2', hne2', hLSo2'⟩ :=
    expireSlot_invG ((w.currentTick + 1) % LEVEL_0_SLOTS) hI1m hLen0
  have I2 : InvG (tickW2 w) (Gmid (w.currentTick + 1) w.startTime) []
      (w.startTime + w.currentTick + OVERFLOW_THRESHOLD_MS) := hI2'
  have ms2 : storedMS (tickW2 w)
      + ↑(w.slots1ms.getD ((w.currentTick + 1) % LEVEL_0_SLOTS) [])
      = storedMS (tickW1 w) := hms2'
  have msW1 : storedMS (tickW1 w) = storedMS w := storedMS_congr rfl rfl rfl rfl rfl
  have exp2 : (tickW2 w).expired
      = w.expired ++ w.slots1ms.getD ((w.currentTick + 1) % LEVEL_0_SLOTS) [] := hexp2'
  have ct2 : (tickW2 w).currentTick = w.currentTick + 1 := hct2'
  have st2 : (tickW2 w).startTime = w.startTime := hst2'
  have ni2 : (tickW2 w).nextId = w.nextId := hni2'
  -- the drained entries are exactly due now
  have hees : ∀ x ∈ w.slots1ms.getD ((w.currentTick + 1) % LEVEL_0_SLOTS) [],
      x.expires - w.startTime = w.currentTick + 1 := by
    intro x hx
    have hg : GoodAt (resOf 0) (slotsOf 0) w.currentTick
        ((w.currentTick + 1) % LEVEL_0_SLOTS) (x.expires - w.startTime) :=
      hInvG.good 0 (by omega) _ x hx
    obtain ⟨ha, hb, hc⟩ := hg
    have ha' : (w.currentTick + 1) % 256 = (x.expires - w.startTime) / 1 % 256 := ha
    have hb' : w.currentTick < 1 * ((x.expires - w.startTime) / 1) := hb
    have hc' : (x.expires - w.startTime) / 1 ≤ w.currentTick / 1 + 256 := hc
    rw [Nat.div_one] at ha' hb' hc'
    rw [Nat.one_mul] at hb'
    rw [Nat.div_one] at hc'
    omega
  -- stage 3: the level-1 cascade (conditional)
  have hLen1 : ((w.currentTick + 1) / LEVEL_1_RESOLUTION_MS) % LEVEL_1_SLOTS
      < (levelSlots (tickW2 w) 1).length := by
    have h := I2.lens 1 (by omega)
    rw [if_neg (by omega)] at h
    rw [h, show LEVEL_1_SLOTS = 64 from rfl]
    exact Nat.mod_lt _ (by omega)
  have hG2 : ∀ l s x, l ≤ 3 → GoodAt (resOf l) (slotsOf l) (tickW2 w).currentTick s
      (x.expires - (tickW2 w).startTime)
      → Gmid (w.currentTick + 1) w.startTime l s x := by
    intro l s x hl hg
    rw [ct2, st2] at hg
    exact Or.inl hg
  have hθ2 : w.startTime + w.currentTick + OVERFLOW_THRESHOLD_MS
      ≤ (tickW2 w).startTime + (tickW2 w).currentTick + OVERFLOW_THRESHOLD_MS := by
    rw [ct2, st2]
    omega
  obtain ⟨dead3, I3x, ms3x, exp3x, hdead3x, ct3x, st3x, ni3x⟩ :=
    condCascade_invG ((w.currentTick + 1) % LEVEL_1_RESOLUTION_MS == 0) 1
      (((w.currentTick + 1) / LEVEL_1_RESOLUTION_MS) % LEVEL_1_SLOTS) I2 hG2 hθ2
      (by omega) hLen1
  have I3 : InvG (tickW3 w) (Gmid (w.currentTick + 1) w.startTime) []
      (w.startTime + w.currentTick + OVERFLOW_THRESHOLD_MS) := I3x
  have ms3 : storedMS (tickW3 w) + ↑dead3 = storedMS (tickW2 w) := ms3x
  have exp3 : (tickW3 w).expired = (tickW2 w).expired ++ dead3 := exp3x
  have ct3 : (tickW3 w).currentTick = w.currentTick + 1 := by
    have h : (tickW3 w).currentTick = (tickW2 w).currentTick := ct3x
    rw [h, ct2]
  have st3 : (tickW3 w).startTime = w.startTime := by
    have h : (tickW3 w).startTime = (tickW2 w).startTime := st3x
    rw [h, st2]
  have ni3 : (tickW3 w).nextId = w.nextId := by
    have h : (tickW3 w).nextId = (tickW2 w).nextId := ni3x
    rw [h, ni2]
  have dead3' : ∀ x ∈ dead3, x.expires - w.startTime ≤ w.currentTick + 1 := by
    intro x hx
    have h := hdead3x x hx
    rw [ct2, st2] at h
    omega
  -- stage 4: the level-2 cascade (conditional)
  have hLen2 : ((w.currentTick + 1) / LEVEL_2_RESOLUTION_MS) % LEVEL_2_SLOTS
      < (levelSlots (tickW3 w) 2).length := by
    have h := I3.lens 2 (by omega)
    rw [if_neg (by omega)] at h
    rw [h, show LEVEL_2_SLOTS = 64 from rfl]
    exact Nat.mod_lt _ (by omega)
  have hG3 : ∀ l s x, l ≤ 3 → GoodAt (resOf l) (slotsOf l) (tickW3 w).currentTick s
      (x.expires - (tickW3 w).startTime)
      → Gmid (w.currentTick + 1) w.startTime l s x := by
    intro l s x hl hg
    rw [ct3, st3] at hg
    exact Or.inl hg
  have hθ3 : w.startTime + w.currentTick + OVERFLOW_THRESHOLD_MS
      ≤ (tickW3 w).startTime + (tickW3 w).currentTick + OVERFLOW_THRESHOLD_MS := by
    rw [ct3, st3]
    omega
  obtain ⟨dead4, I4x, ms4x, exp4x, hdead4x, ct4x, st4x, ni4x⟩ :=
    condCascade_invG ((w.currentTick + 1) % LEVEL_2_RESOLUTION_MS == 0) 2
      (((w.currentTick + 1) / LEVEL_2_RESOLUTION_MS) % LEVEL_2_SLOTS) I3 hG3 hθ3
      (by omega) hLen2
  have I4 : InvG (tickW4 w) (Gmid (w.currentTick + 1) w.startTime) []
      (w.startTime + w.currentTick + OVERFLOW_THRESHOLD_MS) := I4x
  have ms4 : storedMS (tickW4 w) + ↑dead4 = storedMS (tickW3 w) := ms4x
  have exp4 : (tickW4 w).expired = (tickW3 w).expired ++ dead4 := exp4x
  have ct4 : (tickW4 w).currentTick = w.currentTick + 1 := by
    have h : (tickW4 w).currentTick = (tickW3 w).currentTick := ct4x
    rw [h, ct3]
  have st4 : (tickW4 w).startTime = w.startTime := by
    have h : (tickW4 w).startTime = (tickW3 w).startTime := st4x
    rw [h, st3]
  have ni4 : (tickW4 w).nextId = w.nextId := by
    have h : (tickW4 w).nextId = (tickW3 w).nextId := ni4x
    rw [h, ni3]
  have dead4' : ∀ x ∈ dead4, x.expires - w.startTime ≤ w.currentTick + 1 := by
    intro x hx
    have h := hdead4x x hx
    rw [ct3, st3] at h
    omega
  -- stage 5: the level-3 cascade (conditional)
  have hLen3 : ((w.currentTick + 1) / LEVEL_3_RESOLUTION_MS) % LEVEL_3_SLOTS
      < (levelSlots (tickW4 w) 3).length := by
    have h := I4.lens 3 (by omega)
    rw [if_neg (by omega)] at h
    rw [h, show LEVEL_3_SLOTS = 64 from rfl]
    exact Nat.mod_lt _ (by omega)
  have hG4 : ∀ l s x, l ≤ 3 → GoodAt (resOf l) (slotsOf l) (tickW4 w).currentTick s
      (x.expires - (tickW4 w).startTime)
      → Gmid (w.currentTick + 1) w.startTime l s x := by
    intro l s x hl hg
    rw [ct4, st4] at hg
    exact Or.inl hg
  have hθ4 : w.startTime + w.currentTick + OVERFLOW_THRESHOLD_MS
      ≤ (tickW4 w).startTime + (tickW4 w).currentTick + OVERFLOW_THRESHOLD_MS := by
    rw [ct4, st4]
    omega
  obtain ⟨dead5, I5x, ms5x, exp5x, hdead5x, ct5x, st5x, ni5x⟩ :=
    condCascade_invG ((w.currentTick + 1) % LEVEL_3_RESOLUTION_MS == 0) 3
      (((w.currentTick + 1) / LEVEL_3_RESOLUTION_MS) % LEVEL_3_SLOTS) I4 hG4 hθ4
      (by omega) hLen3
  have I5 : InvG (tickW5 w) (Gmid (w.currentTick + 1) w.startTime) []
      (w.startTime + w.currentTick + OVERFLOW_THRESHOLD_MS) := I5x
  have ms5 : storedMS (tickW5 w) + ↑dead5 = storedMS (tickW4 w) := ms5x
  have exp5 : (tickW5 w).expired = (tickW4 w).expired ++ dead5 := exp5x
  have ct5 : (tickW5 w).currentTick = w.currentTick + 1 := by
    have h : (tickW5 w).currentTick = (tickW4 w).currentTick := ct5x
    rw [h, ct4]
  have st5 : (tickW5 w).startTime = w.startTime := by
    have h : (tickW5 w).startTime = (tickW4 w).startTime := st5x
    rw [h, st4]
  have ni5 : (tickW5 w).nextId = w.nextId := by
    have h : (tickW5 w).nextId = (tickW4 w).nextId := ni5x
    rw [h, ni4]
  have dead5' : ∀ x ∈ dead5, x.expires - w.startTime ≤ w.currentTick + 1 := by
    intro x hx
    have h := hdead5x x hx
    rw [ct4, st4] at h
    omega
  -- the overflow sweep
  have hG5 : ∀ l s x, l ≤ 3 → GoodAt (resOf l) (slotsOf l) (tickW5 w).currentTick s
      (x.expires - (tickW5 w).startTime)
      → Gmid (w.currentTick + 1) w.startTime l s x := by
    intro l s x hl hg
    rw [ct5, st5] at hg
    exact Or.inl hg
  have hθ5 : w.startTime + w.currentTick + OVERFLOW_THRESHOLD_MS
      ≤ (tickW5 w).startTime + (tickW5 w).currentTick + OVERFLOW_THRESHOLD_MS := by
    rw [ct5, st5]
    omega
  have hlive5 : (tickW5 w).startTime + (tickW5 w).currentTick
      < w.startTime + w.currentTick + OVERFLOW_THRESHOLD_MS := by
    rw [ct5, st5, cOV]
    omega
  obtain ⟨IFx, msFx, expFx, ctFx, stFx, niFx⟩ := checkOverflow_invG I5 hG5 hθ5 hlive5
  have IF : InvG (tick w) (Gmid (w.currentTick + 1) w.startTime) []
      ((tickW5 w).startTime + (tickW5 w).currentTick + OVERFLOW_THRESHOLD_MS) := IFx
  have msF : storedMS (tick w) = storedMS (tickW5 w) := msFx
  have expF : (tick w).expired = (tickW5 w).expired := expFx
  have ctF : (tick w).currentTick = w.currentTick + 1 := by
    have h : (tick w).currentTick = (tickW5 w).currentTick := ctFx
    rw [h, ct5]
  have stF : (tick w).startTime = w.startTime := by
    have h : (tick w).startTime = (tickW5 w).startTime := stFx
    rw [h, st5]
  have niF : (tick w).nextId = w.nextId := by
    have h : (tick w).nextId = (tickW5 w).nextId := niFx
    rw [h, ni5]
  have IFθ : InvG (tick w) (Gmid (w.currentTick + 1) w.startTime) []
      (w.startTime + (w.currentTick + 1) + OVERFLOW_THRESHOLD_MS) := by
    have hθeq : (tickW5 w).startTime + (tickW5 w).currentTick + OVERFLOW_THRESHOLD_MS
        = w.startTime + (w.currentTick + 1) + OVERFLOW_THRESHOLD_MS := by
      rw [ct5, st5]
    rw [← hθeq]
    exact IF
  -- emptiness of every due slot in the final state
  have hctif : ∀ (u : TimingWheel) (b : Bool) (lev sl : Nat),
      (if b then cascadeSlot u lev sl else u).currentTick = u.currentTick := by
    intro u b lev sl
    cases b
    · rfl
    · exact cascadeSlot_currentTick u lev sl
  have htrans : ∀ (u : TimingWheel) (b : Bool) (lev sl : Nat),
      1 ≤ lev ∧ lev ≤ 3 → ∀ l, l ≤ 3 → u.currentTick % resOf l = 0 →
      (levelSlots u l).getD ((u.currentTick / resOf l) % slotsOf l) [] = [] →
      (levelSlots (if b then cascadeSlot u lev sl else u) l).getD
        ((u.currentTick / resOf l) % slotsOf l) [] = [] := by
    intro u b lev sl hlev l hl hdiv hemp
    cases b
    · exact hemp
    · exact cascadeSlot_dueSlot hlev hl hdiv hemp
  -- transport from stage 3 onwards
  have htrans3 : ∀ l, l ≤ 3 → (w.currentTick + 1) % resOf l = 0 →
      (levelSlots (tickW3 w) l).getD
        (((w.currentTick + 1) / resOf l) % slotsOf l) [] = [] →
      (levelSlots (tick w) l).getD
        (((w.currentTick + 1) / resOf l) % slotsOf l) [] = [] := by
    intro l hl hdiv hemp
    have hdiv3 : (tickW3 w).currentTick % resOf l = 0 := by
      rw [ct3]
      exact hdiv
    have hemp3 : (levelSlots (tickW3 w) l).getD
        (((tickW3 w).currentTick / resOf l) % slotsOf l) [] = [] := by
      rw [ct3]
      exact hemp
    have e4 := htrans (tickW3 w) ((w.currentTick + 1) % LEVEL_2_RESOLUTION_MS == 0) 2
      (((w.currentTick + 1) / LEVEL_2_RESOLUTION_MS) % LEVEL_2_SLOTS)
      (by omega) l hl hdiv3 hemp3
    have e4' : (levelSlots (tickW4 w) l).getD
        (((w.currentTick + 1) / resOf l) % slotsOf l) [] = [] := by
      have h : (levelSlots (tickW4 w) l).getD
          (((tickW3 w).currentTick / resOf l) % slotsOf l) [] = [] := e4
      rw [ct3] at h
      exact h
    have hdiv4 : (tickW4 w).currentTick % resOf l = 0 := by
      rw [ct4]
      exact hdiv
    have hemp4 : (levelSlots (tickW4 w) l).getD
        (((tickW4 w).currentTick / resOf l) % slotsOf l) [] = [] := by
      rw [ct4]
      exact e4'
    have e5 := htrans (tickW4 w) ((w.currentTick + 1) % LEVEL_3_RESOLUTION_MS == 0) 3
      (((w.currentTick + 1) / LEVEL_3_RESOLUTION_MS) % LEVEL_3_SLOTS)
      (by omega) l hl hdiv4 hemp4
    have e5' : (levelSlots (tickW5 w) l).getD
        (((w.currentTick + 1) / resOf l) % slotsOf l) [] = [] := by
      have h : (levelSlots (tickW5 w) l).getD
          (((tickW4 w).currentTick / resOf l) % slotsOf l) [] = [] := e5
      rw [ct4] at h
      exact h
    have hdiv5 : (tickW5 w).currentTick % resOf l = 0 := by
      rw [ct5]
      exact hdiv
    have hemp5 : (levelSlots (tickW5 w) l).getD
        (((tickW5 w).currentTick / resOf l) % slotsOf l) [] = [] := by
      rw [ct5]
      exact e5'
    have ef := checkOverflow_dueSlot hl hdiv5 hemp5
    have ef' : (levelSlots (tick w) l).getD
        (((tickW5 w).currentTick / resOf l) % slotsOf l) [] = [] := ef
    rw [ct5] at ef'
    exact ef'
  have fact0 : (levelSlots (tick w) 0).getD
      (((w.currentTick + 1) / resOf 0) % slotsOf 0) [] = [] := by
    refine htrans3 0 (by omega) (by rw [show resOf 0 = 1 from rfl, Nat.mod_one]) ?_
    -- source: the expired slot of stage 2, transported through stage 3
    have hemp0 : (levelSlots (tickW2 w) 0).getD
        (((w.currentTick + 1) / resOf 0) % slotsOf 0) [] = [] := by
      have hsl : ((w.currentTick + 1) / resOf 0) % slotsOf 0
          = (w.currentTick + 1) % LEVEL_0_SLOTS := by
        rw [show resOf 0 = 1 from rfl, Nat.div_one]
        rfl
      rw [hsl]
      exact hemp2'
    have hdiv2 : (tickW2 w).currentTick % resOf 0 = 0 := by
      rw [show resOf 0 = 1 from rfl, Nat.mod_one]
    have hemp2c : (levelSlots (tickW2 w) 0).getD
        (((tickW2 w).currentTick / resOf 0) % slotsOf 0) [] = [] := by
      rw [ct2]
      exact hemp0
    have e3 := htrans (tickW2 w) ((w.currentTick + 1) % LEVEL_1_RESOLUTION_MS == 0) 1
      (((w.currentTick + 1) / LEVEL_1_RESOLUTION_MS) % LEVEL_1_SLOTS)
      (by omega) 0 (by omega) hdiv2 hemp2c
    have e3' : (levelSlots (tickW3 w) 0).getD
        (((tickW2 w).currentTick / resOf 0) % slotsOf 0) [] = [] := e3
    rw [ct2] at e3'
    exact e3'
  have fact1 : (w.currentTick + 1) % LEVEL_1_RESOLUTION_MS = 0 →
      (levelSlots (tick w) 1).getD
        (((w.currentTick + 1) / resOf 1) % slotsOf 1) [] = [] := by
    intro hb1
    refine htrans3 1 (by omega)
      (by rw [show resOf 1 = LEVEL_1_RESOLUTION_MS from rfl]; exact hb1) ?_
    have hb1' : ((w.currentTick + 1) % LEVEL_1_RESOLUTION_MS == 0) = true := by
      rw [beq_iff_eq]
      exact hb1
    have h3eq : tickW3 w = cascadeSlot (tickW2 w) 1
        (((w.currentTick + 1) / LEVEL_1_RESOLUTION_MS) % LEVEL_1_SLOTS) := by
      rw [tickW3, if_pos hb1']
    have hdiv2 : (tickW2 w).currentTick % resOf 1 = 0 := by
      rw [ct2, show resOf 1 = LEVEL_1_RESOLUTION_MS from rfl]
      exact hb1
    have hin2 : ((tickW2 w).currentTick / resOf 1) % slotsOf 1
        < (levelSlots (tickW2 w) 1).length := by
      rw [ct2]
      exact hLen1
    have hse : (levelSlots (cascadeSlot (tickW2 w) 1
        (((tickW2 w).currentTick / resOf 1) % slotsOf 1)) 1).getD
        (((tickW2 w).currentTick / resOf 1) % slotsOf 1) [] = [] :=
      cascadeSlot_self_empty (by omega) hdiv2 hin2
    rw [ct2] at hse
    rw [h3eq]
    have hargs : ((w.currentTick + 1) / resOf 1) % slotsOf 1
        = ((w.currentTick + 1) / LEVEL_1_RESOLUTION_MS) % LEVEL_1_SLOTS := rfl
    rw [hargs] at hse ⊢
    exact hse
  have fact2 : (w.currentTick + 1) % LEVEL_2_RESOLUTION_MS = 0 →
      (levelSlots (tick w) 2).getD
        (((w.currentTick + 1) / resOf 2) % slotsOf 2) [] = [] := by
    intro hb2
    -- source at stage 4, transported through stage 5 and the sweep
    have hb2' : ((w.currentTick + 1) % LEVEL_2_RESOLUTION_MS == 0) = true := by
      rw [beq_iff_eq]
      exact hb2
    have h4eq : tickW4 w = cascadeSlot (tickW3 w) 2
        (((w.currentTick + 1) / LEVEL_2_RESOLUTION_MS) % LEVEL_2_SLOTS) := by
      rw [tickW4, if_pos hb2']
    have hdiv3 : (tickW3 w).currentTick % resOf 2 = 0 := by
      rw [ct3, show resOf 2 = LEVEL_2_RESOLUTION_MS from rfl]
      exact hb2
    have hin3 : ((tickW3 w).currentTick / resOf 2) % slotsOf 2
        < (levelSlots (tickW3 w) 2).length := by
      rw [ct3]
      exact hLen2
    have hse : (levelSlots (cascadeSlot (tickW3 w) 2
        (((tickW3 w).currentTick / resOf 2) % slotsOf 2)) 2).getD
        (((tickW3 w).currentTick / resOf 2) % slotsOf 2) [] = [] :=
      cascadeSlot_self_empty (by omega) hdiv3 hin3
    rw [ct3] at hse
    have hargs : ((w.currentTick + 1) / resOf 2) % slotsOf 2
        = ((w.currentTick + 1) / LEVEL_2_RESOLUTION_MS) % LEVEL_2_SLOTS := rfl
    have hsrc : (levelSlots (tickW4 w) 2).getD
        (((w.currentTick + 1) / resOf 2) % slotsOf 2) [] = [] := by
      rw [h4eq, hargs]
      rw [hargs] at hse
      exact hse
    -- transport through stage 5
    have hdiv4 : (tickW4 w).currentTick % resOf 2 = 0 := by
      rw [ct4, show resOf 2 = LEVEL_2_RESOLUTION_MS from rfl]
      exact hb2
    have hemp4 : (levelSlots (tickW4 w) 2).getD
        (((tickW4 w).currentTick / resOf 2) % slotsOf 2) [] = [] := by
      rw [ct4]
      exact hsrc
    have e5 := htrans (tickW4 w) ((w.currentTick + 1) % LEVEL_3_RESOLUTION_MS == 0) 3
      (((w.currentTick + 1) / LEVEL_3_RESOLUTION_MS) % LEVEL_3_SLOTS)
      (by omega) 2 (by omega) hdiv4 hemp4
    have e5' : (levelSlots (tickW5 w) 2).getD
        (((tickW4 w).currentTick / resOf 2) % slotsOf 2) [] = [] := e5
    rw [ct4] at e5'
    have hdiv5 : (tickW5 w).currentTick % resOf 2 = 0 := by
      rw [ct5, show resOf 2 = LEVEL_2_RESOLUTION_MS from rfl]
      exact hb2
    have hemp5 : (levelSlots (tickW5 w) 2).getD
        (((tickW5 w).currentTick / resOf 2) % slotsOf 2) [] = [] := by
      rw [ct5]
      exact e5'
    have ef := checkOverflow_dueSlot (by omega) hdiv5 hemp5
    have ef' : (levelSlots (tick w) 2).getD
        (((tickW5 w).currentTick / resOf 2) % slotsOf 2) [] = [] := ef
    rw [ct5] at ef'
    exact ef'
  have fact3 : (w.currentTick + 1) % LEVEL_3_RESOLUTION_MS = 0 →
      (levelSlots (tick w) 3).getD
        (((w.currentTick + 1) / resOf 3) % slotsOf 3) [] = [] := by
    intro hb3
    have hb3' : ((w.currentTick + 1) % LEVEL_3_RESOLUTION_MS == 0) = true := by
      rw [beq_iff_eq]
      exact hb3
    have h5eq : tickW5 w = cascadeSlot (tickW4 w) 3
        (((w.currentTick + 1) / LEVEL_3_RESOLUTION_MS) % LEVEL_3_SLOTS) := by
      rw [tickW5, if_pos hb3']
    have hdiv4 : (tickW4 w).currentTick % resOf 3 = 0 := by
      rw [ct4, show resOf 3 = LEVEL_3_RESOLUTION_MS from rfl]
      exact hb3
    have hin4 : ((tickW4 w).currentTick / resOf 3) % slotsOf 3
        < (levelSlots (tickW4 w) 3).length := by
      rw [ct4]
      exact hLen3
    have hse : (levelSlots (cascadeSlot (tickW4 w) 3
        (((tickW4 w).currentTick / resOf 3) % slotsOf 3)) 3).getD
        (((tickW4 w).currentTick / resOf 3) % slotsOf 3) [] = [] :=
      cascadeSlot_self_empty (by omega) hdiv4 hin4
    rw [ct4] at hse
    have hargs : ((w.currentTick + 1) / resOf 3) % slotsOf 3
        = ((w.currentTick + 1) / LEVEL_3_RESOLUTION_MS) % LEVEL_3_SLOTS := rfl
    have hsrc : (levelSlots (tickW5 w) 3).getD
        (((w.currentTick + 1) / resOf 3) % slotsOf 3) [] = [] := by
      rw [h5eq, hargs]
      rw [hargs] at hse
      exact hse
    have hdiv5 : (tickW5 w).currentTick % resOf 3 = 0 := by
      rw [ct5, show resOf 3 = LEVEL_3_RESOLUTION_MS from rfl]
      exact hb3
    have hemp5 : (levelSlots (tickW5 w) 3).getD
        (((tickW5 w).currentTick / resOf 3) % slotsOf 3) [] = [] := by
      rw [ct5]
      exact hsrc
    have ef := checkOverflow_dueSlot (by omega) hdiv5 hemp5
    have ef' : (levelSlots (tick w) 3).getD
        (((tickW5 w).currentTick / resOf 3) % slotsOf 3) [] = [] := ef
    rw [ct5] at ef'
    exact ef'
  have hempAll : ∀ l, l ≤ 3 → (w.currentTick + 1) % resOf l = 0 →
      (levelSlots (tick w) l).getD
        (((w.currentTick + 1) / resOf l) % slotsOf l) [] = [] := by
    intro l hl hdiv
    interval_cases l
    · exact fact0
    · refine fact1 ?_
      rw [show LEVEL_1_RESOLUTION_MS = resOf 1 from rfl]
      exact hdiv
    · refine fact2 ?_
      rw [show LEVEL_2_RESOLUTION_MS = resOf 2 from rfl]
      exact hdiv
    · refine fact3 ?_
      rw [show LEVEL_3_RESOLUTION_MS = resOf 3 from rfl]
      exact hdiv
  -- strictify the invariant at the new tick
  have IF2 : InvG (tick w) (fun l s e =>
      GoodAt (resOf l) (slotsOf l) (w.currentTick + 1) s (e.expires - w.startTime)) []
      (w.startTime + (w.currentTick + 1) + OVERFLOW_THRESHOLD_MS) := by
    refine invG_mono IFθ ?_
    intro l hl s e hmem hg
    rcases hg with hg | ⟨⟨hdiv, hslot⟩, -⟩
    · exact hg
    · exfalso
      have hempty := hempAll l hl hdiv
      rw [hslot] at hempty
      rw [hempty] at hmem
      simp at hmem
  -- the final invariant
  have hFinal : Inv (tick w) := by
    show InvG (tick w) (GoodW (tick w)) []
      ((tick w).startTime + (tick w).currentTick + OVERFLOW_THRESHOLD_MS)
    have IF3 : InvG (tick w) (fun l s e =>
        GoodAt (resOf l) (slotsOf l) (w.currentTick + 1) s (e.expires - w.startTime)) []
        ((tick w).startTime + (tick w).currentTick + OVERFLOW_THRESHOLD_MS) := by
      rw [ctF, stF]
      exact IF2
    refine invG_mono IF3 ?_
    intro l hl s e hmem hg
    show GoodAt (resOf l) (slotsOf l) (tick w).currentTick s
      (e.expires - (tick w).startTime)
    rw [ctF, stF]
    exact hg
  -- conservation of the stored/expired split
  have cons : storedMS w = storedMS (tick w)
      + (↑(w.slots1ms.getD ((w.currentTick + 1) % LEVEL_0_SLOTS) [])
        + ↑dead3 + ↑dead4 + ↑dead5) := by
    calc storedMS w = storedMS (tickW1 w) := msW1.symm
      _ = storedMS (tickW2 w)
          + ↑(w.slots1ms.getD ((w.currentTick + 1) % LEVEL_0_SLOTS) []) := ms2.symm
      _ = (storedMS (tickW3 w) + ↑dead3)
          + ↑(w.slots1ms.getD ((w.currentTick + 1) % LEVEL_0_SLOTS) []) := by
        rw [ms3]
      _ = ((storedMS (tickW4 w) + ↑dead4) + ↑dead3)
          + ↑(w.slots1ms.getD ((w.currentTick + 1) % LEVEL_0_SLOTS) []) := by
        rw [ms4]
      _ = (((storedMS (tickW5 w) + ↑dead5) + ↑dead4) + ↑dead3)
          + ↑(w.slots1ms.getD ((w.currentTick + 1) % LEVEL_0_SLOTS) []) := by
        rw [ms5]
      _ = storedMS (tick w)
          + (↑(w.slots1ms.getD ((w.currentTick + 1) % LEVEL_0_SLOTS) [])
            + ↑dead3 + ↑dead4 + ↑dead5) := by
        rw [← msF]
        abel
  have hliveF : ∀ e ∈ storedMS (tick w),
      w.currentTick + 1 < e.expires - w.startTime := by
    have IFv : InvG (tick w) (fun l s e =>
        GoodAt (resOf l) (slotsOf l) (tick w).currentTick s
          (e.expires - (tick w).startTime)) []
        (w.startTime + (w.currentTick + 1) + OVERFLOW_THRESHOLD_MS) := by
      refine invG_mono IF2 ?_
      intro l hl s e hmem hg
      rw [ctF, stF]
      exact hg
    have hθv : (tick w).startTime + (tick w).currentTick
        < w.startTime + (w.currentTick + 1) + OVERFLOW_THRESHOLD_MS := by
      rw [ctF, stF, cOV]
      omega
    intro e he
    have h := storedMS_live IFv hθv e he
    rw [ctF, stF] at h
    exact h
  have hdeadAll : ∀ x ∈ (↑(w.slots1ms.getD ((w.currentTick + 1) % LEVEL_0_SLOTS) [])
      + ↑dead3 + ↑dead4 + ↑dead5 : Multiset TimerEntry),
      x.expires - w.startTime ≤ w.currentTick + 1 := by
    intro x hx
    rcases Multiset.mem_add.mp hx with hx' | hx'
    · rcases Multiset.mem_add.mp hx' with hx'' | hx''
      · rcases Multiset.mem_add.mp hx'' with h1 | h2
        · have := hees x (Multiset.mem_coe.mp h1)
          omega
        · exact dead3' x (Multiset.mem_coe.mp h2)
      · exact dead4' x (Multiset.mem_coe.mp hx'')
    · exact dead5' x (Multiset.mem_coe.mp hx')
  have hfilter1 : storedMS (tick w) = (storedMS w).filter
      (fun e => w.currentTick + 1 < e.expires - w.startTime) :=
    ms_filter_of_partition _ cons hliveF
      (fun e he => by have := hdeadAll e he; omega)
  have hfilter2 : (↑(w.slots1ms.getD ((w.currentTick + 1) % LEVEL_0_SLOTS) [])
      + ↑dead3 + ↑dead4 + ↑dead5 : Multiset TimerEntry)
      = (storedMS w).filter (fun e => e.expires - w.startTime ≤ w.currentTick + 1) :=
    ms_filter_of_partition _ (by rw [cons]; exact add_comm _ _) hdeadAll
      (fun e he => by have := hliveF e he; omega)
  have hexpFinal : (↑(tick w).expired : Multiset TimerEntry) = ↑w.expired
      + (storedMS w).filter (fun e => e.expires - w.startTime ≤ w.currentTick + 1) := by
    rw [← hfilter2]
    have hlist : (tick w).expired
        = (((w.expired ++ w.slots1ms.getD ((w.currentTick + 1) % LEVEL_0_SLOTS) [])
          ++ dead3) ++ dead4) ++ dead5 := by
      rw [expF, exp5, exp4, exp3, exp2]
    rw [hlist]
    have hcoe : (↑((((w.expired
          ++ w.slots1ms.getD ((w.currentTick + 1) % LEVEL_0_SLOTS) [])
          ++ dead3) ++ dead4) ++ dead5) : Multiset TimerEntry)
        = ↑w.expired + ↑(w.slots1ms.getD ((w.currentTick + 1) % LEVEL_0_SLOTS) [])
          + ↑dead3 + ↑dead4 + ↑dead5 := rfl
    rw [hcoe]
    abel
  exact ⟨hFinal, hfilter1, hexpFinal, ctF, stF, niF⟩

/-! ### `advance_to` -/

/-- All stored timers of an invariant-respecting wheel are strictly
ahead of the clock. -/
theorem inv_stored_live {w : TimingWheel} (hInv : Inv w) :
    ∀ e ∈ storedMS w, w.currentTick < e.expires - w.startTime := by
  have hInvG : InvG w (GoodW w) []
      (w.startTime + w.currentTick + OVERFLOW_THRESHOLD_MS) := hInv
  have hI : InvG w (fun l s e =>
      GoodAt (resOf l) (slotsOf l) w.currentTick s (e.expires - w.startTime)) []
      (w.startTime + w.currentTick + OVERFLOW_THRESHOLD_MS) := hInvG
  exact storedMS_live hI (by
    rw [show OVERFLOW_THRESHOLD_MS = 67108864 from rfl]
    omega)

theorem advanceLoop_inv {w : TimingWheel} (n : Nat) (hInv : Inv w) :
    Inv (advanceLoop w n)
    ∧ storedMS (advanceLoop w n) = (storedMS w).filter
        (fun e => w.currentTick + n < e.expires - w.startTime)
    ∧ (↑(advanceLoop w n).expired : Multiset TimerEntry) = ↑w.expired
        + (storedMS w).filter (fun e => e.expires - w.startTime ≤ w.currentTick + n)
    ∧ (advanceLoop w n).currentTick = w.currentTick + n
    ∧ (advanceLoop w n).startTime = w.startTime
    ∧ (advanceLoop w n).nextId = w.nextId := by
  induction n generalizing w with
  | zero =>
    have hlive := inv_stored_live hInv
    refine ⟨hInv, ?_, ?_, rfl, rfl, rfl⟩
    · refine (Multiset.filter_eq_self.mpr ?_).symm
      intro e he
      have := hlive e he
      omega
    · have h0 : (storedMS w).filter (fun e =>
          e.expires - w.startTime ≤ w.currentTick + 0) = 0 := by
        refine Multiset.filter_eq_nil.mpr ?_
        intro e he
        have := hlive e he
        omega
      show (↑w.expired : Multiset TimerEntry) = ↑w.expired
        + (storedMS w).filter (fun e => e.expires - w.startTime ≤ w.currentTick + 0)
      rw [h0, add_zero]
  | succ n ih =>
    obtain ⟨tInv, tms, texp, tct, tst, tni⟩ := tick_inv hInv
    obtain ⟨aInv, ams, aexp, act, ast, ani⟩ := ih tInv
    have hstep : advanceLoop w (n + 1) = advanceLoop (tick w) n := rfl
    rw [hstep]
    refine ⟨aInv, ?_, ?_, ?_, ?_, ?_⟩
    · rw [ams, tct, tst, tms, Multiset.filter_filter]
      refine Multiset.filter_congr ?_
      intro e he
      constructor
      · intro h
        omega
      · intro h
        omega
    · rw [aexp, tct, tst, tms, texp, Multiset.filter_filter, add_assoc]
      rw [Multiset.filter_add_filter]
      have h1 : (storedMS w).filter (fun e =>
          e.expires - w.startTime ≤ w.currentTick + 1
          ∨ e.expires - w.startTime ≤ w.currentTick + 1 + n
            ∧ w.currentTick + 1 < e.expires - w.startTime)
          = (storedMS w).filter (fun e =>
            e.expires - w.startTime ≤ w.currentTick + (n + 1)) := by
        refine Multiset.filter_congr ?_
        intro e he
        constructor
        · intro h
          rcases h with h | h
          · omega
          · omega
        · intro h
          by_cases hc : e.expires - w.startTime ≤ w.currentTick + 1
          · exact Or.inl hc
          · exact Or.inr ⟨by omega, by omega⟩
      have h2 : (storedMS w).filter (fun e =>
          (e.expires - w.startTime ≤ w.currentTick + 1)
          ∧ e.expires - w.startTime ≤ w.currentTick + 1 + n
            ∧ w.currentTick + 1 < e.expires - w.startTime) = 0 := by
        refine Multiset.filter_eq_nil.mpr ?_
        intro e he
        intro hc
        omega
      rw [h1, h2, add_zero]
    · rw [act, tct]
      omega
    · rw [ast, tst]
    · rw [ani, tni]

theorem advanceTo_inv {w : TimingWheel} (now : Nat) (hInv : Inv w)
    (h1 : w.startTime + w.currentTick ≤ now) :
    Inv (advanceTo w now)
    ∧ storedMS (advanceTo w now) = (storedMS w).filter
        (fun e => now - w.startTime < e.expires - w.startTime)
    ∧ (↑(advanceTo w now).expired : Multiset TimerEntry) = ↑w.expired
        + (storedMS w).filter (fun e => e.expires - w.startTime ≤ now - w.startTime)
    ∧ (advanceTo w now).currentTick = now - w.startTime
    ∧ (advanceTo w now).startTime = w.startTime
    ∧ (advanceTo w now).nextId = w.nextId := by
  rw [advanceTo]
  by_cases hle : now ≤ w.startTime
  · rw [if_pos hle]
    have hc0 : w.currentTick = 0 := by omega
    have hns : now - w.startTime = 0 := by omega
    have hlive := inv_stored_live hInv
    refine ⟨hInv, ?_, ?_, by omega, rfl, rfl⟩
    · rw [hns]
      refine (Multiset.filter_eq_self.mpr ?_).symm
      intro e he
      have := hlive e he
      omega
    · rw [hns, Multiset.filter_eq_nil.mpr ?_, add_zero]
      intro e he
      have := hlive e he
      omega
  · rw [if_neg hle]
    have hct : w.currentTick ≤ now - w.startTime := by omega
    obtain ⟨aInv, ams, aexp, act, ast, ani⟩ :=
      advanceLoop_inv ((now - w.startTime) - w.currentTick) hInv
    have hctv : (advanceLoop w ((now - w.startTime) - w.currentTick)).currentTick
        = now - w.startTime := by
      rw [act]
      omega
    have haInvG : InvG (advanceLoop w ((now - w.startTime) - w.currentTick))
        (GoodW (advanceLoop w ((now - w.startTime) - w.currentTick))) []
        ((advanceLoop w ((now - w.startTime) - w.currentTick)).startTime
          + (advanceLoop w ((now - w.startTime) - w.currentTick)).currentTick
          + OVERFLOW_THRESHOLD_MS) := aInv
    obtain ⟨cInv, cms, cexp, cct, cst, cni⟩ :=
      checkOverflow_invG haInvG (fun l s x hl hg => hg) (Nat.le_refl _)
        (by rw [show OVERFLOW_THRESHOLD_MS = 67108864 from rfl]; omega)
    have hfinal : Inv (checkOverflow (advanceLoop w
        ((now - w.startTime) - w.currentTick))) := by
      show InvG _ (GoodW (checkOverflow (advanceLoop w
        ((now - w.startTime) - w.currentTick)))) [] _
      have hG : ∀ l s e,
          GoodW (advanceLoop w ((now - w.startTime) - w.currentTick)) l s e
          → GoodW (checkOverflow (advanceLoop w
              ((now - w.startTime) - w.currentTick))) l s e := by
        intro l s e hg
        show GoodAt (resOf l) (slotsOf l)
          (checkOverflow (advanceLoop w
            ((now - w.startTime) - w.currentTick))).currentTick s
          (e.expires - (checkOverflow (advanceLoop w
            ((now - w.startTime) - w.currentTick))).startTime)
        rw [cct, cst]
        exact hg
      have hθeq : (advanceLoop w ((now - w.startTime) - w.currentTick)).startTime
          + (advanceLoop w ((now - w.startTime) - w.currentTick)).currentTick
          + OVERFLOW_THRESHOLD_MS
          = (checkOverflow (advanceLoop w
              ((now - w.startTime) - w.currentTick))).startTime
            + (checkOverflow (advanceLoop w
              ((now - w.startTime) - w.currentTick))).currentTick
            + OVERFLOW_THRESHOLD_MS := by
        rw [cct, cst]
      rw [← hθeq]
      exact invG_mono cInv (fun l hl s e hmem => hG l s e)
    refine ⟨hfinal, ?_, ?_, ?_, ?_, ?_⟩
    · rw [cms, ams]
      refine Multiset.filter_congr ?_
      intro e he
      constructor
      · intro h
        omega
      · intro h
        omega
    · rw [show ((checkOverflow (advanceLoop w
          ((now - w.startTime) - w.currentTick))).expired : List TimerEntry)
          = (advanceLoop w ((now - w.startTime) - w.currentTick)).expired
        from cexp, aexp]
      have : (storedMS w).filter (fun e => e.expires - w.startTime
            ≤ w.currentTick + ((now - w.startTime) - w.currentTick))
          = (storedMS w).filter (fun e =>
            e.expires - w.startTime ≤ now - w.startTime) := by
        refine Multiset.filter_congr ?_
        intro e he
        omega
      rw [this]
    · rw [cct, act]
      omega
    · rw [cst, ast]
    · rw [cni, ani]

/-! ### The fresh wheel satisfies the invariant -/

theorem replicate_getD_nil (n s : Nat) :
    (List.replicate n ([] : List TimerEntry)).getD s [] = [] := by
  by_cases h : s < n
  · rw [List.getD_eq_getElem _ _ (by simpa using h), List.getElem_replicate]
  · rw [List.getD_eq_default]
    simpa using h

theorem levelMS_replicate_nil (n : Nat) :
    levelMS (List.replicate n ([] : List TimerEntry)) = 0 := by
  induction n with
  | zero => rfl
  | succ m ih =>
    rw [List.replicate_succ, levelMS_cons, ih,
      show (↑([] : List TimerEntry) : Multiset TimerEntry) = 0 from rfl, add_zero]

theorem storedMS_wheelNewAt (start : Nat) : storedMS (wheelNewAt start) = 0 := by
  show levelMS (List.replicate LEVEL_0_SLOTS []) + levelMS (List.replicate LEVEL_1_SLOTS [])
    + levelMS (List.replicate LEVEL_2_SLOTS []) + levelMS (List.replicate LEVEL_3_SLOTS [])
    + overflowFlat [] = 0
  rw [levelMS_replicate_nil, levelMS_replicate_nil, levelMS_replicate_nil,
    levelMS_replicate_nil]
  rfl

theorem inv_wheelNewAt (start : Nat) : Inv (wheelNewAt start) := by
  show InvG (wheelNewAt start) (GoodW (wheelNewAt start)) [] _
  have hLS : ∀ l, l ≤ 3 → levelSlots (wheelNewAt start) l
      = List.replicate (if l = 0 then 256 else 64) [] := by
    intro l hl
    interval_cases l
    · rfl
    · rfl
    · rfl
    · rfl
  refine ⟨?_, ?_, ?_, ?_, ?_, ?_, ?_, ?_, ?_, ?_⟩
  · intro l hl
    rw [hLS l hl, List.length_replicate]
  · intro l hl s x hx
    rw [hLS l hl, replicate_getD_nil] at hx
    exact absurd hx (List.not_mem_nil x)
  · intro p hp
    exact absurd hp (List.not_mem_nil p)
  · intro id loc h
    have h' : assocGet id ([] : List (Nat × TimerLocation)) = some loc := h
    simp [assocGet] at h'
  · intro l hl s i hi
    rw [hLS l hl, replicate_getD_nil] at hi
    simp at hi
  · intro p hp
    exact absurd hp (List.not_mem_nil p)
  · intro x hx
    exact absurd hx (List.not_mem_nil x)
  · rw [show storedIds (wheelNewAt start) = 0 from by
      simp only [storedIds, storedMS_wheelNewAt start, Multiset.map_zero]]
    show ((0 : Multiset Nat) + ↑([] : List Nat) + ↑([] : List Nat)).Nodup
    decide
  · show (([] : List (Nat × TimerLocation)).map (fun p => p.fst)).Nodup
    decide
  · show (([] : List (Nat × List TimerEntry)).map (fun p => p.fst)).Nodup
    decide

/-! ### The index size equals the stored count -/

theorem index_length_inv {w : TimingWheel} {G : Nat → Nat → TimerEntry → Prop}
    {θ : Nat} (hInv : InvG w G [] θ) :
    w.index.length = Multiset.card (storedMS w) := by
  have hnodupS : (storedIds w).Nodup := by
    have h := hInv.nodup
    rw [Multiset.nodup_add] at h
    rw [Multiset.nodup_add] at h
    exact h.1.1
  have hmem : ∀ k, k ∈ (↑(w.index.map (fun p => p.fst)) : Multiset Nat)
      ↔ k ∈ storedIds w := by
    intro k
    rw [Multiset.mem_coe]
    constructor
    · intro hk
      have hsome := assocGet_isSome_iff.mpr hk
      obtain ⟨loc, hloc⟩ := Option.isSome_iff_exists.mp hsome
      rcases hInv.idxLoc k loc hloc with hp | hs
      · simp at hp
      · exact mem_storedIds_of_locSound hs
    · intro hk
      obtain ⟨e, he, heid⟩ := Multiset.mem_map.mp hk
      rcases mem_storedMS_cases he with ⟨l, hl, s, hmem'⟩ | ⟨p, hp, hmem'⟩
      · obtain ⟨i, hi, hval⟩ := List.mem_iff_getElem.mp hmem'
        have hgd : ((levelSlots w l).getD s []).getD i default = e := by
          rw [List.getD_eq_getElem _ _ hi]
          exact hval
        have h2 := hInv.idxSlots l hl s i hi
        rw [hgd, heid] at h2
        exact assocGet_isSome_iff.mp (by rw [h2]; rfl)
      · obtain ⟨i, h2⟩ := hInv.idxOv p hp e hmem'
        rw [heid] at h2
        exact assocGet_isSome_iff.mp (by rw [h2]; rfl)
  have hkeys : (↑(w.index.map (fun p => p.fst)) : Multiset Nat) = storedIds w :=
    (Multiset.Nodup.ext (by exact hInv.idxKeys) hnodupS).mpr hmem
  have h3 := congrArg Multiset.card hkeys
  rw [Multiset.coe_card, List.length_map] at h3
  rw [h3, storedIds, Multiset.card_map]

/-! ### Support lemmas for removal -/

theorem findIdx?_spec [Inhabited α] {p : α → Bool} {l : List α} {i : Nat}
    (h : l.findIdx? p = some i) : i < l.length ∧ p (l.getD i default) = true := by
  obtain ⟨hlt, hp, _⟩ := List.findIdx?_eq_some_iff_getElem.mp h
  refine ⟨hlt, ?_⟩
  rw [List.getD_eq_getElem _ _ hlt]
  exact hp

theorem getD_dropLast {l : List α} {i : Nat} (d : α) (h : i < l.length - 1) :
    l.dropLast.getD i d = l.getD i d := by
  have h1 : i < l.dropLast.length := by
    rw [List.length_dropLast]
    exact h
  have h2 : i < l.length := by omega
  rw [List.getD_eq_getElem _ _ h1, List.getD_eq_getElem _ _ h2, List.getElem_dropLast]

theorem getD_swapRemove_ne {l : List α} {pos i : Nat} (d : α)
    (hi : i < l.length - 1) (hne : i ≠ pos) :
    (swapRemove l pos).getD i d = l.getD i d := by
  have hne' : l ≠ [] := by
    intro hc
    rw [hc] at hi
    simp at hi
  rw [swapRemove_eq l pos hne']
  rw [getD_dropLast d (by rw [List.length_set]; exact hi)]
  exact getD_set_ne _ _ _ _ _ (fun hc => hne hc.symm)

theorem getD_swapRemove_self {l : List α} {pos : Nat} (d : α)
    (hpos : pos < l.length - 1) :
    (swapRemove l pos).getD pos d = l.getD (l.length - 1) d := by
  have hne' : l ≠ [] := by
    intro hc
    rw [hc] at hpos
    simp at hpos
  rw [swapRemove_eq l pos hne']
  rw [getD_dropLast d (by rw [List.length_set]; exact hpos)]
  rw [getD_set_self _ _ _ _ (by omega)]
  rw [List.getD_eq_getElem _ _ (by omega)]
  rw [List.getLast_eq_getElem]

theorem mem_of_swapRemove {l : List α} {i : Nat} {x : α}
    (h : x ∈ swapRemove l i) : x ∈ l := by
  rcases hl : l.getLast? with _ | last
  · rw [swapRemove, hl] at h
    exact h
  · have hne : l ≠ [] := by
      intro hc
      rw [hc] at hl
      simp at hl
    rw [swapRemove, hl] at h
    have h1 : x ∈ l.set i last := (List.dropLast_sublist _).subset h
    rcases List.mem_or_eq_of_mem_set h1 with h2 | h2
    · exact h2
    · rw [h2]
      rw [List.getLast?_eq_getLast l hne] at hl
      rw [← Option.some.inj hl]
      exact List.getLast_mem hne

theorem mem_swapRemove_of_ne {l : List α} {pos : Nat} {x : α} (d : α)
    (hpos : pos < l.length) (hx : x ∈ l) (hne : x ≠ l.getD pos d) :
    x ∈ swapRemove l pos := by
  have hms := swapRemove_coe_ms d hpos
  have hx' : x ∈ (↑(swapRemove l pos) : Multiset α) + {l.getD pos d} := by
    rw [hms]
    exact Multiset.mem_coe.mpr hx
  rcases Multiset.mem_add.mp hx' with h | h
  · exact Multiset.mem_coe.mp h
  · exact absurd (Multiset.mem_singleton.mp h) hne

/-! ### `remove_from_overflow` -/

theorem keys_overflowRemoveFirst (id : Nat) (ov : List (Nat × List TimerEntry)) :
    (overflowRemoveFirst id ov).map (fun p => p.fst) = ov.map (fun p => p.fst) := by
  induction ov with
  | nil => rfl
  | cons p rest ih =>
    obtain ⟨k, es⟩ := p
    rw [overflowRemoveFirst]
    rcases h : es.findIdx? (fun e => e.id == id) with _ | pos
    all_goals rw [h]
    · rw [List.map_cons, List.map_cons, ih]
    · rfl

/-- Either the id is absent from the overflow (no change), or exactly one
entry carrying it is taken out of the flattened multiset. -/
theorem overflowRemoveFirst_cases (id : Nat) (ov : List (Nat × List TimerEntry)) :
    (overflowRemoveFirst id ov = ov ∧ ∀ e ∈ overflowFlat ov, e.id ≠ id)
    ∨ ∃ x, x.id = id
        ∧ overflowFlat (overflowRemoveFirst id ov) + {x} = overflowFlat ov := by
  induction ov with
  | nil =>
    refine Or.inl ⟨rfl, ?_⟩
    intro e he
    simp [overflowFlat] at he
  | cons p rest ih =>
    obtain ⟨k, es⟩ := p
    rw [overflowRemoveFirst]
    rcases h : es.findIdx? (fun e => e.id == id) with _ | pos
    all_goals rw [h]
    · rcases ih with ⟨heq, hno⟩ | ⟨x, hx, hflat⟩
      · refine Or.inl ⟨by rw [heq], ?_⟩
        intro e he
        rw [ovFlat_cons] at he
        rcases Multiset.mem_add.mp he with he' | he'
        · have hmem := Multiset.mem_coe.mp he'
          have := List.findIdx?_eq_none_iff.mp h e hmem
          simpa using this
        · exact hno e he'
      · refine Or.inr ⟨x, hx, ?_⟩
        rw [ovFlat_cons (k, es), ovFlat_cons (k, es), add_assoc, hflat]
    · obtain ⟨hpos, hp⟩ := findIdx?_spec h
      refine Or.inr ⟨es.getD pos default, by simpa using hp, ?_⟩
      rw [ovFlat_cons (k, swapRemove es pos), ovFlat_cons (k, es)]
      have hsw := swapRemove_coe_ms (default : TimerEntry) hpos
      show (↑(swapRemove es pos) : Multiset TimerEntry) + overflowFlat rest
        + {es.getD pos default} = ↑es + overflowFlat rest
      rw [add_right_comm, hsw]

/-- Every bucket of the result is a (key-preserving) sub-bucket of the
original map. -/
theorem overflowRemoveFirst_subset (id : Nat) (ov : List (Nat × List TimerEntry)) :
    ∀ p ∈ overflowRemoveFirst id ov, ∃ q ∈ ov, p.fst = q.fst
      ∧ ∀ e ∈ p.snd, e ∈ q.snd := by
  induction ov with
  | nil =>
    intro p hp
    simp [overflowRemoveFirst] at hp
  | cons q rest ih =>
    obtain ⟨k, es⟩ := q
    intro p hp
    rw [overflowRemoveFirst] at hp
    rcases h : es.findIdx? (fun e => e.id == id) with _ | pos
    · rw [h] at hp
      rcases List.mem_cons.mp hp with rfl | hp'
      · exact ⟨(k, es), List.mem_cons_self _ _, rfl, fun e he => he⟩
      · obtain ⟨q', hq', hfst, hsub⟩ := ih p hp'
        exact ⟨q', List.mem_cons_of_mem _ hq', hfst, hsub⟩
    · rw [h] at hp
      rcases List.mem_cons.mp hp with rfl | hp'
      · exact ⟨(k, es), List.mem_cons_self _ _, rfl,
          fun e he => mem_of_swapRemove he⟩
      · exact ⟨p, List.mem_cons_of_mem _ hp', rfl, fun e he => he⟩

/-- Conversely, every original entry whose id differs survives in the
bucket with the same key. -/
theorem overflowRemoveFirst_super (id : Nat) (ov : List (Nat × List TimerEntry)) :
    ∀ q ∈ ov, ∃ p ∈ overflowRemoveFirst id ov, p.fst = q.fst
      ∧ ∀ e ∈ q.snd, e.id ≠ id → e ∈ p.snd := by
  induction ov with
  | nil =>
    intro q hq
    simp at hq
  | cons q0 rest ih =>
    obtain ⟨k, es⟩ := q0
    intro q hq
    rw [overflowRemoveFirst]
    rcases h : es.findIdx? (fun e => e.id == id) with _ | pos
    · rw [h]
      rcases List.mem_cons.mp hq with rfl | hq'
      · exact ⟨(k, es), List.mem_cons_self _ _, rfl, fun e he _ => he⟩
      · obtain ⟨p, hp, hfst, hsup⟩ := ih q hq'
        exact ⟨p, List.mem_cons_of_mem _ hp, hfst, hsup⟩
    · rw [h]
      obtain ⟨hpos, hp⟩ := findIdx?_spec h
      rcases List.mem_cons.mp hq with rfl | hq'
      · refine ⟨(k, swapRemove es pos), List.mem_cons_self _ _, rfl, ?_⟩
        intro e he hne
        refine mem_swapRemove_of_ne default hpos he ?_
        intro hc
        rw [hc] at hne
        exact hne (by simpa using hp)
      · exact ⟨q, List.mem_cons_of_mem _ hq', rfl, fun e he _ => he⟩

theorem not_mem_of_nodup_add_singleton {s : Multiset α} {a : α}
    (h : (s + {a}).Nodup) : a ∉ s := by
  rw [Multiset.nodup_add] at h
  exact fun hc => Multiset.disjoint_left.mp h.2.2 hc (Multiset.mem_singleton_self a)

/-- Every stored id has an index record. -/
theorem storedIds_has_index {w : TimingWheel} {G : Nat → Nat → TimerEntry → Prop}
    {pend : List Nat} {θ : Nat} (hInv : InvG w G pend θ) {id : Nat}
    (h : id ∈ storedIds w) : (assocGet id w.index).isSome = true := by
  obtain ⟨e, he, rfl⟩ := Multiset.mem_map.mp h
  rcases mem_storedMS_cases he with ⟨l, hl, s, hmem⟩ | ⟨p, hp, hmem⟩
  · obtain ⟨i, hi, hval⟩ := List.mem_iff_getElem.mp hmem
    have hrec := hInv.idxSlots l hl s i hi
    rw [List.getD_eq_getElem _ _ hi, hval] at hrec
    rw [hrec]
    rfl
  · obtain ⟨i, hrec⟩ := hInv.idxOv p hp e hmem
    rw [hrec]
    rfl

/-- The two halves of the id-uniqueness part of the invariant. -/
theorem inv_nodup_split {w : TimingWheel} (hInv : Inv w) :
    (storedIds w).Nodup ∧ (↑(expiredIds w) : Multiset Nat).Nodup
      ∧ Disjoint (storedIds w) ↑(expiredIds w) := by
  have hnd : (storedIds w + ↑(expiredIds w)).Nodup := by
    have h0 := hInv.nodup
    simpa using h0
  exact Multiset.nodup_add.mp hnd

/-- `TimingWheel::remove`, expired-queue branch: the id has no index
record but sits in the expired queue. -/
theorem wheelRemove_inv_expired {w : TimingWheel} (hInv : Inv w) {id : Nat} {pos : Nat}
    (hix : assocGet id w.index = none)
    (hfi : w.expired.findIdx? (fun e => e.id == id) = some pos) :
    Inv (wheelRemove w id).snd ∧ (wheelRemove w id).fst = true
    ∧ storedMS (wheelRemove w id).snd = (storedMS w).filter (fun e => e.id ≠ id)
    ∧ (↑(wheelRemove w id).snd.expired : Multiset TimerEntry)
        = (↑w.expired : Multiset TimerEntry).filter (fun e => e.id ≠ id)
    ∧ (wheelRemove w id).snd.currentTick = w.currentTick
    ∧ (wheelRemove w id).snd.startTime = w.startTime
    ∧ (wheelRemove w id).snd.nextId = w.nextId := by
  have hred : wheelRemove w id
      = (true, { w with expired := swapRemove w.expired pos }) := by
    simp only [wheelRemove, hix, hfi]
  obtain ⟨hpos, hp⟩ := findIdx?_spec hfi
  have hpid : (w.expired.getD pos default).id = id := by simpa using hp
  have hms : (↑(swapRemove w.expired pos) : Multiset TimerEntry)
      + {w.expired.getD pos default} = ↑w.expired := swapRemove_coe_ms default hpos
  have hids : Multiset.map (fun e : TimerEntry => e.id) ↑(swapRemove w.expired pos)
      + {id} = ↑(expiredIds w) := by
    have h1 := congrArg (Multiset.map (fun e : TimerEntry => e.id)) hms
    rw [Multiset.map_add, Multiset.map_singleton, hpid] at h1
    exact h1
  obtain ⟨hndS, hndE, hdisj⟩ := inv_nodup_split hInv
  have hidS : id ∉ storedIds w := by
    intro hc
    have h1 := storedIds_has_index hInv hc
    rw [hix] at h1
    simp at h1
  have hidE' : id ∉ Multiset.map (fun e : TimerEntry => e.id)
      ↑(swapRemove w.expired pos) := by
    refine not_mem_of_nodup_add_singleton ?_
    rw [hids]
    exact hndE
  have hLS : ∀ l, levelSlots { w with expired := swapRemove w.expired pos } l
      = levelSlots w l := levelSlots_congr rfl rfl rfl rfl
  have hSMS : storedMS { w with expired := swapRemove w.expired pos } = storedMS w :=
    storedMS_congr rfl rfl rfl rfl rfl
  refine ⟨?_, ?_, ?_, ?_, ?_, ?_, ?_⟩
  · rw [hred]
    show Inv { w with expired := swapRemove w.expired pos }
    refine { lens := ?_, good := ?_, goodOv := ?_, idxLoc := ?_, idxSlots := ?_,
             idxOv := ?_, expNoIdx := ?_, nodup := ?_, idxKeys := ?_, ovKeys := ?_ }
    · intro l hl
      rw [hLS l]
      exact hInv.lens l hl
    · intro l hl s e he
      rw [hLS l] at he
      exact hInv.good l hl s e he
    · exact hInv.goodOv
    · intro id' loc' h
      rcases hInv.idxLoc id' loc' h with h' | h'
      · exact Or.inl h'
      · exact Or.inr (locSound_congr rfl rfl rfl rfl rfl h')
    · intro l hl s i hi
      rw [hLS l] at hi ⊢
      exact hInv.idxSlots l hl s i hi
    · exact hInv.idxOv
    · intro e he
      exact hInv.expNoIdx e (mem_of_swapRemove he)
    · show (storedIds { w with expired := swapRemove w.expired pos }
        + ↑([] : List Nat)
        + ↑(expiredIds { w with expired := swapRemove w.expired pos })).Nodup
      have h1 : storedIds { w with expired := swapRemove w.expired pos }
          = storedIds w := by rw [storedIds, hSMS, storedIds]
      have h2 : (↑(expiredIds { w with expired := swapRemove w.expired pos })
          : Multiset Nat)
          = Multiset.map (fun e : TimerEntry => e.id) ↑(swapRemove w.expired pos) := rfl
      rw [h1, h2]
      have hle : storedIds w + ↑([] : List Nat)
          + Multiset.map (fun e : TimerEntry => e.id) ↑(swapRemove w.expired pos)
          ≤ storedIds w + ↑([] : List Nat) + ↑(expiredIds w) := by
        refine add_le_add_left ?_ _
        rw [← hids]
        exact Multiset.le_add_right _ _
      exact Multiset.nodup_of_le hle (by simpa using hInv.nodup)
    · exact hInv.idxKeys
    · exact hInv.ovKeys
  · rw [hred]
  · rw [hred]
    show storedMS { w with expired := swapRemove w.expired pos }
      = (storedMS w).filter (fun e => e.id ≠ id)
    rw [hSMS]
    rw [Multiset.filter_eq_self.mpr]
    intro e he
    intro hc
    exact hidS (hc ▸ Multiset.mem_map_of_mem (fun e : TimerEntry => e.id) he)
  · rw [hred]
    show (↑(swapRemove w.expired pos) : Multiset TimerEntry)
      = (↑w.expired : Multiset TimerEntry).filter (fun e => e.id ≠ id)
    refine ms_filter_of_partition _ hms.symm ?_ ?_
    · intro a ha
      intro hc
      exact hidE' (hc ▸ Multiset.mem_map_of_mem (fun e : TimerEntry => e.id) ha)
    · intro e he
      rw [Multiset.mem_singleton.mp he]
      intro hc
      exact hc hpid
  · rw [hred]
  · rw [hred]
  · rw [hred]

/-- `TimingWheel::remove`, overflow branch: the index record carries the
sentinel level 255, so the entry is scanned out of the overflow map. -/
theorem wheelRemove_inv_overflow {w : TimingWheel} (hInv : Inv w) {id : Nat}
    {loc : TimerLocation} (hix : assocGet id w.index = some loc)
    (h255 : loc.level = 255) :
    Inv (wheelRemove w id).snd ∧ (wheelRemove w id).fst = true
    ∧ storedMS (wheelRemove w id).snd = (storedMS w).filter (fun e => e.id ≠ id)
    ∧ (↑(wheelRemove w id).snd.expired : Multiset TimerEntry)
        = (↑w.expired : Multiset TimerEntry).filter (fun e => e.id ≠ id)
    ∧ (wheelRemove w id).snd.currentTick = w.currentTick
    ∧ (wheelRemove w id).snd.startTime = w.startTime
    ∧ (wheelRemove w id).snd.nextId = w.nextId := by
  have hb : (loc.level == 255) = true := by
    rw [h255]
    simp
  have hred : wheelRemove w id = (true, { w with index := assocRemove id w.index, overflow := overflowRemoveFirst id w.overflow }) := by
    simp only [wheelRemove, hix]
    rw [hb, if_pos rfl]
  have hLoc : LocSound w id loc := by
    rcases hInv.idxLoc id loc hix with h | h
    · simp at h
    · exact h
  obtain ⟨-, p0, hp0, e0, he0, hid0⟩ : loc.level = 255
      ∧ ∃ p ∈ w.overflow, ∃ e ∈ p.snd, e.id = id := by
    rcases hLoc with ⟨hl3, -, -⟩ | h
    · omega
    · exact h
  rcases overflowRemoveFirst_cases id w.overflow with ⟨heq, hno⟩ | ⟨x, hxid, hflat⟩
  · exact absurd hid0 (hno e0 (mem_overflowFlat.mpr ⟨p0, hp0, he0⟩))
  have hsw : storedMS { w with index := assocRemove id w.index, overflow := overflowRemoveFirst id w.overflow }
      = levelMS w.slots1ms + levelMS w.slots256ms + levelMS w.slots16s
        + levelMS w.slots17min + overflowFlat (overflowRemoveFirst id w.overflow) := rfl
  have hms : storedMS { w with index := assocRemove id w.index, overflow := overflowRemoveFirst id w.overflow } + {x} = storedMS w := by
    rw [hsw, add_assoc, hflat]
    rfl
  have hids : storedIds { w with index := assocRemove id w.index, overflow := overflowRemoveFirst id w.overflow } + {id} = storedIds w := by
    have h1 := congrArg (Multiset.map (fun e : TimerEntry => e.id)) hms
    rw [Multiset.map_add, Multiset.map_singleton, hxid] at h1
    exact h1
  obtain ⟨hndS, hndE, hdisj⟩ := inv_nodup_split hInv
  have hidSfin : id ∉ storedIds { w with index := assocRemove id w.index, overflow := overflowRemoveFirst id w.overflow } := by
    refine not_mem_of_nodup_add_singleton ?_
    rw [hids]
    exact hndS
  have hmemS : id ∈ storedIds w := by
    rw [← hids]
    exact Multiset.mem_add.mpr (Or.inr (Multiset.mem_singleton_self id))
  have hidE : id ∉ (↑(expiredIds w) : Multiset Nat) :=
    Multiset.disjoint_left.mp hdisj hmemS
  have hLSfin : ∀ l, levelSlots { w with index := assocRemove id w.index, overflow := overflowRemoveFirst id w.overflow } l
      = levelSlots w l := levelSlots_congr rfl rfl rfl rfl
  refine ⟨?_, ?_, ?_, ?_, ?_, ?_, ?_⟩
  · rw [hred]
    show Inv { w with index := assocRemove id w.index, overflow := overflowRemoveFirst id w.overflow }
    refine { lens := ?_, good := ?_, goodOv := ?_, idxLoc := ?_, idxSlots := ?_,
             idxOv := ?_, expNoIdx := ?_, nodup := ?_, idxKeys := ?_, ovKeys := ?_ }
    · intro l hl
      rw [hLSfin l]
      exact hInv.lens l hl
    · intro l hl s e he
      rw [hLSfin l] at he
      exact hInv.good l hl s e he
    · intro p hp e he
      obtain ⟨q, hq, hfst, hsub⟩ := overflowRemoveFirst_subset id w.overflow p hp
      have h1 := hInv.goodOv q hq e (hsub e he)
      rw [hfst]
      exact h1
    · intro id' loc' h
      have hne : id' ≠ id := by
        intro hc
        rw [hc, assocGet_remove_self] at h
        simp at h
      rw [assocGet_remove_ne id id' hne] at h
      rcases hInv.idxLoc id' loc' h with h' | h'
      · exact Or.inl h'
      · rcases h' with ⟨hl3', hi', hid'⟩ | ⟨h255', p, hp, e, he, hide⟩
        · refine Or.inr (Or.inl ⟨hl3', ?_, ?_⟩)
          · rw [hLSfin loc'.level]
            exact hi'
          · rw [hLSfin loc'.level]
            exact hid'
        · obtain ⟨p', hp', hfst, hsup⟩ := overflowRemoveFirst_super id w.overflow p hp
          refine Or.inr (Or.inr ⟨h255', p', hp', e, ?_, hide⟩)
          refine hsup e he ?_
          rw [hide]
          exact hne
    · intro l hl s i hi
      rw [hLSfin l] at hi ⊢
      have hrec := hInv.idxSlots l hl s i hi
      have hne : (((levelSlots w l).getD s []).getD i default).id ≠ id := by
        intro hc
        rw [hc, hix] at hrec
        have hloc : loc = ⟨l, s, i⟩ := Option.some.inj hrec
        rw [hloc] at h255
        simp at h255
        omega
      rw [assocGet_remove_ne id _ hne]
      exact hrec
    · intro p hp e he
      have hne : e.id ≠ id := by
        intro hc
        have h2 : e.id ∈ storedIds { w with index := assocRemove id w.index, overflow := overflowRemoveFirst id w.overflow } :=
          Multiset.mem_map_of_mem (fun e : TimerEntry => e.id)
            (mem_storedMS_of_overflow hp he)
        rw [hc] at h2
        exact hidSfin h2
      obtain ⟨q, hq, -, hsub⟩ := overflowRemoveFirst_subset id w.overflow p hp
      obtain ⟨i, hrec⟩ := hInv.idxOv q hq e (hsub e he)
      exact ⟨i, by rw [assocGet_remove_ne id _ hne]; exact hrec⟩
    · intro e he
      exact assocGet_none_remove (hInv.expNoIdx e he)
    · show (storedIds { w with index := assocRemove id w.index, overflow := overflowRemoveFirst id w.overflow } + ↑([] : List Nat)
        + ↑(expiredIds w)).Nodup
      have hle : storedIds { w with index := assocRemove id w.index, overflow := overflowRemoveFirst id w.overflow } + ↑([] : List Nat)
          + ↑(expiredIds w)
          ≤ storedIds w + ↑([] : List Nat) + ↑(expiredIds w) := by
        refine add_le_add_right (add_le_add_right ?_ _) _
        rw [← hids]
        exact Multiset.le_add_right _ _
      exact Multiset.nodup_of_le hle (by simpa using hInv.nodup)
    · exact keys_assocRemove_nodup hInv.idxKeys
    · show ((overflowRemoveFirst id w.overflow).map (fun p => p.fst)).Nodup
      rw [keys_overflowRemoveFirst]
      exact hInv.ovKeys
  · rw [hred]
  · rw [hred]
    refine ms_filter_of_partition _ hms.symm ?_ ?_
    · intro a ha
      intro hc
      have h2 : a.id ∈ storedIds { w with index := assocRemove id w.index, overflow := overflowRemoveFirst id w.overflow } :=
        Multiset.mem_map_of_mem (fun e : TimerEntry => e.id) ha
      rw [hc] at h2
      exact hidSfin h2
    · intro e he
      rw [Multiset.mem_singleton.mp he]
      intro hc
      exact hc hxid
  · rw [hred]
    show (↑w.expired : Multiset TimerEntry)
      = (↑w.expired : Multiset TimerEntry).filter (fun e => e.id ≠ id)
    rw [Multiset.filter_eq_self.mpr]
    intro e he
    intro hc
    refine hidE ?_
    rw [← hc]
    exact Multiset.mem_map_of_mem (fun e : TimerEntry => e.id) he
  · rw [hred]
  · rw [hred]
  · rw [hred]

/-- Core of `remove_at_location` under the invariant: swap-removing the
entry of `id` from its slot and replacing the index by any map `ixF`
whose lookups drop `id`, repoint the swapped-in last entry (when one
exists), and agree with the old index elsewhere, preserves the
invariant and removes exactly that entry. -/
theorem removeSlot_aux {w : TimingWheel} (hInv : Inv w) {id lv st pos : Nat}
    (ixF : List (Nat × TimerLocation)) (R : TimingWheel)
    (hR : R = { setLevelSlots { w with index := assocRemove id w.index } lv
        ((levelSlots w lv).set st
          (swapRemove ((levelSlots w lv).getD st []) pos)) with index := ixF })
    (hl3 : lv ≤ 3)
    (hpos : pos < ((levelSlots w lv).getD st []).length)
    (hid : (((levelSlots w lv).getD st []).getD pos default).id = id)
    (hkeysF : (ixF.map (fun p => p.fst)).Nodup)
    (hlookid : assocGet id ixF = none)
    (hlook : ∀ id', id' ≠ id →
      assocGet id' ixF =
        if id' = (((levelSlots w lv).getD st []).getD
              (((levelSlots w lv).getD st []).length - 1) default).id
            ∧ pos < ((levelSlots w lv).getD st []).length - 1
        then some ⟨lv, st, pos⟩
        else assocGet id' w.index) :
    Inv R
    ∧ storedMS R = (storedMS w).filter (fun e => e.id ≠ id)
    ∧ (↑R.expired : Multiset TimerEntry)
        = (↑w.expired : Multiset TimerEntry).filter (fun e => e.id ≠ id)
    ∧ R.currentTick = w.currentTick
    ∧ R.startTime = w.startTime
    ∧ R.nextId = w.nextId := by
  have hslot : st < (levelSlots w lv).length := by
    by_contra hcon
    rw [List.getD_eq_default] at hpos
    · simp at hpos
    · omega
  have hlast : ((levelSlots w lv).getD st []).length - 1
      < ((levelSlots w lv).getD st []).length := by omega
  have hposRec : assocGet id w.index = some ⟨lv, st, pos⟩ := by
    have h0 := hInv.idxSlots lv hl3 st pos hpos
    rw [hid] at h0
    exact h0
  have hlastRec : assocGet ((((levelSlots w lv).getD st []).getD
      (((levelSlots w lv).getD st []).length - 1) default)).id w.index
      = some ⟨lv, st, ((levelSlots w lv).getD st []).length - 1⟩ :=
    hInv.idxSlots lv hl3 st _ hlast
  have hnewlen : (swapRemove ((levelSlots w lv).getD st []) pos).length
      = ((levelSlots w lv).getD st []).length - 1 := length_swapRemove hpos
  -- component equations for `R`
  have hRidx : R.index = ixF := by rw [hR]
  have hRexp : R.expired = w.expired := by
    rw [hR]
    show (setLevelSlots { w with index := assocRemove id w.index } lv
        ((levelSlots w lv).set st
          (swapRemove ((levelSlots w lv).getD st []) pos))).expired = w.expired
    rw [setLevelSlots_expired]
  have hRov : R.overflow = w.overflow := by
    rw [hR]
    show (setLevelSlots { w with index := assocRemove id w.index } lv
        ((levelSlots w lv).set st
          (swapRemove ((levelSlots w lv).getD st []) pos))).overflow = w.overflow
    rw [setLevelSlots_overflow]
  have hRct : R.currentTick = w.currentTick := by
    rw [hR]
    show (setLevelSlots { w with index := assocRemove id w.index } lv
        ((levelSlots w lv).set st
          (swapRemove ((levelSlots w lv).getD st []) pos))).currentTick = w.currentTick
    rw [setLevelSlots_currentTick]
  have hRst : R.startTime = w.startTime := by
    rw [hR]
    show (setLevelSlots { w with index := assocRemove id w.index } lv
        ((levelSlots w lv).set st
          (swapRemove ((levelSlots w lv).getD st []) pos))).startTime = w.startTime
    rw [setLevelSlots_startTime]
  have hRni : R.nextId = w.nextId := by
    rw [hR]
    show (setLevelSlots { w with index := assocRemove id w.index } lv
        ((levelSlots w lv).set st
          (swapRemove ((levelSlots w lv).getD st []) pos))).nextId = w.nextId
    rw [setLevelSlots_nextId]
  have hs0 : R.slots1ms = (setLevelSlots { w with index := assocRemove id w.index } lv
      ((levelSlots w lv).set st
        (swapRemove ((levelSlots w lv).getD st []) pos))).slots1ms := by rw [hR]
  have hs1 : R.slots256ms = (setLevelSlots { w with index := assocRemove id w.index } lv
      ((levelSlots w lv).set st
        (swapRemove ((levelSlots w lv).getD st []) pos))).slots256ms := by rw [hR]
  have hs2 : R.slots16s = (setLevelSlots { w with index := assocRemove id w.index } lv
      ((levelSlots w lv).set st
        (swapRemove ((levelSlots w lv).getD st []) pos))).slots16s := by rw [hR]
  have hs3 : R.slots17min = (setLevelSlots { w with index := assocRemove id w.index } lv
      ((levelSlots w lv).set st
        (swapRemove ((levelSlots w lv).getD st []) pos))).slots17min := by rw [hR]
  have hRLS : ∀ l', levelSlots R l'
      = levelSlots (setLevelSlots { w with index := assocRemove id w.index } lv
          ((levelSlots w lv).set st
            (swapRemove ((levelSlots w lv).getD st []) pos))) l' :=
    levelSlots_congr hs0 hs1 hs2 hs3
  have hW2self : levelSlots (setLevelSlots { w with index := assocRemove id w.index } lv
      ((levelSlots w lv).set st (swapRemove ((levelSlots w lv).getD st []) pos))) lv
      = (levelSlots w lv).set st (swapRemove ((levelSlots w lv).getD st []) pos) :=
    levelSlots_set_self _ _ hl3
  have hW2ne : ∀ l', lv ≠ l' →
      levelSlots (setLevelSlots { w with index := assocRemove id w.index } lv
        ((levelSlots w lv).set st (swapRemove ((levelSlots w lv).getD st []) pos))) l'
      = levelSlots w l' := by
    intro l' h
    rw [levelSlots_set_ne _ _ h]
    exact levelSlots_congr rfl rfl rfl rfl l'
  have hcont_self : (levelSlots R lv).getD st []
      = swapRemove ((levelSlots w lv).getD st []) pos := by
    rw [hRLS lv, hW2self]
    exact getD_set_self _ _ _ _ hslot
  have hcont_other : ∀ l' s', ¬(l' = lv ∧ s' = st) →
      (levelSlots R l').getD s' [] = (levelSlots w l').getD s' [] := by
    intro l' s' hns
    by_cases h1 : l' = lv
    · subst h1
      rw [hRLS l', hW2self]
      refine getD_set_ne _ _ _ _ _ ?_
      intro hc
      exact hns ⟨rfl, hc.symm⟩
    · rw [hRLS l', hW2ne l' (fun hc => h1 hc.symm)]
  have hentry : ∀ i, i < (swapRemove ((levelSlots w lv).getD st []) pos).length →
      (swapRemove ((levelSlots w lv).getD st []) pos).getD i default
        = if i = pos
          then ((levelSlots w lv).getD st []).getD
            (((levelSlots w lv).getD st []).length - 1) default
          else ((levelSlots w lv).getD st []).getD i default := by
    intro i hi
    by_cases hip : i = pos
    · subst hip
      rw [if_pos rfl]
      refine getD_swapRemove_self default ?_
      rw [hnewlen] at hi
      exact hi
    · rw [if_neg hip]
      refine getD_swapRemove_ne default ?_ hip
      rw [hnewlen] at hi
      exact hi
  -- stored-multiset bookkeeping
  have hRms0 : storedMS R
      = storedMS (setLevelSlots { w with index := assocRemove id w.index } lv
          ((levelSlots w lv).set st
            (swapRemove ((levelSlots w lv).getD st []) pos))) :=
    storedMS_congr hs0 hs1 hs2 hs3 (by rw [hR])
  have e2 : storedMS (setLevelSlots { w with index := assocRemove id w.index } lv
        ((levelSlots w lv).set st (swapRemove ((levelSlots w lv).getD st []) pos)))
      + levelMS (levelSlots w lv)
      = storedMS w
        + levelMS ((levelSlots w lv).set st
            (swapRemove ((levelSlots w lv).getD st []) pos)) := by
    have h0 := storedMS_setLevelSlots hl3 { w with index := assocRemove id w.index }
      ((levelSlots w lv).set st (swapRemove ((levelSlots w lv).getD st []) pos))
    have hW1ls : levelSlots { w with index := assocRemove id w.index } lv
        = levelSlots w lv := levelSlots_congr rfl rfl rfl rfl lv
    have hW1ms : storedMS { w with index := assocRemove id w.index } = storedMS w :=
      storedMS_congr rfl rfl rfl rfl rfl
    rw [hW1ls, hW1ms] at h0
    exact h0
  have e3 : levelMS ((levelSlots w lv).set st
        (swapRemove ((levelSlots w lv).getD st []) pos))
      + ↑((levelSlots w lv).getD st [])
      = levelMS (levelSlots w lv)
        + ↑(swapRemove ((levelSlots w lv).getD st []) pos) :=
    levelMS_set _ st _ hslot
  have e4 : (↑(swapRemove ((levelSlots w lv).getD st []) pos) : Multiset TimerEntry)
      + {((levelSlots w lv).getD st []).getD pos default}
      = ↑((levelSlots w lv).getD st []) := swapRemove_coe_ms default hpos
  have hmsR : storedMS R + {((levelSlots w lv).getD st []).getD pos default}
      = storedMS w := by
    have key : (storedMS R + {((levelSlots w lv).getD st []).getD pos default})
        + (levelMS (levelSlots w lv) + ↑((levelSlots w lv).getD st []))
        = storedMS w
          + (levelMS (levelSlots w lv) + ↑((levelSlots w lv).getD st [])) := by
      calc (storedMS R + {((levelSlots w lv).getD st []).getD pos default})
          + (levelMS (levelSlots w lv) + ↑((levelSlots w lv).getD st []))
          = (storedMS (setLevelSlots { w with index := assocRemove id w.index } lv
                ((levelSlots w lv).set st
                  (swapRemove ((levelSlots w lv).getD st []) pos)))
              + levelMS (levelSlots w lv))
            + (↑((levelSlots w lv).getD st [])
              + {((levelSlots w lv).getD st []).getD pos default}) := by
            rw [hRms0]; abel
        _ = (storedMS w
              + levelMS ((levelSlots w lv).set st
                  (swapRemove ((levelSlots w lv).getD st []) pos)))
            + (↑((levelSlots w lv).getD st [])
              + {((levelSlots w lv).getD st []).getD pos default}) := by rw [e2]
        _ = storedMS w
            + ((levelMS ((levelSlots w lv).set st
                  (swapRemove ((levelSlots w lv).getD st []) pos))
                + ↑((levelSlots w lv).getD st []))
              + {((levelSlots w lv).getD st []).getD pos default}) := by abel
        _ = storedMS w
            + ((levelMS (levelSlots w lv)
                + ↑(swapRemove ((levelSlots w lv).getD st []) pos))
              + {((levelSlots w lv).getD st []).getD pos default}) := by rw [e3]
        _ = storedMS w
            + (levelMS (levelSlots w lv)
              + (↑(swapRemove ((levelSlots w lv).getD st []) pos)
                + {((levelSlots w lv).getD st []).getD pos default})) := by abel
        _ = storedMS w
            + (levelMS (levelSlots w lv) + ↑((levelSlots w lv).getD st [])) := by
            rw [e4]
    exact add_right_cancel key
  have hidsR : storedIds R + {id} = storedIds w := by
    have h1 := congrArg (Multiset.map (fun e : TimerEntry => e.id)) hmsR
    rw [Multiset.map_add, Multiset.map_singleton, hid] at h1
    exact h1
  obtain ⟨hndS, hndE, hdisj⟩ := inv_nodup_split hInv
  have hidSR : id ∉ storedIds R := by
    refine not_mem_of_nodup_add_singleton ?_
    rw [hidsR]
    exact hndS
  have hmemS : id ∈ storedIds w := by
    rw [← hidsR]
    exact Multiset.mem_add.mpr (Or.inr (Multiset.mem_singleton_self id))
  have hidE : id ∉ (↑(expiredIds w) : Multiset Nat) :=
    Multiset.disjoint_left.mp hdisj hmemS
  refine ⟨?_, ?_, ?_, hRct, hRst, hRni⟩
  · refine { lens := ?_, good := ?_, goodOv := ?_, idxLoc := ?_, idxSlots := ?_,
             idxOv := ?_, expNoIdx := ?_, nodup := ?_, idxKeys := ?_, ovKeys := ?_ }
    · intro l hl
      by_cases h1 : l = lv
      · subst h1
        rw [hRLS l, hW2self, List.length_set]
        exact hInv.lens l hl
      · rw [hRLS l, hW2ne l (fun hc => h1 hc.symm)]
        exact hInv.lens l hl
    · intro l hl s e he
      show GoodAt (resOf l) (slotsOf l) R.currentTick s (e.expires - R.startTime)
      rw [hRct, hRst]
      by_cases hsame : l = lv ∧ s = st
      · obtain ⟨rfl, rfl⟩ := hsame
        rw [hcont_self] at he
        exact hInv.good l hl s e (mem_of_swapRemove he)
      · rw [hcont_other l s hsame] at he
        exact hInv.good l hl s e he
    · intro p hp e he
      rw [hRov] at hp
      rw [hRct, hRst]
      exact hInv.goodOv p hp e he
    · intro id' loc' h
      rw [hRidx] at h
      by_cases hii : id' = id
      · subst hii
        rw [hlookid] at h
        exact absurd h (by simp)
      · rw [hlook id' hii] at h
        by_cases hcond : id' = (((levelSlots w lv).getD st []).getD
              (((levelSlots w lv).getD st []).length - 1) default).id
            ∧ pos < ((levelSlots w lv).getD st []).length - 1
        · rw [if_pos hcond] at h
          have hloc' : loc' = ⟨lv, st, pos⟩ := (Option.some.inj h).symm
          subst hloc'
          refine Or.inr (Or.inl ⟨hl3, ?_, ?_⟩)
          · show pos < ((levelSlots R lv).getD st []).length
            rw [hcont_self, hnewlen]
            exact hcond.2
          · show (((levelSlots R lv).getD st []).getD pos default).id = id'
            rw [hcont_self]
            rw [hentry pos (by rw [hnewlen]; exact hcond.2), if_pos rfl]
            exact hcond.1.symm
        · rw [if_neg hcond] at h
          rcases hInv.idxLoc id' loc' h with h' | h'
          · simp at h'
          rcases h' with ⟨hl3', hi', hid'⟩ | ⟨h255', p, hp, e, he, hide⟩
          · by_cases hsame : loc'.level = lv ∧ loc'.slot = st
            · obtain ⟨hL, hS⟩ := hsame
              rw [hL, hS] at hi' hid'
              have hne_pos : loc'.indexInSlot ≠ pos := by
                intro hc
                rw [hc] at hid'
                rw [hid] at hid'
                exact hii hid'.symm
              have hlt : loc'.indexInSlot
                  < ((levelSlots w lv).getD st []).length - 1 := by
                by_cases hpl : pos < ((levelSlots w lv).getD st []).length - 1
                · have hne_last : loc'.indexInSlot
                      ≠ ((levelSlots w lv).getD st []).length - 1 := by
                    intro hc
                    refine hcond ⟨?_, hpl⟩
                    rw [← hid', hc]
                  omega
                · omega
              refine Or.inr (Or.inl ⟨hl3', ?_, ?_⟩)
              · rw [hL, hS, hcont_self, hnewlen]
                exact hlt
              · rw [hL, hS, hcont_self]
                rw [hentry loc'.indexInSlot (by rw [hnewlen]; exact hlt),
                  if_neg hne_pos]
                exact hid'
            · refine Or.inr (Or.inl ⟨hl3', ?_, ?_⟩)
              · rw [hcont_other loc'.level loc'.slot hsame]
                exact hi'
              · rw [hcont_other loc'.level loc'.slot hsame]
                exact hid'
          · refine Or.inr (Or.inr ⟨h255', p, ?_, e, he, hide⟩)
            rw [hRov]
            exact hp
    · intro l hl s i hi
      rw [hRidx]
      by_cases hsame : l = lv ∧ s = st
      · obtain ⟨rfl, rfl⟩ := hsame
        rw [hcont_self] at hi ⊢
        by_cases hip : i = pos
        · subst hip
          have hplt : i < ((levelSlots w l).getD s []).length - 1 := by
            rw [hnewlen] at hi
            exact hi
          rw [hentry i hi, if_pos rfl]
          have hlid_ne : (((levelSlots w l).getD s []).getD
              (((levelSlots w l).getD s []).length - 1) default).id ≠ id := by
            intro hc
            rw [hc, hposRec] at hlastRec
            have h9 : i = ((levelSlots w l).getD s []).length - 1 :=
              congrArg TimerLocation.indexInSlot (Option.some.inj hlastRec)
            omega
          rw [hlook _ hlid_ne, if_pos ⟨rfl, hplt⟩]
        · have hiNS := hi
          rw [hentry i hi, if_neg hip]
          have hiSL : i < ((levelSlots w l).getD s []).length := by
            rw [hnewlen] at hiNS
            omega
          have hrec := hInv.idxSlots l hl3 s i hiSL
          have hne_id : (((levelSlots w l).getD s []).getD i default).id ≠ id := by
            intro hc
            rw [hc, hposRec] at hrec
            have h9 : pos = i :=
              congrArg TimerLocation.indexInSlot (Option.some.inj hrec)
            exact hip h9.symm
          rw [hlook _ hne_id]
          by_cases hcnd : (((levelSlots w l).getD s []).getD i default).id
              = (((levelSlots w l).getD s []).getD
                  (((levelSlots w l).getD s []).length - 1) default).id
              ∧ pos < ((levelSlots w l).getD s []).length - 1
          · exfalso
            rw [hcnd.1, hlastRec] at hrec
            have h9 : ((levelSlots w l).getD s []).length - 1 = i :=
              congrArg TimerLocation.indexInSlot (Option.some.inj hrec)
            rw [hnewlen] at hiNS
            omega
          · rw [if_neg hcnd]
            exact hrec
      · rw [hcont_other l s hsame] at hi ⊢
        have hrec := hInv.idxSlots l hl s i hi
        have hne_id : (((levelSlots w l).getD s []).getD i default).id ≠ id := by
          intro hc
          rw [hc, hposRec] at hrec
          have h9 : lv = l := congrArg TimerLocation.level (Option.some.inj hrec)
          have h10 : st = s := congrArg TimerLocation.slot (Option.some.inj hrec)
          exact hsame ⟨h9.symm, h10.symm⟩
        rw [hlook _ hne_id]
        by_cases hcnd : (((levelSlots w l).getD s []).getD i default).id
            = (((levelSlots w lv).getD st []).getD
                (((levelSlots w lv).getD st []).length - 1) default).id
            ∧ pos < ((levelSlots w lv).getD st []).length - 1
        · exfalso
          rw [hcnd.1, hlastRec] at hrec
          have h9 : lv = l := congrArg TimerLocation.level (Option.some.inj hrec)
          have h10 : st = s := congrArg TimerLocation.slot (Option.some.inj hrec)
          exact hsame ⟨h9.symm, h10.symm⟩
        · rw [if_neg hcnd]
          exact hrec
    · intro p hp e he
      rw [hRov] at hp
      obtain ⟨i, hrec⟩ := hInv.idxOv p hp e he
      have hne_id : e.id ≠ id := by
        intro hc
        rw [hc, hposRec] at hrec
        have h9 : lv = 255 := congrArg TimerLocation.level (Option.some.inj hrec)
        omega
      refine ⟨i, ?_⟩
      rw [hRidx, hlook _ hne_id]
      by_cases hcnd : e.id = (((levelSlots w lv).getD st []).getD
            (((levelSlots w lv).getD st []).length - 1) default).id
          ∧ pos < ((levelSlots w lv).getD st []).length - 1
      · exfalso
        rw [hcnd.1, hlastRec] at hrec
        have h9 : lv = 255 := congrArg TimerLocation.level (Option.some.inj hrec)
        omega
      · rw [if_neg hcnd]
        exact hrec
    · intro e he
      rw [hRexp] at he
      have h0 := hInv.expNoIdx e he
      have hne_id : e.id ≠ id := by
        intro hc
        rw [hc, hposRec] at h0
        exact absurd h0 (by simp)
      rw [hRidx, hlook _ hne_id]
      by_cases hcnd : e.id = (((levelSlots w lv).getD st []).getD
            (((levelSlots w lv).getD st []).length - 1) default).id
          ∧ pos < ((levelSlots w lv).getD st []).length - 1
      · exfalso
        rw [hcnd.1, hlastRec] at h0
        exact absurd h0 (by simp)
      · rw [if_neg hcnd]
        exact h0
    · have hre : expiredIds R = expiredIds w := by
        unfold expiredIds
        rw [hRexp]
      show (storedIds R + ↑([] : List Nat) + ↑(expiredIds R)).Nodup
      rw [hre]
      have hle : storedIds R + ↑([] : List Nat) + ↑(expiredIds w)
          ≤ storedIds w + ↑([] : List Nat) + ↑(expiredIds w) := by
        refine add_le_add_right (add_le_add_right ?_ _) _
        rw [← hidsR]
        exact Multiset.le_add_right _ _
      exact Multiset.nodup_of_le hle hInv.nodup
    · rw [hRidx]
      exact hkeysF
    · rw [hRov]
      exact hInv.ovKeys
  · refine ms_filter_of_partition _ hmsR.symm ?_ ?_
    · intro a ha
      intro hc
      have h2 : a.id ∈ storedIds R :=
        Multiset.mem_map_of_mem (fun e : TimerEntry => e.id) ha
      rw [hc] at h2
      exact hidSR h2
    · intro e he
      intro hc
      rw [Multiset.mem_singleton.mp he] at hc
      exact hc hid
  · rw [hRexp]
    rw [Multiset.filter_eq_self.mpr]
    intro e he
    intro hc
    refine hidE ?_
    have h2 : e.id ∈ expiredIds w :=
      List.mem_map_of_mem (fun e : TimerEntry => e.id) (Multiset.mem_coe.mp he)
    rw [hc] at h2
    exact Multiset.mem_coe.mpr h2

/-- `TimingWheel::remove`, slot branch: the index record points into a
wheel level, so `remove_at_location` swap-removes the entry there. -/
theorem wheelRemove_inv_slot {w : TimingWheel} (hInv : Inv w) {id : Nat}
    {loc : TimerLocation} (hix : assocGet id w.index = some loc)
    (hne255 : loc.level ≠ 255) :
    Inv (wheelRemove w id).snd ∧ (wheelRemove w id).fst = true
    ∧ storedMS (wheelRemove w id).snd = (storedMS w).filter (fun e => e.id ≠ id)
    ∧ (↑(wheelRemove w id).snd.expired : Multiset TimerEntry)
        = (↑w.expired : Multiset TimerEntry).filter (fun e => e.id ≠ id)
    ∧ (wheelRemove w id).snd.currentTick = w.currentTick
    ∧ (wheelRemove w id).snd.startTime = w.startTime
    ∧ (wheelRemove w id).snd.nextId = w.nextId := by
  have hb : (loc.level == 255) = false := by
    simp [hne255]
  have hred : wheelRemove w id
      = (true, removeAtLocation { w with index := assocRemove id w.index } loc) := by
    simp only [wheelRemove, hix]
    rw [hb, if_neg Bool.false_ne_true]
  obtain ⟨hl3, hpos, hid⟩ : loc.level ≤ 3
      ∧ loc.indexInSlot < ((levelSlots w loc.level).getD loc.slot []).length
      ∧ (((levelSlots w loc.level).getD loc.slot []).getD loc.indexInSlot default).id = id := by
    rcases hInv.idxLoc id loc hix with h | h
    · simp at h
    · rcases h with h | ⟨h255, -⟩
      · exact h
      · exact absurd h255 hne255
  have hLS1 : levelSlots { w with index := assocRemove id w.index } loc.level = levelSlots w loc.level :=
    levelSlots_congr rfl rfl rfl rfl loc.level
  have hW2idx : (setLevelSlots { w with index := assocRemove id w.index } loc.level ((levelSlots w loc.level).set loc.slot (swapRemove ((levelSlots w loc.level).getD loc.slot []) loc.indexInSlot))).index = assocRemove id w.index := by
    rw [setLevelSlots_index]
  have hlastRec : assocGet (((levelSlots w loc.level).getD loc.slot []).getD (((levelSlots w loc.level).getD loc.slot []).length - 1) default).id w.index
      = some ⟨loc.level, loc.slot, ((levelSlots w loc.level).getD loc.slot []).length - 1⟩ :=
    hInv.idxSlots loc.level hl3 loc.slot _ (by omega)
  by_cases hswap : loc.indexInSlot < ((levelSlots w loc.level).getD loc.slot []).length - 1
  · -- a swapped-in entry exists and its record is repointed
    have hlid_ne : (((levelSlots w loc.level).getD loc.slot []).getD (((levelSlots w loc.level).getD loc.slot []).length - 1) default).id ≠ id := by
      intro hc
      rw [hc, hix] at hlastRec
      have h9 : loc.indexInSlot = ((levelSlots w loc.level).getD loc.slot []).length - 1 :=
        congrArg TimerLocation.indexInSlot (Option.some.inj hlastRec)
      omega
    have hdropA : assocRemove id (assocAdjust (((levelSlots w loc.level).getD loc.slot []).getD (((levelSlots w loc.level).getD loc.slot []).length - 1) default).id (fun l0 => ⟨l0.level, l0.slot, loc.indexInSlot⟩) (assocRemove id w.index)) = assocAdjust (((levelSlots w loc.level).getD loc.slot []).getD (((levelSlots w loc.level).getD loc.slot []).length - 1) default).id (fun l0 => ⟨l0.level, l0.slot, loc.indexInSlot⟩) (assocRemove id w.index) := by
      refine assocRemove_of_not_mem ?_
      rw [keys_assocAdjust]
      exact not_mem_keys_assocRemove id w.index
    have hR_A : removeAtLocation { w with index := assocRemove id w.index } loc = { setLevelSlots { w with index := assocRemove id w.index } loc.level ((levelSlots w loc.level).set loc.slot (swapRemove ((levelSlots w loc.level).getD loc.slot []) loc.indexInSlot)) with index := assocAdjust (((levelSlots w loc.level).getD loc.slot []).getD (((levelSlots w loc.level).getD loc.slot []).length - 1) default).id (fun l0 => ⟨l0.level, l0.slot, loc.indexInSlot⟩) (assocRemove id w.index) } := by
      simp only [removeAtLocation]
      rw [hLS1]
      rw [if_pos hl3, if_pos hpos]
      rw [if_pos (show loc.indexInSlot < (swapRemove ((levelSlots w loc.level).getD loc.slot []) loc.indexInSlot).length by
        rw [length_swapRemove hpos]; exact hswap)]
      rw [getD_swapRemove_self default hswap]
      rw [hW2idx, hid, hdropA]
    have hkeysF : ((assocAdjust (((levelSlots w loc.level).getD loc.slot []).getD (((levelSlots w loc.level).getD loc.slot []).length - 1) default).id (fun l0 => ⟨l0.level, l0.slot, loc.indexInSlot⟩) (assocRemove id w.index)).map (fun p => p.fst)).Nodup := by
      rw [keys_assocAdjust]
      exact keys_assocRemove_nodup hInv.idxKeys
    have hlookid : assocGet id (assocAdjust (((levelSlots w loc.level).getD loc.slot []).getD (((levelSlots w loc.level).getD loc.slot []).length - 1) default).id (fun l0 => ⟨l0.level, l0.slot, loc.indexInSlot⟩) (assocRemove id w.index)) = none := by
      rw [assocGet_adjust_ne _ id (fun hc => hlid_ne hc.symm)]
      exact assocGet_remove_self id w.index
    have hlook : ∀ id', id' ≠ id → assocGet id' (assocAdjust (((levelSlots w loc.level).getD loc.slot []).getD (((levelSlots w loc.level).getD loc.slot []).length - 1) default).id (fun l0 => ⟨l0.level, l0.slot, loc.indexInSlot⟩) (assocRemove id w.index)) =
        if id' = (((levelSlots w loc.level).getD loc.slot []).getD (((levelSlots w loc.level).getD loc.slot []).length - 1) default).id ∧ loc.indexInSlot < ((levelSlots w loc.level).getD loc.slot []).length - 1
        then some ⟨loc.level, loc.slot, loc.indexInSlot⟩
        else assocGet id' w.index := by
      intro id' hii
      by_cases hil : id' = (((levelSlots w loc.level).getD loc.slot []).getD (((levelSlots w loc.level).getD loc.slot []).length - 1) default).id
      · rw [if_pos ⟨hil, hswap⟩, hil]
        rw [assocGet_adjust_self]
        rw [assocGet_remove_ne id _ hlid_ne]
        rw [hlastRec]
        rfl
      · rw [if_neg (fun hc => hil hc.1)]
        rw [assocGet_adjust_ne _ id' hil]
        exact assocGet_remove_ne id id' hii w.index
    obtain ⟨hInvR, hms, hexp, hct, hst, hni⟩ :=
      removeSlot_aux hInv _ _ hR_A hl3 hpos hid hkeysF hlookid hlook
    refine ⟨?_, ?_, ?_, ?_, ?_, ?_, ?_⟩
    · rw [hred]
      exact hInvR
    · rw [hred]
    · rw [hred]
      exact hms
    · rw [hred]
      exact hexp
    · rw [hred]
      exact hct
    · rw [hred]
      exact hst
    · rw [hred]
      exact hni
  · -- the removed entry was the last one in its slot: no repointing
    have hdropB : assocRemove id (assocRemove id w.index) = assocRemove id w.index :=
      assocRemove_of_not_mem (not_mem_keys_assocRemove id w.index)
    have hR_B : removeAtLocation { w with index := assocRemove id w.index } loc = { setLevelSlots { w with index := assocRemove id w.index } loc.level ((levelSlots w loc.level).set loc.slot (swapRemove ((levelSlots w loc.level).getD loc.slot []) loc.indexInSlot)) with index := assocRemove id w.index } := by
      simp only [removeAtLocation]
      rw [hLS1]
      rw [if_pos hl3, if_pos hpos]
      rw [if_neg (show ¬(loc.indexInSlot < (swapRemove ((levelSlots w loc.level).getD loc.slot []) loc.indexInSlot).length) by
        rw [length_swapRemove hpos]; omega)]
      rw [hW2idx, hid, hdropB]
    have hkeysF : ((assocRemove id w.index).map (fun p => p.fst)).Nodup :=
      keys_assocRemove_nodup hInv.idxKeys
    have hlookid : assocGet id (assocRemove id w.index) = none :=
      assocGet_remove_self id w.index
    have hlook : ∀ id', id' ≠ id → assocGet id' (assocRemove id w.index) =
        if id' = (((levelSlots w loc.level).getD loc.slot []).getD (((levelSlots w loc.level).getD loc.slot []).length - 1) default).id ∧ loc.indexInSlot < ((levelSlots w loc.level).getD loc.slot []).length - 1
        then some ⟨loc.level, loc.slot, loc.indexInSlot⟩
        else assocGet id' w.index := by
      intro id' hii
      rw [if_neg (fun hc => hswap hc.2)]
      exact assocGet_remove_ne id id' hii w.index
    obtain ⟨hInvR, hms, hexp, hct, hst, hni⟩ :=
      removeSlot_aux hInv _ _ hR_B hl3 hpos hid hkeysF hlookid hlook
    refine ⟨?_, ?_, ?_, ?_, ?_, ?_, ?_⟩
    · rw [hred]
      exact hInvR
    · rw [hred]
    · rw [hred]
      exact hms
    · rw [hred]
      exact hexp
    · rw [hred]
      exact hct
    · rw [hred]
      exact hst
    · rw [hred]
      exact hni

/-- `TimingWheel::remove` under the invariant: it succeeds exactly when
the id is stored or expired, it deletes exactly the entries carrying
the id from both pools, and it preserves the invariant. -/
theorem wheelRemove_inv {w : TimingWheel} (hInv : Inv w) (id : Nat) :
    Inv (wheelRemove w id).snd
    ∧ ((wheelRemove w id).fst = true ↔ id ∈ storedIds w ∨ id ∈ expiredIds w)
    ∧ storedMS (wheelRemove w id).snd = (storedMS w).filter (fun e => e.id ≠ id)
    ∧ (↑(wheelRemove w id).snd.expired : Multiset TimerEntry)
        = (↑w.expired : Multiset TimerEntry).filter (fun e => e.id ≠ id)
    ∧ (wheelRemove w id).snd.currentTick = w.currentTick
    ∧ (wheelRemove w id).snd.startTime = w.startTime
    ∧ (wheelRemove w id).snd.nextId = w.nextId := by
  rcases hix : assocGet id w.index with _ | loc
  · rcases hfi : w.expired.findIdx? (fun e => e.id == id) with _ | pos
    · -- neither stored nor expired: no-op
      have hred : wheelRemove w id = (false, w) := by
        simp only [wheelRemove, hix, hfi]
      have hnos : id ∉ storedIds w := by
        intro hc
        have h1 := storedIds_has_index hInv hc
        rw [hix] at h1
        simp at h1
      have hnoe : id ∉ expiredIds w := by
        intro hc
        obtain ⟨e, he, hide⟩ := List.mem_map.mp hc
        have hsome := findIdx?_isSome_of_mem (fun x : TimerEntry => x.id == id) he
          (by simp [hide])
        rw [hfi] at hsome
        simp at hsome
      refine ⟨?_, ?_, ?_, ?_, ?_, ?_, ?_⟩
      · rw [hred]
        exact hInv
      · rw [hred]
        constructor
        · intro hcc
          exact absurd hcc (by simp)
        · rintro (hc | hc)
          · exact absurd hc hnos
          · exact absurd hc hnoe
      · rw [hred]
        show storedMS w = (storedMS w).filter (fun e => e.id ≠ id)
        rw [Multiset.filter_eq_self.mpr]
        intro e he
        intro hc
        refine hnos ?_
        have h2 : e.id ∈ storedIds w :=
          Multiset.mem_map_of_mem (fun e : TimerEntry => e.id) he
        rw [hc] at h2
        exact h2
      · rw [hred]
        show (↑w.expired : Multiset TimerEntry)
          = (↑w.expired : Multiset TimerEntry).filter (fun e => e.id ≠ id)
        rw [Multiset.filter_eq_self.mpr]
        intro e he
        intro hc
        refine hnoe ?_
        have h2 : e.id ∈ expiredIds w :=
          List.mem_map_of_mem (fun e : TimerEntry => e.id) (Multiset.mem_coe.mp he)
        rw [hc] at h2
        exact h2
      · rw [hred]
      · rw [hred]
      · rw [hred]
    · -- found in the expired queue
      obtain ⟨hInvR, hfst, hms, hexp, hct, hst, hni⟩ :=
        wheelRemove_inv_expired hInv hix hfi
      obtain ⟨hpos, hp⟩ := findIdx?_spec hfi
      have hmemE : id ∈ expiredIds w := by
        refine List.mem_map.mpr ⟨w.expired.getD pos default, getD_mem default hpos, ?_⟩
        simpa using hp
      exact ⟨hInvR, ⟨fun h => Or.inr hmemE, fun h => hfst⟩, hms, hexp, hct, hst, hni⟩
  · have hLoc : LocSound w id loc := by
      rcases hInv.idxLoc id loc hix with h | h
      · simp at h
      · exact h
    have hmemS : id ∈ storedIds w := mem_storedIds_of_locSound hLoc
    by_cases h255 : loc.level = 255
    · obtain ⟨hInvR, hfst, hms, hexp, hct, hst, hni⟩ :=
        wheelRemove_inv_overflow hInv hix h255
      exact ⟨hInvR, ⟨fun h => Or.inl hmemS, fun h => hfst⟩, hms, hexp, hct, hst, hni⟩
    · obtain ⟨hInvR, hfst, hms, hexp, hct, hst, hni⟩ :=
        wheelRemove_inv_slot hInv hix h255
      exact ⟨hInvR, ⟨fun h => Or.inl hmemS, fun h => hfst⟩, hms, hexp, hct, hst, hni⟩

theorem filter_comm_list (p q : α → Bool) (l : List α) :
    (l.filter p).filter q = (l.filter q).filter p := by
  rw [List.filter_filter, List.filter_filter]
  refine List.filter_congr ?_
  intro a ha
  exact Bool.and_comm _ _

theorem coe_filter_prop (p : α → Prop) [DecidablePred p] (l : List α) :
    (↑l : Multiset α).filter p = ↑(l.filter (fun a => decide (p a))) := rfl

/-- The invariant ignores the id counter. -/
theorem inv_set_nextId {w : TimingWheel} (hInv : Inv w) (m : Nat) :
    Inv { w with nextId := m } := by
  have hLS : ∀ l, levelSlots { w with nextId := m } l = levelSlots w l :=
    levelSlots_congr rfl rfl rfl rfl
  have hSMS : storedMS { w with nextId := m } = storedMS w :=
    storedMS_congr rfl rfl rfl rfl rfl
  refine { lens := ?_, good := ?_, goodOv := ?_, idxLoc := ?_, idxSlots := ?_,
           idxOv := ?_, expNoIdx := ?_, nodup := ?_, idxKeys := ?_, ovKeys := ?_ }
  · intro l hl
    rw [hLS l]
    exact hInv.lens l hl
  · intro l hl s e he
    rw [hLS l] at he
    exact hInv.good l hl s e he
  · exact hInv.goodOv
  · intro id loc h
    rcases hInv.idxLoc id loc h with h' | h'
    · exact Or.inl h'
    · exact Or.inr (locSound_congr rfl rfl rfl rfl rfl h')
  · intro l hl s i hi
    rw [hLS l] at hi ⊢
    exact hInv.idxSlots l hl s i hi
  · exact hInv.idxOv
  · exact hInv.expNoIdx
  · show (storedIds { w with nextId := m } + ↑([] : List Nat)
      + ↑(expiredIds { w with nextId := m })).Nodup
    have h1 : storedIds { w with nextId := m } = storedIds w := by
      rw [storedIds, hSMS, storedIds]
    have h2 : expiredIds { w with nextId := m } = expiredIds w := rfl
    rw [h1, h2]
    exact hInv.nodup
  · exact hInv.idxKeys
  · exact hInv.ovKeys

/-- `insert_entry` with a fresh id preserves the quiescent invariant. -/
theorem insertEntry_inv {w : TimingWheel} (hInv : Inv w) (e : TimerEntry)
    (hfr1 : e.id ∉ storedIds w) (hfr3 : e.id ∉ expiredIds w) :
    Inv (insertEntry w e)
    ∧ storedMS (insertEntry w e) = storedMS w
        + (if w.currentTick < e.expires - w.startTime then {e} else 0)
    ∧ (insertEntry w e).expired = w.expired
        ++ (if e.expires - w.startTime ≤ w.currentTick then [e] else [])
    ∧ (insertEntry w e).currentTick = w.currentTick
    ∧ (insertEntry w e).startTime = w.startTime
    ∧ (insertEntry w e).nextId = w.nextId
    ∧ (insertEntry w e).index.length + (insertEntry w e).expired.length
        = w.index.length + w.expired.length + 1 := by
  obtain ⟨hG', hms, hexp, hct, hst, hni, hlen⟩ :=
    insertEntry_invG e hInv (fun l s x hl h => h) (le_refl _) hfr1 (by simp) hfr3
  refine ⟨?_, hms, hexp, hct, hst, hni, hlen⟩
  show InvG (insertEntry w e) (GoodW (insertEntry w e)) []
    ((insertEntry w e).startTime + (insertEntry w e).currentTick
      + OVERFLOW_THRESHOLD_MS)
  rw [hct, hst]
  refine invG_mono hG' ?_
  intro l hl s x hx hg
  show GoodAt (resOf l) (slotsOf l) (insertEntry w e).currentTick s
    (x.expires - (insertEntry w e).startTime)
  rw [hct, hst]
  exact hg

/-- `TimingWheel::insert`: behaviour of a fresh-id insert when the id
counter does not wrap. -/
theorem wheelInsert_inv {w : TimingWheel} (hInv : Inv w) (expires : Nat)
    (hwrap : w.nextId + 1 < 2 ^ 64)
    (hfr1 : w.nextId ∉ storedIds w) (hfr3 : w.nextId ∉ expiredIds w) :
    (wheelInsert w expires).fst = w.nextId
    ∧ Inv (wheelInsert w expires).snd
    ∧ storedMS (wheelInsert w expires).snd = storedMS w
        + (if w.currentTick < expires - w.startTime
            then {(⟨w.nextId, expires⟩ : TimerEntry)} else 0)
    ∧ (wheelInsert w expires).snd.expired = w.expired
        ++ (if expires - w.startTime ≤ w.currentTick
            then [(⟨w.nextId, expires⟩ : TimerEntry)] else [])
    ∧ (wheelInsert w expires).snd.currentTick = w.currentTick
    ∧ (wheelInsert w expires).snd.startTime = w.startTime
    ∧ (wheelInsert w expires).snd.nextId = w.nextId + 1 := by
  have hInv0 : Inv { w with nextId := (w.nextId + 1) % 2 ^ 64 } :=
    inv_set_nextId hInv _
  have hst0 : storedMS { w with nextId := (w.nextId + 1) % 2 ^ 64 } = storedMS w :=
    storedMS_congr rfl rfl rfl rfl rfl
  have hfr1a : w.nextId ∉ storedIds { w with nextId := (w.nextId + 1) % 2 ^ 64 } := by
    show w.nextId ∉ Multiset.map (fun e : TimerEntry => e.id)
      (storedMS { w with nextId := (w.nextId + 1) % 2 ^ 64 })
    rw [hst0]
    exact hfr1
  obtain ⟨hi1, hms, hexp, hct, hst, hni, -⟩ :=
    insertEntry_inv hInv0 ⟨w.nextId, expires⟩ hfr1a hfr3
  refine ⟨rfl, hi1, ?_, ?_, hct, hst, ?_⟩
  · rw [show storedMS (wheelInsert w expires).snd
      = storedMS (insertEntry { w with nextId := (w.nextId + 1) % 2 ^ 64 }
          ⟨w.nextId, expires⟩) from rfl, hms, hst0]
  · exact hexp
  · show (insertEntry { w with nextId := (w.nextId + 1) % 2 ^ 64 }
      ⟨w.nextId, expires⟩).nextId = w.nextId + 1
    rw [hni]
    show (w.nextId + 1) % 2 ^ 64 = w.nextId + 1
    exact Nat.mod_eq_of_lt hwrap

/-- Running inserts and removes from a quiescent wheel: the clock never
moves, ids are handed out sequentially, and the stored and expired pools
are the surviving entries split by deadline against the base time. -/
theorem runWOps_inv (ops : List WOp) : ∀ (w : TimingWheel) (cur : List TimerEntry)
    (start : Nat), Inv w → w.currentTick = 0 → w.startTime = start →
    w.nextId + insCount ops < 2 ^ 64 →
    (∀ e ∈ cur, e.id < w.nextId) →
    storedMS w = ↑(cur.filter (fun e => decide (start < e.expires))) →
    (↑w.expired : Multiset TimerEntry)
      = ↑(cur.filter (fun e => decide (e.expires ≤ start))) →
    Inv (runWOps w ops)
    ∧ (runWOps w ops).currentTick = 0
    ∧ (runWOps w ops).startTime = start
    ∧ (runWOps w ops).nextId = w.nextId + insCount ops
    ∧ (∀ e ∈ specRun ops w.nextId cur, e.id < (runWOps w ops).nextId)
    ∧ storedMS (runWOps w ops)
        = ↑((specRun ops w.nextId cur).filter (fun e => decide (start < e.expires)))
    ∧ (↑(runWOps w ops).expired : Multiset TimerEntry)
        = ↑((specRun ops w.nextId cur).filter
            (fun e => decide (e.expires ≤ start))) := by
  induction ops with
  | nil =>
    intro w cur start hInv hct hst hwrap hcur hS1 hS2
    refine ⟨hInv, hct, hst, ?_, ?_, hS1, hS2⟩
    · show w.nextId = w.nextId + 0
      omega
    · intro e he
      exact hcur e he
  | cons op rest ih =>
    intro w cur start hInv hct hst hwrap hcur hS1 hS2
    rcases op with expires | id
    · -- insert
      have hic : insCount (WOp.ins expires :: rest) = insCount rest + 1 := rfl
      have hwrap1 : w.nextId + 1 < 2 ^ 64 := by
        rw [hic] at hwrap
        omega
      have hfr1 : w.nextId ∉ storedIds w := by
        intro hc
        obtain ⟨x, hx, hxid⟩ := Multiset.mem_map.mp hc
        rw [hS1] at hx
        have hx2 : x ∈ cur := List.mem_of_mem_filter (Multiset.mem_coe.mp hx)
        have := hcur x hx2
        omega
      have hfr3 : w.nextId ∉ expiredIds w := by
        intro hc
        obtain ⟨x, hx, hxid⟩ := List.mem_map.mp hc
        have hx1 : x ∈ (↑w.expired : Multiset TimerEntry) := Multiset.mem_coe.mpr hx
        rw [hS2] at hx1
        have hx2 : x ∈ cur := List.mem_of_mem_filter (Multiset.mem_coe.mp hx1)
        have := hcur x hx2
        omega
      obtain ⟨hfst, hInv1, hms, hexp, hct1, hst1, hni1⟩ :=
        wheelInsert_inv hInv expires hwrap1 hfr1 hfr3
      have hspec : specRun (WOp.ins expires :: rest) w.nextId cur
          = specRun rest (w.nextId + 1) (cur ++ [(⟨w.nextId, expires⟩ : TimerEntry)]) := rfl
      have hS1' : storedMS (wheelInsert w expires).snd
          = ↑((cur ++ [(⟨w.nextId, expires⟩ : TimerEntry)]).filter
              (fun e => decide (start < e.expires))) := by
        rw [hms, hS1, List.filter_append, ← Multiset.coe_add]
        congr 1
        by_cases hd : start < expires
        · rw [if_pos (show w.currentTick < expires - w.startTime by
            rw [hct, hst]; omega)]
          rw [show ([(⟨w.nextId, expires⟩ : TimerEntry)] : List TimerEntry).filter
              (fun e => decide (start < e.expires)) = [(⟨w.nextId, expires⟩ : TimerEntry)] from by
            simp [hd]]
          rfl
        · rw [if_neg (show ¬(w.currentTick < expires - w.startTime) by
            rw [hct, hst]; omega)]
          rw [show ([(⟨w.nextId, expires⟩ : TimerEntry)] : List TimerEntry).filter
              (fun e => decide (start < e.expires)) = [] from by simp [hd]]
          rfl
      have hS2' : (↑(wheelInsert w expires).snd.expired : Multiset TimerEntry)
          = ↑((cur ++ [(⟨w.nextId, expires⟩ : TimerEntry)]).filter
              (fun e => decide (e.expires ≤ start))) := by
        rw [hexp, ← Multiset.coe_add, hS2, List.filter_append, ← Multiset.coe_add]
        congr 1
        by_cases hd : expires ≤ start
        · rw [if_pos (show expires - w.startTime ≤ w.currentTick by
            rw [hct, hst]; omega)]
          rw [show ([(⟨w.nextId, expires⟩ : TimerEntry)] : List TimerEntry).filter
              (fun e => decide (e.expires ≤ start)) = [(⟨w.nextId, expires⟩ : TimerEntry)] from by
            simp [hd]]
        · rw [if_neg (show ¬(expires - w.startTime ≤ w.currentTick) by
            rw [hct, hst]; omega)]
          rw [show ([(⟨w.nextId, expires⟩ : TimerEntry)] : List TimerEntry).filter
              (fun e => decide (e.expires ≤ start)) = [] from by simp [hd]]
      have hcur' : ∀ e ∈ cur ++ [(⟨w.nextId, expires⟩ : TimerEntry)],
          e.id < (wheelInsert w expires).snd.nextId := by
        intro e he
        rw [hni1]
        rcases List.mem_append.mp he with h | h
        · have := hcur e h
          omega
        · rw [List.mem_singleton.mp h]
          show w.nextId < w.nextId + 1
          omega
      have hwrap' : (wheelInsert w expires).snd.nextId + insCount rest < 2 ^ 64 := by
        rw [hni1]
        rw [hic] at hwrap
        omega
      obtain ⟨a1, a2, a3, a4, a5, a6, a7⟩ := ih (wheelInsert w expires).snd
        (cur ++ [(⟨w.nextId, expires⟩ : TimerEntry)]) start hInv1 (hct1.trans hct) (hst1.trans hst)
        hwrap' hcur' hS1' hS2'
      have hsp2 : specRun rest (wheelInsert w expires).snd.nextId
          (cur ++ [(⟨w.nextId, expires⟩ : TimerEntry)])
          = specRun (WOp.ins expires :: rest) w.nextId cur := by
        rw [hspec, hni1]
      refine ⟨a1, a2, a3, ?_, ?_, ?_, ?_⟩
      · show (runWOps (wheelInsert w expires).snd rest).nextId
          = w.nextId + insCount (WOp.ins expires :: rest)
        rw [a4, hni1, hic]
        omega
      · intro e he
        rw [← hsp2] at he
        exact a5 e he
      · show storedMS (runWOps (wheelInsert w expires).snd rest)
          = ↑((specRun (WOp.ins expires :: rest) w.nextId cur).filter
              (fun e => decide (start < e.expires)))
        rw [a6, hsp2]
      · show (↑(runWOps (wheelInsert w expires).snd rest).expired : Multiset TimerEntry)
          = ↑((specRun (WOp.ins expires :: rest) w.nextId cur).filter
              (fun e => decide (e.expires ≤ start)))
        rw [a7, hsp2]
    · -- remove
      have hic : insCount (WOp.rem id :: rest) = insCount rest := rfl
      obtain ⟨hInvR, hfst, hms, hexp, hct1, hst1, hni1⟩ := wheelRemove_inv hInv id
      have hS1' : storedMS (wheelRemove w id).snd
          = ↑((cur.filter (fun x => decide (x.id ≠ id))).filter
              (fun e => decide (start < e.expires))) := by
        rw [hms, hS1, coe_filter_prop, filter_comm_list]
      have hS2' : (↑(wheelRemove w id).snd.expired : Multiset TimerEntry)
          = ↑((cur.filter (fun x => decide (x.id ≠ id))).filter
              (fun e => decide (e.expires ≤ start))) := by
        rw [hexp, hS2, coe_filter_prop, filter_comm_list]
      have hcur' : ∀ e ∈ cur.filter (fun x => decide (x.id ≠ id)),
          e.id < (wheelRemove w id).snd.nextId := by
        intro e he
        rw [hni1]
        exact hcur e (List.mem_of_mem_filter he)
      have hwrap' : (wheelRemove w id).snd.nextId + insCount rest < 2 ^ 64 := by
        rw [hni1]
        rw [hic] at hwrap
        omega
      obtain ⟨a1, a2, a3, a4, a5, a6, a7⟩ := ih (wheelRemove w id).snd
        (cur.filter (fun x => decide (x.id ≠ id))) start hInvR (hct1.trans hct)
        (hst1.trans hst) hwrap' hcur' hS1' hS2'
      have hsp2 : specRun rest (wheelRemove w id).snd.nextId
          (cur.filter (fun x => decide (x.id ≠ id)))
          = specRun (WOp.rem id :: rest) w.nextId cur := by
        rw [hni1]
        rfl
      refine ⟨a1, a2, a3, ?_, ?_, ?_, ?_⟩
      · show (runWOps (wheelRemove w id).snd rest).nextId
          = w.nextId + insCount (WOp.rem id :: rest)
        rw [a4, hni1, hic]
      · intro e he
        rw [← hsp2] at he
        exact a5 e he
      · show storedMS (runWOps (wheelRemove w id).snd rest)
          = ↑((specRun (WOp.rem id :: rest) w.nextId cur).filter
              (fun e => decide (start < e.expires)))
        rw [a6, hsp2]
      · show (↑(runWOps (wheelRemove w id).snd rest).expired : Multiset TimerEntry)
          = ↑((specRun (WOp.rem id :: rest) w.nextId cur).filter
              (fun e => decide (e.expires ≤ start)))
        rw [a7, hsp2]

/-- Membership in the surviving-entry list: the k-th insert's entry is
present iff it was inserted (with its recorded deadline) and no `rem k`
occurred once it existed. -/
theorem specRun_char (ops : List WOp) : ∀ (n : Nat) (cur : List TimerEntry)
    (k D : Nat), (∀ e ∈ cur, e.id < n) →
    ((⟨k, D⟩ : TimerEntry) ∈ specRun ops n cur ↔
      (((⟨k, D⟩ : TimerEntry) ∈ cur
          ∨ (n ≤ k ∧ k - n < insCount ops ∧ (insExpires ops).getD (k - n) 0 = D))
        ∧ remAfter k ops n = false)) := by
  induction ops with
  | nil =>
    intro n cur k D hb
    show (⟨k, D⟩ : TimerEntry) ∈ cur ↔ _
    constructor
    · intro h
      exact ⟨Or.inl h, rfl⟩
    · rintro ⟨h | ⟨h1, h2, h3⟩, -⟩
      · exact h
      · exfalso
        have h0 : insCount ([] : List WOp) = 0 := rfl
        omega
  | cons op rest ih =>
    intro n cur k D hb
    rcases op with D0 | id0
    · -- insert
      have hstep : specRun (WOp.ins D0 :: rest) n cur
          = specRun rest (n + 1) (cur ++ [(⟨n, D0⟩ : TimerEntry)]) := rfl
      have hb' : ∀ e ∈ cur ++ [(⟨n, D0⟩ : TimerEntry)], e.id < n + 1 := by
        intro e he
        rcases List.mem_append.mp he with h | h
        · have := hb e h
          omega
        · rw [List.mem_singleton.mp h]
          show n < n + 1
          omega
      rw [hstep, ih (n + 1) _ k D hb']
      constructor
      · rintro ⟨hmem | ⟨h1, h2, h3⟩, hrest⟩
        · rcases List.mem_append.mp hmem with h | h
          · exact ⟨Or.inl h, hrest⟩
          · have heq := List.mem_singleton.mp h
            have hk : k = n := congrArg TimerEntry.id heq
            have hD : D = D0 := congrArg TimerEntry.expires heq
            refine ⟨Or.inr ⟨by omega, ?_, ?_⟩, hrest⟩
            · show k - n < insCount (WOp.ins D0 :: rest)
              rw [show insCount (WOp.ins D0 :: rest) = insCount rest + 1 from rfl]
              omega
            · show (insExpires (WOp.ins D0 :: rest)).getD (k - n) 0 = D
              rw [show insExpires (WOp.ins D0 :: rest) = D0 :: insExpires rest from rfl,
                show k - n = 0 from by omega, List.getD_cons_zero]
              exact hD.symm
        · refine ⟨Or.inr ⟨by omega, ?_, ?_⟩, hrest⟩
          · rw [show insCount (WOp.ins D0 :: rest) = insCount rest + 1 from rfl]
            omega
          · rw [show insExpires (WOp.ins D0 :: rest) = D0 :: insExpires rest from rfl,
              show k - n = (k - (n + 1)) + 1 from by omega, List.getD_cons_succ]
            exact h3
      · rintro ⟨hmem | ⟨h1, h2, h3⟩, hrest⟩
        · exact ⟨Or.inl (List.mem_append.mpr (Or.inl hmem)), hrest⟩
        · by_cases hk : k = n
          · refine ⟨Or.inl (List.mem_append.mpr (Or.inr ?_)), hrest⟩
            rw [List.mem_singleton]
            have hD : D0 = D := by
              rw [show insExpires (WOp.ins D0 :: rest) = D0 :: insExpires rest from rfl,
                show k - n = 0 from by omega, List.getD_cons_zero] at h3
              exact h3
            rw [hk, hD]
          · refine ⟨Or.inr ⟨by omega, ?_, ?_⟩, hrest⟩
            · rw [show insCount (WOp.ins D0 :: rest) = insCount rest + 1 from rfl] at h2
              omega
            · rw [show insExpires (WOp.ins D0 :: rest) = D0 :: insExpires rest from rfl,
                show k - n = (k - (n + 1)) + 1 from by omega, List.getD_cons_succ] at h3
              exact h3
    · -- remove
      have hstep : specRun (WOp.rem id0 :: rest) n cur
          = specRun rest n (cur.filter (fun x => decide (x.id ≠ id0))) := rfl
      have hb' : ∀ e ∈ cur.filter (fun x => decide (x.id ≠ id0)), e.id < n :=
        fun e he => hb e (List.mem_of_mem_filter he)
      rw [hstep, ih n _ k D hb']
      have hmf : (⟨k, D⟩ : TimerEntry) ∈ cur.filter (fun x => decide (x.id ≠ id0))
          ↔ ((⟨k, D⟩ : TimerEntry) ∈ cur ∧ k ≠ id0) := by
        rw [List.mem_filter]
        constructor
        · rintro ⟨h1, h2⟩
          exact ⟨h1, of_decide_eq_true h2⟩
        · rintro ⟨h1, h2⟩
          exact ⟨h1, decide_eq_true h2⟩
      have hrem : remAfter k (WOp.rem id0 :: rest) n
          = ((decide (k < n) && (id0 == k)) || remAfter k rest n) := rfl
      by_cases hself : id0 = k ∧ k < n
      · obtain ⟨h1, h2⟩ := hself
        constructor
        · rintro ⟨hmem | ⟨hf1, -, -⟩, -⟩
          · exact absurd h1.symm (hmf.mp hmem).2
          · omega
        · rintro ⟨-, hra⟩
          exfalso
          rw [hrem] at hra
          simp [h1, h2] at hra
      · have hff : (decide (k < n) && (id0 == k)) = false := by
          rcases Decidable.em (k < n) with h | h
          · have hne : id0 ≠ k := fun hc => hself ⟨hc, h⟩
            simp [hne]
          · simp [h]
        constructor
        · rintro ⟨hmem | hfut, hra⟩
          · refine ⟨Or.inl (hmf.mp hmem).1, ?_⟩
            rw [hrem, hff]
            simpa using hra
          · refine ⟨Or.inr hfut, ?_⟩
            rw [hrem, hff]
            simpa using hra
        · rintro ⟨hmem | hfut, hra⟩
          · have hkn : k < n := hb _ hmem
            have hne : k ≠ id0 := fun hc => hself ⟨hc.symm, hkn⟩
            refine ⟨Or.inl (hmf.mpr ⟨hmem, hne⟩), ?_⟩
            rw [hrem, hff] at hra
            simpa using hra
          · refine ⟨Or.inr hfut, ?_⟩
            rw [hrem, hff] at hra
            simpa using hra

/-- C1: for every sequence of timing-wheel inserts (deadlines `D[i]`)
and removes starting from a fresh wheel based at `start`, followed by
`advance_to now`: the id of the k-th insert is in the drained expired
set if and only if its deadline is at most `now` (at millisecond
granularity relative to the base) and no remove hit it beforehand. -/
theorem c1_advance_expiry (ops : List WOp) (start now k : Nat)
    (hwrap : insCount ops < 2 ^ 64) (hnow : start ≤ now) (hk : k < insCount ops) :
    k ∈ (drainExpired (advanceTo (runWOps (wheelNewAt start) ops) now)).fst
      ↔ ((insExpires ops).getD k 0 ≤ now ∧ remAfter k ops 0 = false) := by
  obtain ⟨hInvW, hctW, hstW, hniW, hbW, hS1W, hS2W⟩ :=
    runWOps_inv ops (wheelNewAt start) [] start (inv_wheelNewAt start) rfl rfl
      (by show 0 + insCount ops < 2 ^ 64; omega)
      (by intro e he; simp at he)
      (by rw [storedMS_wheelNewAt]; rfl) rfl
  have hsr1 : specRun ops (wheelNewAt start).nextId [] = specRun ops 0 [] := rfl
  rw [hsr1] at hS1W hS2W
  obtain ⟨hInvA, hmsA, hexpA, hctA, hstA, hniA⟩ :=
    advanceTo_inv now hInvW (by rw [hstW, hctW]; omega)
  have hfst : (drainExpired (advanceTo (runWOps (wheelNewAt start) ops) now)).fst
      = (advanceTo (runWOps (wheelNewAt start) ops) now).expired.map
          (fun e : TimerEntry => e.id) := rfl
  rw [hfst]
  have hiff1 : k ∈ (advanceTo (runWOps (wheelNewAt start) ops) now).expired.map
        (fun e : TimerEntry => e.id)
      ↔ ∃ e ∈ (↑(advanceTo (runWOps (wheelNewAt start) ops) now).expired
          : Multiset TimerEntry), e.id = k := by
    rw [← Multiset.mem_coe]
    have h0 : (↑((advanceTo (runWOps (wheelNewAt start) ops) now).expired.map
        (fun e : TimerEntry => e.id)) : Multiset Nat)
        = Multiset.map (fun e : TimerEntry => e.id)
            ↑(advanceTo (runWOps (wheelNewAt start) ops) now).expired := rfl
    rw [h0, Multiset.mem_map]
  rw [hiff1, hexpA, hS2W, hS1W, hstW]
  have hbnil : ∀ e ∈ ([] : List TimerEntry), e.id < 0 := by
    intro e he
    simp at he
  constructor
  · rintro ⟨e, he, hek⟩
    subst hek
    rcases Multiset.mem_add.mp he with h | h
    · have h1 : e ∈ (specRun ops 0 []).filter
          (fun e => decide (e.expires ≤ start)) := Multiset.mem_coe.mp h
      have h2 : e ∈ specRun ops 0 [] := List.mem_of_mem_filter h1
      have h3 : e.expires ≤ start := by
        have h4 := List.of_mem_filter h1
        simp only [decide_eq_true_eq] at h4
        exact h4
      have hc := (specRun_char ops 0 [] e.id e.expires hbnil).mp h2
      rcases hc with ⟨hm | ⟨-, hlt, hD⟩, hra⟩
      · simp at hm
      · refine ⟨?_, hra⟩
        rw [show e.id - 0 = e.id from rfl] at hD
        rw [hD]
        omega
    · obtain ⟨h1, hpred⟩ := Multiset.mem_filter.mp h
      have h1' : e ∈ (specRun ops 0 []).filter
          (fun e => decide (start < e.expires)) := Multiset.mem_coe.mp h1
      have h2 : e ∈ specRun ops 0 [] := List.mem_of_mem_filter h1'
      have h3 : start < e.expires := by
        have h4 := List.of_mem_filter h1'
        simp only [decide_eq_true_eq] at h4
        exact h4
      have hpred' : e.expires - start ≤ now - start := hpred
      have hc := (specRun_char ops 0 [] e.id e.expires hbnil).mp h2
      rcases hc with ⟨hm | ⟨-, hlt, hD⟩, hra⟩
      · simp at hm
      · refine ⟨?_, hra⟩
        rw [show e.id - 0 = e.id from rfl] at hD
        rw [hD]
        omega
  · rintro ⟨hD, hra⟩
    have hchar : (⟨k, (insExpires ops).getD k 0⟩ : TimerEntry) ∈ specRun ops 0 [] := by
      refine (specRun_char ops 0 [] k ((insExpires ops).getD k 0) hbnil).mpr ?_
      refine ⟨Or.inr ⟨by omega, by omega, ?_⟩, hra⟩
      rw [show k - 0 = k from rfl]
    by_cases hds : (insExpires ops).getD k 0 ≤ start
    · refine ⟨⟨k, (insExpires ops).getD k 0⟩, ?_, rfl⟩
      refine Multiset.mem_add.mpr (Or.inl ?_)
      refine Multiset.mem_coe.mpr (List.mem_filter.mpr ⟨hchar, ?_⟩)
      exact decide_eq_true hds
    · refine ⟨⟨k, (insExpires ops).getD k 0⟩, ?_, rfl⟩
      refine Multiset.mem_add.mpr (Or.inr ?_)
      refine Multiset.mem_filter.mpr ⟨?_, ?_⟩
      · refine Multiset.mem_coe.mpr (List.mem_filter.mpr ⟨hchar, ?_⟩)
        exact decide_eq_true (show start < (insExpires ops).getD k 0 from by omega)
      · show (insExpires ops).getD k 0 - start ≤ now - start
        omega

theorem c1_advance_expiry_witness :
    insCount [WOp.ins 5, WOp.ins 3, WOp.rem 1] < 2 ^ 64
    ∧ (2 : Nat) ≤ 10
    ∧ 0 < insCount [WOp.ins 5, WOp.ins 3, WOp.rem 1]
    ∧ (0 ∈ (drainExpired (advanceTo
          (runWOps (wheelNewAt 2) [WOp.ins 5, WOp.ins 3, WOp.rem 1]) 10)).fst
        ↔ ((insExpires [WOp.ins 5, WOp.ins 3, WOp.rem 1]).getD 0 0 ≤ 10
          ∧ remAfter 0 [WOp.ins 5, WOp.ins 3, WOp.rem 1] 0 = false)) :=
  ⟨by decide, by decide, by decide,
    c1_advance_expiry [WOp.ins 5, WOp.ins 3, WOp.rem 1] 2 10 0
      (by decide) (by decide) (by decide)⟩

/-- The inline `advance_to` scan moves exactly the due timers into the
expired stash. -/
theorem inlineAdvanceLoop_ms (now : Nat) : ∀ (fuel i : Nat)
    (timers expired : List TimerEntry), timers.length - i ≤ fuel →
    (∀ j, j < i → now < (timers.getD j default).expires) →
    (↑(inlineAdvanceLoop now fuel i timers expired).fst : Multiset TimerEntry)
        = (↑timers : Multiset TimerEntry).filter (fun t => now < t.expires)
    ∧ (↑(inlineAdvanceLoop now fuel i timers expired).snd : Multiset TimerEntry)
        = ↑expired + (↑timers : Multiset TimerEntry).filter (fun t => t.expires ≤ now) := by
  intro fuel
  induction fuel with
  | zero =>
    intro i timers expired hfuel hpre
    have hle : timers.length ≤ i := by omega
    constructor
    · show (↑timers : Multiset TimerEntry)
        = (↑timers : Multiset TimerEntry).filter (fun t => now < t.expires)
      refine (Multiset.filter_eq_self.mpr ?_).symm
      intro t ht
      obtain ⟨j, hj, hval⟩ := List.mem_iff_getElem.mp (Multiset.mem_coe.mp ht)
      have h0 := hpre j (by omega)
      rw [List.getD_eq_getElem _ _ hj, hval] at h0
      exact h0
    · show (↑expired : Multiset TimerEntry)
        = ↑expired + (↑timers : Multiset TimerEntry).filter (fun t => t.expires ≤ now)
      rw [Multiset.filter_eq_nil.mpr, add_zero]
      intro t ht
      obtain ⟨j, hj, hval⟩ := List.mem_iff_getElem.mp (Multiset.mem_coe.mp ht)
      have h0 := hpre j (by omega)
      rw [List.getD_eq_getElem _ _ hj, hval] at h0
      omega
  | succ fuel ih =>
    intro i timers expired hfuel hpre
    simp only [inlineAdvanceLoop]
    by_cases hi : i < timers.length
    · rw [if_pos hi]
      by_cases hdead : (timers.getD i default).expires ≤ now
      · rw [if_pos hdead]
        have hlen1 : (swapRemove timers i).length - i ≤ fuel := by
          rw [length_swapRemove hi]
          omega
        have hpre1 : ∀ j, j < i →
            now < ((swapRemove timers i).getD j default).expires := by
          intro j hj
          rw [getD_swapRemove_ne default (by omega) (by omega)]
          exact hpre j hj
        obtain ⟨ha, hb⟩ := ih i (swapRemove timers i)
          (expired ++ [timers.getD i default]) hlen1 hpre1
        have hms := swapRemove_coe_ms (default : TimerEntry) hi
        constructor
        · rw [ha, ← hms, Multiset.filter_add]
          rw [show ({timers.getD i default} : Multiset TimerEntry).filter
              (fun t => now < t.expires) = 0 from by
            rw [Multiset.filter_eq_nil.mpr]
            intro t ht
            rw [Multiset.mem_singleton.mp ht]
            omega]
          rw [add_zero]
        · rw [hb, ← hms, Multiset.filter_add]
          rw [show ({timers.getD i default} : Multiset TimerEntry).filter
              (fun t => t.expires ≤ now) = {timers.getD i default} from by
            rw [Multiset.filter_eq_self.mpr]
            intro t ht
            rw [Multiset.mem_singleton.mp ht]
            omega]
          rw [← Multiset.coe_add]
          rw [show (↑[timers.getD i default] : Multiset TimerEntry)
            = {timers.getD i default} from rfl]
          abel
      · rw [if_neg hdead]
        have hlen1 : timers.length - (i + 1) ≤ fuel := by omega
        have hpre1 : ∀ j, j < i + 1 → now < (timers.getD j default).expires := by
          intro j hj
          by_cases hji : j = i
          · rw [hji]
            omega
          · exact hpre j (by omega)
        exact ih (i + 1) timers expired hlen1 hpre1
    · rw [if_neg hi]
      constructor
      · show (↑timers : Multiset TimerEntry)
          = (↑timers : Multiset TimerEntry).filter (fun t => now < t.expires)
        refine (Multiset.filter_eq_self.mpr ?_).symm
        intro t ht
        obtain ⟨j, hj, hval⟩ := List.mem_iff_getElem.mp (Multiset.mem_coe.mp ht)
        have h0 := hpre j (by omega)
        rw [List.getD_eq_getElem _ _ hj, hval] at h0
        exact h0
      · show (↑expired : Multiset TimerEntry)
          = ↑expired + (↑timers : Multiset TimerEntry).filter (fun t => t.expires ≤ now)
        rw [Multiset.filter_eq_nil.mpr, add_zero]
        intro t ht
        obtain ⟨j, hj, hval⟩ := List.mem_iff_getElem.mp (Multiset.mem_coe.mp ht)
        have h0 := hpre j (by omega)
        rw [List.getD_eq_getElem _ _ hj, hval] at h0
        omega

/-- C10: `StagedWheel::len` counts only the live timers while the
storage is inline, but live plus expired-but-undrained timers once it
is a wheel; an `advance_to` that expires `k` timers therefore lowers
`len` by `k` in inline mode and leaves it unchanged in wheel mode. -/
theorem c10_len_semantics (timers expired : List TimerEntry) (n st now : Nat)
    (w : TimingWheel) (hInv : Inv w)
    (hnow : w.startTime + w.currentTick ≤ now) :
    stagedLen ⟨.inlineStore timers expired, n, st⟩ = timers.length
    ∧ stagedLen ⟨.wheelStore w, n, st⟩
        = Multiset.card (storedMS w) + w.expired.length
    ∧ stagedLen (stagedAdvanceTo ⟨.inlineStore timers expired, n, st⟩ now)
        + (timers.filter (fun t => decide (t.expires ≤ now))).length = timers.length
    ∧ stagedLen (stagedAdvanceTo ⟨.wheelStore w, n, st⟩ now)
        = stagedLen ⟨.wheelStore w, n, st⟩ := by
  refine ⟨rfl, ?_, ?_, ?_⟩
  · show wheelLen w = Multiset.card (storedMS w) + w.expired.length
    rw [wheelLen, index_length_inv hInv]
  · obtain ⟨ha, hb⟩ := inlineAdvanceLoop_ms now timers.length 0 timers expired
      (by omega) (by intro j hj; exact absurd hj (by omega))
    show (inlineAdvanceLoop now timers.length 0 timers expired).fst.length
      + (timers.filter (fun t => decide (t.expires ≤ now))).length = timers.length
    have hcard := congrArg Multiset.card ha
    rw [Multiset.coe_card] at hcard
    have hcng : (↑timers : Multiset TimerEntry).filter (fun t => t.expires ≤ now)
        = (↑timers : Multiset TimerEntry).filter (fun t => ¬(now < t.expires)) := by
      refine Multiset.filter_congr ?_
      intro x hx
      constructor
      · intro h
        omega
      · intro h
        omega
    have hpart : (↑timers : Multiset TimerEntry).filter (fun t => now < t.expires)
        + (↑timers : Multiset TimerEntry).filter (fun t => t.expires ≤ now)
        = ↑timers := by
      rw [hcng]
      exact Multiset.filter_add_not _ _
    have hkl : (timers.filter (fun t => decide (t.expires ≤ now))).length
        = Multiset.card ((↑timers : Multiset TimerEntry).filter
            (fun t => t.expires ≤ now)) := by
      rw [coe_filter_prop, Multiset.coe_card]
    have hcard2 := congrArg Multiset.card hpart
    rw [Multiset.card_add, Multiset.coe_card] at hcard2
    rw [hkl]
    omega
  · show wheelLen (advanceTo w now) = wheelLen w
    obtain ⟨hInvA, hmsA, hexpA, -, -, -⟩ := advanceTo_inv now hInv hnow
    rw [wheelLen, wheelLen, index_length_inv hInvA, index_length_inv hInv, hmsA]
    have hlen2 : (advanceTo w now).expired.length = w.expired.length
        + Multiset.card ((storedMS w).filter
            (fun e => e.expires - w.startTime ≤ now - w.startTime)) := by
      have h0 := congrArg Multiset.card hexpA
      rw [Multiset.coe_card, Multiset.card_add, Multiset.coe_card] at h0
      exact h0
    rw [hlen2]
    have hcng : (storedMS w).filter (fun e => e.expires - w.startTime ≤ now - w.startTime)
        = (storedMS w).filter (fun e => ¬(now - w.startTime < e.expires - w.startTime)) := by
      refine Multiset.filter_congr ?_
      intro x hx
      constructor
      · intro h
        omega
      · intro h
        omega
    have hpart : (storedMS w).filter (fun e => now - w.startTime < e.expires - w.startTime)
        + (storedMS w).filter (fun e => e.expires - w.startTime ≤ now - w.startTime)
        = storedMS w := by
      rw [hcng]
      exact Multiset.filter_add_not _ _
    have hcard2 := congrArg Multiset.card hpart
    rw [Multiset.card_add] at hcard2
    omega

theorem c10_len_semantics_witness :
    Inv (wheelNewAt 0)
    ∧ (wheelNewAt 0).startTime + (wheelNewAt 0).currentTick ≤ 5
    ∧ (stagedLen ⟨.inlineStore [⟨0, 3⟩, ⟨1, 9⟩] [] , 2, 0⟩ = 2
      ∧ stagedLen ⟨.wheelStore (wheelNewAt 0), 2, 0⟩
          = Multiset.card (storedMS (wheelNewAt 0)) + (wheelNewAt 0).expired.length
      ∧ stagedLen (stagedAdvanceTo ⟨.inlineStore [⟨0, 3⟩, ⟨1, 9⟩] [], 2, 0⟩ 5)
          + (([⟨0, 3⟩, ⟨1, 9⟩] : List TimerEntry).filter
              (fun t => decide (t.expires ≤ 5))).length = 2
      ∧ stagedLen (stagedAdvanceTo ⟨.wheelStore (wheelNewAt 0), 2, 0⟩ 5)
          = stagedLen ⟨.wheelStore (wheelNewAt 0), 2, 0⟩) :=
  ⟨inv_wheelNewAt 0, by decide,
    c10_len_semantics [⟨0, 3⟩, ⟨1, 9⟩] [] 2 0 5 (wheelNewAt 0)
      (inv_wheelNewAt 0) (by decide)⟩

/-- `insert_with_id` with a fresh id: like `insert_entry`, plus the
`next_id` bump to one past the given id when needed. -/
theorem insertWithId_inv {w : TimingWheel} (hInv : Inv w) (id expires : Nat)
    (hfr1 : id ∉ storedIds w) (hfr3 : id ∉ expiredIds w) :
    Inv (insertWithId w id expires)
    ∧ storedMS (insertWithId w id expires)
        = storedMS w + (if w.currentTick < expires - w.startTime
            then {(⟨id, expires⟩ : TimerEntry)} else 0)
    ∧ (insertWithId w id expires).expired
        = w.expired ++ (if expires - w.startTime ≤ w.currentTick
            then [(⟨id, expires⟩ : TimerEntry)] else [])
    ∧ (insertWithId w id expires).currentTick = w.currentTick
    ∧ (insertWithId w id expires).startTime = w.startTime
    ∧ (insertWithId w id expires).nextId = max w.nextId (id + 1)
    ∧ (insertWithId w id expires).index.length
        + (insertWithId w id expires).expired.length
        = w.index.length + w.expired.length + 1 := by
  obtain ⟨hi, hms, hexp, hct, hst, hni, hlen⟩ :=
    insertEntry_inv hInv ⟨id, expires⟩ hfr1 hfr3
  have hred : insertWithId w id expires
      = if (insertEntry w ⟨id, expires⟩).nextId ≤ id
        then { insertEntry w ⟨id, expires⟩ with nextId := id + 1 }
        else insertEntry w ⟨id, expires⟩ := rfl
  rw [hred]
  by_cases hc : (insertEntry w ⟨id, expires⟩).nextId ≤ id
  · rw [if_pos hc]
    have hni2 : max w.nextId (id + 1) = id + 1 := by
      rw [hni] at hc
      omega
    refine ⟨inv_set_nextId hi _, ?_, hexp, hct, hst, ?_, hlen⟩
    · rw [show storedMS { insertEntry w ⟨id, expires⟩ with nextId := id + 1 }
        = storedMS (insertEntry w ⟨id, expires⟩) from
        storedMS_congr rfl rfl rfl rfl rfl]
      exact hms
    · rw [hni2]
  · rw [if_neg hc]
    have hni2 : max w.nextId (id + 1) = w.nextId := by
      rw [hni] at hc
      omega
    refine ⟨hi, hms, hexp, hct, hst, ?_, hlen⟩
    rw [hni2]
    exact hni

/-- Replaying a batch of id-tagged entries with `insert_with_id` (the
body of `promote_to_wheel`): every entry keeps its id, the clock and
base never move, and `next_id` ends one past the largest replayed id. -/
theorem foldInsertWithId_inv (ts : List TimerEntry) : ∀ (w : TimingWheel), Inv w →
    (∀ t ∈ ts, t.id ∉ storedIds w ∧ t.id ∉ expiredIds w) →
    ((ts.map (fun t => t.id)).Nodup) →
    Inv (ts.foldl (fun w t => insertWithId w t.id t.expires) w)
    ∧ storedMS (ts.foldl (fun w t => insertWithId w t.id t.expires) w)
        = storedMS w
          + ↑(ts.filter (fun t => decide (w.currentTick < t.expires - w.startTime)))
    ∧ (ts.foldl (fun w t => insertWithId w t.id t.expires) w).expired
        = w.expired ++ ts.filter (fun t => decide (t.expires - w.startTime ≤ w.currentTick))
    ∧ (ts.foldl (fun w t => insertWithId w t.id t.expires) w).currentTick = w.currentTick
    ∧ (ts.foldl (fun w t => insertWithId w t.id t.expires) w).startTime = w.startTime
    ∧ (ts.foldl (fun w t => insertWithId w t.id t.expires) w).nextId
        = ts.foldl (fun n t => max n (t.id + 1)) w.nextId
    ∧ (ts.foldl (fun w t => insertWithId w t.id t.expires) w).index.length
        + (ts.foldl (fun w t => insertWithId w t.id t.expires) w).expired.length
        = w.index.length + w.expired.length + ts.length := by
  induction ts with
  | nil =>
    intro w hInv hdisj hnodup
    refine ⟨hInv, ?_, ?_, rfl, rfl, rfl,
      by show w.index.length + w.expired.length
          = w.index.length + w.expired.length + 0; omega⟩
    · show storedMS w = storedMS w + ↑([] : List TimerEntry)
      rw [show (↑([] : List TimerEntry) : Multiset TimerEntry) = 0 from rfl, add_zero]
    · show w.expired = w.expired ++ []
      rw [List.append_nil]
  | cons t rest ih =>
    intro w hInv hdisj hnodup
    rw [List.map_cons, List.nodup_cons] at hnodup
    obtain ⟨hfr1, hfr3⟩ := hdisj t (List.mem_cons_self _ _)
    obtain ⟨hi1, hms1, hexp1, hct1, hst1, hni1, hlen1⟩ :=
      insertWithId_inv hInv t.id t.expires hfr1 hfr3
    have hdisj1 : ∀ x ∈ rest,
        x.id ∉ storedIds (insertWithId w t.id t.expires)
        ∧ x.id ∉ expiredIds (insertWithId w t.id t.expires) := by
      intro x hx
      obtain ⟨hx1, hx3⟩ := hdisj x (List.mem_cons_of_mem _ hx)
      have hxt : x.id ≠ t.id := by
        intro hc
        exact hnodup.1 (hc ▸ List.mem_map_of_mem (fun t : TimerEntry => t.id) hx)
      constructor
      · intro hc
        show False
        rw [storedIds, hms1] at hc
        rw [Multiset.map_add] at hc
        rcases Multiset.mem_add.mp hc with h | h
        · exact hx1 h
        · by_cases hcond : w.currentTick < t.expires - w.startTime
          · rw [if_pos hcond] at h
            rw [Multiset.map_singleton] at h
            exact hxt (Multiset.mem_singleton.mp h)
          · rw [if_neg hcond] at h
            simp at h
      · intro hc
        show False
        rw [expiredIds, hexp1, List.map_append] at hc
        rcases List.mem_append.mp hc with h | h
        · exact hx3 h
        · by_cases hcond : t.expires - w.startTime ≤ w.currentTick
          · rw [if_pos hcond] at h
            rw [show ([(⟨t.id, t.expires⟩ : TimerEntry)]).map
                (fun e : TimerEntry => e.id) = [t.id] from rfl] at h
            exact hxt (List.mem_singleton.mp h)
          · rw [if_neg hcond] at h
            simp at h
    obtain ⟨a1, a2, a3, a4, a5, a6, a7⟩ :=
      ih (insertWithId w t.id t.expires) hi1 hdisj1 hnodup.2
    rw [hct1, hst1] at a2 a3
    have hfold : (t :: rest).foldl (fun w t => insertWithId w t.id t.expires) w
        = rest.foldl (fun w t => insertWithId w t.id t.expires)
            (insertWithId w t.id t.expires) := rfl
    rw [hfold]
    refine ⟨a1, ?_, ?_, a4.trans hct1, a5.trans hst1, ?_, ?_⟩
    · rw [a2, hms1, List.filter_cons]
      by_cases hcond : w.currentTick < t.expires - w.startTime
      · rw [if_pos hcond, if_pos (by exact decide_eq_true hcond)]
        rw [show (↑(t :: rest.filter
            (fun t => decide (w.currentTick < t.expires - w.startTime)))
            : Multiset TimerEntry)
          = {t} + ↑(rest.filter
              (fun t => decide (w.currentTick < t.expires - w.startTime)))
          from by rw [Multiset.singleton_add]; rfl]
        rw [show ({(⟨t.id, t.expires⟩ : TimerEntry)} : Multiset TimerEntry)
          = {t} from rfl]
        rw [add_assoc]
      · rw [if_neg hcond, if_neg (by simpa using hcond), add_zero]
    · rw [a3, hexp1, List.filter_cons]
      by_cases hcond : t.expires - w.startTime ≤ w.currentTick
      · rw [if_pos hcond, if_pos (by exact decide_eq_true hcond)]
        rw [List.append_assoc]
        rw [show ([(⟨t.id, t.expires⟩ : TimerEntry)] ++ rest.filter
            (fun t => decide (t.expires - w.startTime ≤ w.currentTick)))
          = t :: rest.filter
              (fun t => decide (t.expires - w.startTime ≤ w.currentTick)) from rfl]
      · rw [if_neg hcond, if_neg (by simpa using hcond), List.append_nil]
    · rw [a6, hni1]
      rfl
    · rw [a7, hlen1]
      rw [show (t :: rest).length = rest.length + 1 from by
        rw [List.length_cons]]
      omega

theorem runSOps_append (a b : List SOp) : ∀ s,
    runSOps s (a ++ b) = runSOps (runSOps s a) b := by
  induction a with
  | nil => intro s; rfl
  | cons op rest ih =>
    intro s
    show runSOps (stepS s op) (rest ++ b) = _
    rw [ih]
    rfl

theorem insEntries_length (es : List Nat) : ∀ nid, (insEntries nid es).length = es.length := by
  induction es with
  | nil => intro nid; rfl
  | cons e rest ih =>
    intro nid
    show (insEntries nid (e :: rest)).length = rest.length + 1
    rw [insEntries, List.length_cons, ih]

/-- A run of inserts that stays below the inline threshold just appends
sequentially-id'd entries and advances the id counter. -/
theorem runSOps_ins_inline (es : List Nat) : ∀ (timers expired : List TimerEntry)
    (nid st : Nat), timers.length + es.length ≤ INLINE_THRESHOLD →
    nid + es.length < 2 ^ 64 →
    runSOps ⟨.inlineStore timers expired, nid, st⟩ (es.map (fun e => SOp.ins e))
      = ⟨.inlineStore (timers ++ insEntries nid es) expired, nid + es.length, st⟩ := by
  induction es with
  | nil =>
    intro timers expired nid st hlen hwrap
    show (⟨.inlineStore timers expired, nid, st⟩ : StagedWheel)
      = ⟨.inlineStore (timers ++ insEntries nid []) expired, nid + 0, st⟩
    rw [show insEntries nid [] = ([] : List TimerEntry) from rfl, List.append_nil]
    rfl
  | cons e rest ih =>
    intro timers expired nid st hlen hwrap
    have hlt : timers.length < INLINE_THRESHOLD := by
      have : rest.length + 1 = (e :: rest).length := rfl
      rw [List.length_cons] at hlen
      omega
    have hstep : runSOps ⟨.inlineStore timers expired, nid, st⟩
        ((e :: rest).map (fun e => SOp.ins e))
        = runSOps (stagedInsert ⟨.inlineStore timers expired, nid, st⟩ e).snd
            (rest.map (fun e => SOp.ins e)) := rfl
    rw [hstep, stagedInsert_inline_small timers expired nid st e hlt]
    have hmod : (nid + 1) % 2 ^ 64 = nid + 1 := by
      refine Nat.mod_eq_of_lt ?_
      rw [List.length_cons] at hwrap
      omega
    show runSOps ⟨.inlineStore (timers ++ [⟨nid, e⟩]) expired, (nid + 1) % 2 ^ 64, st⟩
        (rest.map (fun e => SOp.ins e)) = _
    rw [hmod]
    rw [ih (timers ++ [(⟨nid, e⟩ : TimerEntry)]) expired (nid + 1) st
      (by
        simp only [List.length_append, List.length_cons, List.length_nil] at hlen ⊢
        omega)
      (by rw [List.length_cons] at hwrap; omega)]
    rw [List.append_assoc]
    have h1 : [(⟨nid, e⟩ : TimerEntry)] ++ insEntries (nid + 1) rest
        = insEntries nid (e :: rest) := rfl
    rw [h1]
    have h2 : nid + 1 + rest.length = nid + (e :: rest).length := by
      rw [List.length_cons]
      omega
    rw [h2]

set_option maxRecDepth 4000 in
/-- The wheel obtained by replaying the 256 staged entries (kept
abstract) still stores ids 1..255 plus the new 300 ms timer; removing
id 49 succeeds and 256 timers remain. -/
theorem promotionTail (W : TimingWheel) (hiw1 : Inv W)
    (hmsw1 : storedMS W = storedMS (wheelNewAt 0) + ↑((insEntries 0 (List.range 256)).filter (fun t => decide ((wheelNewAt 0).currentTick < t.expires - (wheelNewAt 0).startTime))))
    (hexpw1 : W.expired = (wheelNewAt 0).expired ++ (insEntries 0 (List.range 256)).filter (fun t => decide (t.expires - (wheelNewAt 0).startTime ≤ (wheelNewAt 0).currentTick)))
    (hctw1 : W.currentTick = 0) (hstw1 : W.startTime = 0) :
    storageMode (⟨.wheelStore (insertWithId W 256 300), (256 + 1) % 2 ^ 64, 0⟩ : StagedWheel) = "wheel"
    ∧ (stagedRemove (⟨.wheelStore (insertWithId W 256 300), (256 + 1) % 2 ^ 64, 0⟩ : StagedWheel) 49).fst = true
    ∧ stagedLen (stagedRemove (⟨.wheelStore (insertWithId W 256 300), (256 + 1) % 2 ^ 64, 0⟩ : StagedWheel) 49).snd = 256 := by
  have hidT : ∀ t ∈ (insEntries 0 (List.range 256)), t.id < 256 := by decide
  have hfr1W : (256 : Nat) ∉ storedIds W := by
    intro hc
    rw [storedIds, hmsw1, storedMS_wheelNewAt, zero_add] at hc
    obtain ⟨t, ht, htid⟩ := Multiset.mem_map.mp hc
    have ht2 : t ∈ (insEntries 0 (List.range 256)) := List.mem_of_mem_filter (Multiset.mem_coe.mp ht)
    have := hidT t ht2
    omega
  have hfr3W : (256 : Nat) ∉ expiredIds W := by
    intro hc
    rw [expiredIds, hexpw1, show (wheelNewAt 0).expired = [] from rfl,
      List.nil_append] at hc
    obtain ⟨t, ht, htid⟩ := List.mem_map.mp hc
    have ht2 : t ∈ (insEntries 0 (List.range 256)) := List.mem_of_mem_filter ht
    have := hidT t ht2
    omega
  obtain ⟨hiW, hmsW, hexpW, hctW, hstW, -, -⟩ :=
    insertWithId_inv hiw1 256 300 hfr1W hfr3W
  rw [hctw1, hstw1] at hmsW hexpW
  rw [if_pos (by omega)] at hmsW
  rw [if_neg (by omega), List.append_nil] at hexpW
  rw [hmsw1, storedMS_wheelNewAt, zero_add] at hmsW
  rw [hexpw1, show (wheelNewAt 0).expired = [] from rfl, List.nil_append] at hexpW
  obtain ⟨hiR, hfstR, hmsR, hexpR, -, -, -⟩ := wheelRemove_inv hiW 49
  refine ⟨rfl, ?_, ?_⟩
  · rw [show (stagedRemove (⟨.wheelStore (insertWithId W 256 300), (256 + 1) % 2 ^ 64, 0⟩ : StagedWheel) 49).fst
      = (wheelRemove (insertWithId W 256 300) 49).fst from by
        rw [stagedRemove_wheel]]
    refine hfstR.mpr (Or.inl ?_)
    rw [storedIds, hmsW, Multiset.map_add]
    refine Multiset.mem_add.mpr (Or.inl ?_)
    have hm49 : (⟨49, 49⟩ : TimerEntry) ∈ (insEntries 0 (List.range 256)).filter (fun t => decide ((wheelNewAt 0).currentTick < t.expires - (wheelNewAt 0).startTime)) := by decide
    exact Multiset.mem_map.mpr ⟨⟨49, 49⟩, Multiset.mem_coe.mpr hm49, rfl⟩
  · rw [show (stagedRemove (⟨.wheelStore (insertWithId W 256 300), (256 + 1) % 2 ^ 64, 0⟩ : StagedWheel) 49).snd
      = ⟨.wheelStore (wheelRemove (insertWithId W 256 300) 49).snd,
          (256 + 1) % 2 ^ 64, 0⟩ from by rw [stagedRemove_wheel]]
    show wheelLen (wheelRemove (insertWithId W 256 300) 49).snd = 256
    rw [wheelLen, index_length_inv hiR]
    have hcard1 : Multiset.card (storedMS
        (wheelRemove (insertWithId W 256 300) 49).snd) = 255 := by
      rw [hmsR, hmsW, Multiset.filter_add]
      rw [coe_filter_prop]
      rw [Multiset.filter_singleton, if_pos (by decide)]
      rw [Multiset.card_add, Multiset.coe_card, Multiset.card_singleton]
      rw [show (((insEntries 0 (List.range 256)).filter (fun t => decide ((wheelNewAt 0).currentTick < t.expires - (wheelNewAt 0).startTime))).filter
        (fun a => decide (a.id ≠ 49))).length = 254 from by decide]
    have hlen2 : (wheelRemove (insertWithId W 256 300) 49).snd.expired.length
        = 1 := by
      have h0 := hexpR
      rw [hexpW, coe_filter_prop] at h0
      have h1 := congrArg Multiset.card h0
      rw [Multiset.coe_card, Multiset.coe_card] at h1
      rw [h1]
      rw [show (((insEntries 0 (List.range 256)).filter (fun t => decide (t.expires - (wheelNewAt 0).startTime ≤ (wheelNewAt 0).currentTick))).filter
        (fun a => decide (a.id ≠ 49))).length = 1 from by decide]
    rw [hcard1, hlen2]

set_option maxRecDepth 4000 in
/-- The 257-insert promotion scenario: after 256 inserts at 0..255 ms
and one at 300 ms the staged storage is a wheel, removing id 49
succeeds, and 256 timers remain. -/
theorem promotionScenario :
    storageMode (runSOps (stagedNewAt 0) (((List.range 256).map (fun e => SOp.ins e)) ++ [SOp.ins 300])) = "wheel"
    ∧ (stagedRemove (runSOps (stagedNewAt 0) (((List.range 256).map (fun e => SOp.ins e)) ++ [SOp.ins 300])) 49).fst = true
    ∧ stagedLen (stagedRemove (runSOps (stagedNewAt 0)
        (((List.range 256).map (fun e => SOp.ins e)) ++ [SOp.ins 300])) 49).snd = 256 := by
  have hs256 : runSOps (stagedNewAt 0) ((List.range 256).map (fun e => SOp.ins e))
      = ⟨.inlineStore (insEntries 0 (List.range 256)) [], 256, 0⟩ := by
    have h0 := runSOps_ins_inline (List.range 256) [] [] 0 0
      (by rw [List.length_range]; exact Nat.le_refl 256)
      (by rw [List.length_range]; decide)
    rw [show (stagedNewAt 0) = (⟨.inlineStore [] [], 0, 0⟩ : StagedWheel) from rfl]
    rw [h0, List.nil_append]
    rw [show (List.range 256).length = 256 from List.length_range 256]
  have happ : runSOps (stagedNewAt 0) (((List.range 256).map (fun e => SOp.ins e)) ++ [SOp.ins 300])
      = (stagedInsert (⟨.inlineStore (insEntries 0 (List.range 256)) [], 256, 0⟩ : StagedWheel) 300).snd := by
    rw [runSOps_append, hs256]
    rfl
  have hbig := stagedInsert_inline_big (insEntries 0 (List.range 256)) [] 256 0 300
    (by rw [insEntries_length, List.length_range]; exact Nat.le_refl 256)
  have hbig2 : (stagedInsert (⟨.inlineStore (insEntries 0 (List.range 256)) [], 256, 0⟩ : StagedWheel) 300).snd
      = ⟨.wheelStore (insertWithId (([] : List TimerEntry).foldl
          (fun w t => insertWithId w t.id t.expires)
          ((insEntries 0 (List.range 256)).foldl (fun w t => insertWithId w t.id t.expires) (wheelNewAt 0)))
          256 300), (256 + 1) % 2 ^ 64, 0⟩ := by
    rw [hbig]
  have hEfold : (([] : List TimerEntry).foldl (fun w t => insertWithId w t.id t.expires)
        ((insEntries 0 (List.range 256)).foldl (fun w t => insertWithId w t.id t.expires) (wheelNewAt 0)))
      = ((insEntries 0 (List.range 256)).foldl (fun w t => insertWithId w t.id t.expires) (wheelNewAt 0)) :=
    List.foldl_nil
  rw [hEfold] at hbig2
  have hmapT : (insEntries 0 (List.range 256)).map (fun t : TimerEntry => t.id) = List.range 256 := by decide
  have hndT : ((insEntries 0 (List.range 256)).map (fun t : TimerEntry => t.id)).Nodup := by
    rw [hmapT]
    exact List.nodup_range 256
  obtain ⟨hiw1, hmsw1, hexpw1, hctw1, hstw1, -, -⟩ :=
    foldInsertWithId_inv (insEntries 0 (List.range 256)) (wheelNewAt 0) (inv_wheelNewAt 0)
      (by
        intro t ht
        constructor
        · intro hc
          rw [storedIds, storedMS_wheelNewAt] at hc
          simp at hc
        · intro hc
          simp [expiredIds, wheelNewAt] at hc)
      hndT
  rw [happ, hbig2]
  have hct0 : ((insEntries 0 (List.range 256)).foldl (fun w t => insertWithId w t.id t.expires)
      (wheelNewAt 0)).currentTick = 0 := hctw1
  have hst0 : ((insEntries 0 (List.range 256)).foldl (fun w t => insertWithId w t.id t.expires)
      (wheelNewAt 0)).startTime = 0 := hstw1
  exact promotionTail _ hiw1 hmsw1 hexpw1 hct0 hst0

set_option maxRecDepth 8000 in
/-- Replaying the expired batch on top of a wheel that already holds
the replayed live batch restores exactly the original timer multiset. -/
theorem replayTail (timers expired : List TimerEntry) (st : Nat)
    (W1 : TimingWheel) (hi1 : Inv W1)
    (hms1 : storedMS W1 = ↑(timers.filter
        (fun t => decide ((wheelNewAt st).currentTick
          < t.expires - (wheelNewAt st).startTime))))
    (hexp1 : W1.expired = timers.filter
        (fun t => decide (t.expires - (wheelNewAt st).startTime
          ≤ (wheelNewAt st).currentTick)))
    (hct1 : W1.currentTick = (wheelNewAt st).currentTick)
    (hst1 : W1.startTime = (wheelNewAt st).startTime)
    (hnd2 : (expired.map (fun t => t.id)).Nodup)
    (hdisj : List.Disjoint (timers.map (fun t => t.id))
      (expired.map (fun t => t.id))) :
    storedMS (expired.foldl (fun w t => insertWithId w t.id t.expires) W1)
      + ↑(expired.foldl (fun w t => insertWithId w t.id t.expires) W1).expired
    = ↑timers + ↑expired := by
  have hfr2 : ∀ e ∈ expired, e.id ∉ storedIds W1 ∧ e.id ∉ expiredIds W1 := by
    intro e he
    have heid : e.id ∈ expired.map (fun t => t.id) := List.mem_map_of_mem _ he
    constructor
    · intro hc
      rw [storedIds, hms1] at hc
      obtain ⟨t, ht, htid⟩ := Multiset.mem_map.mp hc
      have ht2 : t ∈ timers := List.mem_of_mem_filter (Multiset.mem_coe.mp ht)
      have ht3 : t.id ∈ timers.map (fun t => t.id) := List.mem_map_of_mem _ ht2
      rw [htid] at ht3
      exact hdisj ht3 heid
    · intro hc
      rw [expiredIds, hexp1] at hc
      obtain ⟨t, ht, htid⟩ := List.mem_map.mp hc
      have ht2 : t ∈ timers := List.mem_of_mem_filter ht
      have ht3 : t.id ∈ timers.map (fun t => t.id) := List.mem_map_of_mem _ ht2
      rw [htid] at ht3
      exact hdisj ht3 heid
  obtain ⟨hi2, hms2, hexp2, hct2, hst2, -, -⟩ :=
    foldInsertWithId_inv expired W1 hi1 hfr2 hnd2
  rw [hct1, hst1] at hms2 hexp2
  rw [hms2, hexp2, hms1, hexp1]
  rw [← Multiset.coe_add]
  have hdeadf : ∀ (l : List TimerEntry),
      l.filter (fun t => decide (t.expires - (wheelNewAt st).startTime
          ≤ (wheelNewAt st).currentTick))
      = l.filter (fun a => !((fun t => decide ((wheelNewAt st).currentTick
          < t.expires - (wheelNewAt st).startTime)) a)) := by
    intro l
    refine List.filter_congr ?_
    intro a ha
    simp only [← decide_not, decide_eq_decide]
    omega
  rw [hdeadf timers, hdeadf expired, add_add_add_comm,
    coe_filter_add_filter_not timers
      (fun t => decide ((wheelNewAt st).currentTick
        < t.expires - (wheelNewAt st).startTime)),
    coe_filter_add_filter_not expired
      (fun t => decide ((wheelNewAt st).currentTick
        < t.expires - (wheelNewAt st).startTime))]

set_option maxRecDepth 4000 in
/-- C3: `promote_to_wheel` keeps the id counter, replays every stored
entry (live and expired) into the new wheel with its original id, and
`insert` always hands out the pre-increment `next_id`, so ids stay
stable across promotion; concretely, after inserting 256 timers at
0..255 ms and a 257th at 300 ms, the storage mode is "wheel", removing
id 49 (the id returned by the 50th insert) returns true, and 256
timers remain. -/
theorem c3_promotion (timers expired : List TimerEntry) (n st : Nat)
    (hnodup : ((timers ++ expired).map (fun t => t.id)).Nodup) :
    (promoteToWheel ⟨.inlineStore timers expired, n, st⟩).nextId = n
    ∧ (∀ w, (promoteToWheel ⟨.inlineStore timers expired, n, st⟩).storage
          = .wheelStore w → storedMS w + ↑w.expired = ↑timers + ↑expired)
    ∧ (∀ s e, (stagedInsert s e).fst = s.nextId
        ∧ (stagedInsert s e).snd.nextId = (s.nextId + 1) % 2 ^ 64)
    ∧ storageMode (runSOps (stagedNewAt 0)
        (((List.range 256).map (fun e => SOp.ins e)) ++ [SOp.ins 300])) = "wheel"
    ∧ (stagedRemove (runSOps (stagedNewAt 0)
        (((List.range 256).map (fun e => SOp.ins e)) ++ [SOp.ins 300])) 49).fst = true
    ∧ stagedLen (stagedRemove (runSOps (stagedNewAt 0)
        (((List.range 256).map (fun e => SOp.ins e)) ++ [SOp.ins 300])) 49).snd
      = 256 := by
  refine ⟨rfl, ?_, ?_, promotionScenario.1, promotionScenario.2.1,
    promotionScenario.2.2⟩
  · intro w hw
    have hred : (promoteToWheel ⟨.inlineStore timers expired, n, st⟩).storage
        = .wheelStore (expired.foldl (fun w t => insertWithId w t.id t.expires)
            (timers.foldl (fun w t => insertWithId w t.id t.expires)
              (wheelNewAt st))) := rfl
    rw [hred] at hw
    have hw2 := (Storage.wheelStore.inj hw).symm
    subst hw2
    rw [List.map_append] at hnodup
    have hnd1 : (timers.map (fun t => t.id)).Nodup := hnodup.of_append_left
    have hnd2 : (expired.map (fun t => t.id)).Nodup := hnodup.of_append_right
    have hdisj := List.disjoint_of_nodup_append hnodup
    obtain ⟨hi1, hms1, hexp1, hct1, hst1, -, -⟩ :=
      foldInsertWithId_inv timers (wheelNewAt st) (inv_wheelNewAt st)
        (by
          intro t ht
          constructor
          · intro hc
            rw [storedIds, storedMS_wheelNewAt] at hc
            simp at hc
          · intro hc
            simp [expiredIds, wheelNewAt] at hc)
        hnd1
    rw [storedMS_wheelNewAt, zero_add] at hms1
    rw [show (wheelNewAt st).expired = ([] : List TimerEntry) from rfl,
      List.nil_append] at hexp1
    exact replayTail timers expired st _ hi1 hms1 hexp1 hct1 hst1 hnd2 hdisj
  · intro s e
    obtain ⟨storage, nid, start⟩ := s
    cases storage with
    | inlineStore ts ex =>
      by_cases hlen : INLINE_THRESHOLD ≤ ts.length
      · rw [stagedInsert_inline_big ts ex nid start e hlen]
        exact ⟨rfl, rfl⟩
      · rw [stagedInsert_inline_small ts ex nid start e (Nat.lt_of_not_le hlen)]
        exact ⟨rfl, rfl⟩
    | wheelStore w =>
      rw [stagedInsert_wheel w nid start e]
      exact ⟨rfl, rfl⟩

theorem c3_promotion_witness :
    ((([(⟨7, 5⟩ : TimerEntry)] ++ [(⟨3, 0⟩ : TimerEntry)]).map
        (fun t => t.id)).Nodup)
    ∧ (promoteToWheel ⟨.inlineStore [(⟨7, 5⟩ : TimerEntry)]
        [(⟨3, 0⟩ : TimerEntry)], 8, 0⟩).nextId = 8 :=
  ⟨by decide, (c3_promotion [⟨7, 5⟩] [⟨3, 0⟩] 8 0 (by decide)).1⟩

/-- Removing never changes the storage mode. -/
theorem storageMode_stagedRemove (s : StagedWheel) (id : Nat) :
    storageMode (stagedRemove s id).snd = storageMode s := by
  obtain ⟨storage, nid, start⟩ := s
  cases storage with
  | inlineStore ts ex =>
    rcases hfi : ts.findIdx? (fun t => t.id == id) with _ | pos
    · simp only [stagedRemove, hfi]
    · simp only [stagedRemove, hfi]
      rfl
  | wheelStore w => rfl

/-- Once the staged storage is a wheel, every operation leaves it a
wheel: promotion is permanent. -/
theorem storageMode_stepS_wheel (s : StagedWheel) (op : SOp)
    (h : storageMode s = "wheel") : storageMode (stepS s op) = "wheel" := by
  obtain ⟨storage, nid, start⟩ := s
  cases storage with
  | inlineStore ts ex =>
    have h2 : ("inline" : String) = "wheel" := h
    exact absurd h2 (by decide)
  | wheelStore w =>
    cases op with
    | ins e => rfl
    | rem id => rfl
    | adv now => rfl
    | drain => rfl

/-- The inline `advance_to` loop never grows the timer list. -/
theorem inlineAdvanceLoop_fst_length (now : Nat) : ∀ (fuel i : Nat)
    (timers expired : List TimerEntry),
    (inlineAdvanceLoop now fuel i timers expired).fst.length ≤ timers.length := by
  intro fuel
  induction fuel with
  | zero =>
    intro i timers expired
    exact Nat.le_refl _
  | succ f ih =>
    intro i timers expired
    rw [show inlineAdvanceLoop now (f + 1) i timers expired
        = if i < timers.length then
            (if (timers.getD i default).expires ≤ now then
              inlineAdvanceLoop now f i (swapRemove timers i)
                (expired ++ [timers.getD i default])
            else inlineAdvanceLoop now f (i + 1) timers expired)
          else (timers, expired) from rfl]
    by_cases hi : i < timers.length
    · rw [if_pos hi]
      by_cases ht : (timers.getD i default).expires ≤ now
      · rw [if_pos ht]
        have h1 := ih i (swapRemove timers i) (expired ++ [timers.getD i default])
        have h2 : (swapRemove timers i).length = timers.length - 1 :=
          length_swapRemove hi
        omega
      · rw [if_neg ht]
        exact ih (i + 1) timers expired
    · rw [if_neg hi]

/-- One staged step keeps the inline-length bound. -/
theorem stepS_inline_bound (s : StagedWheel) (op : SOp)
    (h : storageMode s = "inline" → stagedLen s ≤ INLINE_THRESHOLD) :
    storageMode (stepS s op) = "inline"
    → stagedLen (stepS s op) ≤ INLINE_THRESHOLD := by
  obtain ⟨storage, nid, start⟩ := s
  cases storage with
  | wheelStore w =>
    intro hc
    have h2 := storageMode_stepS_wheel ⟨.wheelStore w, nid, start⟩ op rfl
    rw [hc] at h2
    exact absurd h2 (by decide)
  | inlineStore ts ex =>
    have hlen : ts.length ≤ INLINE_THRESHOLD := h rfl
    cases op with
    | ins e =>
      by_cases hth : INLINE_THRESHOLD ≤ ts.length
      · intro hc
        rw [show stepS (⟨.inlineStore ts ex, nid, start⟩ : StagedWheel) (SOp.ins e)
            = (stagedInsert (⟨.inlineStore ts ex, nid, start⟩ : StagedWheel) e).snd
            from rfl, stagedInsert_inline_big ts ex nid start e hth] at hc
        have h2 : ("wheel" : String) = "inline" := hc
        exact absurd h2 (by decide)
      · intro hc
        rw [show stepS (⟨.inlineStore ts ex, nid, start⟩ : StagedWheel) (SOp.ins e)
            = (stagedInsert (⟨.inlineStore ts ex, nid, start⟩ : StagedWheel) e).snd
            from rfl, stagedInsert_inline_small ts ex nid start e
              (Nat.lt_of_not_le hth)]
        show (ts ++ [(⟨nid, e⟩ : TimerEntry)]).length ≤ INLINE_THRESHOLD
        rw [List.length_append]
        have h3 := Nat.lt_of_not_le hth
        simp only [List.length_cons, List.length_nil]
        omega
    | rem id =>
      intro hc
      show stagedLen (stagedRemove (⟨.inlineStore ts ex, nid, start⟩
          : StagedWheel) id).snd ≤ INLINE_THRESHOLD
      rcases hfi : ts.findIdx? (fun t => t.id == id) with _ | pos
      · have h4 : (stagedRemove (⟨.inlineStore ts ex, nid, start⟩
            : StagedWheel) id).snd = ⟨.inlineStore ts ex, nid, start⟩ := by
          simp only [stagedRemove, hfi]
        rw [h4]
        exact hlen
      · have h4 : (stagedRemove (⟨.inlineStore ts ex, nid, start⟩
            : StagedWheel) id).snd
            = ⟨.inlineStore (swapRemove ts pos) ex, nid, start⟩ := by
          simp only [stagedRemove, hfi]
        rw [h4]
        show (swapRemove ts pos).length ≤ INLINE_THRESHOLD
        have hpos := (findIdx?_spec hfi).1
        rw [length_swapRemove hpos]
        omega
    | adv now =>
      intro hc
      show (inlineAdvanceLoop now ts.length 0 ts ex).fst.length ≤ INLINE_THRESHOLD
      have h5 := inlineAdvanceLoop_fst_length now ts.length 0 ts ex
      omega
    | drain =>
      intro hc
      exact hlen

/-- The inline-length bound holds in every reachable staged state. -/
theorem runSOps_inline_bound (st : Nat) (ops : List SOp) :
    storageMode (runSOps (stagedNewAt st) ops) = "inline"
    → stagedLen (runSOps (stagedNewAt st) ops) ≤ INLINE_THRESHOLD := by
  have hgen : ∀ (l : List SOp) (s : StagedWheel),
      (storageMode s = "inline" → stagedLen s ≤ INLINE_THRESHOLD)
      → storageMode (runSOps s l) = "inline"
        → stagedLen (runSOps s l) ≤ INLINE_THRESHOLD := by
    intro l
    induction l with
    | nil => intro s hs; exact hs
    | cons op rest ih =>
      intro s hs
      exact ih (stepS s op) (stepS_inline_bound s op hs)
  exact hgen ops (stagedNewAt st) (fun _ => Nat.zero_le _)

/-- C8 counterexample: after 256 inserts at 0..255 ms, one at 300 ms
and a remove, the staged wheel holds 256 ≤ T live timers yet its
storage is still "wheel": the mode is not determined by the live
count. -/
theorem c8_counterexample :
    storageMode (runSOps (stagedNewAt 0)
        ((((List.range 256).map (fun e => SOp.ins e)) ++ [SOp.ins 300])
          ++ [SOp.rem 49])) = "wheel"
    ∧ stagedLen (runSOps (stagedNewAt 0)
        ((((List.range 256).map (fun e => SOp.ins e)) ++ [SOp.ins 300])
          ++ [SOp.rem 49])) ≤ INLINE_THRESHOLD := by
  have hrw : runSOps (stagedNewAt 0)
        ((((List.range 256).map (fun e => SOp.ins e)) ++ [SOp.ins 300])
          ++ [SOp.rem 49])
      = (stagedRemove (runSOps (stagedNewAt 0)
          (((List.range 256).map (fun e => SOp.ins e)) ++ [SOp.ins 300]))
          49).snd := by
    rw [runSOps_append]
    rfl
  rw [hrw]
  refine ⟨?_, ?_⟩
  · rw [storageMode_stagedRemove]
    exact promotionScenario.1
  · rw [promotionScenario.2.2]
    decide

/-- C8 corrected: inline storage does imply at most T = 256 live
timers in every reachable state, but the mode is not determined by the
live count in the other direction: wheel storage is permanent, every
operation maps a wheel-mode state to a wheel-mode state even when the
live count is back at or below T. -/
theorem c8_amended (st : Nat) (ops : List SOp) :
    (storageMode (runSOps (stagedNewAt st) ops) = "inline"
      → stagedLen (runSOps (stagedNewAt st) ops) ≤ INLINE_THRESHOLD)
    ∧ (∀ s op, storageMode s = "wheel" → storageMode (stepS s op) = "wheel") :=
  ⟨runSOps_inline_bound st ops, fun s op h => storageMode_stepS_wheel s op h⟩

theorem c8_amended_witness :
    storageMode (runSOps (stagedNewAt 0) [SOp.ins 5]) = "inline"
    ∧ stagedLen (runSOps (stagedNewAt 0) [SOp.ins 5]) ≤ INLINE_THRESHOLD
    ∧ storageMode (stepS ⟨.wheelStore (wheelNewAt 0), 3, 0⟩ (SOp.ins 7))
      = "wheel" :=
  ⟨by decide, (c8_amended 0 [SOp.ins 5]).1 (by decide),
    (c8_amended 0 []).2 ⟨.wheelStore (wheelNewAt 0), 3, 0⟩ (SOp.ins 7) rfl⟩

/-- Residues mod `cap` are injective on any window shorter than `cap`. -/
theorem mod_inj_window {cap a b : Nat} (hc : 0 < cap) (hab : a ≤ b)
    (hw : b - a < cap) (h : a % cap = b % cap) : a = b := by
  have hdvd2 : cap ∣ b - a := (Nat.modEq_iff_dvd' hab).mp h
  have h0 := Nat.eq_zero_of_dvd_of_lt hdvd2 hw
  omega

theorem getD_replicate (n : Nat) (a d : α) (j : Nat) (h : j < n) :
    (List.replicate n a).getD j d = a := by
  rw [List.getD_eq_getElem?_getD,
    List.getElem?_eq_getElem (by rw [List.length_replicate]; exact h),
    List.getElem_replicate]
  rfl

/-- The state invariant of a reachable SPSC ring: `ps`/`qs` are the
successfully pushed and popped values, `L` the unwrapped producer
limit.  Slots hold exactly the pushed-but-unpopped values at their
masked positions. -/
structure QInvF (cap la : Nat) (b : SpscBuffer α) (ps qs : List α)
    (L : Nat) : Prop where
  cap_eq : b.capacity = cap
  mask_eq : b.mask = cap - 1
  la_eq : b.lookahead = la
  cons_eq : b.consumerId = 0 ∨ b.consumerId = USIZE_MAX
  prod_eq : b.producerId = 0
  slen : b.slots.length = cap
  tail_eq : b.tail = ps.length % USIZE_MOD
  head_eq : b.head = qs.length % USIZE_MOD
  limit_eq : b.limit = L % USIZE_MOD
  qp : qs.length ≤ ps.length
  pl : ps.length ≤ L
  lq : L ≤ qs.length + cap
  fifo : qs = ps.take qs.length
  occ : ∀ i, qs.length ≤ i → i < ps.length →
    b.slots.getD (i % cap) none = ps[i]?
  uns : ∀ j, j < cap →
    (∀ i, qs.length ≤ i → i < ps.length → i % cap ≠ j) →
    b.slots.getD j none = none

/-- The invariant with the ghost limit existentially hidden. -/
def QInv (cap la : Nat) (b : SpscBuffer α) (ps qs : List α) : Prop :=
  ∃ L, QInvF cap la b ps qs L

theorem cap_pos_of_dvd {cap : Nat} (hdvd : cap ∣ USIZE_MOD) : 0 < cap := by
  rcases Nat.eq_zero_or_pos cap with h | h
  · rw [h] at hdvd
    have h2 := Nat.eq_zero_of_zero_dvd hdvd
    exact absurd h2 (by decide)
  · exact h

theorem qinv_maskIdx {cap : Nat} {b : SpscBuffer α}
    (hdvd : cap ∣ USIZE_MOD) (hcap0 : 0 < cap) (hmask : b.mask = cap - 1)
    (x : Nat) : maskIdx b (x % USIZE_MOD) = x % cap := by
  rw [maskIdx, hmask, show cap - 1 + 1 = cap from by omega]
  exact Nat.mod_mod_of_dvd x hdvd

theorem tryPush_disc (b : SpscBuffer α) (v : α)
    (h : consumerDisconnected b = true) : tryPush b v = (some v, b) := by
  rw [tryPush, if_pos h]

/-- The connected branch of `try_push`, with the lets expanded. -/
theorem tryPush_conn (b : SpscBuffer α) (v : α)
    (h : consumerDisconnected b = false) :
    tryPush b v
      = (match
          (if b.tail == b.limit then
            (if (b.slots.getD (maskIdx b ((b.tail + b.lookahead) % USIZE_MOD))
                none).isSome = false then
              some { b with limit := (b.tail + b.lookahead) % USIZE_MOD }
            else if (b.slots.getD (maskIdx b b.tail) none).isSome then none
            else some { b with limit := (b.tail + 1) % USIZE_MOD })
          else some b : Option (SpscBuffer α)) with
        | none => (some v, b)
        | some b' =>
          (none, { b' with
            slots := b'.slots.set (maskIdx b' b.tail) (some v),
            tail := (b.tail + 1) % USIZE_MOD })) := by
  rw [tryPush, if_neg (by rw [h]; exact Bool.false_ne_true)]

theorem tryPush_eq_of_ne (b : SpscBuffer α) (v : α)
    (h : consumerDisconnected b = false) (h2 : (b.tail == b.limit) = false) :
    tryPush b v = (none, { b with
      slots := b.slots.set (maskIdx b b.tail) (some v),
      tail := (b.tail + 1) % USIZE_MOD }) := by
  rw [tryPush_conn b v h, if_neg (by rw [h2]; exact Bool.false_ne_true)]


theorem tryPush_probe_free (b : SpscBuffer α) (v : α)
    (h : consumerDisconnected b = false) (h2 : (b.tail == b.limit) = true)
    (h3 : (b.slots.getD (maskIdx b ((b.tail + b.lookahead) % USIZE_MOD))
      none).isSome = false) :
    tryPush b v = (none, { b with
      limit := (b.tail + b.lookahead) % USIZE_MOD,
      slots := b.slots.set (maskIdx b b.tail) (some v),
      tail := (b.tail + 1) % USIZE_MOD }) := by
  rw [tryPush_conn b v h, if_pos h2, if_pos h3]
  rfl

theorem tryPush_full (b : SpscBuffer α) (v : α)
    (h : consumerDisconnected b = false) (h2 : (b.tail == b.limit) = true)
    (h3 : (b.slots.getD (maskIdx b ((b.tail + b.lookahead) % USIZE_MOD))
      none).isSome = true)
    (h4 : (b.slots.getD (maskIdx b b.tail) none).isSome = true) :
    tryPush b v = (some v, b) := by
  rw [tryPush_conn b v h, if_pos h2,
    if_neg (by rw [h3]; exact fun hc => Bool.noConfusion hc), if_pos h4]


theorem tryPush_bump (b : SpscBuffer α) (v : α)
    (h : consumerDisconnected b = false) (h2 : (b.tail == b.limit) = true)
    (h3 : (b.slots.getD (maskIdx b ((b.tail + b.lookahead) % USIZE_MOD))
      none).isSome = true)
    (h4 : (b.slots.getD (maskIdx b b.tail) none).isSome = false) :
    tryPush b v = (none, { b with
      limit := (b.tail + 1) % USIZE_MOD,
      slots := b.slots.set (maskIdx b b.tail) (some v),
      tail := (b.tail + 1) % USIZE_MOD }) := by
  rw [tryPush_conn b v h, if_pos h2,
    if_neg (by rw [h3]; exact fun hc => Bool.noConfusion hc),
    if_neg (by rw [h4]; exact Bool.false_ne_true)]
  rfl

theorem tryPop_none (b : SpscBuffer α)
    (h : b.slots.getD (maskIdx b b.head) none = none) :
    tryPop b = (none, b) := by
  rw [tryPop, h]


theorem tryPop_some (b : SpscBuffer α) (u : α)
    (h : b.slots.getD (maskIdx b b.head) none = some u) :
    tryPop b = (some u, { b with
      slots := b.slots.set (maskIdx b b.head) none,
      head := (b.head + 1) % USIZE_MOD }) := by
  rw [tryPop, h]


/-- Writing the next value at `tail & mask` re-establishes the
invariant for `ps ++ [v]` at any valid new limit `L2`. -/
theorem qinv_write {cap la : Nat} {b : SpscBuffer α} {ps qs : List α}
    {L : Nat} (hcap0 : 0 < cap) (hf : QInvF cap la b ps qs L) (v : α)
    (b2 : SpscBuffer α) (L2 : Nat)
    (h2cap : b2.capacity = b.capacity) (h2mask : b2.mask = b.mask)
    (h2la : b2.lookahead = b.lookahead)
    (h2cons : b2.consumerId = b.consumerId)
    (h2prod : b2.producerId = b.producerId)
    (h2head : b2.head = b.head)
    (h2slots : b2.slots = b.slots.set (ps.length % cap) (some v))
    (h2tail : b2.tail = (ps.length + 1) % USIZE_MOD)
    (h2limit : b2.limit = L2 % USIZE_MOD)
    (hnotfull : ps.length < qs.length + cap)
    (hpl2 : ps.length + 1 ≤ L2) (hlq2 : L2 ≤ qs.length + cap) :
    QInvF cap la b2 (ps ++ [v]) qs L2 := by
  have hlen : (ps ++ [v]).length = ps.length + 1 := by
    rw [List.length_append]
    rfl
  refine ⟨?_, ?_, ?_, ?_, ?_, ?_, ?_, ?_, ?_, ?_, ?_, ?_, ?_, ?_, ?_⟩
  · rw [h2cap]; exact hf.cap_eq
  · rw [h2mask]; exact hf.mask_eq
  · rw [h2la]; exact hf.la_eq
  · rw [h2cons]; exact hf.cons_eq
  · rw [h2prod]; exact hf.prod_eq
  · rw [h2slots, List.length_set]; exact hf.slen
  · rw [h2tail, hlen]
  · rw [h2head]; exact hf.head_eq
  · exact h2limit
  · rw [hlen]; have := hf.qp; omega
  · rw [hlen]; exact hpl2
  · exact hlq2
  · rw [List.take_append_of_le_length hf.qp]; exact hf.fifo
  · intro i hiq hip
    rw [hlen] at hip
    rw [h2slots]
    rcases Nat.lt_succ_iff_lt_or_eq.mp hip with h | h
    · have hne : ps.length % cap ≠ i % cap := by
        intro hc
        have h9 := mod_inj_window hcap0 (Nat.le_of_lt h)
          (by have := hf.qp; omega) hc.symm
        omega
      rw [getD_set_ne _ _ _ _ _ hne, hf.occ i hiq h, List.getElem?_append_left h]
    · rw [h, getD_set_self _ _ _ _ (by rw [hf.slen]; exact Nat.mod_lt _ hcap0)]
      rw [List.getElem?_concat_length]
  · intro j hj hnone
    rw [hlen] at hnone
    have hjP : ps.length % cap ≠ j := hnone ps.length hf.qp (by omega)
    rw [h2slots, getD_set_ne _ _ _ _ _ hjP]
    exact hf.uns j hj (fun i hiq hip => hnone i hiq (by omega))

/-- One `try_push` step: the value comes back exactly on disconnect or
full, failure leaves the buffer untouched, and success appends to the
push history and writes the tail slot. -/
theorem tryPush_step {cap la : Nat} {b : SpscBuffer α} {ps qs : List α}
    (hdvd : cap ∣ USIZE_MOD) (hltM : cap < USIZE_MOD)
    (hla1 : 1 ≤ la) (hla2 : la ≤ cap) (hla3 : la = cap → cap = 1)
    (hinv : QInv cap la b ps qs) (v : α) :
    ((tryPush b v).fst = none ∨ (tryPush b v).fst = some v)
    ∧ ((tryPush b v).fst = some v
        ↔ (consumerDisconnected b = true ∨ ps.length = qs.length + cap))
    ∧ ((tryPush b v).fst = some v → (tryPush b v).snd = b)
    ∧ ((tryPush b v).fst = some v → QInv cap la (tryPush b v).snd ps qs)
    ∧ ((tryPush b v).fst = none → QInv cap la (tryPush b v).snd (ps ++ [v]) qs)
    ∧ ((tryPush b v).fst = none →
        (tryPush b v).snd.slots.getD (ps.length % cap) none = some v) := by
  obtain ⟨L, hf⟩ := hinv
  have hcap0 : 0 < cap := cap_pos_of_dvd hdvd
  have hmi : ∀ x : Nat, maskIdx b (x % USIZE_MOD) = x % cap :=
    fun x => qinv_maskIdx hdvd hcap0 hf.mask_eq x
  have hmi2 : maskIdx b b.tail = ps.length % cap := by
    rw [hf.tail_eq]; exact hmi _
  have hmi3 : maskIdx b ((b.tail + b.lookahead) % USIZE_MOD)
      = (ps.length + la) % cap := by
    rw [hf.tail_eq, hf.la_eq, Nat.mod_add_mod]; exact hmi _
  by_cases hdisc : consumerDisconnected b = true
  · rw [tryPush_disc b v hdisc]
    exact ⟨Or.inr rfl, ⟨fun _ => Or.inl hdisc, fun _ => rfl⟩, fun _ => rfl,
      fun _ => ⟨L, hf⟩, fun h => Option.noConfusion h,
      fun h => Option.noConfusion h⟩
  · have hcd : consumerDisconnected b = false := by
      rcases h9 : consumerDisconnected b with _ | _
      · rfl
      · exact absurd h9 hdisc
    have htlchar : (b.tail == b.limit) = true ↔ ps.length = L := by
      rw [hf.tail_eq, hf.limit_eq, beq_iff_eq]
      constructor
      · intro he
        refine mod_inj_window (by decide) hf.pl ?_ he
        have h10 := hf.lq
        have h11 := hf.qp
        omega
      · intro he
        rw [he]
    by_cases hPL : ps.length = L
    · have htl : (b.tail == b.limit) = true := htlchar.mpr hPL
      by_cases hex : ∃ i, qs.length ≤ i ∧ i < ps.length
          ∧ i % cap = (ps.length + la) % cap
      · obtain ⟨i0, hi0q, hi0p, hi0m⟩ := hex
        have hsl : b.slots.getD ((ps.length + la) % cap) none = ps[i0]? := by
          rw [← hi0m]
          exact hf.occ i0 hi0q hi0p
        have hprobe : (b.slots.getD
            (maskIdx b ((b.tail + b.lookahead) % USIZE_MOD)) none).isSome
            = true := by
          rw [hmi3, hsl, List.getElem?_eq_getElem hi0p]
          rfl
        by_cases hfull : ps.length = qs.length + cap
        · have hQP2 : qs.length < ps.length := by omega
          have hi1m : qs.length % cap = ps.length % cap := by
            rw [hfull, Nat.add_mod_right]
          have hts : b.slots.getD (ps.length % cap) none = ps[qs.length]? := by
            rw [← hi1m]
            exact hf.occ qs.length (Nat.le_refl _) hQP2
          have htsome : (b.slots.getD (maskIdx b b.tail) none).isSome = true := by
            rw [hmi2, hts, List.getElem?_eq_getElem hQP2]
            rfl
          rw [tryPush_full b v hcd htl hprobe htsome]
          exact ⟨Or.inr rfl, ⟨fun _ => Or.inr hfull, fun _ => rfl⟩, fun _ => rfl,
            fun _ => ⟨L, hf⟩, fun h => Option.noConfusion h,
            fun h => Option.noConfusion h⟩
        · have hnotfull : ps.length < qs.length + cap := by
            have := hf.lq
            omega
          have htnone : b.slots.getD (ps.length % cap) none = none := by
            refine hf.uns (ps.length % cap) (Nat.mod_lt _ hcap0) ?_
            intro i hiq hip hc
            have h9 := mod_inj_window hcap0 (Nat.le_of_lt hip) (by omega) hc
            omega
          have htfalse : (b.slots.getD (maskIdx b b.tail) none).isSome
              = false := by
            rw [hmi2, htnone]
            rfl
          rw [tryPush_bump b v hcd htl hprobe htfalse]
          have hinv2 : QInvF cap la { b with limit := (b.tail + 1) % USIZE_MOD, slots := b.slots.set (maskIdx b b.tail) (some v), tail := (b.tail + 1) % USIZE_MOD } (ps ++ [v]) qs (ps.length + 1) := by
            refine qinv_write hcap0 hf v _ _ rfl rfl rfl rfl rfl rfl ?_ ?_ ?_
              hnotfull (Nat.le_refl _) (by omega)
            · show b.slots.set (maskIdx b b.tail) (some v)
                = b.slots.set (ps.length % cap) (some v)
              rw [hmi2]
            · show (b.tail + 1) % USIZE_MOD = (ps.length + 1) % USIZE_MOD
              rw [hf.tail_eq, Nat.mod_add_mod]
            · show (b.tail + 1) % USIZE_MOD = (ps.length + 1) % USIZE_MOD
              rw [hf.tail_eq, Nat.mod_add_mod]
          have hnot : ¬(consumerDisconnected b = true
              ∨ ps.length = qs.length + cap) := by
            intro h9
            rcases h9 with h9 | h9
            · rw [hcd] at h9
              exact Bool.noConfusion h9
            · exact hfull h9
          refine ⟨Or.inl rfl, ⟨fun h => Option.noConfusion h,
            fun h9 => absurd h9 hnot⟩, fun h => Option.noConfusion h,
            fun h => Option.noConfusion h, fun _ => ⟨ps.length + 1, hinv2⟩, ?_⟩
          intro _
          show (b.slots.set (maskIdx b b.tail) (some v)).getD
            (ps.length % cap) none = some v
          rw [hmi2]
          exact getD_set_self _ _ _ _ (by rw [hf.slen]; exact Nat.mod_lt _ hcap0)
      · have hslnone : b.slots.getD ((ps.length + la) % cap) none = none := by
          refine hf.uns _ (Nat.mod_lt _ hcap0) ?_
          intro i hiq hip hc
          exact hex ⟨i, hiq, hip, hc⟩
        have hprobe : (b.slots.getD
            (maskIdx b ((b.tail + b.lookahead) % USIZE_MOD)) none).isSome
            = false := by
          rw [hmi3, hslnone]
          rfl
        have hbound : ps.length + la ≤ qs.length + cap := by
          by_cases hla4 : la < cap
          · by_contra hcon
            refine hex ⟨ps.length + la - cap, by omega, by omega, ?_⟩
            have hb : ps.length + la - cap + cap = ps.length + la := by omega
            calc (ps.length + la - cap) % cap
                = (ps.length + la - cap + cap) % cap :=
                  (Nat.add_mod_right _ _).symm
              _ = (ps.length + la) % cap := by rw [hb]
          · have hcap1 : cap = 1 := hla3 (by omega)
            by_contra hcon
            have hQltP : qs.length < ps.length := by omega
            refine hex ⟨qs.length, Nat.le_refl _, hQltP, ?_⟩
            rw [hcap1, Nat.mod_one, Nat.mod_one]
        have hnotfull : ps.length < qs.length + cap := by omega
        have htnone : b.slots.getD (ps.length % cap) none = none := by
          refine hf.uns _ (Nat.mod_lt _ hcap0) ?_
          intro i hiq hip hc
          have h9 := mod_inj_window hcap0 (Nat.le_of_lt hip) (by omega) hc
          omega
        rw [tryPush_probe_free b v hcd htl hprobe]
        have hinv2 : QInvF cap la { b with limit := (b.tail + b.lookahead) % USIZE_MOD, slots := b.slots.set (maskIdx b b.tail) (some v), tail := (b.tail + 1) % USIZE_MOD } (ps ++ [v]) qs (ps.length + la) := by
          refine qinv_write hcap0 hf v _ _ rfl rfl rfl rfl rfl rfl ?_ ?_ ?_
            hnotfull (by omega) hbound
          · show b.slots.set (maskIdx b b.tail) (some v)
              = b.slots.set (ps.length % cap) (some v)
            rw [hmi2]
          · show (b.tail + 1) % USIZE_MOD = (ps.length + 1) % USIZE_MOD
            rw [hf.tail_eq, Nat.mod_add_mod]
          · show (b.tail + b.lookahead) % USIZE_MOD
              = (ps.length + la) % USIZE_MOD
            rw [hf.tail_eq, hf.la_eq, Nat.mod_add_mod]
        have hnot : ¬(consumerDisconnected b = true
            ∨ ps.length = qs.length + cap) := by
          intro h9
          rcases h9 with h9 | h9
          · rw [hcd] at h9
            exact Bool.noConfusion h9
          · omega
        refine ⟨Or.inl rfl, ⟨fun h => Option.noConfusion h,
          fun h9 => absurd h9 hnot⟩, fun h => Option.noConfusion h,
          fun h => Option.noConfusion h,
          fun _ => ⟨ps.length + la, hinv2⟩, ?_⟩
        intro _
        show (b.slots.set (maskIdx b b.tail) (some v)).getD
          (ps.length % cap) none = some v
        rw [hmi2]
        exact getD_set_self _ _ _ _ (by rw [hf.slen]; exact Nat.mod_lt _ hcap0)
    · have htl : (b.tail == b.limit) = false := by
        rcases h9 : (b.tail == b.limit) with _ | _
        · rfl
        · exact absurd (htlchar.mp h9) hPL
      have hPltL : ps.length < L := Nat.lt_of_le_of_ne hf.pl hPL
      have hnotfull : ps.length < qs.length + cap := by
        have := hf.lq
        omega
      rw [tryPush_eq_of_ne b v hcd htl]
      have hinv2 : QInvF cap la { b with slots := b.slots.set (maskIdx b b.tail) (some v), tail := (b.tail + 1) % USIZE_MOD } (ps ++ [v]) qs L := by
        refine qinv_write hcap0 hf v _ _ rfl rfl rfl rfl rfl rfl ?_ ?_
          hf.limit_eq hnotfull (by omega) hf.lq
        · show b.slots.set (maskIdx b b.tail) (some v)
            = b.slots.set (ps.length % cap) (some v)
          rw [hmi2]
        · show (b.tail + 1) % USIZE_MOD = (ps.length + 1) % USIZE_MOD
          rw [hf.tail_eq, Nat.mod_add_mod]
      have hnot : ¬(consumerDisconnected b = true
          ∨ ps.length = qs.length + cap) := by
        intro h9
        rcases h9 with h9 | h9
        · rw [hcd] at h9
          exact Bool.noConfusion h9
        · omega
      refine ⟨Or.inl rfl, ⟨fun h => Option.noConfusion h,
        fun h9 => absurd h9 hnot⟩, fun h => Option.noConfusion h,
        fun h => Option.noConfusion h, fun _ => ⟨L, hinv2⟩, ?_⟩
      intro _
      show (b.slots.set (maskIdx b b.tail) (some v)).getD
        (ps.length % cap) none = some v
      rw [hmi2]
      exact getD_set_self _ _ _ _ (by rw [hf.slen]; exact Nat.mod_lt _ hcap0)

/-- One `try_pop` step: empty exactly when every push was popped;
success pops the oldest value. -/
theorem tryPop_step {cap la : Nat} {b : SpscBuffer α} {ps qs : List α}
    (hdvd : cap ∣ USIZE_MOD) (hltM : cap < USIZE_MOD)
    (hinv : QInv cap la b ps qs) :
    ((tryPop b).fst = none ↔ qs.length = ps.length)
    ∧ ((tryPop b).fst = none → (tryPop b).snd = b)
    ∧ (∀ u, (tryPop b).fst = some u →
        QInv cap la (tryPop b).snd ps (qs ++ [u])) := by
  obtain ⟨L, hf⟩ := hinv
  have hcap0 : 0 < cap := cap_pos_of_dvd hdvd
  have hmiH : maskIdx b b.head = qs.length % cap := by
    rw [hf.head_eq]
    exact qinv_maskIdx hdvd hcap0 hf.mask_eq _
  by_cases hQP : qs.length = ps.length
  · have hnone : b.slots.getD (qs.length % cap) none = none := by
      refine hf.uns _ (Nat.mod_lt _ hcap0) ?_
      intro i hiq hip hc
      omega
    rw [tryPop_none b (by rw [hmiH]; exact hnone)]
    exact ⟨⟨fun _ => hQP, fun _ => rfl⟩, fun _ => rfl,
      fun u hu => Option.noConfusion hu⟩
  · have hQ2 : qs.length < ps.length := Nat.lt_of_le_of_ne hf.qp hQP
    have hslot : b.slots.getD (qs.length % cap) none = ps[qs.length]? :=
      hf.occ qs.length (Nat.le_refl _) hQ2
    have hs2 : b.slots.getD (maskIdx b b.head) none
        = some (ps.get ⟨qs.length, hQ2⟩) := by
      rw [hmiH, hslot, List.getElem?_eq_getElem hQ2]
      rfl
    rw [tryPop_some b (ps.get ⟨qs.length, hQ2⟩) hs2]
    refine ⟨⟨fun h => Option.noConfusion h, fun h => absurd h hQP⟩,
      fun h => Option.noConfusion h, ?_⟩
    intro u hu
    have hu2 : ps.get ⟨qs.length, hQ2⟩ = u := Option.some.inj hu
    subst hu2
    have hlen2 : (qs ++ [ps.get ⟨qs.length, hQ2⟩]).length = qs.length + 1 := by
      rw [List.length_append]
      rfl
    refine ⟨L, ?_, ?_, ?_, ?_, ?_, ?_, ?_, ?_, ?_, ?_, ?_, ?_, ?_, ?_, ?_⟩
    · exact hf.cap_eq
    · exact hf.mask_eq
    · exact hf.la_eq
    · exact hf.cons_eq
    · exact hf.prod_eq
    · show (b.slots.set (maskIdx b b.head) none).length = cap
      rw [List.length_set]
      exact hf.slen
    · exact hf.tail_eq
    · show (b.head + 1) % USIZE_MOD
        = (qs ++ [ps.get ⟨qs.length, hQ2⟩]).length % USIZE_MOD
      rw [hf.head_eq, Nat.mod_add_mod, hlen2]
    · exact hf.limit_eq
    · rw [hlen2]
      omega
    · exact hf.pl
    · rw [hlen2]
      have := hf.lq
      omega
    · rw [hlen2, List.take_succ, List.getElem?_eq_getElem hQ2, ← hf.fifo]
      rfl
    · intro i hiq hip
      rw [hlen2] at hiq
      show (b.slots.set (maskIdx b b.head) none).getD (i % cap) none = ps[i]?
      rw [hmiH]
      have hne : qs.length % cap ≠ i % cap := by
        intro hc
        have h9 := mod_inj_window hcap0 (by omega)
          (by have := hf.lq; have := hf.pl; omega) hc
        omega
      rw [getD_set_ne _ _ _ _ _ hne]
      exact hf.occ i (by omega) hip
    · intro j hj hnone2
      rw [hlen2] at hnone2
      show (b.slots.set (maskIdx b b.head) none).getD j none = none
      rw [hmiH]
      by_cases hjq : qs.length % cap = j
      · rw [← hjq]
        exact getD_set_self _ _ _ _ (by rw [hf.slen]; exact Nat.mod_lt _ hcap0)
      · rw [getD_set_ne _ _ _ _ _ hjq]
        refine hf.uns j hj ?_
        intro i hiq hip
        rcases Nat.eq_or_lt_of_le hiq with h9 | h9
        · rw [← h9]
          exact hjq
        · exact hnone2 i (by omega) hip

/-- Disconnecting the consumer keeps the ring invariant. -/
theorem qinv_disconnect {cap la : Nat} {b : SpscBuffer α} {ps qs : List α}
    (hinv : QInv cap la b ps qs) : QInv cap la (disconnectConsumer b) ps qs := by
  obtain ⟨L, hf⟩ := hinv
  exact ⟨L, hf.cap_eq, hf.mask_eq, hf.la_eq, Or.inr rfl, hf.prod_eq, hf.slen,
    hf.tail_eq, hf.head_eq, hf.limit_eq, hf.qp, hf.pl, hf.lq, hf.fifo,
    hf.occ, hf.uns⟩

/-- The freshly made ring satisfies the invariant with empty history. -/
theorem qinv_init (α : Type) (C : Nat) :
    QInv (nextPowerOfTwo C) (min (max (nextPowerOfTwo C / 4) 1) MAX_LOOKAHEAD)
      (spscMake α C) ([] : List α) ([] : List α) := by
  refine ⟨0, rfl, rfl, rfl, Or.inl rfl, rfl, ?_, ?_, ?_, ?_, ?_, ?_, ?_, ?_,
    ?_, ?_⟩
  · show (List.replicate (nextPowerOfTwo C) (none : Option α)).length
      = nextPowerOfTwo C
    exact List.length_replicate _ _
  · exact (Nat.zero_mod _).symm
  · exact (Nat.zero_mod _).symm
  · exact (Nat.zero_mod _).symm
  · exact Nat.le_refl _
  · exact Nat.zero_le _
  · exact Nat.zero_le _
  · rfl
  · intro i hiq hip
    exact absurd hip (Nat.not_lt_zero i)
  · intro j hj hnone
    show (List.replicate (nextPowerOfTwo C) (none : Option α)).getD j none
      = none
    exact getD_replicate _ _ _ _ hj

/-- The clamp bounds of the look-ahead stride. -/
theorem la_facts (cap : Nat) (hcap0 : 0 < cap) :
    1 ≤ min (max (cap / 4) 1) MAX_LOOKAHEAD
    ∧ min (max (cap / 4) 1) MAX_LOOKAHEAD ≤ cap
    ∧ (min (max (cap / 4) 1) MAX_LOOKAHEAD = cap → cap = 1) := by
  have hdiv : cap / 4 ≤ cap := Nat.div_le_self _ _
  have hM : MAX_LOOKAHEAD = 4096 := rfl
  refine ⟨?_, ?_, ?_⟩
  · refine Nat.le_min.mpr ⟨?_, ?_⟩
    · exact Nat.le_max_right _ _
    · rw [hM]; omega
  · refine Nat.le_trans (Nat.min_le_left _ _) ?_
    exact Nat.max_le.mpr ⟨hdiv, hcap0⟩
  · intro he
    by_cases h2 : 2 ≤ cap
    · exfalso
      have hlt2 : max (cap / 4) 1 < cap := by
        refine Nat.max_lt.mpr ⟨?_, by omega⟩
        exact Nat.div_lt_self (by omega) (by omega)
      have h3 := Nat.min_le_left (max (cap / 4) 1) MAX_LOOKAHEAD
      omega
    · omega

/-- Every interleaving of the queue operations keeps the invariant. -/
theorem runQOps_inv {cap la : Nat} (hdvd : cap ∣ USIZE_MOD)
    (hltM : cap < USIZE_MOD) (hla1 : 1 ≤ la) (hla2 : la ≤ cap)
    (hla3 : la = cap → cap = 1) :
    ∀ (ops : List (QOp α)) (b : SpscBuffer α) (ps qs : List α),
    QInv cap la b ps qs →
    QInv cap la (runQOps b ps qs ops).fst (runQOps b ps qs ops).snd.fst
      (runQOps b ps qs ops).snd.snd := by
  intro ops
  induction ops with
  | nil =>
    intro b ps qs hinv
    exact hinv
  | cons op rest ih =>
    intro b ps qs hinv
    cases op with
    | push v =>
      obtain ⟨halt, hiff, hunch, hsomeinv, hnoneinv, hslot⟩ :=
        tryPush_step hdvd hltM hla1 hla2 hla3 hinv v
      rcases hp : (tryPush b v).fst with _ | u
      · have hred : runQOps b ps qs (QOp.push v :: rest)
            = runQOps (tryPush b v).snd (ps ++ [v]) qs rest := by
          rw [show runQOps b ps qs (QOp.push v :: rest)
              = (match (tryPush b v).fst with
                 | none => runQOps (tryPush b v).snd (ps ++ [v]) qs rest
                 | some _ => runQOps (tryPush b v).snd ps qs rest) from rfl, hp]
        rw [hred]
        exact ih _ _ _ (hnoneinv hp)
      · have hv : (tryPush b v).fst = some v := by
          rcases halt with h | h
          · rw [hp] at h
            exact Option.noConfusion h
          · exact h
        have hred : runQOps b ps qs (QOp.push v :: rest)
            = runQOps (tryPush b v).snd ps qs rest := by
          rw [show runQOps b ps qs (QOp.push v :: rest)
              = (match (tryPush b v).fst with
                 | none => runQOps (tryPush b v).snd (ps ++ [v]) qs rest
                 | some _ => runQOps (tryPush b v).snd ps qs rest) from rfl, hp]
        rw [hred]
        exact ih _ _ _ (hsomeinv hv)
    | pop =>
      obtain ⟨hiff, hunch, hsomeinv⟩ := tryPop_step hdvd hltM hinv
      rcases hp : (tryPop b).fst with _ | u
      · have hred : runQOps b ps qs (QOp.pop :: rest)
            = runQOps (tryPop b).snd ps qs rest := by
          rw [show runQOps b ps qs (QOp.pop :: rest)
              = (match (tryPop b).fst with
                 | some u => runQOps (tryPop b).snd ps (qs ++ [u]) rest
                 | none => runQOps (tryPop b).snd ps qs rest) from rfl, hp]
        rw [hred, hunch hp]
        exact ih _ _ _ hinv
      · have hred : runQOps b ps qs (QOp.pop :: rest)
            = runQOps (tryPop b).snd ps (qs ++ [u]) rest := by
          rw [show runQOps b ps qs (QOp.pop :: rest)
              = (match (tryPop b).fst with
                 | some u => runQOps (tryPop b).snd ps (qs ++ [u]) rest
                 | none => runQOps (tryPop b).snd ps qs rest) from rfl, hp]
        rw [hred]
        exact ih _ _ _ (hsomeinv u hp)
    | discC =>
      exact ih _ _ _ (qinv_disconnect hinv)


/-- C4: on every single-threaded interleaving of pushes, pops (and
consumer disconnects) on a ring made with capacity `C`, the cursors
are exactly the wrapped counters of successful pushes and pops, the
number of pushed-but-unpopped values stays between 0 and the ring's
(rounded) capacity, and the popped values are precisely the pushed
values in push order — nothing lost, duplicated or reordered. -/
theorem c4_spsc_fifo (α : Type) (C : Nat) (ops : List (QOp α))
    (hdvd : nextPowerOfTwo C ∣ 2 ^ 64) (hltM : nextPowerOfTwo C < 2 ^ 64) :
    (runQOps (spscMake α C) ([] : List α) ([] : List α) ops).snd.snd.length ≤ (runQOps (spscMake α C) ([] : List α) ([] : List α) ops).snd.fst.length
    ∧ (runQOps (spscMake α C) ([] : List α) ([] : List α) ops).snd.fst.length ≤ (runQOps (spscMake α C) ([] : List α) ([] : List α) ops).snd.snd.length + nextPowerOfTwo C
    ∧ (runQOps (spscMake α C) ([] : List α) ([] : List α) ops).fst.tail = (runQOps (spscMake α C) ([] : List α) ([] : List α) ops).snd.fst.length % 2 ^ 64
    ∧ (runQOps (spscMake α C) ([] : List α) ([] : List α) ops).fst.head = (runQOps (spscMake α C) ([] : List α) ([] : List α) ops).snd.snd.length % 2 ^ 64
    ∧ (runQOps (spscMake α C) ([] : List α) ([] : List α) ops).snd.snd = (runQOps (spscMake α C) ([] : List α) ([] : List α) ops).snd.fst.take (runQOps (spscMake α C) ([] : List α) ([] : List α) ops).snd.snd.length := by
  have hcap0 : 0 < nextPowerOfTwo C := cap_pos_of_dvd hdvd
  obtain ⟨hla1, hla2, hla3⟩ := la_facts (nextPowerOfTwo C) hcap0
  obtain ⟨L, hf⟩ := runQOps_inv hdvd hltM hla1 hla2 hla3 ops
    (spscMake α C) [] [] (qinv_init α C)
  refine ⟨hf.qp, ?_, hf.tail_eq, hf.head_eq, hf.fifo⟩
  have h1 := hf.pl
  have h2 := hf.lq
  omega

theorem c4_spsc_fifo_witness :
    (nextPowerOfTwo 2 ∣ 2 ^ 64 ∧ nextPowerOfTwo 2 < 2 ^ 64)
    ∧ (runQOps (spscMake Nat 2) ([] : List Nat) ([] : List Nat) [QOp.push 7, QOp.push 8, QOp.pop]).snd.snd = (runQOps (spscMake Nat 2) ([] : List Nat) ([] : List Nat) [QOp.push 7, QOp.push 8, QOp.pop]).snd.fst.take (runQOps (spscMake Nat 2) ([] : List Nat) ([] : List Nat) [QOp.push 7, QOp.push 8, QOp.pop]).snd.snd.length :=
  ⟨⟨by decide, by decide⟩,
    (c4_spsc_fifo Nat 2 [QOp.push 7, QOp.push 8, QOp.pop]
      (by decide) (by decide)).2.2.2.2⟩

/-- C7: on every reachable ring state, `try_push` hands the value back
exactly when the consumer is disconnected or the ring is full (pushes
minus pops equals the capacity); any failure returns the buffer
completely unchanged — in particular no slot is written on the
disconnected path — and otherwise the push succeeds and stores the
value in the slot at the tail position. -/
theorem c7_try_push (α : Type) (C : Nat) (ops : List (QOp α)) (v : α)
    (hdvd : nextPowerOfTwo C ∣ 2 ^ 64) (hltM : nextPowerOfTwo C < 2 ^ 64) :
    ((tryPush (runQOps (spscMake α C) ([] : List α) ([] : List α) ops).fst v).fst = some v
      ↔ (consumerDisconnected (runQOps (spscMake α C) ([] : List α) ([] : List α) ops).fst = true
        ∨ (runQOps (spscMake α C) ([] : List α) ([] : List α) ops).snd.fst.length = (runQOps (spscMake α C) ([] : List α) ([] : List α) ops).snd.snd.length + nextPowerOfTwo C))
    ∧ ((tryPush (runQOps (spscMake α C) ([] : List α) ([] : List α) ops).fst v).fst = some v → (tryPush (runQOps (spscMake α C) ([] : List α) ([] : List α) ops).fst v).snd = (runQOps (spscMake α C) ([] : List α) ([] : List α) ops).fst)
    ∧ ((tryPush (runQOps (spscMake α C) ([] : List α) ([] : List α) ops).fst v).fst = none ∨ (tryPush (runQOps (spscMake α C) ([] : List α) ([] : List α) ops).fst v).fst = some v)
    ∧ ((tryPush (runQOps (spscMake α C) ([] : List α) ([] : List α) ops).fst v).fst = none →
        (tryPush (runQOps (spscMake α C) ([] : List α) ([] : List α) ops).fst v).snd.slots.getD
          ((runQOps (spscMake α C) ([] : List α) ([] : List α) ops).snd.fst.length % nextPowerOfTwo C) none = some v) := by
  have hcap0 : 0 < nextPowerOfTwo C := cap_pos_of_dvd hdvd
  obtain ⟨hla1, hla2, hla3⟩ := la_facts (nextPowerOfTwo C) hcap0
  have hinv := runQOps_inv hdvd hltM hla1 hla2 hla3 ops
    (spscMake α C) [] [] (qinv_init α C)
  obtain ⟨halt, hiff, hunch, hsomeinv, hnoneinv, hslot⟩ :=
    tryPush_step hdvd hltM hla1 hla2 hla3 hinv v
  exact ⟨hiff, hunch, halt, hslot⟩

theorem c7_try_push_witness :
    (nextPowerOfTwo 2 ∣ 2 ^ 64 ∧ nextPowerOfTwo 2 < 2 ^ 64)
    ∧ ((tryPush (runQOps (spscMake Nat 2) ([] : List Nat) ([] : List Nat) [QOp.push 7, QOp.push 8, QOp.pop]).fst 9).fst = some 9
      ↔ (consumerDisconnected (runQOps (spscMake Nat 2) ([] : List Nat) ([] : List Nat) [QOp.push 7, QOp.push 8, QOp.pop]).fst = true
        ∨ (runQOps (spscMake Nat 2) ([] : List Nat) ([] : List Nat) [QOp.push 7, QOp.push 8, QOp.pop]).snd.fst.length = (runQOps (spscMake Nat 2) ([] : List Nat) ([] : List Nat) [QOp.push 7, QOp.push 8, QOp.pop]).snd.snd.length + nextPowerOfTwo 2)) :=
  ⟨⟨by decide, by decide⟩,
    (c7_try_push Nat 2 [QOp.push 7, QOp.push 8, QOp.pop] 9
      (by decide) (by decide)).1⟩

/-- `np2Aux` doubles its power-of-two accumulator until it reaches `n`. -/
theorem np2Aux_spec (n : Nat) : ∀ (fuel j : Nat), n ≤ 2 ^ (j + fuel) →
    (∀ i, i < j → 2 ^ i < n) →
    ∃ k, np2Aux n fuel (2 ^ j) = 2 ^ k ∧ n ≤ 2 ^ k ∧ (∀ i, i < k → 2 ^ i < n) := by
  intro fuel
  induction fuel with
  | zero =>
    intro j hle hmin
    refine ⟨j, rfl, ?_, hmin⟩
    rw [Nat.add_zero] at hle
    exact hle
  | succ f ih =>
    intro j hle hmin
    rw [show np2Aux n (f + 1) (2 ^ j)
        = if 2 ^ j < n then np2Aux n f (2 ^ j * 2) else 2 ^ j from rfl]
    by_cases hj : 2 ^ j < n
    · rw [if_pos hj, show (2 : Nat) ^ j * 2 = 2 ^ (j + 1) from by
        rw [Nat.pow_succ]]
      refine ih (j + 1) ?_ ?_
      · rw [show j + 1 + f = j + (f + 1) from by omega]
        exact hle
      · intro i hi
        rcases Nat.lt_succ_iff_lt_or_eq.mp hi with h | h
        · exact hmin i h
        · rw [h]
          exact hj
    · rw [if_neg hj]
      exact ⟨j, rfl, Nat.le_of_not_lt hj, hmin⟩

/-- `next_power_of_two`: the least power of two at or above `n`. -/
theorem nextPowerOfTwo_spec (n : Nat) :
    ∃ k, nextPowerOfTwo n = 2 ^ k ∧ n ≤ 2 ^ k ∧ (∀ i, i < k → 2 ^ i < n) := by
  have h := np2Aux_spec n n 0
    (by rw [Nat.zero_add]; exact Nat.le_of_lt (Nat.lt_two_pow n))
    (fun i hi => absurd hi (Nat.not_lt_zero i))
  exact h

/-- C5: `make` rounds the requested capacity up to the least power of
two and picks the look-ahead stride `clamp(capacity / 4, 1, 4096)`;
for requested capacity 10 the ring holds 16 slots, 16 consecutive
pushes all succeed, the 17th hands its value back, and after a single
pop the retried push succeeds. -/
theorem c5_make_capacity (α : Type) (C : Nat) :
    (spscMake α C).capacity = nextPowerOfTwo C
    ∧ (∃ k, nextPowerOfTwo C = 2 ^ k ∧ C ≤ 2 ^ k ∧ (∀ i, i < k → 2 ^ i < C))
    ∧ (spscMake α C).lookahead
      = min (max ((spscMake α C).capacity / 4) 1) 4096
    ∧ (spscMake Nat 10).capacity = 16
    ∧ (runQOps (spscMake Nat 10) ([] : List Nat) ([] : List Nat) ((List.range 16).map (fun i => QOp.push i))).snd.fst = List.range 16
    ∧ (tryPush (runQOps (spscMake Nat 10) ([] : List Nat) ([] : List Nat) ((List.range 16).map (fun i => QOp.push i))).fst 99).fst = some 99
    ∧ (tryPush (tryPop (runQOps (spscMake Nat 10) ([] : List Nat) ([] : List Nat) ((List.range 16).map (fun i => QOp.push i))).fst).snd 99).fst = none :=
  ⟨rfl, nextPowerOfTwo_spec C, rfl, by decide, by decide, by decide, by decide⟩


end Glommio
